import Mathlib

/-!
Keybase client core: signature chain, key family and GPG key index.

A shallow embedding of `libkb/sig_chain.go`, `libkb/keyfamily.go`,
`libkb/generickey.go` and `libkb/gpg_index.go`.

Conventions of the embedding:

* a Go slice is a `List`; the nil slice and the empty slice are both `[]`
  (the code only ever builds chain-link slices with `append`);
* a nil-able byte slice (`KID`, `LinkId`) is an `Option (List Byte)`, `none`
  being Go's `nil`;
* a Go pointer that may be nil is an `Option`;
* a method with a pointer receiver that mutates its receiver returns the new
  receiver next to its Go results; an `error` result is an `Option Error`
  (`none` is Go's `nil` error);
* a Go `map` that is only read is an association list whose list order
  stands for the order in which one run of `range` visits the entries (Go
  leaves that order unspecified, so a statement about every order quantifies
  over the permutations of the list);
* a Go `map` that the code writes is an `Option` of an association list,
  `none` being the nil map; an assignment to an entry of the nil map, like
  the use of a nil pointer, is the outcome `Outcome.panicked`;
* the records of the computed key family are reached through pointers, which
  are indices into a list of the records allocated so far;
* collaborators that are not part of these files (signature verification,
  key parsing, status codes, identity parsing) are fields of `Env`, `KeyEnv`,
  `CkfEnv` and `GpgEnv`;
* an index expression on a slice that may be out of range gives
  `Outcome.panicked` when it is;
* the reader of the GPG index parser is the list of the lines still to be
  read, and its two loops run for a number of passes that the lines bound.
-/

namespace Keybase

/-! ## Bytes and hex (Go's `encoding/hex`) -/

abbrev Byte := Fin 256

/-- The table `hextable` of Go's `encoding/hex`. -/
def hextable : List Char :=
  ['0', '1', '2', '3', '4', '5', '6', '7', '8', '9', 'a', 'b', 'c', 'd', 'e', 'f']

/-- The hex digit of a nibble. -/
def hexDigit (n : Nat) : Char := hextable.getD n '0'

/-- Go's `hex.EncodeToString` on the characters. -/
def hexEncodeChars : List Byte → List Char
  | [] => []
  | b :: rest => hexDigit (b.val / 16) :: hexDigit (b.val % 16) :: hexEncodeChars rest

/-- Go's `hex.EncodeToString`. -/
def hexEncode (bs : List Byte) : String := String.mk (hexEncodeChars bs)

/-- Go's `fromHexChar`: the value of one hex digit, upper or lower case. -/
def fromHexChar (c : Char) : Option Nat :=
  if '0'.toNat ≤ c.toNat ∧ c.toNat ≤ '9'.toNat then some (c.toNat - '0'.toNat)
  else if 'a'.toNat ≤ c.toNat ∧ c.toNat ≤ 'f'.toNat then some (c.toNat - 'a'.toNat + 10)
  else if 'A'.toNat ≤ c.toNat ∧ c.toNat ≤ 'F'.toNat then some (c.toNat - 'A'.toNat + 10)
  else none

/-- Go's `hex.Decode` on the characters: `none` on an odd length or on a
character that is not a hex digit. -/
def hexDecodeChars : List Char → Option (List Byte)
  | [] => some []
  | [_] => none
  | a :: b :: rest =>
    match fromHexChar a, fromHexChar b with
    | some x, some y =>
      match hexDecodeChars rest with
      | some bs => some (⟨(x * 16 + y) % 256, Nat.mod_lt _ (by decide)⟩ :: bs)
      | none => none
    | _, _ => none

/-- Go's `hex.DecodeString`; `none` stands for its error result. -/
def hexDecode (s : String) : Option (List Byte) := hexDecodeChars s.data

/-! ## Errors -/

/-- The error types the code returns. `plain` is an error built by
`fmt.Errorf`; `external` is an error handed back by a collaborator. -/
inductive ErrorKind
  | plain
  | serverChain
  | keyFamily
  | badKey
  | noKey
  | badRevocation
  | external
  deriving DecidableEq, Repr

/-- A Go `error` value: its type and its message. -/
structure Error where
  kind : ErrorKind
  msg : String
  deriving DecidableEq, Repr

/-! ## Identifiers -/

/-- The type `LinkId []byte`; `none` is the nil slice. -/
abbrev LinkId := Option (List Byte)

/-- The bytes of a nil-able byte slice (nil has none). -/
def bytesOf : Option (List Byte) → List Byte
  | none => []
  | some bs => bs

/-- Modelled from the spec: `LinkId.Eq` is not in these files; the spec
compares link ids for equality (`links[i].prev == links[i−1].id`). -/
def LinkId.Eq (a b : LinkId) : Bool := decide (a = b)

/-- The method `LinkId.ToString` (hex of the bytes). -/
def LinkId.ToString (a : LinkId) : String := hexEncode (bytesOf a)

/-- The type `Seqno`: a signed Go integer (`CheckFreshness` tests `b < 0`). -/
abbrev Seqno := Int

/-- The type `UID`, kept as its bytes. -/
abbrev UID := List Byte

/-! ## Chain links and the signature chain -/

/-- The type `ChainLink`, with the attributes the chain code reads: `prev`
and `seqno` are what `GetPrev()` and `GetSeqno()` return. -/
structure ChainLink where
  id : LinkId
  prev : LinkId
  seqno : Seqno
  payloadJson : String
  sig : String
  sigVerified : Bool
  chainVerified : Bool
  deriving DecidableEq, Repr

/-- The type `LinkSummary`. -/
structure LinkSummary where
  id : LinkId
  seqno : Seqno
  deriving DecidableEq, Repr

/-- The type `MerkleTriple`, with the two components the chain code reads. -/
structure MerkleTriple where
  linkId : LinkId
  seqno : Seqno
  deriving DecidableEq, Repr

/-- The type `SigChain`. -/
structure SigChain where
  uid : UID
  username : String
  chainLinks : List ChainLink
  idVerified : Bool
  last : Option LinkSummary
  deriving DecidableEq, Repr

/-- The collaborators of the chain code that are not in these files:
`ChainLink.VerifyLink` (the cryptographic check of one link's payload) and
`ChainLink.CheckNameAndId` (the link's embedded username and uid against the
chain's). Each returns an error or nil. -/
structure Env where
  verifyLink : ChainLink → Option Error
  checkNameAndId : ChainLink → String → UID → Option Error

/-- The function `last(links)`. -/
def last (links : List ChainLink) : Option ChainLink := links.getLast?

/-- The method `SigChain.Len`. -/
def SigChain.Len (sc : SigChain) : Nat := sc.chainLinks.length

/-- The method `SigChain.GetLastLink`. -/
def SigChain.GetLastLink (sc : SigChain) : Option ChainLink := Keybase.last sc.chainLinks

/-- The method `SigChain.GetLastSeqno`: the cached summary's seqno when there
is one, else the last link's, else 0. -/
def SigChain.GetLastSeqno (sc : SigChain) : Seqno :=
  match sc.last with
  | some s => s.seqno
  | none =>
    match Keybase.last sc.chainLinks with
    | some l => l.seqno
    | none => 0

/-- The method `SigChain.GetLastId`: the cached summary's id when there is
one, else the last link's, else nil. -/
def SigChain.GetLastId (sc : SigChain) : LinkId :=
  match sc.last with
  | some s => s.id
  | none =>
    match Keybase.last sc.chainLinks with
    | some l => l.id
    | none => none

/-- The error `fmt.Errorf("Chain mismatch at seqno=%d", seqno)`. -/
def chainMismatch (seqno : Seqno) : Error :=
  ⟨ErrorKind.plain, "Chain mismatch at seqno=" ++ toString seqno⟩

/-- The id of `links[j]` (nil when `j` is out of range, which the callers
exclude). -/
def idAt (links : List ChainLink) (j : Nat) : LinkId :=
  match links[j]? with
  | some p => p.id
  | none => none

/-- The loop of `SigChain.VerifyChain`; `n` is the Go index `i` plus one, so
`n = 0` is the loop's exit `i < 0`. The chain is returned as the loop left
it, also when an error is returned. -/
def SigChain.verifyLoop (env : Env) (sc : SigChain) : Nat → SigChain × Option Error
  | 0 => (sc, none)
  | i + 1 =>
    match sc.chainLinks[i]? with
    | none => (sc, none)
    | some curr =>
      if curr.chainVerified then (sc, none)
      else
        match env.verifyLink curr with
        | some e => (sc, some e)
        | none =>
          if 0 < i ∧ LinkId.Eq (idAt sc.chainLinks (i - 1)) curr.prev = false then
            (sc, some (chainMismatch curr.seqno))
          else
            match env.checkNameAndId curr sc.username sc.uid with
            | some e => (sc, some e)
            | none =>
              SigChain.verifyLoop env
                { sc with chainLinks := sc.chainLinks.set i { curr with chainVerified := true } } i

/-- The method `SigChain.VerifyChain`. -/
def SigChain.VerifyChain (env : Env) (sc : SigChain) : SigChain × Option Error :=
  SigChain.verifyLoop env sc sc.chainLinks.length

/-! ## Loading from the server -/

/-- The constructor `NewServerChainError`, given the formatted message. -/
def NewServerChainError (msg : String) : Error := ⟨ErrorKind.serverChain, msg⟩

/-- Modelled from the spec: `ChainLink.checkAgainstMerkleTree` is not in
these files; the spec (§4.5, step 3) has it mark the tail as found on the
link "whose id equals `triple.linkId` and whose seqno equals `triple.seqno`". -/
def ChainLink.checkAgainstMerkleTree (link : ChainLink) (t : MerkleTriple) :
    Bool × Option Error :=
  (decide (link.id = t.linkId ∧ link.seqno = t.seqno), none)

/-- Modelled from the spec: `ChainLink.ToLinkSummary` is not in these files;
a `LinkSummary` is the `{id, seqno}` of the link. -/
def ChainLink.ToLinkSummary (link : ChainLink) : LinkSummary := ⟨link.id, link.seqno⟩

/-- Modelled from the spec: `LinkSummary.Less` is not in these files; the
cached `last` is cleared when "the new tail's seqno exceeds it". -/
def LinkSummary.Less (a b : LinkSummary) : Bool := decide (a.seqno < b.seqno)

/-- What the request `sig/get` gives back: the error of `G.API.Get` or of
`v.Len()`, or the elements of `sigs`, each as `ImportLinkFromServer` returns
it (a link or an error). -/
abbrev ServerResponse := Except Error (List (Except Error ChainLink))

/-- The local variables of the loop of `LoadFromServer`. -/
structure LoadState where
  links : List ChainLink
  tail : Option ChainLink
  found_tail : Bool
  deriving DecidableEq, Repr

/-- The loop of `SigChain.LoadFromServer` over the elements of `sigs`. -/
def SigChain.loadLoop (low : Seqno) (t : Option MerkleTriple) :
    List (Except Error ChainLink) → LoadState → Except Error LoadState
  | [], st => Except.ok st
  | Except.error e :: _, _ => Except.error e
  | Except.ok link :: rest, st =>
    if link.seqno ≤ low then SigChain.loadLoop low t rest st
    else
      match t with
      | some tr =>
        if st.found_tail = false then
          match link.checkAgainstMerkleTree tr with
          | (_, some e) => Except.error e
          | (found, none) =>
            SigChain.loadLoop low t rest ⟨st.links ++ [link], some link, found⟩
        else SigChain.loadLoop low t rest ⟨st.links ++ [link], some link, st.found_tail⟩
      | none => SigChain.loadLoop low t rest ⟨st.links ++ [link], some link, st.found_tail⟩

/-- The message of the error of step 4 of `LoadFromServer`. -/
def failedToReach (t : MerkleTriple) : Error :=
  NewServerChainError
    ("Failed to reach (" ++ LinkId.ToString t.linkId ++ ", " ++ toString t.seqno ++
      ") in server response")

/-- The method `SigChain.LoadFromServer`: the chain after the call, the
`dirtyTail` and the error. -/
def SigChain.LoadFromServer (resp : ServerResponse) (sc : SigChain) (t : Option MerkleTriple) :
    SigChain × Option LinkSummary × Option Error :=
  let low := sc.GetLastSeqno
  match resp with
  | Except.error e => (sc, none, some e)
  | Except.ok sigs =>
    match SigChain.loadLoop low t sigs ⟨[], none, false⟩ with
    | Except.error e => (sc, none, some e)
    | Except.ok st =>
      match t, st.found_tail with
      | some tr, false => (sc, none, some (failedToReach tr))
      | _, _ =>
        match st.tail with
        | none => ({ sc with chainLinks := sc.chainLinks ++ st.links }, none, none)
        | some tail =>
          let dirtyTail := tail.ToLinkSummary
          let cleared : Option LinkSummary :=
            match sc.last with
            | some l => if l.Less dirtyTail then none else some l
            | none => none
          ({ sc with last := cleared, chainLinks := sc.chainLinks ++ st.links },
            some dirtyTail, none)

/-! ## Freshness -/

/-- The method `SigChain.CheckFreshness`: `current` and the error. -/
def SigChain.CheckFreshness (sc : SigChain) (t : Option MerkleTriple) : Bool × Option Error :=
  let a := sc.GetLastSeqno
  match t with
  | none =>
    if a > 0 then
      (false, some (NewServerChainError
        ("Server claimed not to have this user in its tree (we had v=" ++ toString a ++ ")")))
    else (false, none)
  | some tr =>
    let b := tr.seqno
    if b < 0 ∨ a > b then
      (false, some (NewServerChainError
        ("Server version-rollback sustpected: Local " ++ toString a ++ " > " ++ toString b)))
    else if b = a then
      match sc.GetLastId with
      | none => (true, some (NewServerChainError "Failed to read last link for user"))
      | some lastId =>
        if LinkId.Eq (some lastId) tr.linkId = false then
          (true, some (NewServerChainError "The server returned the wrong sigchain tail"))
        else (true, none)
    else (false, none)

/-! ## Keys (`generickey.go`) -/

/-- The type `KID []byte`; `none` is the nil slice. -/
abbrev KID := Option (List Byte)

/-- The method `KID.ToString`. -/
def KID.ToString (k : KID) : String := hexEncode (bytesOf k)

/-- The function `ImportKID`: the KID is set only when the hex decodes. -/
def ImportKID (s : String) : KID × Option Error :=
  match hexDecode s with
  | some tmp => (some tmp, none)
  | none => (none, some ⟨ErrorKind.external, "encoding/hex: invalid hex string"⟩)

/-- Modelled from the spec: `SecureByteArrayEq` is not in these files; KID
equality is a constant-time comparison of the two byte strings. -/
def SecureByteArrayEq (a b : List Byte) : Bool := decide (a = b)

/-- The method `KID.Eq`. -/
def KID.Eq (k k2 : KID) : Bool := SecureByteArrayEq (bytesOf k) (bytesOf k2)

/-- The type `PgpFingerprint`, a fixed-size byte array in the code. -/
structure PgpFingerprint where
  bytes : List Byte
  deriving DecidableEq, Repr

/-- The type `FOKID`. -/
structure FOKID where
  Kid : KID
  Fp : Option PgpFingerprint
  deriving DecidableEq, Repr

/-- The method `FOKID.EqKid`. -/
def FOKID.EqKid (f : FOKID) (k2 : KID) : Bool :=
  (f.Kid.isNone && k2.isNone) || (f.Kid.isSome && k2.isSome && KID.Eq f.Kid k2)

/-- The type `PgpKeyBundle`, with what the key family reads from it. -/
structure PgpKeyBundle where
  kid : KID
  fingerprint : PgpFingerprint
  emails : List String
  deriving DecidableEq, Repr

/-- The implementations of the interface `GenericKey`: a PGP bundle, a NaCl
signing key pair, a NaCl DH key pair (the latter two kept as their KID). -/
inductive GenericKey
  | pgp (bundle : PgpKeyBundle)
  | naclSigning (kid : KID)
  | naclDh (kid : KID)
  deriving DecidableEq, Repr

/-- The method `GetKid` of the interface. -/
def GenericKey.GetKid : GenericKey → KID
  | GenericKey.pgp b => b.kid
  | GenericKey.naclSigning k => k
  | GenericKey.naclDh k => k

/-! ## Key family (`keyfamily.go`) -/

/-- The type `ServerKeyRecord`; `key` is nil (`none`) until it is imported. -/
structure ServerKeyRecord where
  Kid : String
  KeyType : Int
  Bundle : String
  Mtime : Int
  Ctime : Int
  Etime : Int
  PgpFingerprint : String
  SigningKid : Option String
  EldestKid : Option String
  KeyLevel : Int
  Status : Int
  KeyBits : Int
  KeyAlgo : Int
  key : Option GenericKey
  deriving DecidableEq, Repr

/-- The type `KeyMap map[string]ServerKeyRecord`: the records are stored by
value. The list order is the order of one `range` over the map. -/
abbrev KeyMap := List (String × ServerKeyRecord)

/-- The index expression `km[k]` with its `found` flag. -/
def KeyMap.get (km : KeyMap) (k : String) : Option ServerKeyRecord := km.lookup k

/-- The type `KeyFamily`. The map `pgp2kid` is written by `Import`, so its
nil value (`none`) is kept apart from the empty map. -/
structure KeyFamily where
  eldest : Option FOKID
  pgps : List PgpKeyBundle
  pgp2kid : Option (List (String × KID))
  Sibkeys : KeyMap
  Subkeys : KeyMap
  deriving DecidableEq, Repr

/-- The collaborators of the key family that are not in these files: the
key parsers, the algorithm tags and `PgpFingerprintFromHex`. -/
structure KeyEnv where
  IsPgpAlgo : Int → Bool
  KID_NACL_EDDSA : Int
  KID_NACL_DH : Int
  ReadOneKeyFromString : String → Except Error PgpKeyBundle
  ImportNaclSigningKeyPair : String → Except Error GenericKey
  ImportNaclDHKeyPair : String → Except Error GenericKey
  PgpFingerprintFromHex : String → Option PgpFingerprint × Option Error

/-- The outcome of a call that may stop in a Go runtime panic (here: an
assignment to an entry of a nil map). -/
inductive Outcome (α : Type)
  | returned (a : α)
  | panicked
  deriving DecidableEq, Repr

/-- The method `ServerKeyRecord.Import` (pointer receiver): the record as the
call leaves it, the PGP bundle and the error. -/
def ServerKeyRecord.Import (env : KeyEnv) (skr : ServerKeyRecord) :
    ServerKeyRecord × Option PgpKeyBundle × Option Error :=
  if env.IsPgpAlgo skr.KeyAlgo then
    match env.ReadOneKeyFromString skr.Bundle with
    | Except.ok pgp => ({ skr with key := some (GenericKey.pgp pgp) }, some pgp, none)
    | Except.error e => (skr, none, some e)
  else if skr.KeyAlgo = env.KID_NACL_EDDSA then
    match env.ImportNaclSigningKeyPair skr.Bundle with
    | Except.ok k => ({ skr with key := some k }, none, none)
    | Except.error e => ({ skr with key := none }, none, some e)
  else if skr.KeyAlgo = env.KID_NACL_DH then
    match env.ImportNaclDHKeyPair skr.Bundle with
    | Except.ok k => ({ skr with key := some k }, none, none)
    | Except.error e => ({ skr with key := none }, none, some e)
  else (skr, none, some ⟨ErrorKind.badKey, "algo=" ++ toString skr.KeyAlgo ++ " is unknown"⟩)

/-- The method `KeyMap.Import`. In `for _, v := range km` the variable `v`
is a copy of the stored record: `v.Import()` sets `key` on that copy, which
the loop then drops; no statement of the loop writes to `km`, so the map is
not among the results. -/
def KeyMap.Import (env : KeyEnv) : KeyMap → List PgpKeyBundle → List PgpKeyBundle × Option Error
  | [], pgps_o => (pgps_o, none)
  | (_, v) :: rest, pgps_o =>
    match ServerKeyRecord.Import env v with
    | (_, _, some e) => (pgps_o, some e)
    | (_, some pgp, none) => KeyMap.Import env rest (pgps_o ++ [pgp])
    | (_, none, none) => KeyMap.Import env rest pgps_o

/-- The method `KeyFamily.setEldest`. -/
def KeyFamily.setEldest (kf : KeyFamily) (hx : String) : KeyFamily × Option Error :=
  match ImportKID hx with
  | (_, some e) => (kf, some e)
  | (kid, none) =>
    match kf.eldest with
    | none => ({ kf with eldest := some ⟨kid, none⟩ }, none)
    | some el =>
      if el.EqKid kid = false then
        (kf, some ⟨ErrorKind.keyFamily, "Kid mismatch: " ++ KID.ToString el.Kid ++ " != " ++ hx⟩)
      else (kf, none)

/-- The body of the loop of `findEldest` for the record `v`. -/
def KeyFamily.findEldestStep (kf : KeyFamily) (v : ServerKeyRecord) : KeyFamily × Option Error :=
  match v.EldestKid with
  | none => kf.setEldest v.Kid
  | some e => kf.setEldest e

/-- The hex string that the loop of `findEldest` hands to `setEldest` for the
record `v`: `*v.EldestKid` when `v.EldestKid` is not nil, else `v.Kid`. -/
def eldestCandidate (v : ServerKeyRecord) : String :=
  match v.EldestKid with
  | none => v.Kid
  | some e => e

/-- The candidate eldest of a sibkey as the spec words it (§4.3, step 1):
the explicit `eldestKid` if the record carries one, otherwise the record's
`signingKid`, otherwise the record's own `kid`. Only compared with the code,
never used by it. -/
def specCandidateEldest (v : ServerKeyRecord) : String :=
  match v.EldestKid with
  | some e => e
  | none =>
    match v.SigningKid with
    | some s => s
    | none => v.Kid

/-- The loop of `findEldest` over the sibkeys in the order `range` visits
them. -/
def KeyFamily.findEldestLoop : KeyFamily → List (String × ServerKeyRecord) → KeyFamily × Option Error
  | kf, [] => (kf, none)
  | kf, (_, v) :: rest =>
    match kf.findEldestStep v with
    | (kf1, some e) => (kf1, some e)
    | (kf1, none) => KeyFamily.findEldestLoop kf1 rest

/-- The method `KeyFamily.findEldest`. -/
def KeyFamily.findEldest (env : KeyEnv) (kf : KeyFamily) : KeyFamily × Option Error :=
  match kf.findEldestLoop kf.Sibkeys with
  | (kf1, some e) => (kf1, some e)
  | (kf1, none) =>
    match kf1.eldest with
    | none => (kf1, none)
    | some el =>
      let x := KID.ToString el.Kid
      match kf1.Sibkeys.get x with
      | none => (kf1, some ⟨ErrorKind.keyFamily, "Eldest KID " ++ x ++ " disappeared"⟩)
      | some key =>
        match env.PgpFingerprintFromHex key.PgpFingerprint with
        | (fp, err) => ({ kf1 with eldest := some { el with Fp := fp } }, err)

/-- Modelled from the spec: `PgpFingerprint.ToString` is not in these files;
a fingerprint "displays as uppercase hex". -/
def PgpFingerprint.ToString (fp : PgpFingerprint) : String :=
  String.mk ((hexEncodeChars fp.bytes).map Char.toUpper)

/-- The assignment `m[k] = v` on a map that is not nil. -/
def mapSet {β : Type} (m : List (String × β)) (k : String) (v : β) : List (String × β) :=
  (k, v) :: m.filter fun e => e.1 ≠ k

/-- The loop of `KeyFamily.Import` that fills `pgp2kid`; an assignment to
the nil map panics. -/
def KeyFamily.indexPgps : Option (List (String × KID)) → List PgpKeyBundle →
    Outcome (Option (List (String × KID)))
  | m, [] => Outcome.returned m
  | none, _ :: _ => Outcome.panicked
  | some m, p :: rest =>
    KeyFamily.indexPgps (some (mapSet m p.fingerprint.ToString p.kid)) rest

/-- The method `KeyFamily.Import`: the family as the call leaves it and the
error, or a panic. `kf.pgps` is assigned before the error is tested. -/
def KeyFamily.Import (env : KeyEnv) (kf : KeyFamily) : Outcome (KeyFamily × Option Error) :=
  match kf.Sibkeys.Import env kf.pgps with
  | (pgps1, some e) => Outcome.returned ({ kf with pgps := pgps1 }, some e)
  | (pgps1, none) =>
    match kf.Subkeys.Import env pgps1 with
    | (pgps2, some e) => Outcome.returned ({ kf with pgps := pgps2 }, some e)
    | (pgps2, none) =>
      match KeyFamily.indexPgps kf.pgp2kid pgps2 with
      | Outcome.panicked => Outcome.panicked
      | Outcome.returned m =>
        Outcome.returned (KeyFamily.findEldest env { kf with pgps := pgps2, pgp2kid := m })

/-- The method `KeyFamily.GetSigningKey`. -/
def KeyFamily.GetSigningKey (kf : KeyFamily) (kid_s : String) : Option GenericKey :=
  match kf.Sibkeys.get kid_s with
  | some skr => skr.key
  | none => none

/-- The method `KeyFamily.GetEldest`. -/
def KeyFamily.GetEldest (kf : KeyFamily) : Option FOKID := kf.eldest

/-! ## Example inputs -/

/-- An environment in which every link passes `VerifyLink` and
`CheckNameAndId`. -/
def passEnv : Env := ⟨fun _ => none, fun _ _ _ => none⟩

/-- An environment in which the link of seqno 3 fails `VerifyLink` and every
other check passes. -/
def badSigEnv : Env :=
  ⟨fun l => if l.seqno = 3 then some ⟨ErrorKind.external, "bad signature"⟩ else none,
    fun _ _ _ => none⟩

/-- A link with a one-byte id and prev. -/
def mkLink (id : Byte) (prev : LinkId) (seqno : Seqno) (chainVerified : Bool) : ChainLink :=
  ⟨some [id], prev, seqno, "", "", false, chainVerified⟩

/-- A chain over the given links. -/
def mkChain (links : List ChainLink) : SigChain := ⟨[], "alice", links, false, none⟩

/-- Three well-linked links, none of them chainVerified. -/
def goodChain : SigChain :=
  mkChain [mkLink 1 none 1 false, mkLink 2 (some [1]) 2 false, mkLink 3 (some [2]) 3 false]

/-- Three links, the second with a wrong prev. -/
def brokenChain : SigChain :=
  mkChain [mkLink 1 none 1 false, mkLink 2 (some [9]) 2 false, mkLink 3 (some [2]) 3 false]

/-- Three links, the second and the third with a wrong prev. -/
def twiceBrokenChain : SigChain :=
  mkChain [mkLink 1 none 1 false, mkLink 2 (some [9]) 2 false, mkLink 3 (some [8]) 3 false]

/-- Two well-linked links, only the newer one chainVerified. -/
def staleChain : SigChain :=
  mkChain [mkLink 1 none 1 false, mkLink 2 (some [1]) 2 true]

/-- Two well-linked links, only the older one chainVerified. -/
def cachedChain : SigChain :=
  mkChain [mkLink 1 none 1 true, mkLink 2 (some [1]) 2 false]

/-- A chain of one link (seqno 1), already chainVerified. -/
def oneLinkChain : SigChain := mkChain [mkLink 1 none 1 true]

/-- A link of seqno 3 whose prev is the id of the link of `oneLinkChain`. -/
def gapLink : ChainLink := mkLink 3 (some [1]) 3 false

/-- A link of seqno 2 whose prev is the id of the link of `oneLinkChain`. -/
def nextLink : ChainLink := mkLink 2 (some [1]) 2 false

/-- A response carrying the one link `gapLink`. -/
def gapResponse : ServerResponse := Except.ok [Except.ok gapLink]

/-- The Merkle triple that names `gapLink`. -/
def gapTriple : MerkleTriple := ⟨some [3], 3⟩

/-- A response carrying the one link `nextLink`. -/
def nextResponse : ServerResponse := Except.ok [Except.ok nextLink]

/-- The Merkle triple that names `nextLink`. -/
def nextTriple : MerkleTriple := ⟨some [2], 2⟩

/-- The Merkle triple that names the link of `oneLinkChain`. -/
def oneTriple : MerkleTriple := ⟨some [1], 1⟩

/-- A key environment: tag 1 is PGP, 32 and 33 are the NaCl tags; a NaCl
bundle is the hex of its KID; no PGP key parses; an empty fingerprint string
gives no fingerprint. -/
def naclEnv : KeyEnv :=
  { IsPgpAlgo := fun a => decide (a = 1)
    KID_NACL_EDDSA := 32
    KID_NACL_DH := 33
    ReadOneKeyFromString := fun _ => Except.error ⟨ErrorKind.external, "no PGP key"⟩
    ImportNaclSigningKeyPair := fun b => Except.ok (GenericKey.naclSigning (hexDecode b))
    ImportNaclDHKeyPair := fun b => Except.ok (GenericKey.naclDh (hexDecode b))
    PgpFingerprintFromHex := fun _ => (none, none) }

/-- A NaCl signing-key record as the server sends it (`key` not set). -/
def naclRecord (kid : String) (signingKid eldestKid : Option String) : ServerKeyRecord :=
  { Kid := kid, KeyType := 0, Bundle := kid, Mtime := 0, Ctime := 0, Etime := 0,
    PgpFingerprint := "", SigningKid := signingKid, EldestKid := eldestKid, KeyLevel := 0,
    Status := 0, KeyBits := 0, KeyAlgo := 32, key := none }

/-- A family as `ParseKeyFamily` unmarshals it: no eldest, no PGP bundles,
a nil `pgp2kid`. -/
def mkFamily (sibkeys : KeyMap) : KeyFamily :=
  { eldest := none, pgps := [], pgp2kid := none, Sibkeys := sibkeys, Subkeys := [] }

/-- A family of one sibkey `aa`, its own eldest. -/
def soloFamily : KeyFamily := mkFamily [("aa", naclRecord "aa" none none)]

/-- A family of two sibkeys that name different eldest KIDs. -/
def conflictFamily : KeyFamily :=
  mkFamily [("aa", naclRecord "aa" none (some "aa")), ("bb", naclRecord "bb" none (some "bb"))]

/-- The family `conflictFamily` with its sibkeys visited in the other order. -/
def conflictFamilyRev : KeyFamily :=
  mkFamily [("bb", naclRecord "bb" none (some "bb")), ("aa", naclRecord "aa" none (some "aa"))]

/-- A family of one sibkey `bb` that carries a signing KID `aa` and no
explicit eldest KID. -/
def signedFamily : KeyFamily := mkFamily [("bb", naclRecord "bb" (some "aa") none)]

/-! ## FOKID equality and the sibkey lookup of the key family -/

/-- Modelled from the spec: `PgpFingerprint.Eq` is not in these files;
fingerprint equality is value-wise. -/
def PgpFingerprint.Eq (a b : PgpFingerprint) : Bool := decide (a = b)

/-- The method `FOKID.Eq`. The first `if` chain leaves `ret` false, sets it
to true or returns false (`none` below); the second does the same on the
fingerprints, and `ret` is returned. -/
def FOKID.Eq (f f2 : FOKID) : Bool :=
  let afterKid : Option Bool :=
    if f.Kid = none ∨ f2.Kid = none then some false
    else if KID.Eq f.Kid f2.Kid = true then some true
    else none
  match afterKid with
  | none => false
  | some ret =>
    match f.Fp, f2.Fp with
    | some fp, some fp2 => if fp.Eq fp2 = true then true else false
    | _, _ => ret

/-- The index expression `m[k]` with its `found` flag on a map that may be
nil (a nil map reads as the empty map). -/
def goMapGet {κ β : Type} [BEq κ] (m : Option (List (κ × β))) (k : κ) : Option β :=
  match m with
  | none => none
  | some entries => entries.lookup k

/-- The assignment `m[k] = v` on a map that is not nil, for any key type. -/
def mapAssign {κ β : Type} [DecidableEq κ] (m : List (κ × β)) (k : κ) (v : β) : List (κ × β) :=
  (k, v) :: m.filter fun e => e.1 ≠ k

/-- The method `KeyFamily.FindActiveSibkey`: the key and the error. The
last lookup is by `f.Kid.ToString()`, as the code has it. -/
def KeyFamily.FindActiveSibkey (kf : KeyFamily) (f : FOKID) : Option GenericKey × Option Error :=
  let resolved : KID × Option Error :=
    match f.Kid, f.Fp with
    | none, some fp =>
      match goMapGet kf.pgp2kid fp.ToString with
      | some kid => (kid, none)
      | none =>
        (none, some ⟨ErrorKind.noKey, "No KID for PGP fingerprint " ++ fp.ToString ++ " found"⟩)
    | kid, _ => (kid, none)
  match resolved with
  | (_, some e) => (none, some e)
  | (kid, none) =>
    if kid = none then (none, some ⟨ErrorKind.noKey, "Can't lookup sibkey without a KID"⟩)
    else
      let i := KID.ToString f.Kid
      match kf.Sibkeys.get i with
      | none => (none, some ⟨ErrorKind.noKey, "No sibkey found for " ++ i⟩)
      | some sk => (sk.key, none)

/-! ## Computed key family (`keyfamily.go`) -/

/-- The type `SigId`, a fixed-size byte array in the code (a map key). -/
abbrev SigId := List Byte

/-- The type `KeybaseTime`. -/
structure KeybaseTime where
  Unix : Int
  Chain : Int
  deriving DecidableEq, Repr

/-- The type `ComputedKeyInfo`. The map `Delegations` is written by
`Delegate`, so its nil value (`none`) is kept apart from the empty map. -/
structure ComputedKeyInfo where
  Status : Int
  Eldest : Bool
  Sibkey : Bool
  Delegations : Option (List (SigId × KID))
  DelegatedAt : Option KeybaseTime
  RevokedAt : Option KeybaseTime
  deriving DecidableEq, Repr

/-- A pointer `*ComputedKeyInfo`: the index of the record among the records
allocated so far. An index past the end stands for the nil pointer. -/
abbrev InfoPtr := Nat

/-- The type `ComputedKeyInfos`. The two maps hold pointers, so that one
record can be reached under several keys; `heap` holds the records those
pointers point to. -/
structure ComputedKeyInfos where
  dirty : Bool
  Infos : Option (List (String × InfoPtr))
  Sigs : Option (List (SigId × InfoPtr))
  heap : List ComputedKeyInfo
  deriving DecidableEq, Repr

/-- The type `ComputedKeyFamily`. -/
structure ComputedKeyFamily where
  kf : KeyFamily
  cki : ComputedKeyInfos
  deriving DecidableEq, Repr

/-- The interface `TypedChainLink`, as the values its methods return:
`GetCTimeUnix` is `GetCTime().Unix()`; `GetRevocations` is a `[]*SigId`. -/
structure TypedChainLink where
  GetDelegatedKid : KID
  GetSigId : SigId
  GetCTimeUnix : Int
  GetMerkleSeqno : Int
  GetKid : KID
  IsDelegation : Int
  GetRevocations : List (Option SigId)
  GetRevokeKids : List KID
  deriving DecidableEq, Repr

/-- What the computed key family uses and these files do not hold: the
method `FOKID.ToString`, the method `SigId.ToString`, the status codes and
the delegation tag. -/
structure CkfEnv where
  FOKIDToString : FOKID → String
  SigIdToString : SigId → Bool → String
  KEY_LIVE : Int
  KEY_REVOKED : Int
  DLG_SIBKEY : Int

/-- Modelled from the spec: `FOKID.ToStrings` is not in these files; the
identifiers of a FOKID are its hex KID and, when it has one, its fingerprint
string (§4.4). -/
def FOKID.ToStrings (f : FOKID) : List String :=
  (match f.Kid with
    | some k => [KID.ToString (some k)]
    | none => []) ++
  (match f.Fp with
    | some fp => [fp.ToString]
    | none => [])

/-- The record a pointer points to (`none` for the nil pointer). -/
def ComputedKeyInfos.deref (cki : ComputedKeyInfos) (p : InfoPtr) : Option ComputedKeyInfo :=
  cki.heap[p]?

/-- The loop of `ComputedKeyInfos.Insert`: `cki.Infos[s] = i` for each
string; an assignment to the nil map panics. -/
def ComputedKeyInfos.insertLoop : Option (List (String × InfoPtr)) → List String → InfoPtr →
    Outcome (Option (List (String × InfoPtr)))
  | m, [], _ => Outcome.returned m
  | none, _ :: _, _ => Outcome.panicked
  | some m, s :: rest, i => ComputedKeyInfos.insertLoop (some (mapAssign m s i)) rest i

/-- The method `ComputedKeyInfos.Insert`. -/
def ComputedKeyInfos.Insert (cki : ComputedKeyInfos) (f : Option FOKID) (i : InfoPtr) :
    Outcome ComputedKeyInfos :=
  match f with
  | none => Outcome.returned cki
  | some fokid =>
    match ComputedKeyInfos.insertLoop cki.Infos fokid.ToStrings i with
    | Outcome.panicked => Outcome.panicked
    | Outcome.returned m => Outcome.returned { cki with Infos := m, dirty := true }

/-- The method `KeyFamily.NewComputedKeyInfos`: `Infos` is made, `Sigs` is
left nil; the record `&ComputedKeyInfo{Eldest: true, Status: KEY_LIVE}` is
allocated (pointer 0) and inserted for the eldest. -/
def KeyFamily.NewComputedKeyInfos (env : CkfEnv) (kf : KeyFamily) : Outcome ComputedKeyInfos :=
  ComputedKeyInfos.Insert
    { dirty := false, Infos := some [], Sigs := none,
      heap := [{ Status := env.KEY_LIVE, Eldest := true, Sibkey := false, Delegations := none,
                 DelegatedAt := none, RevokedAt := none }] }
    kf.eldest 0

/-- The method `ComputedKeyFamily.FindActiveSibkey`. Its last branch calls
`ckf.FindActiveSibkey(f)`, the method itself; `depth` bounds the depth of the
calls, and `none` says that the call has not returned within it. -/
def ComputedKeyFamily.FindActiveSibkey (env : CkfEnv) :
    Nat → ComputedKeyFamily → FOKID → Option (Option GenericKey × Option Error)
  | 0, _, _ => none
  | depth + 1, ckf, f =>
    let s := env.FOKIDToString f
    match (goMapGet ckf.cki.Infos s).bind ckf.cki.deref with
    | none => some (none, some ⟨ErrorKind.noKey, "The key '" ++ s ++ "' wasn't found"⟩)
    | some ki =>
      if ki.Status ≠ env.KEY_LIVE then
        some (none, some ⟨ErrorKind.badKey, "The key '" ++ s ++ "' is no longer active"⟩)
      else if ki.Sibkey = false then
        some (none,
          some ⟨ErrorKind.badKey, "The key '" ++ s ++ "' wasn't delegated as a sibkey"⟩)
      else ComputedKeyFamily.FindActiveSibkey env depth ckf f

/-- The function `TclToKeybaseTime`. -/
def TclToKeybaseTime (tcl : TypedChainLink) : KeybaseTime :=
  { Unix := tcl.GetCTimeUnix, Chain := tcl.GetMerkleSeqno }

/-- The first part of `Delegate`: the record of `kid_s`, found (and set
LIVE) or newly allocated and stored in `Infos`. -/
def ComputedKeyFamily.delegateLocate (env : CkfEnv) (cki : ComputedKeyInfos) (kid_s : String)
    (tm : KeybaseTime) : Outcome (ComputedKeyInfos × InfoPtr) :=
  match goMapGet cki.Infos kid_s with
  | none =>
    match cki.Infos with
    | none => Outcome.panicked
    | some m =>
      Outcome.returned
        ({ cki with
            heap := cki.heap ++ [{ Status := env.KEY_LIVE, Eldest := false, Sibkey := false,
                                   Delegations := some [], DelegatedAt := some tm,
                                   RevokedAt := none }],
            Infos := some (mapAssign m kid_s cki.heap.length) },
          cki.heap.length)
  | some p =>
    match cki.heap[p]? with
    | none => Outcome.panicked
    | some info =>
      Outcome.returned
        ({ cki with heap := cki.heap.set p { info with Status := env.KEY_LIVE } }, p)

/-- The method `ComputedKeyFamily.Delegate`. A panic is an assignment to an
entry of a nil map (`Infos`, the record's `Delegations`, `Sigs`) or a nil
pointer. -/
def ComputedKeyFamily.Delegate (env : CkfEnv) (ckf : ComputedKeyFamily) (tcl : TypedChainLink) :
    Outcome (ComputedKeyFamily × Option Error) :=
  let kid_s := KID.ToString tcl.GetDelegatedKid
  let sigid := tcl.GetSigId
  let tm := TclToKeybaseTime tcl
  match ComputedKeyFamily.delegateLocate env ckf.cki kid_s tm with
  | Outcome.panicked => Outcome.panicked
  | Outcome.returned (cki1, p) =>
    match cki1.heap[p]? with
    | none => Outcome.panicked
    | some info =>
      match info.Delegations with
      | none => Outcome.panicked
      | some d =>
        let info1 : ComputedKeyInfo := { info with Delegations := some (mapAssign d sigid tcl.GetKid) }
        let info2 : ComputedKeyInfo :=
          if tcl.IsDelegation = env.DLG_SIBKEY then { info1 with Sibkey := true } else info1
        match cki1.Sigs with
        | none => Outcome.panicked
        | some sg =>
          Outcome.returned
            ({ ckf with
                cki := { cki1 with heap := cki1.heap.set p info2,
                                   Sigs := some (mapAssign sg sigid p) } },
              none)

/-- The two assignments `info.Status = KEY_REVOKED` and
`info.RevokedAt = TclToKeybaseTime(tcl)` of `RevokeSig` and `RevokeKid`. -/
def ComputedKeyInfo.markRevoked (env : CkfEnv) (tcl : TypedChainLink) (info : ComputedKeyInfo) :
    ComputedKeyInfo :=
  { info with Status := env.KEY_REVOKED, RevokedAt := some (TclToKeybaseTime tcl) }

/-- The method `ComputedKeyFamily.RevokeSig`. -/
def ComputedKeyFamily.RevokeSig (env : CkfEnv) (ckf : ComputedKeyFamily) (sig : SigId)
    (tcl : TypedChainLink) : Outcome (ComputedKeyFamily × Option Error) :=
  match goMapGet ckf.cki.Sigs sig with
  | none => Outcome.returned (ckf, none)
  | some p =>
    match ckf.cki.heap[p]? with
    | none => Outcome.panicked
    | some info =>
      match goMapGet info.Delegations sig with
      | none =>
        Outcome.returned (ckf, some ⟨ErrorKind.badRevocation,
          "Can't find sigId " ++ env.SigIdToString sig true ++ " in delegation list"⟩)
      | some _ =>
        Outcome.returned
          ({ ckf with
              cki := { ckf.cki with
                heap := ckf.cki.heap.set p (info.markRevoked env tcl) } },
            none)

/-- The method `ComputedKeyFamily.RevokeKid`. -/
def ComputedKeyFamily.RevokeKid (env : CkfEnv) (ckf : ComputedKeyFamily) (kid : KID)
    (tcl : TypedChainLink) : Outcome (ComputedKeyFamily × Option Error) :=
  match goMapGet ckf.cki.Infos (KID.ToString kid) with
  | none => Outcome.returned (ckf, none)
  | some p =>
    match ckf.cki.heap[p]? with
    | none => Outcome.panicked
    | some info =>
      Outcome.returned
        ({ ckf with
            cki := { ckf.cki with
              heap := ckf.cki.heap.set p (info.markRevoked env tcl) } },
          none)

/-- The method `ComputedKeyFamily.RevokeSigs`: nil pointers are skipped, the
first error ends the loop. -/
def ComputedKeyFamily.RevokeSigs (env : CkfEnv) (ckf : ComputedKeyFamily) :
    List (Option SigId) → TypedChainLink → Outcome (ComputedKeyFamily × Option Error)
  | [], _ => Outcome.returned (ckf, none)
  | none :: rest, tcl => ComputedKeyFamily.RevokeSigs env ckf rest tcl
  | some s :: rest, tcl =>
    match ComputedKeyFamily.RevokeSig env ckf s tcl with
    | Outcome.panicked => Outcome.panicked
    | Outcome.returned (ckf1, some e) => Outcome.returned (ckf1, some e)
    | Outcome.returned (ckf1, none) => ComputedKeyFamily.RevokeSigs env ckf1 rest tcl

/-- The method `ComputedKeyFamily.RevokeKids`: nil KIDs are skipped. -/
def ComputedKeyFamily.RevokeKids (env : CkfEnv) (ckf : ComputedKeyFamily) :
    List KID → TypedChainLink → Outcome (ComputedKeyFamily × Option Error)
  | [], _ => Outcome.returned (ckf, none)
  | none :: rest, tcl => ComputedKeyFamily.RevokeKids env ckf rest tcl
  | some k :: rest, tcl =>
    match ComputedKeyFamily.RevokeKid env ckf (some k) tcl with
    | Outcome.panicked => Outcome.panicked
    | Outcome.returned (ckf1, some e) => Outcome.returned (ckf1, some e)
    | Outcome.returned (ckf1, none) => ComputedKeyFamily.RevokeKids env ckf1 rest tcl

/-- The method `ComputedKeyFamily.Revoke`. -/
def ComputedKeyFamily.Revoke (env : CkfEnv) (ckf : ComputedKeyFamily) (tcl : TypedChainLink) :
    Outcome (ComputedKeyFamily × Option Error) :=
  match ComputedKeyFamily.RevokeSigs env ckf tcl.GetRevocations tcl with
  | Outcome.panicked => Outcome.panicked
  | Outcome.returned (ckf1, some e) => Outcome.returned (ckf1, some e)
  | Outcome.returned (ckf1, none) => ComputedKeyFamily.RevokeKids env ckf1 tcl.GetRevokeKids tcl

/-! ## Example inputs: computed key family -/

/-- A computed-key environment: a FOKID's string is its hex KID, else its
fingerprint string; a sigid prints as hex; LIVE is 1, REVOKED is 2 and the
sibkey delegation tag is 1. -/
def ckfEnv : CkfEnv :=
  { FOKIDToString := fun f =>
      match f.Kid with
      | some k => KID.ToString (some k)
      | none =>
        match f.Fp with
        | some fp => fp.ToString
        | none => ""
    SigIdToString := fun s _ => hexEncode s
    KEY_LIVE := 1
    KEY_REVOKED := 2
    DLG_SIBKEY := 1 }

/-- A one-byte fingerprint (`AB`). -/
def fpAB : PgpFingerprint := ⟨[0xab]⟩

/-- A PGP bundle of KID `aa` and fingerprint `AB`. -/
def bundleAA : PgpKeyBundle := ⟨some [0xaa], fpAB, []⟩

/-- A PGP sibkey record of KID `aa` that holds its key. -/
def pgpRecord : ServerKeyRecord :=
  { Kid := "aa", KeyType := 0, Bundle := "", Mtime := 0, Ctime := 0, Etime := 0,
    PgpFingerprint := "AB", SigningKid := none, EldestKid := none, KeyLevel := 0,
    Status := 0, KeyBits := 0, KeyAlgo := 1, key := some (GenericKey.pgp bundleAA) }

/-- A family whose `pgp2kid` maps the fingerprint `AB` to the KID `aa` and
whose sibkey `aa` holds its key. -/
def pgpFamily : KeyFamily :=
  { eldest := some ⟨some [0xaa], some fpAB⟩, pgps := [bundleAA],
    pgp2kid := some [("AB", some [0xaa])], Sibkeys := [("aa", pgpRecord)], Subkeys := [] }

/-- The family `soloFamily` as `Import` leaves it: eldest `aa`. -/
def eldestFamily : KeyFamily := { soloFamily with eldest := some ⟨some [0xaa], none⟩ }

/-- The record that `NewComputedKeyInfos` allocates for the eldest. -/
def eldestInfo : ComputedKeyInfo :=
  { Status := 1, Eldest := true, Sibkey := false, Delegations := none,
    DelegatedAt := none, RevokedAt := none }

/-- The infos that `NewComputedKeyInfos` builds for `eldestFamily`. -/
def seededInfos : ComputedKeyInfos :=
  { dirty := true, Infos := some [("aa", 0)], Sigs := none, heap := [eldestInfo] }

/-- Empty infos whose two maps are allocated and whose dirty flag is false. -/
def cleanInfos : ComputedKeyInfos :=
  { dirty := false, Infos := some [], Sigs := some [], heap := [] }

/-- A sibkey delegation: KID `aa` delegates KID `bb` with sigid `01`. -/
def sibkeyLink : TypedChainLink :=
  { GetDelegatedKid := some [0xbb], GetSigId := [1], GetCTimeUnix := 100, GetMerkleSeqno := 7,
    GetKid := some [0xaa], IsDelegation := 1, GetRevocations := [], GetRevokeKids := [] }

/-- A second delegation with the same sigid `01`, of KID `cc`. -/
def sameSigLink : TypedChainLink :=
  { GetDelegatedKid := some [0xcc], GetSigId := [1], GetCTimeUnix := 101, GetMerkleSeqno := 8,
    GetKid := some [0xaa], IsDelegation := 1, GetRevocations := [], GetRevokeKids := [] }

/-- A revocation of the sigid `01` and of the KIDs `bb` and `dd`. -/
def revokeLink : TypedChainLink :=
  { GetDelegatedKid := none, GetSigId := [2], GetCTimeUnix := 200, GetMerkleSeqno := 9,
    GetKid := some [0xaa], IsDelegation := 0, GetRevocations := [some [1]],
    GetRevokeKids := [some [0xbb], some [0xdd]] }

/-- A revocation of the sigid `09`, which no delegation carries. -/
def unknownSigLink : TypedChainLink :=
  { GetDelegatedKid := none, GetSigId := [3], GetCTimeUnix := 300, GetMerkleSeqno := 10,
    GetKid := some [0xaa], IsDelegation := 0, GetRevocations := [some [9]], GetRevokeKids := [] }

/-- The record of KID `bb` after `sibkeyLink`. -/
def bbInfo : ComputedKeyInfo :=
  { Status := 1, Eldest := false, Sibkey := true, Delegations := some [([1], some [0xaa])],
    DelegatedAt := some ⟨100, 7⟩, RevokedAt := none }

/-- The infos after `sibkeyLink` on `cleanInfos`. -/
def delegatedInfos : ComputedKeyInfos :=
  { dirty := false, Infos := some [("bb", 0)], Sigs := some [([1], 0)], heap := [bbInfo] }

/-- Infos in which `sigs` registers the sigid `01` for a record whose
delegations do not carry it. -/
def strayInfos : ComputedKeyInfos :=
  { dirty := false, Infos := some [("bb", 0)], Sigs := some [([1], 0)],
    heap := [{ bbInfo with Delegations := some [] }] }

/-- The infos after `revokeLink` on `delegatedInfos`. -/
def revokedInfos : ComputedKeyInfos :=
  { dirty := false, Infos := some [("bb", 0)], Sigs := some [([1], 0)],
    heap := [{ bbInfo with Status := 2, RevokedAt := some ⟨200, 9⟩ }] }

/-- The infos after `sameSigLink` on `delegatedInfos`: `sigs` now gives the
record of `cc` for the sigid `01`. -/
def twiceInfos : ComputedKeyInfos :=
  { dirty := false, Infos := some [("cc", 1), ("bb", 0)], Sigs := some [([1], 1)],
    heap := [bbInfo,
      { Status := 1, Eldest := false, Sibkey := true, Delegations := some [([1], some [0xaa])],
        DelegatedAt := some ⟨101, 8⟩, RevokedAt := none }] }

/-! ## GPG index parser (`gpg_index.go`): definitions -/

/-- The errors of the GPG index parser: `GpgIndexError{lineno, msg}`,
`GpgError{msg}`, and every other error (of `strconv`, or `fmt.Errorf`) by
its message. -/
inductive GpgErr
  | GpgIndexError (lineno : Int) (msg : String)
  | GpgError (msg : String)
  | other (msg : String)
  deriving DecidableEq, Repr

/-- Modelled from the spec: `ErrorToGpgIndexError` is not in these files; it
makes a `GpgIndexError{lineno, message}` of an error, given here by its
message. -/
def ErrorToGpgIndexError (lineno : Int) (msg : String) : GpgErr :=
  GpgErr.GpgIndexError lineno msg

/-- Modelled from the spec: the type `Warning` is not in these files; a
warning is kept as the error it was made from. -/
abbrev Warning := GpgErr

/-- Modelled from the spec: `ErrorToWarning` is not in these files. -/
def ErrorToWarning (e : GpgErr) : Warning := e

/-- Modelled from the spec: the type `Warnings` is not in these files;
"warnings accumulate in the parser". -/
abbrev Warnings := List Warning

/-- Modelled from the spec: `Warnings.Push` is not in these files; it adds
the warning at the end. -/
def Warnings.Push (w : Warnings) (x : Warning) : Warnings := w ++ [x]

/-- Modelled from the spec: the type `Identity` is not in these files;
"identities contain name + email". The code reads the field `Email`. -/
structure Identity where
  Username : String
  Comment : String
  Email : String
  deriving DecidableEq, Repr

/-- The collaborators of the GPG index parser that are not in these files:
`ParseIdentity` and `PgpFingerprintFromHex` (an error is given by its
message), `strings.ToLower` of the Go library, whose Unicode case tables are
not modelled, and `sort.Sort` of the Go library, whose algorithm is not
modelled. `sort.Sort` sees a collection through `Len` and `Less` and changes
it through `Swap`, with indices below `Len` only: `SortSwaps n less` is the
list of the `Swap(i, j)` calls it makes, in turn, on a collection of `n`
elements for which `less i j` is what `Less(i, j)` returns before the first
call. -/
structure GpgEnv where
  ParseIdentity : String → Except String Identity
  PgpFingerprintFromHex : String → Except String PgpFingerprint
  ToLower : String → String
  SortSwaps : (n : Nat) → (Fin n → Fin n → Bool) → List (Fin n × Fin n)

/-- The function `unicode.IsSpace` of the Go library. -/
def isSpace (c : Char) : Bool :=
  let n := c.toNat
  (9 ≤ n && n ≤ 13) || n == 32 || n == 0x85 || n == 0xA0 || n == 0x1680 ||
    (0x2000 ≤ n && n ≤ 0x200a) || n == 0x2028 || n == 0x2029 || n == 0x202f ||
    n == 0x205f || n == 0x3000

/-- The function `strings.TrimSpace` of the Go library. -/
def strings.TrimSpace (s : String) : String :=
  String.mk (((s.data.dropWhile isSpace).reverse.dropWhile isSpace).reverse)

/-- The fields of a character list between the occurrences of `sep`. -/
def splitChars (sep : Char) : List Char → List (List Char)
  | [] => [[]]
  | c :: cs =>
    if c = sep then [] :: splitChars sep cs
    else
      match splitChars sep cs with
      | f :: fs => (c :: f) :: fs
      | [] => [[c]]

/-- The function `strings.Split` of the Go library, for a separator of one
character. -/
def strings.Split (s : String) (sep : Char) : List String :=
  (splitChars sep s.data).map String.mk

/-- The value of a list of decimal digits after the value `acc`; `none` when
a character is not a digit. -/
def digitsValue (acc : Nat) : List Char → Option Nat
  | [] => some acc
  | c :: cs =>
    if '0' ≤ c ∧ c ≤ '9' then digitsValue (acc * 10 + (c.toNat - '0'.toNat)) cs
    else none

/-- The function `strconv.Atoi` of the Go library with a 64-bit `int`: the
value and the error. On a syntax error the value is 0, on a range error the
nearest bound. -/
def strconv.Atoi (s : String) : Int × Option GpgErr :=
  let syntaxError : Int × Option GpgErr :=
    (0, some (GpgErr.other ("strconv.ParseInt: parsing \"" ++ s ++ "\": invalid syntax")))
  let rangeError : Option GpgErr :=
    some (GpgErr.other ("strconv.ParseInt: parsing \"" ++ s ++ "\": value out of range"))
  let signed : Bool × List Char :=
    match s.data with
    | '+' :: rest => (false, rest)
    | '-' :: rest => (true, rest)
    | cs => (false, cs)
  match signed with
  | (_, []) => syntaxError
  | (neg, c :: cs) =>
    match digitsValue 0 (c :: cs) with
    | none => syntaxError
    | some n =>
      if neg = true then
        if 2 ^ 63 < n then (-(2 ^ 63 : Int), rangeError) else (-(n : Int), none)
      else
        if 2 ^ 63 ≤ n then ((2 ^ 63 : Int) - 1, rangeError) else ((n : Int), none)

/-- Sequencing of calls that may panic. -/
def Outcome.bind {α β : Type} (x : Outcome α) (f : α → Outcome β) : Outcome β :=
  match x with
  | Outcome.returned a => f a
  | Outcome.panicked => Outcome.panicked

/-- The type `GpgIndexLine`. -/
structure GpgIndexLine where
  v : List String
  lineno : Int
  deriving DecidableEq, Repr

/-- The method `GpgIndexLine.Len`. -/
def GpgIndexLine.Len (g : GpgIndexLine) : Nat := g.v.length

/-- The method `GpgIndexLine.At`: `g.v[i]`, which panics when `i` is out of
range. -/
def GpgIndexLine.At (g : GpgIndexLine) (i : Nat) : Outcome String :=
  match g.v[i]? with
  | some s => Outcome.returned s
  | none => Outcome.panicked

/-- The function `ParseLine`: the line and the error. `strings.Split` with a
separator that is not empty never returns nil, so the error branch is not
taken. -/
def ParseLine (s : String) (i : Int) : Option GpgIndexLine × Option GpgErr :=
  let s := strings.TrimSpace s
  let v := strings.Split s ':'
  (some { v := v, lineno := i }, none)

/-- The method `GpgIndexLine.IsNewKey`. -/
def GpgIndexLine.IsNewKey (l : GpgIndexLine) : Bool :=
  match l.v with
  | [] => false
  | f :: _ => f = "sec" ∨ f = "pub"

/-- The type `GpgBaseKey`; the field `Type` of the code is `Type_` here. -/
structure GpgBaseKey where
  Type_ : String
  Trust : String
  Bits : Int
  Algo : Int
  Id64 : String
  Created : Int
  Expires : Int
  fingerprint : Option PgpFingerprint
  deriving DecidableEq, Repr

/-- The closure `flexiAtoi` of `ParseBase`. -/
def flexiAtoi (s : String) : Int × Option GpgErr :=
  if s.length = 0 then (0, none) else strconv.Atoi s

/-- The method `GpgBaseKey.ParseBase` (pointer receiver): the key as the
call leaves it and the error. A field is assigned also when its conversion
fails. -/
def GpgBaseKey.ParseBase (k : GpgBaseKey) (line : GpgIndexLine) :
    Outcome (GpgBaseKey × Option GpgErr) :=
  if line.Len < 12 then
    Outcome.returned (k, some (GpgErr.GpgIndexError line.lineno "Not enough fields (need 12)"))
  else
    (line.At 0).bind fun f0 =>
    (line.At 1).bind fun f1 =>
    (line.At 4).bind fun f4 =>
    let k1 : GpgBaseKey := { k with Type_ := f0, Trust := f1, Id64 := f4 }
    (line.At 2).bind fun f2 =>
    match strconv.Atoi f2 with
    | (bits, some e) => Outcome.returned ({ k1 with Bits := bits }, some e)
    | (bits, none) =>
      (line.At 3).bind fun f3 =>
      match strconv.Atoi f3 with
      | (algo, some e) => Outcome.returned ({ k1 with Bits := bits, Algo := algo }, some e)
      | (algo, none) =>
        (line.At 5).bind fun f5 =>
        match strconv.Atoi f5 with
        | (created, some e) =>
          Outcome.returned ({ k1 with Bits := bits, Algo := algo, Created := created }, some e)
        | (created, none) =>
          (line.At 6).bind fun f6 =>
          match flexiAtoi f6 with
          | (expires, err) =>
            Outcome.returned
              ({ k1 with Bits := bits, Algo := algo, Created := created, Expires := expires },
                err)

/-- The type `GpgSubKey`, which embeds `GpgBaseKey`. -/
structure GpgSubKey extends GpgBaseKey
  deriving DecidableEq, Repr

/-- The function `ParseGpgSubKey`: the subkey and the error. -/
def ParseGpgSubKey (l : GpgIndexLine) : Outcome (GpgSubKey × Option GpgErr) :=
  let sk : GpgBaseKey :=
    { Type_ := "", Trust := "", Bits := 0, Algo := 0, Id64 := "", Created := 0, Expires := 0,
      fingerprint := none }
  (sk.ParseBase l).bind fun r => Outcome.returned ({ toGpgBaseKey := r.1 }, r.2)

/-- The fingerprint sink `top` of a primary key: the primary key itself, or
its subkey at an index of `subkeys`. -/
inductive Sink
  | primary
  | subkey (n : Nat)
  deriving DecidableEq, Repr

/-- The type `GpgPrimaryKey`, which embeds `GpgBaseKey`; `top` tells which
record the pointer `top` of the code points to. -/
structure GpgPrimaryKey extends GpgBaseKey where
  subkeys : List GpgSubKey
  identities : List Identity
  top : Sink
  deriving DecidableEq, Repr

/-- The value of a signed 64-bit integer that an addition leaves when the
sum is `x`: the sum wraps around. -/
def wrapInt64 (x : Int) : Int :=
  (x + 9223372036854775808) % 18446744073709551616 - 9223372036854775808

/-- The constant `unixToInternal` of the Go library `time`: the seconds from
the year 1 to the Unix epoch. -/
def unixToInternal : Int := 62135596800

/-- The method `GpgPrimaryKey.IsValid`. `now` is the number of whole
seconds from the Unix epoch to `time.Now()`, a 64-bit integer. A `Time` of
the Go library keeps the seconds since the year 1 in 64 bits:
`time.Unix(sec, 0)` keeps `sec + unixToInternal`, and so does `time.Now()`
for its second; the sum wraps around. `t.Before(u)` is `t.sec() < u.sec()`
when `u` has no nanoseconds, as `time.Unix(sec, 0)` has none. `Expires` is a
Go `int`, of 64 bits. -/
def GpgPrimaryKey.IsValid (k : GpgPrimaryKey) (now : Int) : Bool :=
  if k.Trust = "r" then false
  else if k.Expires = 0 then true
  else decide (wrapInt64 (now + unixToInternal) < wrapInt64 (k.Expires + unixToInternal))

/-- The call `k.top.SetFingerprint(pgp)`: `GpgBaseKey.SetFingerprint` on the
record `top` points to. -/
def GpgPrimaryKey.SetFingerprint (k : GpgPrimaryKey) (pgp : Option PgpFingerprint) :
    Outcome GpgPrimaryKey :=
  match k.top with
  | Sink.primary => Outcome.returned { k with fingerprint := pgp }
  | Sink.subkey n =>
    match k.subkeys[n]? with
    | some sk => Outcome.returned { k with subkeys := k.subkeys.set n { sk with fingerprint := pgp } }
    | none => Outcome.panicked

/-- The function `NewGpgPrimaryKey`: `top` is the key itself. -/
def NewGpgPrimaryKey : GpgPrimaryKey :=
  { Type_ := "", Trust := "", Bits := 0, Algo := 0, Id64 := "", Created := 0, Expires := 0,
    fingerprint := none, subkeys := [], identities := [], top := Sink.primary }

/-- The method `GpgPrimaryKey.AddUid` (pointer receiver): the key as the
call leaves it and the error. -/
def GpgPrimaryKey.AddUid (env : GpgEnv) (k : GpgPrimaryKey) (l : GpgIndexLine) :
    Outcome (GpgPrimaryKey × Option GpgErr) :=
  (l.At 9).bind fun f =>
  if f.length = 0 then Outcome.returned (k, none)
  else
    match env.ParseIdentity f with
    | Except.error e => Outcome.returned (k, some (ErrorToGpgIndexError l.lineno e))
    | Except.ok id => Outcome.returned ({ k with identities := k.identities ++ [id] }, none)

/-- The method `GpgPrimaryKey.Parse` (pointer receiver): the key as the call
leaves it and the error. -/
def GpgPrimaryKey.Parse (env : GpgEnv) (k : GpgPrimaryKey) (l : GpgIndexLine) :
    Outcome (GpgPrimaryKey × Option GpgErr) :=
  (k.toGpgBaseKey.ParseBase l).bind fun r =>
  let k1 : GpgPrimaryKey := { k with toGpgBaseKey := r.1 }
  match r.2 with
  | some e => Outcome.returned (k1, some e)
  | none => k1.AddUid env l

/-- The function `ParseGpgPrimaryKey`: the key and the error. -/
def ParseGpgPrimaryKey (env : GpgEnv) (l : GpgIndexLine) :
    Outcome (GpgPrimaryKey × Option GpgErr) :=
  NewGpgPrimaryKey.Parse env l

/-- The method `GpgPrimaryKey.AddFingerprint` (pointer receiver): the key as
the call leaves it and the error. -/
def GpgPrimaryKey.AddFingerprint (env : GpgEnv) (k : GpgPrimaryKey) (l : GpgIndexLine) :
    Outcome (GpgPrimaryKey × Option GpgErr) :=
  (l.At 9).bind fun f =>
  if f.length = 0 then
    Outcome.returned (k, some (ErrorToGpgIndexError l.lineno "no fingerprint given"))
  else
    match env.PgpFingerprintFromHex f with
    | Except.ok fp => (k.SetFingerprint (some fp)).bind fun k1 => Outcome.returned (k1, none)
    | Except.error e => Outcome.returned (k, some (ErrorToGpgIndexError l.lineno e))

/-- The method `GpgPrimaryKey.GetFingerprint`. -/
def GpgPrimaryKey.GetFingerprint (k : GpgPrimaryKey) : Option PgpFingerprint := k.fingerprint

/-- The method `GpgPrimaryKey.GetEmails`. -/
def GpgPrimaryKey.GetEmails (k : GpgPrimaryKey) : List String :=
  k.identities.map Identity.Email

/-- Modelled from the spec: `PgpFingerprint.ToKeyId` is not in these files;
a fingerprint "exposes a truncated key-id (last 8 bytes, hex)", shown in
upper case as the fingerprint is. -/
def PgpFingerprint.ToKeyId (fp : PgpFingerprint) : String :=
  String.mk ((hexEncodeChars (fp.bytes.drop (fp.bytes.length - 8))).map Char.toUpper)

/-- Modelled from the spec: `PgpFingerprint.String` is not in these files; a
fingerprint "displays as uppercase hex". -/
def PgpFingerprint.String (fp : PgpFingerprint) : String := fp.ToString

/-- The method `GpgPrimaryKey.GetAllId64s`. -/
def GpgPrimaryKey.GetAllId64s (k : GpgPrimaryKey) : List String :=
  let add (ret : List String) (fp : Option PgpFingerprint) : List String :=
    match fp with
    | some fp => ret ++ [fp.ToKeyId]
    | none => ret
  k.subkeys.foldl (fun ret sk => add ret sk.fingerprint) (add [] k.GetFingerprint)

/-- The method `GpgPrimaryKey.AddSubkey` (pointer receiver): the key as the
call leaves it and the error. On success `top` points to the new subkey. -/
def GpgPrimaryKey.AddSubkey (g : GpgPrimaryKey) (l : GpgIndexLine) :
    Outcome (GpgPrimaryKey × Option GpgErr) :=
  (ParseGpgSubKey l).bind fun r =>
  match r.2 with
  | none =>
    Outcome.returned
      ({ g with subkeys := g.subkeys ++ [r.1], top := Sink.subkey g.subkeys.length }, none)
  | some e => Outcome.returned (g, some e)

/-- The method `GpgPrimaryKey.AddLine` (pointer receiver): the key as the
call leaves it and the error. -/
def GpgPrimaryKey.AddLine (env : GpgEnv) (p : GpgPrimaryKey) (l : GpgIndexLine) :
    Outcome (GpgPrimaryKey × Option GpgErr) :=
  if l.Len < 2 then
    Outcome.returned (p, some (GpgErr.GpgIndexError l.lineno "too few fields"))
  else
    (l.At 0).bind fun f =>
    if f = "fpr" then p.AddFingerprint env l
    else if f = "uid" then p.AddUid env l
    else if f = "uat" then Outcome.returned (p, none)
    else if f = "sub" ∨ f = "ssb" then p.AddSubkey l
    else Outcome.returned (p, some (GpgErr.GpgIndexError l.lineno ("Unknown subfield: " ++ f)))

/-- The type `BucketDict`: the map `d` as an association list. -/
structure BucketDict where
  d : List (String × List GpgPrimaryKey)
  deriving DecidableEq, Repr

/-- The function `NewBuckDict`. -/
def NewBuckDict : BucketDict := { d := [] }

/-- The method `BucketDict.Add` (pointer receiver): the dictionary as the
call leaves it. -/
def BucketDict.Add (env : GpgEnv) (bd : BucketDict) (k : String) (v : GpgPrimaryKey) :
    BucketDict :=
  let k := env.ToLower k
  let bucket : List GpgPrimaryKey :=
    match bd.d.lookup k with
    | some bucket => bucket
    | none => []
  let bucket := bucket ++ [v]
  { d := mapAssign bd.d k bucket }

/-- The method `BucketDict.Get`; a nil slice is the empty list. -/
def BucketDict.Get (env : GpgEnv) (bd : BucketDict) (k : String) : List GpgPrimaryKey :=
  let k := env.ToLower k
  match bd.d.lookup k with
  | some ret => ret
  | none => []

/-- The method `BucketDict.Get0Or1`: the key and the error. -/
def BucketDict.Get0Or1 (env : GpgEnv) (bd : BucketDict) (k : String) :
    Option GpgPrimaryKey × Option GpgErr :=
  let v := bd.Get env k
  if v.length > 1 then
    (none, some (GpgErr.GpgError
      ("Wanted a unique lookup but got " ++ toString v.length ++ " objects for key " ++ k)))
  else if v.length = 1 then (v.head?, none)
  else (none, none)

/-- The function `Uniquify`: the keys of the map `m`, in the order of the
association list. -/
def Uniquify (env : GpgEnv) (inp : List String) : List String :=
  let m : List (String × Bool) := inp.foldl (fun m s => mapAssign m (env.ToLower s) true) []
  m.map Prod.fst

/-- The type `GpgKeyIndex`. -/
structure GpgKeyIndex where
  Keys : List GpgPrimaryKey
  Emails : BucketDict
  Fingerprints : BucketDict
  Id64s : BucketDict
  deriving DecidableEq, Repr

/-- The method `GpgKeyIndex.Len`. -/
def GpgKeyIndex.Len (ki : GpgKeyIndex) : Nat := ki.Keys.length

/-- The body of `GpgKeyIndex.Less` on the two keys `a` and `b` it reads. -/
def lessKeys (a b : GpgPrimaryKey) : Bool :=
  if a.identities.length > b.identities.length then true
  else if a.identities.length < b.identities.length then false
  else if a.Expires = 0 then true
  else if b.Expires = 0 then false
  else if a.Expires > b.Expires then true
  else false

/-- The method `GpgKeyIndex.Less`, which panics when an index is out of
range. -/
def GpgKeyIndex.Less (ki : GpgKeyIndex) (i j : Nat) : Outcome Bool :=
  match ki.Keys[i]?, ki.Keys[j]? with
  | some a, some b => Outcome.returned (lessKeys a b)
  | _, _ => Outcome.panicked

/-- The method `GpgKeyIndex.Swap`, which panics when an index is out of
range. -/
def GpgKeyIndex.Swap (ki : GpgKeyIndex) (i j : Nat) : Outcome GpgKeyIndex :=
  match ki.Keys[i]?, ki.Keys[j]? with
  | some a, some b => Outcome.returned { ki with Keys := (ki.Keys.set i b).set j a }
  | _, _ => Outcome.panicked

/-- The method `GpgKeyIndex.Sort` (pointer receiver): the index as the call
leaves it. `sort.Sort(ki)` makes the `Swap` calls that the parameter
`SortSwaps` gives for `ki.Len()` and `ki.Less`. The indices are below
`ki.Len()`, which no `Swap` changes, so that neither `Less` nor `Swap`
panics (lemma `Swap_returns`); the branches for a panic are there for the
definition to be total. -/
def GpgKeyIndex.Sort (env : GpgEnv) (ki : GpgKeyIndex) : GpgKeyIndex :=
  let less (i j : Fin ki.Len) : Bool :=
    match ki.Less i.val j.val with
    | Outcome.returned b => b
    | Outcome.panicked => false
  (env.SortSwaps ki.Len less).foldl
    (fun k ij =>
      match k.Swap ij.1.val ij.2.val with
      | Outcome.returned k1 => k1
      | Outcome.panicked => k)
    ki

/-- The function `NewGpgKeyIndex`. -/
def NewGpgKeyIndex : GpgKeyIndex :=
  { Keys := [], Emails := NewBuckDict, Fingerprints := NewBuckDict, Id64s := NewBuckDict }

/-- The method `GpgKeyIndex.IndexKey` (pointer receiver): the index as the
call leaves it. -/
def GpgKeyIndex.IndexKey (env : GpgEnv) (ki : GpgKeyIndex) (k : GpgPrimaryKey) : GpgKeyIndex :=
  let keys := ki.Keys ++ [k]
  let fingerprints :=
    match k.GetFingerprint with
    | some fp => ki.Fingerprints.Add env fp.String k
    | none => ki.Fingerprints
  let emails := (Uniquify env k.GetEmails).foldl (fun bd e => bd.Add env e k) ki.Emails
  let id64s := (Uniquify env k.GetAllId64s).foldl (fun bd i => bd.Add env i k) ki.Id64s
  { Keys := keys, Emails := emails, Fingerprints := fingerprints, Id64s := id64s }

/-- The method `GpgKeyIndex.PushElement` (pointer receiver): the index as
the call leaves it. The element is given by the key its `ToKey` returns, and
`now` is the Unix second of `time.Now()` in `IsValid`. -/
def GpgKeyIndex.PushElement (env : GpgEnv) (now : Int) (k : GpgKeyIndex)
    (e : Option GpgPrimaryKey) : GpgKeyIndex :=
  match e with
  | none => k
  | some key => if key.IsValid now = true then k.IndexKey env key else k

/-- The type `GpgIndexParser`. The reader `src` is the list of the lines of
the stream that end in a newline and are still to be read; what follows the
last newline is not a line for `GetLine`, which gets it from `ReadString`
together with `io.EOF`. A read error other than `io.EOF` is not modelled. -/
structure GpgIndexParser where
  warnings : Warnings
  putback : Option GpgIndexLine
  src : List String
  eof : Bool
  lineno : Int
  deriving DecidableEq, Repr

/-- The function `NewGpgIndexParser`. -/
def NewGpgIndexParser : GpgIndexParser :=
  { warnings := [], putback := none, src := [], eof := false, lineno := 0 }

/-- The method `GpgIndexParser.isEof`. -/
def GpgIndexParser.isEof (p : GpgIndexParser) : Bool := p.eof

/-- The method `GpgIndexParser.PutbackLine` (pointer receiver). -/
def GpgIndexParser.PutbackLine (p : GpgIndexParser) (line : GpgIndexLine) : GpgIndexParser :=
  { p with putback := some line }

/-- The method `GpgIndexParser.GetLine` (pointer receiver): the parser as
the call leaves it, the line and the error. -/
def GpgIndexParser.GetLine (p : GpgIndexParser) :
    GpgIndexParser × Option GpgIndexLine × Option GpgErr :=
  match p.putback with
  | some l => ({ p with putback := none }, some l, none)
  | none =>
    if p.isEof = true then (p, none, none)
    else
      match p.src with
      | s :: rest =>
        let p1 : GpgIndexParser := { p with src := rest, lineno := p.lineno + 1 }
        match ParseLine s p1.lineno with
        | (ret, err) => (p1, ret, err)
      | [] => ({ p with eof := true }, none, none)

/-- The loop of `ParseKey`, `for !done && err == nil && !p.isEof()`, with at
most `fuel` passes: the parser, the key and the error when the loop ends. A
pass takes a line from the parser or sets `eof`, so `p.src.length + 2`
passes are never used up. -/
def parseKeyLoop (env : GpgEnv) :
    Nat → GpgIndexParser → GpgPrimaryKey → Outcome (GpgIndexParser × GpgPrimaryKey × Option GpgErr)
  | 0, p, ret => Outcome.returned (p, ret, none)
  | fuel + 1, p, ret =>
    if p.isEof = true then Outcome.returned (p, ret, none)
    else
      match p.GetLine with
      | (p1, _, some err) => Outcome.returned (p1, ret, some err)
      | (p1, none, none) => parseKeyLoop env fuel p1 ret
      | (p1, some line, none) =>
        if line.IsNewKey = true then Outcome.returned (p1.PutbackLine line, ret, none)
        else
          match ret.AddLine env line with
          | Outcome.panicked => Outcome.panicked
          | Outcome.returned (ret1, none) => parseKeyLoop env fuel p1 ret1
          | Outcome.returned (ret1, some e2) =>
            parseKeyLoop env fuel
              { p1 with warnings := Warnings.Push p1.warnings (ErrorToWarning e2) } ret1

/-- The method `GpgIndexParser.ParseKey` (pointer receiver): the parser as
the call leaves it, the key and the error. -/
def GpgIndexParser.ParseKey (env : GpgEnv) (p : GpgIndexParser) (l : GpgIndexLine) :
    Outcome (GpgIndexParser × GpgPrimaryKey × Option GpgErr) :=
  (ParseGpgPrimaryKey env l).bind fun r =>
  match r.2 with
  | some err => Outcome.returned (p, r.1, some err)
  | none => parseKeyLoop env (p.src.length + 2) p r.1

/-- The method `GpgIndexParser.ParseElement` (pointer receiver): the parser
as the call leaves it, the element (nil, or a key) and the error. -/
def GpgIndexParser.ParseElement (env : GpgEnv) (p : GpgIndexParser) :
    Outcome (GpgIndexParser × Option GpgPrimaryKey × Option GpgErr) :=
  match p.GetLine with
  | (p1, _, some err) => Outcome.returned (p1, none, some err)
  | (p1, none, none) => Outcome.returned (p1, none, none)
  | (p1, some line, none) =>
    if line.IsNewKey = true then
      (p1.ParseKey env line).bind fun r => Outcome.returned (r.1, some r.2.1, r.2.2)
    else Outcome.returned (p1, none, none)

/-- The loop of `Parse`, `for err == nil && !p.isEof()`, with at most `fuel`
passes: the parser, the index and the error when the loop ends. A pass takes
a line from the parser or sets `eof`, so `p.src.length + 3` passes are never
used up. -/
def parseLoop (env : GpgEnv) (now : Int) :
    Nat → GpgIndexParser → GpgKeyIndex → Outcome (GpgIndexParser × GpgKeyIndex × Option GpgErr)
  | 0, p, ki => Outcome.returned (p, ki, none)
  | fuel + 1, p, ki =>
    if p.isEof = true then Outcome.returned (p, ki, none)
    else
      match p.ParseElement env with
      | Outcome.panicked => Outcome.panicked
      | Outcome.returned (p1, _, some err) => Outcome.returned (p1, ki, some err)
      | Outcome.returned (p1, none, none) => parseLoop env now fuel p1 ki
      | Outcome.returned (p1, some el, none) =>
        parseLoop env now fuel p1 (ki.PushElement env now (some el))

/-- The method `GpgIndexParser.Parse` (pointer receiver): the parser as the
call leaves it, the index and the error. `stream` is the list of the lines
of the stream, and `now` the Unix second of `time.Now()`, the same at every
call of `IsValid`. -/
def GpgIndexParser.Parse (env : GpgEnv) (now : Int) (p : GpgIndexParser) (stream : List String) :
    Outcome (GpgIndexParser × GpgKeyIndex × Option GpgErr) :=
  let p0 : GpgIndexParser := { p with src := stream }
  (parseLoop env now (stream.length + 3) p0 NewGpgKeyIndex).bind fun r =>
  Outcome.returned (r.1, r.2.1.Sort env, r.2.2)

/-- The function `ParseGpgIndexStream`: the index, the error and the
warnings. -/
def ParseGpgIndexStream (env : GpgEnv) (now : Int) (stream : List String) :
    Outcome (GpgKeyIndex × Option GpgErr × Warnings) :=
  (NewGpgIndexParser.Parse env now stream).bind fun r =>
  Outcome.returned (r.2.1, r.2.2, r.1.warnings)

/-! ### Examples for the GPG index parser -/

/-- Lower case of the letters A to Z. -/
def lowerTable : List (Char × Char) :=
  [('A', 'a'), ('B', 'b'), ('C', 'c'), ('D', 'd'), ('E', 'e'), ('F', 'f'), ('G', 'g'),
   ('H', 'h'), ('I', 'i'), ('J', 'j'), ('K', 'k'), ('L', 'l'), ('M', 'm'), ('N', 'n'),
   ('O', 'o'), ('P', 'p'), ('Q', 'q'), ('R', 'r'), ('S', 's'), ('T', 't'), ('U', 'u'),
   ('V', 'v'), ('W', 'w'), ('X', 'x'), ('Y', 'y'), ('Z', 'z')]

/-- Lower case of an ASCII letter; other characters stay. -/
def asciiLower (c : Char) : Char := (lowerTable.lookup c).getD c

/-- For the examples: the `Swap` calls that move the element at `j` down
past the elements that `less` puts after it; the list gives, for each place,
the place the element there first had. -/
def exampleSink (less : Nat → Nat → Bool) : Nat → List Nat → List (Nat × Nat) × List Nat
  | 0, cur => ([], cur)
  | j + 1, cur =>
    match cur[j + 1]?, cur[j]? with
    | some x, some y =>
      if less x y = true then
        match exampleSink less j ((cur.set (j + 1) y).set j x) with
        | (swaps, cur1) => ((j + 1, j) :: swaps, cur1)
      else ([], cur)
    | _, _ => ([], cur)

/-- For the examples: the `Swap` calls of an insertion sort. -/
def exampleSortSwaps (n : Nat) (less : Fin n → Fin n → Bool) : List (Fin n × Fin n) :=
  let lessAt (i j : Nat) : Bool :=
    if h : i < n ∧ j < n then less ⟨i, h.1⟩ ⟨j, h.2⟩ else false
  let swaps : List (Nat × Nat) :=
    ((List.range n).foldl
      (fun acc i =>
        match exampleSink lessAt i acc.2 with
        | (swaps, cur) => (acc.1 ++ swaps, cur))
      ([], List.range n)).1
  swaps.filterMap fun ij =>
    if h : ij.1 < n ∧ ij.2 < n then some (⟨ij.1, h.1⟩, ⟨ij.2, h.2⟩) else none

/-- An environment for the examples: an identity is accepted when it has an
`@` and is then its own email, a fingerprint is any hex string, `ToLower`
acts on the letters A to Z, and the sort is an insertion sort. -/
def gpgEnv : GpgEnv :=
  { ParseIdentity := fun s =>
      if s.data.contains '@' then Except.ok ⟨"", "", s⟩ else Except.error "bad identity",
    PgpFingerprintFromHex := fun s =>
      match hexDecode s with
      | some bs => Except.ok ⟨bs⟩
      | none => Except.error "bad fingerprint",
    ToLower := fun s => String.mk (s.data.map asciiLower),
    SortSwaps := exampleSortSwaps }

/-- A `pub` line with twelve fields, an empty `created` field and an empty
`expires` field. -/
def emptyCreatedLine : GpgIndexLine :=
  { v := ["pub", "u", "2048", "1", "AAAA", "", "", "", "", "", "", ""], lineno := 1 }

/-- A `pub` line with twelve fields and an empty `expires` field. -/
def emptyExpiresLine : GpgIndexLine :=
  { v := ["pub", "u", "2048", "1", "AAAA", "100", "", "", "", "", "", ""], lineno := 1 }

/-- A key whose two identities carry one email in different letter case. -/
def twoCaseKey : GpgPrimaryKey :=
  { NewGpgPrimaryKey with
    Type_ := "pub", Trust := "u", Id64 := "AAAA",
    identities := [⟨"Alice", "", "A@b.C"⟩, ⟨"Alice", "work", "a@B.c"⟩] }

/-- A listing of three keys: one key without identities, one key with an
identity that expires, one key with an identity that does not expire. -/
def threeKeyStream : List String :=
  ["pub:u:2048:1:AAAA:1::::::\n",
   "pub:u:2048:1:BBBB:1:9:::b@x:::\n",
   "pub:u:2048:1:CCCC:1::::c@x:::\n"]

/-- A listing whose first `pub` line has too few fields and whose second
`pub` line is a valid key. -/
def badFirstStream : List String :=
  ["pub:u:2048\n", "pub:u:2048:1:CCCC:1::::c@x:::\n"]

/-- A parser about to read a line with an unknown record type, and then a
`uat` line. -/
def warnParser : GpgIndexParser :=
  { NewGpgIndexParser with src := ["zzz:1\n", "uat:1\n"] }

/-- The lines of a key block after its `pub` line: the fingerprint of the
primary key, then two subkeys, each with its fingerprint. -/
def blockParser : GpgIndexParser :=
  { NewGpgIndexParser with
    src := ["fpr:::::::::a1b2:\n", "sub:u:2048:1:BBBB:100:200:::::\n", "fpr:::::::::c3d4:\n",
      "ssb:u:1024:17:DDDD:100::::::\n", "fpr:::::::::e5f6:\n"],
    lineno := 1 }

/-- The `pub` line of the key block. -/
def blockHeader : GpgIndexLine :=
  { v := ["pub", "u", "2048", "1", "AAAA", "100", "", "", "", "a@b", "", ""], lineno := 1 }

/-- The subkey lines of the key block with what they parse to. -/
def blockSubkeys : List (String × String × GpgSubKey × PgpFingerprint) :=
  [("sub:u:2048:1:BBBB:100:200:::::\n", "fpr:::::::::c3d4:\n",
      { Type_ := "sub", Trust := "u", Bits := 2048, Algo := 1, Id64 := "BBBB", Created := 100,
        Expires := 200, fingerprint := none }, ⟨[0xc3, 0xd4]⟩),
   ("ssb:u:1024:17:DDDD:100::::::\n", "fpr:::::::::e5f6:\n",
      { Type_ := "ssb", Trust := "u", Bits := 1024, Algo := 17, Id64 := "DDDD", Created := 100,
        Expires := 0, fingerprint := none }, ⟨[0xe5, 0xf6]⟩)]

/-! ### Examples for the last checks -/

/-- A sibkey delegation of the eldest KID `aa` itself, with sigid `04`. -/
def eldestLink : TypedChainLink :=
  { GetDelegatedKid := some [0xaa], GetSigId := [4], GetCTimeUnix := 400, GetMerkleSeqno := 11,
    GetKid := some [0xaa], IsDelegation := 1, GetRevocations := [], GetRevokeKids := [] }

/-- A later delegation of the KID `bb`, with sigid `05`. -/
def reviveLink : TypedChainLink :=
  { GetDelegatedKid := some [0xbb], GetSigId := [5], GetCTimeUnix := 500, GetMerkleSeqno := 12,
    GetKid := some [0xaa], IsDelegation := 0, GetRevocations := [], GetRevokeKids := [] }

/-- A listing of a valid `pub` line and an `fpr` line of two fields. -/
def shortFprStream : List String :=
  ["pub:u:2048:1:AAAA:1::::a@b:::\n", "fpr:x\n"]

/-- A listing of a valid `pub` line and a `uid` line of three fields. -/
def shortUidStream : List String :=
  ["pub:u:2048:1:AAAA:1::::a@b:::\n", "uid:u:\n"]

/-- An index of two keys that have no identity and never expire. -/
def neverIndex : GpgKeyIndex :=
  { NewGpgKeyIndex with
    Keys := [{ NewGpgPrimaryKey with Type_ := "pub", Trust := "u", Id64 := "AAAA" },
             { NewGpgPrimaryKey with Type_ := "pub", Trust := "u", Id64 := "BBBB" }] }

/-! ### Examples for the validity filter, the key block and the replay -/

/-- A `pub` line of a key that expires in the last second a 64-bit integer
can hold. -/
def farFutureStream : List String :=
  ["pub:u:2048:1:FFFF:1:9223372036854775807:::c@x:::\n"]

/-- The key of `farFutureStream`. -/
def farFutureKey : GpgPrimaryKey :=
  { NewGpgPrimaryKey with
    Type_ := "pub", Trust := "u", Bits := 2048, Algo := 1, Id64 := "FFFF", Created := 1,
    Expires := 9223372036854775807, identities := [⟨"", "", "c@x"⟩] }

/-- The lines of a key block after its `pub` line: a line of an unknown
record type, a `uat` line, a `uid` line with an identity that is rejected,
the fingerprint of the key, a `sub` line with too few fields, and a line
`uat` of one field. -/
def mixedBlock : List String :=
  ["zzz:1\n", "uat:1\n", "uid:::::::::nobody:\n", "fpr:::::::::a1b2:\n", "sub:u:2048\n", "uat\n"]

/-- The `pub` line of the key after the key block `mixedBlock`. -/
def nextKeyLine : String := "pub:u:2048:1:BBBB:1::::b@b:::\n"

/-- A parser about to read the lines of `mixedBlock` and then the next
key. -/
def mixedBlockParser : GpgIndexParser :=
  { NewGpgIndexParser with src := mixedBlock ++ [nextKeyLine], lineno := 1 }

/-- A parser about to read a key block whose one line after the `pub` line
is a line `uat` of one field. -/
def uatShortParser : GpgIndexParser :=
  { NewGpgIndexParser with src := ["uat\n"], lineno := 1 }

/-- The key of the `pub` line `blockHeader`. -/
def blockHeaderKey : GpgPrimaryKey :=
  { NewGpgPrimaryKey with
    Type_ := "pub", Trust := "u", Bits := 2048, Algo := 1, Id64 := "AAAA", Created := 100,
    identities := [⟨"", "", "a@b"⟩] }

/-- A revocation of the KID `aa`. -/
def revokeEldestLink : TypedChainLink :=
  { GetDelegatedKid := none, GetSigId := [4], GetCTimeUnix := 400, GetMerkleSeqno := 11,
    GetKid := some [0xaa], IsDelegation := 0, GetRevocations := [some [1]],
    GetRevokeKids := [some [0xaa]] }

/-- The infos after `revokeEldestLink` on `seededInfos`. -/
def seededRevokedInfos : ComputedKeyInfos :=
  { seededInfos with heap := [{ eldestInfo with Status := 2, RevokedAt := some ⟨400, 11⟩ }] }

/-! ## `VerifyChain` -/

/-- One step of the loop on a link that is already chainVerified: it stops. -/
theorem verifyLoop_succ (env : Env) (sc : SigChain) (i : Nat) (curr : ChainLink)
    (h : sc.chainLinks[i]? = some curr) :
    SigChain.verifyLoop env sc (i + 1) =
      if curr.chainVerified then (sc, none)
      else
        match env.verifyLink curr with
        | some e => (sc, some e)
        | none =>
          if 0 < i ∧ LinkId.Eq (idAt sc.chainLinks (i - 1)) curr.prev = false then
            (sc, some (chainMismatch curr.seqno))
          else
            match env.checkNameAndId curr sc.username sc.uid with
            | some e => (sc, some e)
            | none =>
              SigChain.verifyLoop env
                { sc with chainLinks := sc.chainLinks.set i { curr with chainVerified := true } } i := by
  rw [SigChain.verifyLoop, h]

theorem idAt_set_of_lt (links : List ChainLink) (i j : Nat) (l : ChainLink) (h : j < i) :
    idAt (links.set i l) j = idAt links j := by
  unfold idAt
  rw [List.getElem?_set_ne (by omega)]

/-- What a run of the loop that returns no error has done: from some index
`m` on (below the start `n`) every link was unverified, passed the three
checks and is now marked; below `m` nothing changed, and `m` is 0 or the
link just below `m` was already chainVerified. -/
theorem verifyLoop_ok (env : Env) :
    ∀ (n : Nat) (sc sc' : SigChain), n ≤ sc.chainLinks.length →
      SigChain.verifyLoop env sc n = (sc', none) →
      ∃ m, m ≤ n ∧
        (m = 0 ∨ ∃ l, sc.chainLinks[m - 1]? = some l ∧ l.chainVerified = true) ∧
        (∀ j, j < m → sc'.chainLinks[j]? = sc.chainLinks[j]?) ∧
        (∀ j, n ≤ j → sc'.chainLinks[j]? = sc.chainLinks[j]?) ∧
        (∀ j, m ≤ j → j < n → ∃ l, sc.chainLinks[j]? = some l ∧ l.chainVerified = false ∧
          sc'.chainLinks[j]? = some { l with chainVerified := true } ∧
          env.verifyLink l = none ∧
          (0 < j → LinkId.Eq (idAt sc.chainLinks (j - 1)) l.prev = true) ∧
          env.checkNameAndId l sc.username sc.uid = none) := by
  intro n
  induction n with
  | zero =>
    intro sc sc' _ h
    simp only [SigChain.verifyLoop] at h
    have hsc : sc' = sc := by
      have := congrArg Prod.fst h
      exact this.symm
    subst hsc
    exact ⟨0, le_refl _, Or.inl rfl, fun _ _ => rfl, fun _ _ => rfl, fun j h1 h2 => by omega⟩
  | succ i ih =>
    intro sc sc' hlen h
    have hi : i < sc.chainLinks.length := by omega
    obtain ⟨curr, hcurr⟩ : ∃ c, sc.chainLinks[i]? = some c :=
      ⟨sc.chainLinks[i], List.getElem?_eq_getElem hi⟩
    rw [verifyLoop_succ env sc i curr hcurr] at h
    by_cases hv : curr.chainVerified = true
    · rw [if_pos hv] at h
      have hsc : sc' = sc := (congrArg Prod.fst h).symm
      subst hsc
      refine ⟨i + 1, le_refl _, Or.inr ⟨curr, by simpa using hcurr, hv⟩, fun _ _ => rfl,
        fun _ _ => rfl, fun j h1 h2 => by omega⟩
    · rw [if_neg hv] at h
      cases hvl : env.verifyLink curr with
      | some e => rw [hvl] at h; simp at h
      | none =>
        rw [hvl] at h
        simp only at h
        by_cases hmis : 0 < i ∧ LinkId.Eq (idAt sc.chainLinks (i - 1)) curr.prev = false
        · rw [if_pos hmis] at h; simp at h
        · rw [if_neg hmis] at h
          cases hcn : env.checkNameAndId curr sc.username sc.uid with
          | some e => rw [hcn] at h; simp at h
          | none =>
            rw [hcn] at h
            simp only at h
            obtain ⟨m, hm, hstop, hlow, hhigh, hmid⟩ := ih _ sc' (by simp only [List.length_set]; omega) h
            simp only at hstop hlow hhigh hmid
            refine ⟨m, by omega, ?_, ?_, ?_, ?_⟩
            · rcases hstop with h0 | ⟨l, hl, hlv⟩
              · exact Or.inl h0
              · rcases Nat.eq_zero_or_pos m with h0 | hpos
                · exact Or.inl h0
                · refine Or.inr ⟨l, ?_, hlv⟩
                  rw [List.getElem?_set_ne (by omega)] at hl
                  exact hl
            · intro j hj
              rw [hlow j hj, List.getElem?_set_ne (by omega)]
            · intro j hj
              rw [hhigh j (by omega), List.getElem?_set_ne (by omega)]
            · intro j hmj hjn
              rcases Nat.lt_or_ge j i with hji | hji
              · obtain ⟨l, hl, hlv, hl', hvl', hprev, hcn'⟩ := hmid j hmj hji
                rw [List.getElem?_set_ne (by omega)] at hl
                refine ⟨l, hl, hlv, hl', hvl', ?_, hcn'⟩
                intro hj0
                have := hprev hj0
                rw [idAt_set_of_lt _ _ _ _ (by omega)] at this
                exact this
              · have hje : j = i := by omega
                subst hje
                refine ⟨curr, hcurr, by simpa using hv, ?_, hvl, ?_, hcn⟩
                · rw [hhigh j (le_refl _), List.getElem?_set_self hi]
                · intro hj0
                  by_contra hne
                  exact hmis ⟨hj0, by simpa using hne⟩

/-- The loop started above a link `i > 0` whose prev is wrong: when the links
above `i` pass all three checks and link `i` passes `VerifyLink`, the error
is the chain mismatch at link `i`. -/
theorem verifyLoop_mismatch (env : Env) :
    ∀ (n : Nat) (sc : SigChain) (i : Nat) (l : ChainLink), i < n → n ≤ sc.chainLinks.length →
      sc.chainLinks[i]? = some l → l.chainVerified = false → env.verifyLink l = none →
      0 < i → LinkId.Eq (idAt sc.chainLinks (i - 1)) l.prev = false →
      (∀ j, i < j → j < n → ∃ m, sc.chainLinks[j]? = some m ∧ m.chainVerified = false ∧
        env.verifyLink m = none ∧ LinkId.Eq (idAt sc.chainLinks (j - 1)) m.prev = true ∧
        env.checkNameAndId m sc.username sc.uid = none) →
      (SigChain.verifyLoop env sc n).2 = some (chainMismatch l.seqno) := by
  intro n
  induction n with
  | zero => intro sc i l h; omega
  | succ k ih =>
    intro sc i l hik hlen hl hlv hvl hi0 hmis hpass
    rcases Nat.lt_or_ge i k with hlt | hge
    · obtain ⟨m, hm, hmv, hmvl, hmprev, hmcn⟩ := hpass k hlt (by omega)
      rw [verifyLoop_succ env sc k m hm, if_neg (by simp [hmv]), hmvl]
      simp only
      rw [if_neg (by simp [hmprev]), hmcn]
      simp only
      apply ih _ i l hlt (by simp only [List.length_set]; omega)
      · simp only
        rw [List.getElem?_set_ne (by omega)]
        exact hl
      · exact hlv
      · exact hvl
      · exact hi0
      · simp only
        rw [idAt_set_of_lt _ _ _ _ (by omega)]
        exact hmis
      · intro j hij hjk
        obtain ⟨m', hm', hmv', hmvl', hmprev', hmcn'⟩ := hpass j hij (by omega)
        refine ⟨m', ?_, hmv', hmvl', ?_, hmcn'⟩
        · simp only
          rw [List.getElem?_set_ne (by omega)]
          exact hm'
        · simp only
          rw [idAt_set_of_lt _ _ _ _ (by omega)]
          exact hmprev'
    · have hki : k = i := by omega
      subst hki
      rw [verifyLoop_succ env sc k l hl, if_neg (by simp [hlv]), hvl]
      simp only
      rw [if_pos ⟨hi0, hmis⟩]

theorem idAt_eq_of_getElem? (links : List ChainLink) (j : Nat) (p : ChainLink)
    (h : links[j]? = some p) : idAt links j = p.id := by
  unfold idAt
  rw [h]

theorem LinkId_Eq_iff (a b : LinkId) : LinkId.Eq a b = true ↔ a = b := by
  simp [LinkId.Eq]

/-- A chain none of whose links is chainVerified and that `VerifyChain`
accepts: every link was checked and marked. -/
theorem verifyChain_ok_of_unverified (env : Env) (sc sc' : SigChain)
    (hnone : ∀ l ∈ sc.chainLinks, l.chainVerified = false)
    (h : sc.VerifyChain env = (sc', none)) :
    ∀ j, j < sc.chainLinks.length → ∃ l, sc.chainLinks[j]? = some l ∧
      sc'.chainLinks[j]? = some { l with chainVerified := true } ∧
      env.verifyLink l = none ∧
      (0 < j → LinkId.Eq (idAt sc.chainLinks (j - 1)) l.prev = true) ∧
      env.checkNameAndId l sc.username sc.uid = none := by
  obtain ⟨m, _, hstop, _, _, hmid⟩ := verifyLoop_ok env _ sc sc' (le_refl _) h
  have hm0 : m = 0 := by
    rcases hstop with h0 | ⟨l, hl, hlv⟩
    · exact h0
    · have hmem : l ∈ sc.chainLinks := List.getElem?_mem hl
      rw [hnone l hmem] at hlv
      exact absurd hlv (by simp)
  intro j hj
  obtain ⟨l, hl, _, hl', hvl, hprev, hcn⟩ := hmid j (by omega) hj
  exact ⟨l, hl, hl', hvl, hprev, hcn⟩

theorem list_set_of_getElem? {α : Type} (l : List α) (i : Nat) (a : α) (h : l[i]? = some a) :
    l.set i a = l := by
  apply List.ext_getElem?
  intro j
  by_cases hij : i = j
  · subst hij
    obtain ⟨hi, _⟩ := List.getElem?_eq_some_iff.mp h
    rw [List.getElem?_set_self hi, h]
  · rw [List.getElem?_set_ne hij]

/-- The loop changes nothing of a chain but the chainVerified flags of its
links. -/
theorem verifyLoop_frame (env : Env) {α : Type} (f : ChainLink → α)
    (hf : ∀ l : ChainLink, f { l with chainVerified := true } = f l) :
    ∀ (n : Nat) (sc : SigChain),
      (SigChain.verifyLoop env sc n).1.chainLinks.map f = sc.chainLinks.map f ∧
      (SigChain.verifyLoop env sc n).1.uid = sc.uid ∧
      (SigChain.verifyLoop env sc n).1.username = sc.username ∧
      (SigChain.verifyLoop env sc n).1.idVerified = sc.idVerified ∧
      (SigChain.verifyLoop env sc n).1.last = sc.last := by
  intro n
  induction n with
  | zero => intro sc; simp [SigChain.verifyLoop]
  | succ i ih =>
    intro sc
    cases hcurr : sc.chainLinks[i]? with
    | none => simp [SigChain.verifyLoop, hcurr]
    | some curr =>
      rw [verifyLoop_succ env sc i curr hcurr]
      by_cases hv : curr.chainVerified = true
      · simp [hv]
      · rw [if_neg hv]
        cases hvl : env.verifyLink curr with
        | some e => simp
        | none =>
          simp only
          by_cases hmis : 0 < i ∧ LinkId.Eq (idAt sc.chainLinks (i - 1)) curr.prev = false
          · rw [if_pos hmis]; simp
          · rw [if_neg hmis]
            cases hcn : env.checkNameAndId curr sc.username sc.uid with
            | some e => simp
            | none =>
              simp only
              obtain ⟨h1, h2, h3, h4, h5⟩ := ih
                { sc with chainLinks := sc.chainLinks.set i { curr with chainVerified := true } }
              refine ⟨?_, h2, h3, h4, h5⟩
              rw [h1]
              simp only
              rw [List.map_set, hf]
              apply list_set_of_getElem?
              rw [List.getElem?_map, hcurr]
              rfl

theorem verifyChain_length (env : Env) (sc : SigChain) :
    (sc.VerifyChain env).1.chainLinks.length = sc.chainLinks.length := by
  have h := (verifyLoop_frame env (fun _ => ()) (fun _ => rfl) sc.chainLinks.length sc).1
  have := congrArg List.length h
  simpa [SigChain.VerifyChain] using this

/-- C1 (amended). For a chain none of whose links is chainVerified
beforehand: (1) when `VerifyChain` returns no error, every link at a position
`i > 0` of the verified chain has its prev equal to the id of the link before
it; (2) a chain with a link at a position `i > 0` whose prev differs from the
id of the link before it is rejected with an error; (3) that error is
"Chain mismatch at seqno=N", `N` the seqno of that link, when the link itself
passes `VerifyLink` and every newer link passes all three checks (the walk is
newest first and returns the first failure it meets). -/
theorem VerifyChain_linkage (env : Env) (sc : SigChain)
    (hnone : ∀ l ∈ sc.chainLinks, l.chainVerified = false) :
    ((sc.VerifyChain env).2 = none →
      ∀ i p l, 0 < i → (sc.VerifyChain env).1.chainLinks[i - 1]? = some p →
        (sc.VerifyChain env).1.chainLinks[i]? = some l → l.prev = p.id) ∧
    (∀ i p l, 0 < i → sc.chainLinks[i - 1]? = some p → sc.chainLinks[i]? = some l →
      l.prev ≠ p.id →
      (sc.VerifyChain env).2 ≠ none ∧
      (env.verifyLink l = none →
        (∀ j q m, i < j → sc.chainLinks[j - 1]? = some q → sc.chainLinks[j]? = some m →
          env.verifyLink m = none ∧ m.prev = q.id ∧
          env.checkNameAndId m sc.username sc.uid = none) →
        (sc.VerifyChain env).2 = some (chainMismatch l.seqno))) := by
  constructor
  · intro hok i p l hi hp hl
    have hrun : sc.VerifyChain env = ((sc.VerifyChain env).1, none) := Prod.ext rfl hok
    have hall := verifyChain_ok_of_unverified env sc _ hnone hrun
    have hlen := verifyChain_length env sc
    have hil : i < sc.chainLinks.length := by
      obtain ⟨h, _⟩ := List.getElem?_eq_some_iff.mp hl
      omega
    obtain ⟨l0, hl0, hl0', _, hprev, _⟩ := hall i hil
    obtain ⟨p0, hp0, hp0', _, _, _⟩ := hall (i - 1) (by omega)
    rw [hl0'] at hl
    rw [hp0'] at hp
    have h1 := (LinkId_Eq_iff _ _).mp (hprev hi)
    rw [idAt_eq_of_getElem? _ _ _ hp0] at h1
    cases hl
    cases hp
    exact h1.symm
  · intro i p l hi hp hl hne
    constructor
    · intro hok
      have hrun : sc.VerifyChain env = ((sc.VerifyChain env).1, none) := Prod.ext rfl hok
      have hall := verifyChain_ok_of_unverified env sc _ hnone hrun
      obtain ⟨h, _⟩ := List.getElem?_eq_some_iff.mp hl
      obtain ⟨l0, hl0, _, _, hprev, _⟩ := hall i h
      rw [hl] at hl0
      cases hl0
      have h1 := (LinkId_Eq_iff _ _).mp (hprev hi)
      rw [idAt_eq_of_getElem? _ _ _ hp] at h1
      exact hne h1.symm
    · intro hvl hpass
      apply verifyLoop_mismatch env _ sc i l (List.getElem?_eq_some_iff.mp hl).1 (le_refl _) hl
        (hnone l (List.getElem?_mem hl)) hvl hi
      · rw [idAt_eq_of_getElem? _ _ _ hp]
        cases hEq : LinkId.Eq p.id l.prev with
        | false => rfl
        | true => exact absurd ((LinkId_Eq_iff _ _).mp hEq).symm hne
      · intro j hij hj
        have hj1 : j - 1 < sc.chainLinks.length := by omega
        have hm : sc.chainLinks[j]? = some sc.chainLinks[j] := List.getElem?_eq_getElem hj
        have hq : sc.chainLinks[j - 1]? = some sc.chainLinks[j - 1] := List.getElem?_eq_getElem hj1
        obtain ⟨h1, h2, h3⟩ := hpass j _ _ hij hq hm
        refine ⟨_, hm, hnone _ (List.getElem?_mem hm), h1, ?_, h3⟩
        rw [idAt_eq_of_getElem? _ _ _ hq]
        exact (LinkId_Eq_iff _ _).mpr h2.symm

/-- C1, witness: the three well-linked links of `goodChain`, none of them
chainVerified, are accepted and linked. -/
theorem VerifyChain_linkage_witness :
    (∀ l ∈ goodChain.chainLinks, l.chainVerified = false) ∧
    (goodChain.VerifyChain passEnv).2 = none ∧
    ∀ i p l, 0 < i → (goodChain.VerifyChain passEnv).1.chainLinks[i - 1]? = some p →
      (goodChain.VerifyChain passEnv).1.chainLinks[i]? = some l → l.prev = p.id :=
  ⟨by decide, by decide,
    (VerifyChain_linkage passEnv goodChain (by decide)).1 (by decide)⟩

/-- C1, counterexample: a link at a position `i > 0` with a wrong prev does
not always give "Chain mismatch" at its own seqno. In `twiceBrokenChain` the
links of seqno 2 and 3 both have a wrong prev and the error names seqno 3
only; in `brokenChain` with a newer link that fails `VerifyLink` the error is
that of `VerifyLink`. -/
theorem VerifyChain_linkage_counterexample :
    ((∀ l ∈ twiceBrokenChain.chainLinks, l.chainVerified = false) ∧
      twiceBrokenChain.chainLinks[0]? = some (mkLink 1 none 1 false) ∧
      twiceBrokenChain.chainLinks[1]? = some (mkLink 2 (some [9]) 2 false) ∧
      (mkLink 2 (some [9]) 2 false).prev ≠ (mkLink 1 none 1 false).id ∧
      (twiceBrokenChain.VerifyChain passEnv).2 = some (chainMismatch 3) ∧
      (twiceBrokenChain.VerifyChain passEnv).2 ≠ some (chainMismatch 2)) ∧
    ((∀ l ∈ brokenChain.chainLinks, l.chainVerified = false) ∧
      brokenChain.chainLinks[1]? = some (mkLink 2 (some [9]) 2 false) ∧
      (brokenChain.VerifyChain badSigEnv).2 = some ⟨ErrorKind.external, "bad signature"⟩ ∧
      (brokenChain.VerifyChain badSigEnv).2 ≠ some (chainMismatch 2)) := by
  decide

/-- C2, the code at the failing input: `brokenChain` satisfies the closure
(no link is chainVerified); `VerifyChain` returns "Chain mismatch at seqno=2"
and leaves the newest link chainVerified above two links that are not, so the
closure no longer holds. A second `VerifyChain` on the chain so left returns
no error. -/
theorem VerifyChain_error_breaks_closure :
    brokenChain.chainLinks.Pairwise (fun p l => l.chainVerified = true → p.chainVerified = true) ∧
    (brokenChain.VerifyChain passEnv).2 = some (chainMismatch 2) ∧
    (brokenChain.VerifyChain passEnv).1.chainLinks.map (fun l => l.chainVerified)
      = [false, false, true] ∧
    ¬ (brokenChain.VerifyChain passEnv).1.chainLinks.Pairwise
      (fun p l => l.chainVerified = true → p.chainVerified = true) ∧
    ((brokenChain.VerifyChain passEnv).1.VerifyChain passEnv).2 = none := by
  decide

/-- C3 (amended). For a chain in which every link before a chainVerified link
is itself chainVerified, when `VerifyChain` returns no error every link of
the chain is chainVerified. -/
theorem VerifyChain_marks_all (env : Env) (sc : SigChain)
    (hclosed : sc.chainLinks.Pairwise
      (fun p l => l.chainVerified = true → p.chainVerified = true))
    (hok : (sc.VerifyChain env).2 = none) :
    ∀ l ∈ (sc.VerifyChain env).1.chainLinks, l.chainVerified = true := by
  have hrun : sc.VerifyChain env = ((sc.VerifyChain env).1, none) := Prod.ext rfl hok
  obtain ⟨m, _, hstop, hlow, _, hmid⟩ := verifyLoop_ok env _ sc _ (le_refl _) hrun
  have hlen := verifyChain_length env sc
  intro l hl
  obtain ⟨j, hj⟩ := List.mem_iff_getElem?.mp hl
  have hjl : j < sc.chainLinks.length := by
    obtain ⟨h, _⟩ := List.getElem?_eq_some_iff.mp hj
    omega
  rcases Nat.lt_or_ge j m with hjm | hjm
  · rw [hlow j hjm] at hj
    rcases hstop with h0 | ⟨l0, hl0, hl0v⟩
    · omega
    · rcases Nat.lt_or_ge j (m - 1) with hlt | hge
      · obtain ⟨h1, e1⟩ := List.getElem?_eq_some_iff.mp hj
        obtain ⟨h2, e2⟩ := List.getElem?_eq_some_iff.mp hl0
        have := List.pairwise_iff_getElem.mp hclosed j (m - 1) h1 h2 hlt
        rw [e1, e2] at this
        exact this hl0v
      · have hje : j = m - 1 := by omega
        rw [hje, hl0] at hj
        cases hj
        exact hl0v
  · obtain ⟨l0, _, _, hl0', _⟩ := hmid j hjm hjl
    rw [hl0'] at hj
    cases hj
    rfl

/-- C3, witness: `cachedChain` (older link chainVerified, newer one not) is
closed and accepted, and both links are chainVerified afterwards. -/
theorem VerifyChain_marks_all_witness :
    cachedChain.chainLinks.Pairwise (fun p l => l.chainVerified = true → p.chainVerified = true) ∧
    (cachedChain.VerifyChain passEnv).2 = none ∧
    ∀ l ∈ (cachedChain.VerifyChain passEnv).1.chainLinks, l.chainVerified = true :=
  ⟨by decide, by decide, VerifyChain_marks_all passEnv cachedChain (by decide) (by decide)⟩

/-- C3, counterexample: `staleChain` has its newer link chainVerified and its
older link not; `VerifyChain` stops at the newer link, returns no error and
leaves the older link unverified. -/
theorem VerifyChain_marks_all_counterexample :
    (staleChain.VerifyChain passEnv).2 = none ∧
    (staleChain.VerifyChain passEnv).1.chainLinks.map (fun l => l.chainVerified)
      = [false, true] ∧
    ¬ ∀ l ∈ (staleChain.VerifyChain passEnv).1.chainLinks, l.chainVerified = true := by
  decide

/-! ## `LoadFromServer` -/

/-- What the loop of `LoadFromServer` has done when it ends without error:
every element was imported, the accepted links are those of seqno above
`low`, in order; the tail is the last accepted link; the Merkle tail was
found when an accepted link has the id and seqno of the triple. -/
theorem loadLoop_ok (low : Seqno) (t : Option MerkleTriple) :
    ∀ (sigs : List (Except Error ChainLink)) (st st' : LoadState),
      SigChain.loadLoop low t sigs st = Except.ok st' →
      ∃ links : List ChainLink, sigs = links.map Except.ok ∧
        st'.links = st.links ++ links.filter (fun l => decide (low < l.seqno)) ∧
        st'.tail = ((links.filter (fun l => decide (low < l.seqno))).getLast?).or st.tail ∧
        st'.found_tail = (st.found_tail ||
          match t with
          | some tr => (links.filter (fun l => decide (low < l.seqno))).any
              (fun l => decide (l.id = tr.linkId ∧ l.seqno = tr.seqno))
          | none => false) := by
  intro sigs
  induction sigs with
  | nil =>
    intro st st' h
    simp only [SigChain.loadLoop] at h
    cases h
    refine ⟨[], rfl, by simp, by simp, ?_⟩
    cases t <;> simp
  | cons s rest ih =>
    intro st st' h
    cases s with
    | error e => simp [SigChain.loadLoop] at h
    | ok link =>
      rw [SigChain.loadLoop.eq_def] at h
      simp only at h
      by_cases hlow : link.seqno ≤ low
      · rw [if_pos hlow] at h
        obtain ⟨links, hs, h1, h2, h3⟩ := ih st st' h
        have hf : decide (low < link.seqno) = false := decide_eq_false (not_lt.mpr hlow)
        refine ⟨link :: links, by simp [hs], ?_, ?_, ?_⟩
        · rw [List.filter_cons_of_neg (by simp [hf])]; exact h1
        · rw [List.filter_cons_of_neg (by simp [hf])]; exact h2
        · rw [List.filter_cons_of_neg (by simp [hf])]; exact h3
      · rw [if_neg hlow] at h
        have hf : decide (low < link.seqno) = true := decide_eq_true (not_le.mp hlow)
        cases t with
        | none =>
          simp only at h
          obtain ⟨links, hs, h1, h2, h3⟩ := ih _ st' h
          refine ⟨link :: links, by simp [hs], ?_, ?_, ?_⟩
          · rw [List.filter_cons_of_pos (by simp [hf]), h1]; simp
          · rw [List.filter_cons_of_pos (by simp [hf]), h2]
            simp only
            cases hg : (links.filter (fun l => decide (low < l.seqno))).getLast? with
            | none =>
              have : links.filter (fun l => decide (low < l.seqno)) = [] := by
                simpa using hg
              simp [this]
            | some x =>
              rw [List.getLast?_cons, hg]
              simp
          · rw [h3]
        | some tr =>
          simp only at h
          by_cases hft : st.found_tail = false
          · rw [if_pos hft] at h
            simp only [ChainLink.checkAgainstMerkleTree] at h
            obtain ⟨links, hs, h1, h2, h3⟩ := ih _ st' h
            refine ⟨link :: links, by simp [hs], ?_, ?_, ?_⟩
            · rw [List.filter_cons_of_pos (by simp [hf]), h1]; simp
            · rw [List.filter_cons_of_pos (by simp [hf]), h2]
              simp only
              cases hg : (links.filter (fun l => decide (low < l.seqno))).getLast? with
              | none =>
                have : links.filter (fun l => decide (low < l.seqno)) = [] := by
                  simpa using hg
                simp [this]
              | some x =>
                rw [List.getLast?_cons, hg]
                simp
            · rw [h3, List.filter_cons_of_pos (by simp [hf]), hft]
              simp
          · rw [if_neg hft] at h
            obtain ⟨links, hs, h1, h2, h3⟩ := ih _ st' h
            have hft' : st.found_tail = true := by simpa using hft
            refine ⟨link :: links, by simp [hs], ?_, ?_, ?_⟩
            · rw [List.filter_cons_of_pos (by simp [hf]), h1]; simp
            · rw [List.filter_cons_of_pos (by simp [hf]), h2]
              simp only
              cases hg : (links.filter (fun l => decide (low < l.seqno))).getLast? with
              | none =>
                have : links.filter (fun l => decide (low < l.seqno)) = [] := by
                  simpa using hg
                simp [this]
              | some x =>
                rw [List.getLast?_cons, hg]
                simp
            · rw [h3, hft']
              simp

/-- On a response all of whose elements were imported, the loop of
`LoadFromServer` ends without error. -/
theorem loadLoop_total (low : Seqno) (t : Option MerkleTriple) :
    ∀ (links : List ChainLink) (st : LoadState),
      ∃ st', SigChain.loadLoop low t (links.map Except.ok) st = Except.ok st' := by
  intro links
  induction links with
  | nil => intro st; exact ⟨st, by simp [SigChain.loadLoop]⟩
  | cons link rest ih =>
    intro st
    rw [List.map_cons, SigChain.loadLoop.eq_def]
    simp only
    by_cases hlow : link.seqno ≤ low
    · rw [if_pos hlow]; exact ih st
    · rw [if_neg hlow]
      cases t with
      | none => exact ih _
      | some tr =>
        simp only
        by_cases hft : st.found_tail = false
        · rw [if_pos hft]
          simp only [ChainLink.checkAgainstMerkleTree]
          exact ih _
        · rw [if_neg hft]; exact ih _

/-- A call of `LoadFromServer` that returns an error leaves the chain as it
was and returns no dirty tail. -/
theorem LoadFromServer_error_keeps_chain (resp : ServerResponse) (sc : SigChain)
    (t : Option MerkleTriple) (h : (sc.LoadFromServer resp t).2.2 ≠ none) :
    (sc.LoadFromServer resp t).1 = sc ∧ (sc.LoadFromServer resp t).2.1 = none := by
  unfold SigChain.LoadFromServer at h ⊢
  cases resp with
  | error e => simp
  | ok sigs =>
    simp only at h ⊢
    cases hloop : SigChain.loadLoop sc.GetLastSeqno t sigs ⟨[], none, false⟩ with
    | error e => simp
    | ok st =>
      rw [hloop] at h
      simp only at h ⊢
      cases t with
      | none =>
        exfalso
        cases htail : st.tail <;> simp [htail] at h
      | some tr =>
        cases hft : st.found_tail with
        | false => simp
        | true =>
          exfalso
          rw [hft] at h
          cases htail : st.tail <;> simp [htail] at h

/-- C6. When `LoadFromServer` succeeds, every element of the response was
imported into a link, the new link list is the old one followed by the
response links of seqno greater than `low = GetLastSeqno()` (taken before the
call), in response order, and the dirty tail returned is the summary of the
last accepted link, nil when none was accepted. -/
theorem LoadFromServer_append (resp : ServerResponse) (sc sc' : SigChain)
    (t : Option MerkleTriple) (dirtyTail : Option LinkSummary)
    (h : sc.LoadFromServer resp t = (sc', dirtyTail, none)) :
    ∃ links : List ChainLink, resp = Except.ok (links.map Except.ok) ∧
      sc'.chainLinks =
        sc.chainLinks ++ links.filter (fun l => decide (sc.GetLastSeqno < l.seqno)) ∧
      dirtyTail = ((links.filter (fun l => decide (sc.GetLastSeqno < l.seqno))).getLast?).map
        ChainLink.ToLinkSummary := by
  unfold SigChain.LoadFromServer at h
  cases resp with
  | error e => simp at h
  | ok sigs =>
    simp only at h
    cases hloop : SigChain.loadLoop sc.GetLastSeqno t sigs ⟨[], none, false⟩ with
    | error e => rw [hloop] at h; simp at h
    | ok st =>
      rw [hloop] at h
      simp only at h
      obtain ⟨links, hs, h1, h2, _⟩ := loadLoop_ok _ _ _ _ _ hloop
      simp only [List.nil_append, Option.or_none] at h1 h2
      refine ⟨links, by rw [hs], ?_⟩
      rw [← h2, ← h1]
      have key : ∀ r : SigChain × Option LinkSummary × Option Error,
          (match st.tail with
            | none => ({ sc with chainLinks := sc.chainLinks ++ st.links }, none, none)
            | some tail =>
              ({ sc with
                  last := (match sc.last with
                    | some l => if l.Less tail.ToLinkSummary then none else some l
                    | none => none),
                  chainLinks := sc.chainLinks ++ st.links },
                some tail.ToLinkSummary, none)) = r →
          r = (sc', dirtyTail, none) →
          sc'.chainLinks = sc.chainLinks ++ st.links ∧
            dirtyTail = st.tail.map ChainLink.ToLinkSummary := by
        intro r hr hr'
        cases htail : st.tail with
        | none =>
          rw [htail] at hr
          simp only at hr
          rw [← hr] at hr'
          cases hr'
          exact ⟨rfl, rfl⟩
        | some tail =>
          rw [htail] at hr
          simp only at hr
          rw [← hr] at hr'
          cases hr'
          exact ⟨rfl, rfl⟩
      cases t with
      | none => exact key _ rfl h
      | some tr =>
        cases hft : st.found_tail with
        | false => rw [hft] at h; simp at h
        | true => rw [hft] at h; exact key _ rfl h

/-- C6, witness: `oneLinkChain` loads the link of seqno 2; the chain becomes
the old link followed by the new one and the dirty tail is its summary. -/
theorem LoadFromServer_append_witness :
    oneLinkChain.LoadFromServer nextResponse (some nextTriple) =
      (mkChain [mkLink 1 none 1 true, nextLink], some ⟨some [2], 2⟩, none) ∧
    ∃ links : List ChainLink, nextResponse = Except.ok (links.map Except.ok) ∧
      (mkChain [mkLink 1 none 1 true, nextLink]).chainLinks =
        oneLinkChain.chainLinks ++
          links.filter (fun l => decide (oneLinkChain.GetLastSeqno < l.seqno)) ∧
      some (⟨some [2], 2⟩ : LinkSummary) =
        ((links.filter (fun l => decide (oneLinkChain.GetLastSeqno < l.seqno))).getLast?).map
          ChainLink.ToLinkSummary :=
  ⟨by decide, LoadFromServer_append nextResponse oneLinkChain _ (some nextTriple) _ (by decide)⟩

/-- C7. For a non-nil triple and a response whose elements were all imported
into links, when no accepted link (seqno above `low`) has the seqno and the
id of the triple, `LoadFromServer` returns the ServerChainError
"Failed to reach (id, seqno) in server response", no dirty tail, and the
chain exactly as it was (link list and cached last summary included). -/
theorem LoadFromServer_tail_not_reached (sc : SigChain) (tr : MerkleTriple)
    (links : List ChainLink)
    (hno : ∀ l ∈ links, sc.GetLastSeqno < l.seqno → ¬ (l.seqno = tr.seqno ∧ l.id = tr.linkId)) :
    sc.LoadFromServer (Except.ok (links.map Except.ok)) (some tr) =
      (sc, none, some (failedToReach tr)) ∧
    (failedToReach tr).kind = ErrorKind.serverChain := by
  refine ⟨?_, rfl⟩
  obtain ⟨st, hst⟩ := loadLoop_total sc.GetLastSeqno (some tr) links ⟨[], none, false⟩
  obtain ⟨links', hs, _, _, h3⟩ := loadLoop_ok _ _ _ _ _ hst
  have hinj : links' = links := by
    have hinj' : Function.Injective (Except.ok : ChainLink → Except Error ChainLink) := by
      intro a b hab
      cases hab
      rfl
    exact (List.map_injective_iff.mpr hinj' hs).symm
  subst hinj
  have hft : st.found_tail = false := by
    rw [h3]
    simp only [Bool.false_or]
    rw [List.any_eq_false]
    intro l hl
    rw [List.mem_filter] at hl
    have hlow : sc.GetLastSeqno < l.seqno := by simpa using hl.2
    have := hno l hl.1 hlow
    simp only [decide_eq_true_eq]
    intro hcontra
    exact this ⟨hcontra.2, hcontra.1⟩
  unfold SigChain.LoadFromServer
  simp only
  rw [hst]
  simp only [hft]

/-- C7, witness: the response with the link of seqno 3 against a triple that
names seqno 2: the call fails and `oneLinkChain` is unchanged. -/
theorem LoadFromServer_tail_not_reached_witness :
    (∀ l ∈ [gapLink], oneLinkChain.GetLastSeqno < l.seqno →
      ¬ (l.seqno = nextTriple.seqno ∧ l.id = nextTriple.linkId)) ∧
    oneLinkChain.LoadFromServer (Except.ok ([gapLink].map Except.ok)) (some nextTriple) =
      (oneLinkChain, none, some (failedToReach nextTriple)) ∧
    (failedToReach nextTriple).kind = ErrorKind.serverChain :=
  ⟨by decide, LoadFromServer_tail_not_reached oneLinkChain nextTriple [gapLink] (by decide)⟩

/-- C4 (amended). For a chain whose links satisfy `links[i].seqno == i+1`,
after `LoadFromServer` succeeds and the following `VerifyChain` succeeds, the
links that were there before keep their places and seqnos
(`links[i].seqno == i+1` below the old length) and every appended link has a
seqno greater than `low = GetLastSeqno()` taken before the load. -/
theorem LoadFromServer_seqno (env : Env) (resp : ServerResponse) (sc sc1 sc2 : SigChain)
    (t : Option MerkleTriple) (dirtyTail : Option LinkSummary)
    (hP2 : ∀ i (h : i < sc.chainLinks.length), sc.chainLinks[i].seqno = (i : Int) + 1)
    (hload : sc.LoadFromServer resp t = (sc1, dirtyTail, none))
    (hver : sc1.VerifyChain env = (sc2, none)) :
    sc.chainLinks.length ≤ sc2.chainLinks.length ∧
    (∀ i l, i < sc.chainLinks.length → sc2.chainLinks[i]? = some l → l.seqno = (i : Int) + 1) ∧
    (∀ i l, sc.chainLinks.length ≤ i → sc2.chainLinks[i]? = some l →
      sc.GetLastSeqno < l.seqno) := by
  obtain ⟨links, _, happ, _⟩ := LoadFromServer_append resp sc sc1 t dirtyTail hload
  have hframe := (verifyLoop_frame env (fun l => l.seqno) (fun _ => rfl)
    sc1.chainLinks.length sc1).1
  have hver' : SigChain.verifyLoop env sc1 sc1.chainLinks.length = (sc2, none) := hver
  rw [hver', happ] at hframe
  simp only at hframe
  have hlen : sc2.chainLinks.length =
      sc.chainLinks.length + (links.filter (fun l => decide (sc.GetLastSeqno < l.seqno))).length := by
    have := congrArg List.length hframe
    simpa using this
  have hget : ∀ (i : Nat) (l : ChainLink), sc2.chainLinks[i]? = some l →
      ((sc.chainLinks ++ links.filter (fun l => decide (sc.GetLastSeqno < l.seqno)))[i]?).map
        (fun l => l.seqno) = some l.seqno := by
    intro i l hl
    have := congrArg (fun xs => xs[i]?) hframe
    simp only [List.getElem?_map] at this
    rw [← this, hl]
    rfl
  refine ⟨by omega, ?_, ?_⟩
  · intro i l hi hl
    have h1 := hget i l hl
    rw [List.getElem?_append_left hi, List.getElem?_eq_getElem hi] at h1
    simp only [Option.map_some', Option.some.injEq] at h1
    rw [← h1]
    exact hP2 i hi
  · intro i l hi hl
    have h1 := hget i l hl
    rw [List.getElem?_append_right hi] at h1
    cases hx : (links.filter (fun l => decide (sc.GetLastSeqno < l.seqno)))[i - sc.chainLinks.length]? with
    | none => rw [hx] at h1; simp at h1
    | some x =>
      rw [hx] at h1
      simp only [Option.map_some', Option.some.injEq] at h1
      have hmem := List.getElem?_mem hx
      rw [List.mem_filter] at hmem
      rw [← h1]
      simpa using hmem.2

/-- C4, witness: `oneLinkChain` loads the link of seqno 2 and verifies. -/
theorem LoadFromServer_seqno_witness :
    (∀ i (h : i < oneLinkChain.chainLinks.length),
      oneLinkChain.chainLinks[i].seqno = (i : Int) + 1) ∧
    oneLinkChain.chainLinks.length ≤ (mkChain [mkLink 1 none 1 true,
      mkLink 2 (some [1]) 2 true]).chainLinks.length ∧
    (∀ i l, i < oneLinkChain.chainLinks.length →
      (mkChain [mkLink 1 none 1 true, mkLink 2 (some [1]) 2 true]).chainLinks[i]? = some l →
      l.seqno = (i : Int) + 1) ∧
    (∀ i l, oneLinkChain.chainLinks.length ≤ i →
      (mkChain [mkLink 1 none 1 true, mkLink 2 (some [1]) 2 true]).chainLinks[i]? = some l →
      oneLinkChain.GetLastSeqno < l.seqno) :=
  ⟨by decide,
    LoadFromServer_seqno passEnv nextResponse oneLinkChain
      (mkChain [mkLink 1 none 1 true, nextLink])
      (mkChain [mkLink 1 none 1 true, mkLink 2 (some [1]) 2 true])
      (some nextTriple) (some ⟨some [2], 2⟩) (by decide) (by decide) (by decide)⟩

/-- C4, counterexample: `oneLinkChain` satisfies `links[i].seqno == i+1`; the
server answers with one link of seqno 3 whose prev is the id of link 1, named
by the Merkle triple. `LoadFromServer` succeeds, `VerifyChain` succeeds, and
the chain now has the seqnos 1, 3: `links[1].seqno` is 3, not 2. -/
theorem LoadFromServer_seqno_counterexample :
    (∀ i (h : i < oneLinkChain.chainLinks.length),
      oneLinkChain.chainLinks[i].seqno = (i : Int) + 1) ∧
    (oneLinkChain.LoadFromServer gapResponse (some gapTriple)).2.2 = none ∧
    ((oneLinkChain.LoadFromServer gapResponse (some gapTriple)).1.VerifyChain passEnv).2 = none ∧
    ((oneLinkChain.LoadFromServer gapResponse (some gapTriple)).1.VerifyChain
      passEnv).1.chainLinks.map (fun l => l.seqno) = [1, 3] ∧
    ¬ (∀ i (h : i < ((oneLinkChain.LoadFromServer gapResponse (some gapTriple)).1.VerifyChain
        passEnv).1.chainLinks.length),
      ((oneLinkChain.LoadFromServer gapResponse (some gapTriple)).1.VerifyChain
        passEnv).1.chainLinks[i].seqno = (i : Int) + 1) := by
  decide

/-! ## `CheckFreshness` -/

/-- C5. `CheckFreshness` against the freshness table, for a local last seqno
`a = GetLastSeqno()` that is a sequence number (`0 ≤ a`, 0 for the empty
chain) and every Merkle triple `t`: `t` nil and `a > 0` is an error; `t` nil
and `a = 0` is current=false without error; `t.seqno < a` is an error;
`t.seqno = a` is current=true, with an error exactly when the local last id
is nil or differs from `t.linkId`; `t.seqno > a` is current=false without
error. Every error is a ServerChainError. -/
theorem CheckFreshness_table (sc : SigChain) (t : Option MerkleTriple)
    (ha : 0 ≤ sc.GetLastSeqno) :
    (t = none → 0 < sc.GetLastSeqno →
      (sc.CheckFreshness t).1 = false ∧
      ∃ msg, (sc.CheckFreshness t).2 = some (NewServerChainError msg)) ∧
    (t = none → sc.GetLastSeqno = 0 → sc.CheckFreshness t = (false, none)) ∧
    (∀ tr, t = some tr → tr.seqno < sc.GetLastSeqno →
      (sc.CheckFreshness t).1 = false ∧
      ∃ msg, (sc.CheckFreshness t).2 = some (NewServerChainError msg)) ∧
    (∀ tr, t = some tr → tr.seqno = sc.GetLastSeqno →
      (sc.CheckFreshness t).1 = true ∧
      ((sc.CheckFreshness t).2 ≠ none ↔ (sc.GetLastId = none ∨ sc.GetLastId ≠ tr.linkId)) ∧
      ∀ e, (sc.CheckFreshness t).2 = some e → e.kind = ErrorKind.serverChain) ∧
    (∀ tr, t = some tr → sc.GetLastSeqno < tr.seqno → sc.CheckFreshness t = (false, none)) := by
  refine ⟨?_, ?_, ?_, ?_, ?_⟩
  · intro ht hpos
    subst ht
    simp only [SigChain.CheckFreshness]
    rw [if_pos hpos]
    exact ⟨rfl, _, rfl⟩
  · intro ht h0
    subst ht
    simp only [SigChain.CheckFreshness]
    rw [if_neg (by rw [h0]; exact lt_irrefl _)]
  · intro tr ht hlt
    subst ht
    simp only [SigChain.CheckFreshness]
    rw [if_pos (Or.inr hlt)]
    exact ⟨rfl, _, rfl⟩
  · intro tr ht heq
    subst ht
    simp only [SigChain.CheckFreshness]
    have hnot : ¬ (tr.seqno < 0 ∨ sc.GetLastSeqno > tr.seqno) := by
      rw [heq]
      rintro (h | h)
      · exact absurd h (not_lt.mpr ha)
      · exact lt_irrefl _ h
    rw [if_neg hnot, if_pos heq]
    cases hid : sc.GetLastId with
    | none =>
      refine ⟨rfl, ?_, ?_⟩
      · simp
      · intro e he
        cases he
        rfl
    | some lastId =>
      simp only
      cases hEq : LinkId.Eq (some lastId) tr.linkId with
      | false =>
        have hne : some lastId ≠ tr.linkId := by
          intro h
          rw [(LinkId_Eq_iff _ _).mpr h] at hEq
          exact absurd hEq (by simp)
        refine ⟨rfl, ?_, ?_⟩
        · simp [hne]
        · intro e he
          simp only [if_true] at he
          cases he
          rfl
      | true =>
        have he := (LinkId_Eq_iff _ _).mp hEq
        refine ⟨rfl, ?_, ?_⟩
        · rw [← he]
          simp
        · intro e he'
          simp at he'
  · intro tr ht hgt
    subst ht
    simp only [SigChain.CheckFreshness]
    have hnot : ¬ (tr.seqno < 0 ∨ sc.GetLastSeqno > tr.seqno) := by
      rintro (h | h)
      · exact absurd (lt_trans hgt h) (not_lt.mpr ha)
      · exact lt_asymm hgt h
    rw [if_neg hnot, if_neg (ne_of_gt hgt)]

/-- C5, witness: `oneLinkChain` (last seqno 1) against the triple of its own
link is current without error. -/
theorem CheckFreshness_table_witness :
    0 ≤ oneLinkChain.GetLastSeqno ∧
    oneLinkChain.CheckFreshness (some oneTriple) = (true, none) ∧
    (oneLinkChain.CheckFreshness (some oneTriple)).1 = true ∧
    ((oneLinkChain.CheckFreshness (some oneTriple)).2 ≠ none ↔
      (oneLinkChain.GetLastId = none ∨ oneLinkChain.GetLastId ≠ oneTriple.linkId)) :=
  ⟨by decide, by decide,
    ((CheckFreshness_table oneLinkChain (some oneTriple) (by decide)).2.2.2.1
      oneTriple rfl (by decide)).1,
    ((CheckFreshness_table oneLinkChain (some oneTriple) (by decide)).2.2.2.1
      oneTriple rfl (by decide)).2.1⟩

/-! ## Key family: eldest discovery and import -/

theorem findEldestStep_eq (kf : KeyFamily) (v : ServerKeyRecord) :
    kf.findEldestStep v = kf.setEldest (eldestCandidate v) := by
  unfold KeyFamily.findEldestStep eldestCandidate
  cases v.EldestKid <;> rfl

/-- The method `setEldest` on a family whose eldest is not set yet and a
well-formed hex string. -/
theorem setEldest_unset (kf : KeyFamily) (hx : String) (bs : List Byte)
    (hunset : kf.eldest = none) (hhex : hexDecode hx = some bs) :
    kf.setEldest hx = ({ kf with eldest := some ⟨some bs, none⟩ }, none) := by
  simp [KeyFamily.setEldest, ImportKID, hhex, hunset]

/-- The method `setEldest` on a family whose eldest KID is `bs`: a hex string
of the same KID is accepted, one of another KID is a KeyFamilyError; the
family is not changed. -/
theorem setEldest_set (kf : KeyFamily) (hx : String) (bs bs' : List Byte)
    (fp : Option PgpFingerprint)
    (hset : kf.eldest = some ⟨some bs, fp⟩) (hhex : hexDecode hx = some bs') :
    (bs = bs' → kf.setEldest hx = (kf, none)) ∧
    (bs ≠ bs' → ∃ msg, kf.setEldest hx = (kf, some ⟨ErrorKind.keyFamily, msg⟩)) := by
  constructor
  · intro h
    simp [KeyFamily.setEldest, ImportKID, hhex, hset, FOKID.EqKid, KID.Eq, SecureByteArrayEq,
      bytesOf, h]
  · intro h
    refine ⟨"Kid mismatch: " ++ KID.ToString (some bs) ++ " != " ++ hx, ?_⟩
    simp [KeyFamily.setEldest, ImportKID, hhex, hset, FOKID.EqKid, KID.Eq, SecureByteArrayEq,
      bytesOf, h]

/-- The loop of `findEldest` on a family whose eldest KID is set: when some
record visited names another KID, the loop ends in a KeyFamilyError and the
family stays as it was. -/
theorem findEldestLoop_conflict :
    ∀ (order : List (String × ServerKeyRecord)) (kf : KeyFamily) (bs : List Byte)
      (fp : Option PgpFingerprint), kf.eldest = some ⟨some bs, fp⟩ →
      (∀ e ∈ order, (hexDecode (eldestCandidate e.2)).isSome = true) →
      (∃ e ∈ order, hexDecode (eldestCandidate e.2) ≠ some bs) →
      ∃ msg, kf.findEldestLoop order = (kf, some ⟨ErrorKind.keyFamily, msg⟩) := by
  intro order
  induction order with
  | nil => intro kf bs fp _ _ h; obtain ⟨e, he, _⟩ := h; simp at he
  | cons x rest ih =>
    intro kf bs fp hset hvalid hex
    obtain ⟨k, v⟩ := x
    obtain ⟨bs', hbs'⟩ := Option.isSome_iff_exists.mp (hvalid (k, v) (List.mem_cons_self _ _))
    simp only at hbs'
    have hstep := setEldest_set kf (eldestCandidate v) bs bs' fp hset hbs'
    rw [KeyFamily.findEldestLoop, findEldestStep_eq]
    by_cases hsame : bs = bs'
    · rw [hstep.1 hsame]
      simp only
      apply ih kf bs fp hset (fun e he => hvalid e (List.mem_cons_of_mem _ he))
      obtain ⟨e, he, hne⟩ := hex
      rcases List.mem_cons.mp he with h1 | h1
      · exfalso
        apply hne
        rw [h1]
        simp only
        rw [hbs', hsame]
      · exact ⟨e, h1, hne⟩
    · obtain ⟨msg, hmsg⟩ := hstep.2 hsame
      rw [hmsg]
      exact ⟨msg, rfl⟩

/-- The method `findEldest` on a family whose eldest is not set and two of
whose sibkeys name different KIDs: a KeyFamilyError, and the eldest is left
set to the KID named by the first sibkey visited. -/
theorem findEldest_first_kept (env : KeyEnv) (kf : KeyFamily)
    (first : String × ServerKeyRecord) (rest : List (String × ServerKeyRecord))
    (a b : String × ServerKeyRecord)
    (horder : kf.Sibkeys = first :: rest) (hunset : kf.eldest = none)
    (hvalid : ∀ e ∈ kf.Sibkeys, (hexDecode (eldestCandidate e.2)).isSome = true)
    (ha : a ∈ kf.Sibkeys) (hb : b ∈ kf.Sibkeys)
    (hdiff : hexDecode (eldestCandidate a.2) ≠ hexDecode (eldestCandidate b.2)) :
    ∃ msg, KeyFamily.findEldest env kf =
      ({ kf with eldest := some ⟨hexDecode (eldestCandidate first.2), none⟩ },
        some ⟨ErrorKind.keyFamily, msg⟩) := by
  rw [horder] at hvalid ha hb
  obtain ⟨bs, hbs⟩ := Option.isSome_iff_exists.mp (hvalid first (List.mem_cons_self _ _))
  have hrest : ∃ e ∈ rest, hexDecode (eldestCandidate e.2) ≠ some bs := by
    by_cases hab : hexDecode (eldestCandidate a.2) = some bs
    · have hb' : hexDecode (eldestCandidate b.2) ≠ some bs := fun h => hdiff (hab.trans h.symm)
      rcases List.mem_cons.mp hb with h1 | h1
      · exact absurd (by rw [h1]; exact hbs) hb'
      · exact ⟨b, h1, hb'⟩
    · rcases List.mem_cons.mp ha with h1 | h1
      · exact absurd (by rw [h1]; exact hbs) hab
      · exact ⟨a, h1, hab⟩
  obtain ⟨msg, hmsg⟩ := findEldestLoop_conflict rest
    { kf with eldest := some ⟨some bs, none⟩ } bs none rfl
    (fun e he => hvalid e (List.mem_cons_of_mem _ he)) hrest
  refine ⟨msg, ?_⟩
  obtain ⟨k, v⟩ := first
  simp only at hbs
  unfold KeyFamily.findEldest
  rw [horder, KeyFamily.findEldestLoop, findEldestStep_eq, setEldest_unset kf _ bs hunset hbs]
  simp only
  rw [hmsg, hbs]
  simp only [horder]

/-- C8 (amended). Take a family whose eldest is not set, all of whose sibkeys
name a well-formed hex KID (`eldest_kid`, else `kid`), two of them naming
different KIDs. Whatever order the sibkeys are visited in, `findEldest`
returns a KeyFamilyError and leaves the family's eldest set to the KID named
by the first sibkey visited. `Import` reaches `findEldest` when the key
bundles of the sibkeys and of the subkeys import and the PGP keys are
indexed: it then returns that KeyFamilyError, with the eldest set to the KID
named by the first sibkey visited. When a key bundle of a sibkey or of a
subkey fails to import, `Import` returns that error and the eldest stays
unset; when a PGP key is to be indexed in a nil `pgp2kid` map, `Import`
panics. -/
theorem findEldest_conflict (env : KeyEnv) (kf : KeyFamily) (order : KeyMap)
    (a b : String × ServerKeyRecord)
    (hperm : order.Perm kf.Sibkeys) (hunset : kf.eldest = none)
    (hvalid : ∀ e ∈ kf.Sibkeys, (hexDecode (eldestCandidate e.2)).isSome = true)
    (ha : a ∈ kf.Sibkeys) (hb : b ∈ kf.Sibkeys)
    (hdiff : hexDecode (eldestCandidate a.2) ≠ hexDecode (eldestCandidate b.2)) :
    ∃ first rest, order = first :: rest ∧
      (∃ msg, KeyFamily.findEldest env { kf with Sibkeys := order } =
        ({ kf with Sibkeys := order,
                   eldest := some ⟨hexDecode (eldestCandidate first.2), none⟩ },
          some ⟨ErrorKind.keyFamily, msg⟩)) ∧
      (∀ p1 p2 m, KeyMap.Import env order kf.pgps = (p1, none) →
        KeyMap.Import env kf.Subkeys p1 = (p2, none) →
        KeyFamily.indexPgps kf.pgp2kid p2 = Outcome.returned m →
        ∃ msg, KeyFamily.Import env { kf with Sibkeys := order } =
          Outcome.returned
            ({ kf with Sibkeys := order, pgps := p2, pgp2kid := m,
                       eldest := some ⟨hexDecode (eldestCandidate first.2), none⟩ },
              some ⟨ErrorKind.keyFamily, msg⟩)) ∧
      (∀ p1 e, KeyMap.Import env order kf.pgps = (p1, some e) →
        KeyFamily.Import env { kf with Sibkeys := order } =
          Outcome.returned ({ kf with Sibkeys := order, pgps := p1, eldest := none }, some e)) ∧
      (∀ p1 p2 e, KeyMap.Import env order kf.pgps = (p1, none) →
        KeyMap.Import env kf.Subkeys p1 = (p2, some e) →
        KeyFamily.Import env { kf with Sibkeys := order } =
          Outcome.returned ({ kf with Sibkeys := order, pgps := p2, eldest := none }, some e)) ∧
      (∀ p1 p2, KeyMap.Import env order kf.pgps = (p1, none) →
        KeyMap.Import env kf.Subkeys p1 = (p2, none) →
        KeyFamily.indexPgps kf.pgp2kid p2 = Outcome.panicked →
        KeyFamily.Import env { kf with Sibkeys := order } = Outcome.panicked) := by
  have ha' : a ∈ order := hperm.symm.subset ha
  have hb' : b ∈ order := hperm.symm.subset hb
  have hvalid' : ∀ e ∈ order, (hexDecode (eldestCandidate e.2)).isSome = true :=
    fun e he => hvalid e (hperm.subset he)
  cases horder : order with
  | nil => rw [horder] at ha'; simp at ha'
  | cons first rest =>
    rw [horder] at ha' hb' hvalid'
    refine ⟨first, rest, rfl, ?_, ?_, ?_, ?_, ?_⟩
    · exact findEldest_first_kept env { kf with Sibkeys := first :: rest } first rest a b rfl
        hunset hvalid' ha' hb' hdiff
    · intro p1 p2 m h1 h2 h3
      obtain ⟨msg, hmsg⟩ := findEldest_first_kept env
        { kf with Sibkeys := first :: rest, pgps := p2, pgp2kid := m } first rest a b rfl
        hunset hvalid' ha' hb' hdiff
      refine ⟨msg, ?_⟩
      unfold KeyFamily.Import
      simp only [h1, h2, h3]
      rw [hmsg]
    · intro p1 e h1
      unfold KeyFamily.Import
      simp only [h1, hunset]
    · intro p1 p2 e h1 h2
      unfold KeyFamily.Import
      simp only [h1, h2, hunset]
    · intro p1 p2 h1 h2 h3
      unfold KeyFamily.Import
      simp only [h1, h2, h3]

/-- C8, witness: the two sibkeys of `conflictFamily`, visited in the other
order. -/
theorem findEldest_conflict_witness :
    (conflictFamilyRev.Sibkeys.Perm conflictFamily.Sibkeys ∧ conflictFamily.eldest = none ∧
      (∀ e ∈ conflictFamily.Sibkeys, (hexDecode (eldestCandidate e.2)).isSome = true)) ∧
    ∃ first rest, conflictFamilyRev.Sibkeys = first :: rest ∧
      (∃ msg, KeyFamily.findEldest naclEnv
          { conflictFamily with Sibkeys := conflictFamilyRev.Sibkeys } =
        ({ conflictFamily with Sibkeys := conflictFamilyRev.Sibkeys,
                               eldest := some ⟨hexDecode (eldestCandidate first.2), none⟩ },
          some ⟨ErrorKind.keyFamily, msg⟩)) ∧
      (∀ p1 p2 m, KeyMap.Import naclEnv conflictFamilyRev.Sibkeys conflictFamily.pgps = (p1, none) →
        KeyMap.Import naclEnv conflictFamily.Subkeys p1 = (p2, none) →
        KeyFamily.indexPgps conflictFamily.pgp2kid p2 = Outcome.returned m →
        ∃ msg, KeyFamily.Import naclEnv
            { conflictFamily with Sibkeys := conflictFamilyRev.Sibkeys } =
          Outcome.returned
            ({ conflictFamily with Sibkeys := conflictFamilyRev.Sibkeys, pgps := p2, pgp2kid := m,
                                   eldest := some ⟨hexDecode (eldestCandidate first.2), none⟩ },
              some ⟨ErrorKind.keyFamily, msg⟩)) := by
  refine ⟨⟨by decide, by decide, by decide⟩, ?_⟩
  obtain ⟨first, rest, h1, h2, h3, _⟩ :=
    findEldest_conflict naclEnv conflictFamily conflictFamilyRev.Sibkeys
      ("aa", naclRecord "aa" none (some "aa")) ("bb", naclRecord "bb" none (some "bb"))
      (by decide) (by decide) (by decide) (by decide) (by decide) (by decide)
  exact ⟨first, rest, h1, h2, h3⟩

/-- C8, counterexample: `Import` of `conflictFamily` (two sibkeys naming the
eldest KIDs `aa` and `bb`, eldest not set) returns a KeyFamilyError and
leaves the family's eldest set to `aa`; with the sibkeys visited in the other
order it returns a KeyFamilyError and leaves the eldest set to `bb`. -/
theorem findEldest_conflict_counterexample :
    conflictFamily.eldest = none ∧
    KeyFamily.Import naclEnv conflictFamily =
      Outcome.returned ({ conflictFamily with eldest := some ⟨some [0xaa], none⟩ },
        some ⟨ErrorKind.keyFamily, "Kid mismatch: aa != bb"⟩) ∧
    KeyFamily.Import naclEnv conflictFamilyRev =
      Outcome.returned ({ conflictFamilyRev with eldest := some ⟨some [0xbb], none⟩ },
        some ⟨ErrorKind.keyFamily, "Kid mismatch: bb != aa"⟩) ∧
    ¬ (∀ r, KeyFamily.Import naclEnv conflictFamily = Outcome.returned r →
      r.2 ≠ none → r.1.eldest = none) := by
  refine ⟨by decide, by decide, by decide, ?_⟩
  intro h
  have := h ({ conflictFamily with eldest := some ⟨some [0xaa], none⟩ },
        some ⟨ErrorKind.keyFamily, "Kid mismatch: aa != bb"⟩) (by decide) (by decide)
  exact absurd this (by decide)

/-- C9 (amended). The hex string that the loop of `findEldest` hands to
`setEldest` for a sibkey record is the record's explicit `eldest_kid` when it
has one, and the record's own `kid` otherwise; the record's `signing_kid` is
not consulted. On a family whose eldest is not set, a well-formed candidate
becomes the eldest KID. -/
theorem findEldest_candidate (kf : KeyFamily) (v : ServerKeyRecord) :
    (∀ e, v.EldestKid = some e → kf.findEldestStep v = kf.setEldest e) ∧
    (v.EldestKid = none → kf.findEldestStep v = kf.setEldest v.Kid) ∧
    (∀ s, kf.findEldestStep { v with SigningKid := s } = kf.findEldestStep v) ∧
    (kf.eldest = none → ∀ e bs, v.EldestKid = some e → hexDecode e = some bs →
      (kf.findEldestStep v).1.eldest = some ⟨some bs, none⟩) ∧
    (kf.eldest = none → ∀ bs, v.EldestKid = none → hexDecode v.Kid = some bs →
      (kf.findEldestStep v).1.eldest = some ⟨some bs, none⟩) := by
  refine ⟨?_, ?_, ?_, ?_, ?_⟩
  · intro e he
    simp [KeyFamily.findEldestStep, he]
  · intro he
    simp [KeyFamily.findEldestStep, he]
  · intro s
    simp [KeyFamily.findEldestStep]
  · intro hunset e bs he hbs
    simp only [KeyFamily.findEldestStep, he]
    rw [setEldest_unset kf e bs hunset hbs]
  · intro hunset bs he hbs
    simp only [KeyFamily.findEldestStep, he]
    rw [setEldest_unset kf v.Kid bs hunset hbs]

/-- C9, counterexample: a sibkey `bb` with signing KID `aa` and no explicit
eldest KID. The spec's rule names `aa`; `findEldest` takes `bb`. -/
theorem findEldest_candidate_counterexample :
    specCandidateEldest (naclRecord "bb" (some "aa") none) = "aa" ∧
    eldestCandidate (naclRecord "bb" (some "aa") none) = "bb" ∧
    (signedFamily.findEldestStep (naclRecord "bb" (some "aa") none)).1.eldest
      = some ⟨some [0xbb], none⟩ ∧
    (signedFamily.setEldest (specCandidateEldest (naclRecord "bb" (some "aa") none))).1.eldest
      = some ⟨some [0xaa], none⟩ ∧
    signedFamily.findEldestStep (naclRecord "bb" (some "aa") none) ≠
      signedFamily.setEldest (specCandidateEldest (naclRecord "bb" (some "aa") none)) ∧
    KeyFamily.findEldest naclEnv signedFamily =
      ({ signedFamily with eldest := some ⟨some [0xbb], none⟩ }, none) := by
  decide

theorem setEldest_keeps_maps (kf : KeyFamily) (hx : String) :
    (kf.setEldest hx).1.Sibkeys = kf.Sibkeys ∧ (kf.setEldest hx).1.Subkeys = kf.Subkeys := by
  unfold KeyFamily.setEldest
  cases hk : ImportKID hx with
  | mk kid err =>
    cases err with
    | some e => simp
    | none =>
      cases hel : kf.eldest with
      | none => simp
      | some el =>
        simp only
        split <;> simp

theorem findEldestLoop_keeps_maps :
    ∀ (order : List (String × ServerKeyRecord)) (kf : KeyFamily),
      (kf.findEldestLoop order).1.Sibkeys = kf.Sibkeys ∧
      (kf.findEldestLoop order).1.Subkeys = kf.Subkeys := by
  intro order
  induction order with
  | nil => intro kf; simp [KeyFamily.findEldestLoop]
  | cons x rest ih =>
    intro kf
    obtain ⟨k, v⟩ := x
    rw [KeyFamily.findEldestLoop, findEldestStep_eq]
    have hs := setEldest_keeps_maps kf (eldestCandidate v)
    cases hr : kf.setEldest (eldestCandidate v) with
    | mk kf1 err =>
      rw [hr] at hs
      cases err with
      | some e => exact hs
      | none =>
        simp only
        have := ih kf1
        exact ⟨this.1.trans hs.1, this.2.trans hs.2⟩

theorem findEldest_keeps_maps (env : KeyEnv) (kf : KeyFamily) :
    (KeyFamily.findEldest env kf).1.Sibkeys = kf.Sibkeys ∧
    (KeyFamily.findEldest env kf).1.Subkeys = kf.Subkeys := by
  unfold KeyFamily.findEldest
  have hl := findEldestLoop_keeps_maps kf.Sibkeys kf
  cases hr : kf.findEldestLoop kf.Sibkeys with
  | mk kf1 err =>
    rw [hr] at hl
    cases err with
    | some e => exact hl
    | none =>
      simp only
      cases kf1.eldest with
      | none => exact hl
      | some el =>
        simp only
        cases kf1.Sibkeys.get (KID.ToString el.Kid) with
        | none => exact hl
        | some key => exact hl

/-- C10, the code at the failing input. No call of `Import` changes a record
of `Sibkeys` or `Subkeys`: the key that `ServerKeyRecord.Import` sets lands
on the loop's copy of the record. For `soloFamily` (one NaCl sibkey `aa`
whose bundle imports into a key) `Import` succeeds, and afterwards the record
stored under `aa` still has no key and `GetSigningKey("aa")` is nil. -/
theorem Import_leaves_keys_unset :
    (∀ env kf r, KeyFamily.Import env kf = Outcome.returned r →
      r.1.Sibkeys = kf.Sibkeys ∧ r.1.Subkeys = kf.Subkeys) ∧
    (ServerKeyRecord.Import naclEnv (naclRecord "aa" none none)).1.key
      = some (GenericKey.naclSigning (some [0xaa])) ∧
    (ServerKeyRecord.Import naclEnv (naclRecord "aa" none none)).2.2 = none ∧
    KeyFamily.Import naclEnv soloFamily =
      Outcome.returned ({ soloFamily with eldest := some ⟨some [0xaa], none⟩ }, none) ∧
    soloFamily.Sibkeys.get "aa" = some (naclRecord "aa" none none) ∧
    ({ soloFamily with eldest := some ⟨some [0xaa], none⟩ } : KeyFamily).Sibkeys.get "aa"
      = some (naclRecord "aa" none none) ∧
    ({ soloFamily with eldest := some ⟨some [0xaa], none⟩ } : KeyFamily).GetSigningKey "aa"
      = none := by
  refine ⟨?_, by decide, by decide, by decide, by decide, by decide, by decide⟩
  intro env kf r h
  unfold KeyFamily.Import at h
  cases h1 : kf.Sibkeys.Import env kf.pgps with
  | mk p1 e1 =>
    rw [h1] at h
    cases e1 with
    | some e => simp only at h; cases h; exact ⟨rfl, rfl⟩
    | none =>
      simp only at h
      cases h2 : kf.Subkeys.Import env p1 with
      | mk p2 e2 =>
        rw [h2] at h
        cases e2 with
        | some e => simp only at h; cases h; exact ⟨rfl, rfl⟩
        | none =>
          simp only at h
          cases h3 : KeyFamily.indexPgps kf.pgp2kid p2 with
          | panicked => rw [h3] at h; simp at h
          | returned m =>
            rw [h3] at h
            simp only at h
            cases h
            exact findEldest_keeps_maps env _

/-! ## FOKID equality and sibkey lookup -/

/-- The method `FOKID.Eq`, case by case: it is true exactly when no side
present on both differs and some side present on both agrees. -/
theorem FOKID_Eq_cases (f f2 : FOKID) :
    f.Eq f2 = true ↔
      ((∀ k k2, f.Kid = some k → f2.Kid = some k2 → k = k2) ∧
        (∀ p p2, f.Fp = some p → f2.Fp = some p2 → p = p2) ∧
        ((∃ k k2, f.Kid = some k ∧ f2.Kid = some k2) ∨
          (∃ p p2, f.Fp = some p ∧ f2.Fp = some p2))) := by
  obtain ⟨kid, fp⟩ := f
  obtain ⟨kid2, fp2⟩ := f2
  cases kid <;> cases kid2 <;> cases fp <;> cases fp2 <;>
    simp [FOKID.Eq, KID.Eq, SecureByteArrayEq, bytesOf, PgpFingerprint.Eq]
  all_goals (split <;> simp_all)

/-- C20 (amended). For every pair of FOKIDs, `f.Eq(f2)` is true if and only
if every side (KID, fingerprint) present on both matches and at least one
side is present on both. Two FOKIDs that differ only in a side present on one
and absent on the other are equal when they share another side; two FOKIDs
with no side present on both are not equal. -/
theorem FOKID_Eq_spec (f f2 : FOKID) :
    (f.Eq f2 = true ↔
      ((∀ k k2, f.Kid = some k → f2.Kid = some k2 → k = k2) ∧
        (∀ p p2, f.Fp = some p → f2.Fp = some p2 → p = p2) ∧
        ((∃ k k2, f.Kid = some k ∧ f2.Kid = some k2) ∨
          (∃ p p2, f.Fp = some p ∧ f2.Fp = some p2)))) ∧
    (∀ k p, FOKID.Eq ⟨some k, some p⟩ ⟨some k, none⟩ = true ∧
      FOKID.Eq ⟨some k, none⟩ ⟨some k, some p⟩ = true ∧
      FOKID.Eq ⟨some k, some p⟩ ⟨none, some p⟩ = true ∧
      FOKID.Eq ⟨none, some p⟩ ⟨some k, some p⟩ = true) ∧
    (((f.Kid = none ∨ f2.Kid = none) ∧ (f.Fp = none ∨ f2.Fp = none)) → f.Eq f2 = false) := by
  refine ⟨FOKID_Eq_cases f f2, ?_, ?_⟩
  · intro k p
    simp [FOKID.Eq, KID.Eq, SecureByteArrayEq, bytesOf, PgpFingerprint.Eq]
  · intro h
    cases hEq : f.Eq f2 with
    | false => rfl
    | true =>
      exfalso
      obtain ⟨_, _, hboth⟩ := (FOKID_Eq_cases f f2).mp hEq
      rcases hboth with ⟨k, k2, hk, hk2⟩ | ⟨p, p2, hp, hp2⟩
      · rcases h.1 with h1 | h1
        · rw [hk] at h1; cases h1
        · rw [hk2] at h1; cases h1
      · rcases h.2 with h1 | h1
        · rw [hp] at h1; cases h1
        · rw [hp2] at h1; cases h1

/-- C20, counterexample: a FOKID with only the KID `aa` and a FOKID with
only the fingerprint `AB` have no side present on both, so every side present
on both matches, and `Eq` is false; so is `Eq` of the empty FOKID with
itself. -/
theorem FOKID_Eq_spec_counterexample :
    FOKID.Eq ⟨some [0xaa], none⟩ ⟨none, some fpAB⟩ = false ∧
    FOKID.Eq ⟨none, none⟩ ⟨none, none⟩ = false ∧
    ¬ (∀ f f2 : FOKID, f.Eq f2 = true ↔
      ((∀ k k2, f.Kid = some k → f2.Kid = some k2 → k = k2) ∧
        (∀ p p2, f.Fp = some p → f2.Fp = some p2 → p = p2))) := by
  refine ⟨by decide, by decide, ?_⟩
  intro h
  have h1 := (h ⟨none, none⟩ ⟨none, none⟩).mpr
    ⟨fun k k2 hk _ => (by cases hk), fun p p2 hp _ => (by cases hp)⟩
  exact absurd h1 (by decide)

/-- C11, the code at the failing input. For a FOKID with no KID and a
fingerprint that `pgp2kid` maps to a KID, `KeyFamily.FindActiveSibkey` looks
`Sibkeys` up under `f.Kid.ToString()`, the empty string, not under the KID it
resolved. In `pgpFamily` the fingerprint `AB` maps to the KID `aa`, the
sibkey `aa` holds its key, and the call returns NoKeyError and no key; the
same family gives the key when asked by KID. -/
theorem KeyFamily_FindActiveSibkey_by_fingerprint :
    (∀ (kf : KeyFamily) (fp : PgpFingerprint) (k : List Byte),
      goMapGet kf.pgp2kid fp.ToString = some (some k) →
      kf.FindActiveSibkey ⟨none, some fp⟩ =
        match kf.Sibkeys.get "" with
        | none => (none, some ⟨ErrorKind.noKey, "No sibkey found for "⟩)
        | some sk => (sk.key, none)) ∧
    goMapGet pgpFamily.pgp2kid fpAB.ToString = some (some [0xaa]) ∧
    KID.ToString (some [0xaa]) = "aa" ∧
    pgpFamily.Sibkeys.get "aa" = some pgpRecord ∧
    pgpRecord.key = some (GenericKey.pgp bundleAA) ∧
    pgpFamily.FindActiveSibkey ⟨none, some fpAB⟩ =
      (none, some ⟨ErrorKind.noKey, "No sibkey found for "⟩) ∧
    pgpFamily.FindActiveSibkey ⟨some [0xaa], none⟩ = (some (GenericKey.pgp bundleAA), none) := by
  refine ⟨?_, by decide, by decide, by decide, by decide, by decide, by decide⟩
  intro kf fp k h
  simp only [KeyFamily.FindActiveSibkey, h]
  have hs : KID.ToString none = "" := by decide
  simp only [hs]
  simp

/-- C12, the code at the failing input. When the info found under the
FOKID's string is LIVE and a sibkey, `ComputedKeyFamily.FindActiveSibkey`
calls itself with the same receiver and argument: at no depth of calls does
it return. In the other cases it returns an error and no key at once. In
`delegatedInfos` the KID `bb` is a LIVE sibkey and the call never returns. -/
theorem ComputedKeyFamily_FindActiveSibkey_diverges :
    (∀ (env : CkfEnv) (ckf : ComputedKeyFamily) (f : FOKID) (ki : ComputedKeyInfo),
      (goMapGet ckf.cki.Infos (env.FOKIDToString f)).bind ckf.cki.deref = some ki →
      ki.Status = env.KEY_LIVE → ki.Sibkey = true →
      ∀ depth, ComputedKeyFamily.FindActiveSibkey env depth ckf f = none) ∧
    (∀ (env : CkfEnv) (ckf : ComputedKeyFamily) (f : FOKID) (depth : Nat),
      (∀ ki, (goMapGet ckf.cki.Infos (env.FOKIDToString f)).bind ckf.cki.deref = some ki →
        ki.Status ≠ env.KEY_LIVE ∨ ki.Sibkey = false) →
      ∃ e, ComputedKeyFamily.FindActiveSibkey env (depth + 1) ckf f = some (none, some e)) ∧
    (goMapGet delegatedInfos.Infos (ckfEnv.FOKIDToString ⟨some [0xbb], none⟩)).bind
      delegatedInfos.deref = some bbInfo ∧
    bbInfo.Status = ckfEnv.KEY_LIVE ∧ bbInfo.Sibkey = true ∧
    (∀ depth, ComputedKeyFamily.FindActiveSibkey ckfEnv depth ⟨eldestFamily, delegatedInfos⟩
      ⟨some [0xbb], none⟩ = none) := by
  have hdiv : ∀ (env : CkfEnv) (ckf : ComputedKeyFamily) (f : FOKID) (ki : ComputedKeyInfo),
      (goMapGet ckf.cki.Infos (env.FOKIDToString f)).bind ckf.cki.deref = some ki →
      ki.Status = env.KEY_LIVE → ki.Sibkey = true →
      ∀ depth, ComputedKeyFamily.FindActiveSibkey env depth ckf f = none := by
    intro env ckf f ki hki hlive hsib depth
    induction depth with
    | zero => rfl
    | succ d ih =>
      rw [ComputedKeyFamily.FindActiveSibkey]
      simp only [hki]
      rw [if_neg (by simp [hlive]), if_neg (by simp [hsib])]
      exact ih
  refine ⟨hdiv, ?_, by decide, by decide, by decide, ?_⟩
  · intro env ckf f depth h
    rw [ComputedKeyFamily.FindActiveSibkey]
    cases hki : (goMapGet ckf.cki.Infos (env.FOKIDToString f)).bind ckf.cki.deref with
    | none => exact ⟨_, rfl⟩
    | some ki =>
      simp only
      by_cases hlive : ki.Status ≠ env.KEY_LIVE
      · rw [if_pos hlive]; exact ⟨_, rfl⟩
      · rw [if_neg hlive]
        rcases h ki hki with h1 | h1
        · exact absurd h1 hlive
        · rw [if_pos h1]; exact ⟨_, rfl⟩
  · exact hdiv ckfEnv ⟨eldestFamily, delegatedInfos⟩ ⟨some [0xbb], none⟩ bbInfo
      (by decide) (by decide) (by decide)

/-! ## Computed key infos: seeding -/

theorem lookup_filter_ne {κ β : Type} [DecidableEq κ] [BEq κ] [LawfulBEq κ]
    (m : List (κ × β)) (k k' : κ) (h : k' ≠ k) :
    (m.filter fun e => e.1 ≠ k).lookup k' = m.lookup k' := by
  induction m with
  | nil => rfl
  | cons e rest ih =>
    obtain ⟨a, b⟩ := e
    by_cases ha : a = k
    · subst ha
      have hne : (k' == a) = false := by simpa using h
      rw [List.filter_cons_of_neg (by simp), ih, List.lookup_cons, hne]
    · rw [List.filter_cons_of_pos (by simpa using ha), List.lookup_cons, List.lookup_cons, ih]

/-- Reading a key just assigned gives the value assigned. -/
theorem lookup_mapAssign_self {κ β : Type} [DecidableEq κ] [BEq κ] [LawfulBEq κ]
    (m : List (κ × β)) (k : κ) (v : β) : (mapAssign m k v).lookup k = some v := by
  simp [mapAssign, List.lookup_cons]

/-- Reading another key is not affected by an assignment. -/
theorem lookup_mapAssign_ne {κ β : Type} [DecidableEq κ] [BEq κ] [LawfulBEq κ]
    (m : List (κ × β)) (k k' : κ) (v : β) (h : k' ≠ k) :
    (mapAssign m k v).lookup k' = m.lookup k' := by
  have hne : (k' == k) = false := by simpa using h
  rw [mapAssign, List.lookup_cons, hne]
  exact lookup_filter_ne m k k' h

/-- The loop of `Insert` on a map that is not nil: it returns, and the new
map sends each of the strings to the pointer and is the old map elsewhere. -/
theorem insertLoop_some (i : InfoPtr) :
    ∀ (strs : List String) (m : List (String × InfoPtr)),
      ∃ m', ComputedKeyInfos.insertLoop (some m) strs i = Outcome.returned (some m') ∧
        (∀ s, s ∈ strs → m'.lookup s = some i) ∧
        (∀ s, s ∉ strs → m'.lookup s = m.lookup s) := by
  intro strs
  induction strs with
  | nil => intro m; exact ⟨m, rfl, fun s hs => by simp at hs, fun _ _ => rfl⟩
  | cons s rest ih =>
    intro m
    obtain ⟨m', hm', hin, hout⟩ := ih (mapAssign m s i)
    refine ⟨m', ?_, ?_, ?_⟩
    · rw [ComputedKeyInfos.insertLoop]; exact hm'
    · intro s' hs'
      by_cases hr : s' ∈ rest
      · exact hin s' hr
      · have hs : s' = s := by
          rcases List.mem_cons.mp hs' with h | h
          · exact h
          · exact absurd h hr
        rw [hout s' hr, hs]
        exact lookup_mapAssign_self m s i
    · intro s' hs'
      have hr : s' ∉ rest := fun h => hs' (List.mem_cons_of_mem _ h)
      have hne : s' ≠ s := fun h => hs' (by rw [h]; exact List.mem_cons_self _ _)
      rw [hout s' hr]
      exact lookup_mapAssign_ne m s s' i hne

/-- The infos that `NewComputedKeyInfos` returns hold one record, and it is
not marked as a sibkey; `Sigs` is nil. -/
theorem NewComputedKeyInfos_shape (env : CkfEnv) (kf : KeyFamily) (cki : ComputedKeyInfos)
    (h : KeyFamily.NewComputedKeyInfos env kf = Outcome.returned cki) :
    cki.Sigs = none ∧
    cki.heap = [{ Status := env.KEY_LIVE, Eldest := true, Sibkey := false,
                  Delegations := none, DelegatedAt := none, RevokedAt := none }] := by
  cases hf : kf.eldest with
  | none =>
    simp only [KeyFamily.NewComputedKeyInfos, ComputedKeyInfos.Insert, hf,
      Outcome.returned.injEq] at h
    rw [← h]
    exact ⟨rfl, rfl⟩
  | some f =>
    obtain ⟨m', hm', _, _⟩ := insertLoop_some 0 f.ToStrings []
    simp only [KeyFamily.NewComputedKeyInfos, ComputedKeyInfos.Insert, hf, hm',
      Outcome.returned.injEq] at h
    rw [← h]
    exact ⟨rfl, rfl⟩

/-- C13. `NewComputedKeyInfos` returns. For a family with an eldest FOKID,
the infos returned hold one record, LIVE and eldest; every string identifier
of the eldest (its hex KID, and its fingerprint string when it has one) maps
to that record and no other string has an entry. For a family with no eldest
the map of infos is empty. -/
theorem NewComputedKeyInfos_seed (env : CkfEnv) (kf : KeyFamily) :
    (∀ f, kf.eldest = some f →
      ∃ infos, KeyFamily.NewComputedKeyInfos env kf =
          Outcome.returned
            { dirty := true, Infos := some infos, Sigs := none,
              heap := [{ Status := env.KEY_LIVE, Eldest := true, Sibkey := false,
                         Delegations := none, DelegatedAt := none, RevokedAt := none }] } ∧
        (∀ s, s ∈ f.ToStrings → infos.lookup s = some 0) ∧
        (∀ s, s ∉ f.ToStrings → infos.lookup s = none) ∧
        (∀ k, f.Kid = some k → infos.lookup (KID.ToString (some k)) = some 0) ∧
        (∀ fp, f.Fp = some fp → infos.lookup fp.ToString = some 0)) ∧
    (kf.eldest = none →
      KeyFamily.NewComputedKeyInfos env kf =
        Outcome.returned
          { dirty := false, Infos := some [], Sigs := none,
            heap := [{ Status := env.KEY_LIVE, Eldest := true, Sibkey := false,
                       Delegations := none, DelegatedAt := none, RevokedAt := none }] }) := by
  constructor
  · intro f hf
    obtain ⟨m', hm', hin, hout⟩ := insertLoop_some 0 f.ToStrings []
    refine ⟨m', ?_, hin, ?_, ?_, ?_⟩
    · simp only [KeyFamily.NewComputedKeyInfos, ComputedKeyInfos.Insert, hf, hm']
    · intro s hs
      rw [hout s hs]
      rfl
    · intro k hk
      apply hin
      simp [FOKID.ToStrings, hk]
    · intro fp hfp
      apply hin
      simp [FOKID.ToStrings, hfp]
  · intro hf
    simp only [KeyFamily.NewComputedKeyInfos, ComputedKeyInfos.Insert, hf]

/-- C14, the code at the failing input. The record that
`NewComputedKeyInfos` seeds for the eldest is LIVE and eldest but its
`Sibkey` flag is false, so `ComputedKeyFamily.FindActiveSibkey` on the seeded
infos returns an error and no key for every FOKID; for the eldest of
`eldestFamily` it is the BadKeyError "wasn't delegated as a sibkey". -/
theorem NewComputedKeyInfos_eldest_not_sibkey :
    (∀ (env : CkfEnv) (kf : KeyFamily) (cki : ComputedKeyInfos) (p : InfoPtr)
        (r : ComputedKeyInfo),
      KeyFamily.NewComputedKeyInfos env kf = Outcome.returned cki → cki.deref p = some r →
      r.Status = env.KEY_LIVE ∧ r.Eldest = true ∧ r.Sibkey = false) ∧
    (∀ (env : CkfEnv) (kf : KeyFamily) (cki : ComputedKeyInfos) (f : FOKID) (depth : Nat),
      KeyFamily.NewComputedKeyInfos env kf = Outcome.returned cki →
      ∃ e, ComputedKeyFamily.FindActiveSibkey env (depth + 1) ⟨kf, cki⟩ f =
        some (none, some e)) ∧
    KeyFamily.NewComputedKeyInfos ckfEnv eldestFamily = Outcome.returned seededInfos ∧
    eldestFamily.eldest = some ⟨some [0xaa], none⟩ ∧
    (goMapGet seededInfos.Infos (ckfEnv.FOKIDToString ⟨some [0xaa], none⟩)).bind
      seededInfos.deref = some eldestInfo ∧
    eldestInfo.Sibkey = false ∧
    ComputedKeyFamily.FindActiveSibkey ckfEnv 1 ⟨eldestFamily, seededInfos⟩
        ⟨some [0xaa], none⟩ =
      some (none, some ⟨ErrorKind.badKey, "The key 'aa' wasn't delegated as a sibkey"⟩) := by
  have hrec : ∀ (env : CkfEnv) (kf : KeyFamily) (cki : ComputedKeyInfos) (p : InfoPtr)
      (r : ComputedKeyInfo),
      KeyFamily.NewComputedKeyInfos env kf = Outcome.returned cki → cki.deref p = some r →
      r.Status = env.KEY_LIVE ∧ r.Eldest = true ∧ r.Sibkey = false := by
    intro env kf cki p r h hp
    obtain ⟨_, hheap⟩ := NewComputedKeyInfos_shape env kf cki h
    unfold ComputedKeyInfos.deref at hp
    rw [hheap] at hp
    have hmem := List.getElem?_mem hp
    simp only [List.mem_singleton] at hmem
    subst hmem
    exact ⟨rfl, rfl, rfl⟩
  refine ⟨hrec, ?_, by decide, by decide, by decide, by decide, by decide⟩
  intro env kf cki f depth h
  rw [ComputedKeyFamily.FindActiveSibkey]
  cases hki : (goMapGet cki.Infos (env.FOKIDToString f)).bind cki.deref with
  | none => exact ⟨_, rfl⟩
  | some ki =>
    simp only
    obtain ⟨p, _, hp⟩ := Option.bind_eq_some.mp hki
    obtain ⟨hlive, _, hsib⟩ := hrec env kf cki p ki h hp
    rw [if_neg (by simp [hlive]), if_pos hsib]
    exact ⟨_, rfl⟩

/-! ## Computed key family: `Delegate` and `Revoke` -/

/-- The record that `Delegate` allocates for a KID that has none. -/
theorem Delegate_new (env : CkfEnv) (ckf : ComputedKeyFamily) (tcl : TypedChainLink)
    (m : List (String × InfoPtr)) (sg : List (SigId × InfoPtr))
    (hget : goMapGet ckf.cki.Infos (KID.ToString tcl.GetDelegatedKid) = none)
    (hI : ckf.cki.Infos = some m) (hS : ckf.cki.Sigs = some sg) :
    ComputedKeyFamily.Delegate env ckf tcl =
      Outcome.returned
        ({ kf := ckf.kf,
           cki := { dirty := ckf.cki.dirty,
                    Infos := some (mapAssign m (KID.ToString tcl.GetDelegatedKid)
                      ckf.cki.heap.length),
                    Sigs := some (mapAssign sg tcl.GetSigId ckf.cki.heap.length),
                    heap := ckf.cki.heap ++
                      [{ Status := env.KEY_LIVE, Eldest := false,
                         Sibkey := decide (tcl.IsDelegation = env.DLG_SIBKEY),
                         Delegations := some [(tcl.GetSigId, tcl.GetKid)],
                         DelegatedAt := some (TclToKeybaseTime tcl), RevokedAt := none }] } },
          none) := by
  have hget' : goMapGet (some m) (KID.ToString tcl.GetDelegatedKid) = none := by
    rw [← hI]; exact hget
  unfold ComputedKeyFamily.Delegate ComputedKeyFamily.delegateLocate
  simp only [hI, hget', hS, List.getElem?_concat_length]
  by_cases hsib : tcl.IsDelegation = env.DLG_SIBKEY
  · simp [hsib, mapAssign]
  · simp [hsib, mapAssign]

/-- The update that `Delegate` makes to the record a KID already has. -/
theorem Delegate_found (env : CkfEnv) (ckf : ComputedKeyFamily) (tcl : TypedChainLink)
    (p : InfoPtr) (info : ComputedKeyInfo) (d : List (SigId × KID))
    (sg : List (SigId × InfoPtr))
    (hget : goMapGet ckf.cki.Infos (KID.ToString tcl.GetDelegatedKid) = some p)
    (hp : ckf.cki.heap[p]? = some info) (hd : info.Delegations = some d)
    (hS : ckf.cki.Sigs = some sg) :
    ComputedKeyFamily.Delegate env ckf tcl =
      Outcome.returned
        ({ kf := ckf.kf,
           cki := { dirty := ckf.cki.dirty,
                    Infos := ckf.cki.Infos,
                    Sigs := some (mapAssign sg tcl.GetSigId p),
                    heap := ckf.cki.heap.set p
                      { info with
                          Status := env.KEY_LIVE,
                          Sibkey := info.Sibkey || decide (tcl.IsDelegation = env.DLG_SIBKEY),
                          Delegations := some (mapAssign d tcl.GetSigId tcl.GetKid) } } },
          none) := by
  have hlt : p < ckf.cki.heap.length := (List.getElem?_eq_some_iff.mp hp).1
  unfold ComputedKeyFamily.Delegate ComputedKeyFamily.delegateLocate
  simp only [hget, hp, hS, List.getElem?_set_self hlt, hd, List.set_set]
  by_cases hsib : tcl.IsDelegation = env.DLG_SIBKEY
  · simp [hsib]
  · simp [hsib]

theorem delegateLocate_sigs (env : CkfEnv) (cki cki1 : ComputedKeyInfos) (kid_s : String)
    (tm : KeybaseTime) (p : InfoPtr)
    (h : ComputedKeyFamily.delegateLocate env cki kid_s tm = Outcome.returned (cki1, p)) :
    cki1.Sigs = cki.Sigs := by
  unfold ComputedKeyFamily.delegateLocate at h
  cases hget : goMapGet cki.Infos kid_s with
  | none =>
    simp only [hget] at h
    cases hI : cki.Infos with
    | none => simp [hI] at h
    | some m =>
      simp only [hI, Outcome.returned.injEq, Prod.mk.injEq] at h
      rw [← h.1]
  | some q =>
    simp only [hget] at h
    cases hq : cki.heap[q]? with
    | none => simp [hq] at h
    | some info =>
      simp only [hq, Outcome.returned.injEq, Prod.mk.injEq] at h
      rw [← h.1]

/-- A call of `Delegate` that returns has found `Sigs` allocated and either
allocated a record for the KID or updated the one it has; it returns no
error. -/
theorem Delegate_inv (env : CkfEnv) (ckf : ComputedKeyFamily) (tcl : TypedChainLink)
    (r : ComputedKeyFamily × Option Error)
    (h : ComputedKeyFamily.Delegate env ckf tcl = Outcome.returned r) :
    ∃ sg, ckf.cki.Sigs = some sg ∧
      ((∃ m, goMapGet ckf.cki.Infos (KID.ToString tcl.GetDelegatedKid) = none ∧
          ckf.cki.Infos = some m) ∨
        (∃ p info d, goMapGet ckf.cki.Infos (KID.ToString tcl.GetDelegatedKid) = some p ∧
          ckf.cki.heap[p]? = some info ∧ info.Delegations = some d)) := by
  cases hS : ckf.cki.Sigs with
  | none =>
    exfalso
    unfold ComputedKeyFamily.Delegate at h
    simp only [hS] at h
    cases hloc : ComputedKeyFamily.delegateLocate env ckf.cki
        (KID.ToString tcl.GetDelegatedKid) (TclToKeybaseTime tcl) with
    | panicked => rw [hloc] at h; simp at h
    | returned x =>
      obtain ⟨cki1, p⟩ := x
      rw [hloc] at h
      simp only at h
      have hS1 : cki1.Sigs = none := by
        rw [delegateLocate_sigs env _ _ _ _ _ hloc]
        exact hS
      cases hinfo : cki1.heap[p]? with
      | none => rw [hinfo] at h; simp at h
      | some info =>
        rw [hinfo] at h
        simp only at h
        cases hd : info.Delegations with
        | none => rw [hd] at h; simp at h
        | some d => rw [hd] at h; simp only [hS1] at h; simp at h
  | some sg =>
    refine ⟨sg, rfl, ?_⟩
    cases hget : goMapGet ckf.cki.Infos (KID.ToString tcl.GetDelegatedKid) with
    | none =>
      cases hI : ckf.cki.Infos with
      | none =>
        exfalso
        unfold ComputedKeyFamily.Delegate ComputedKeyFamily.delegateLocate at h
        simp [hI, goMapGet] at h
      | some m => exact Or.inl ⟨m, rfl, rfl⟩
    | some p =>
      cases hp : ckf.cki.heap[p]? with
      | none =>
        exfalso
        unfold ComputedKeyFamily.Delegate ComputedKeyFamily.delegateLocate at h
        simp [hget, hp] at h
      | some info =>
        cases hd : info.Delegations with
        | none =>
          exfalso
          have hlt : p < ckf.cki.heap.length := (List.getElem?_eq_some_iff.mp hp).1
          unfold ComputedKeyFamily.Delegate ComputedKeyFamily.delegateLocate at h
          simp [hget, hp, List.getElem?_set_self hlt, hd] at h
        | some d => exact Or.inr ⟨p, info, d, rfl, hp, hd⟩

theorem markRevoked_idem (env : CkfEnv) (tcl : TypedChainLink) (info : ComputedKeyInfo) :
    (info.markRevoked env tcl).markRevoked env tcl = info.markRevoked env tcl := rfl

/-- Marking the record at one pointer: that record is revoked, the others
are as before. -/
theorem marked_single (env : CkfEnv) (tcl : TypedChainLink) (h : List ComputedKeyInfo)
    (q : InfoPtr) (info : ComputedKeyInfo) (hq : h[q]? = some info) :
    ∀ p, (p = q → ∃ r, h[p]? = some r ∧
        (h.set q (info.markRevoked env tcl))[p]? = some (r.markRevoked env tcl)) ∧
      (¬ p = q → (h.set q (info.markRevoked env tcl))[p]? = h[p]?) := by
  intro p
  constructor
  · intro hp
    subst hp
    exact ⟨info, hq, List.getElem?_set_self (List.getElem?_eq_some_iff.mp hq).1⟩
  · intro hp
    exact List.getElem?_set_ne (fun h' => hp h'.symm)

/-- Two rounds of marking, one after the other, mark the records designated
by either round. -/
theorem marked_compose (env : CkfEnv) (tcl : TypedChainLink) (D1 D2 : InfoPtr → Prop)
    (h h1 h2 : List ComputedKeyInfo)
    (H1 : ∀ p, (D1 p → ∃ r, h[p]? = some r ∧ h1[p]? = some (r.markRevoked env tcl)) ∧
      (¬ D1 p → h1[p]? = h[p]?))
    (H2 : ∀ p, (D2 p → ∃ r, h1[p]? = some r ∧ h2[p]? = some (r.markRevoked env tcl)) ∧
      (¬ D2 p → h2[p]? = h1[p]?)) :
    ∀ p, ((D1 p ∨ D2 p) → ∃ r, h[p]? = some r ∧ h2[p]? = some (r.markRevoked env tcl)) ∧
      (¬ (D1 p ∨ D2 p) → h2[p]? = h[p]?) := by
  intro p
  constructor
  · intro hD
    by_cases h2p : D2 p
    · obtain ⟨r1, hr1, hr2⟩ := (H2 p).1 h2p
      by_cases h1p : D1 p
      · obtain ⟨r, hr, hr'⟩ := (H1 p).1 h1p
        rw [hr'] at hr1
        cases hr1
        exact ⟨r, hr, by rw [hr2, markRevoked_idem]⟩
      · rw [(H1 p).2 h1p] at hr1
        exact ⟨r1, hr1, hr2⟩
    · have h1p : D1 p := hD.resolve_right h2p
      obtain ⟨r, hr, hr'⟩ := (H1 p).1 h1p
      exact ⟨r, hr, by rw [(H2 p).2 h2p, hr']⟩
  · intro hD
    have h1p : ¬ D1 p := fun h' => hD (Or.inl h')
    have h2p : ¬ D2 p := fun h' => hD (Or.inr h')
    rw [(H2 p).2 h2p, (H1 p).2 h1p]

/-- The method `RevokeSig`, case by case. -/
theorem RevokeSig_cases (env : CkfEnv) (ckf : ComputedKeyFamily) (sig : SigId)
    (tcl : TypedChainLink) :
    (goMapGet ckf.cki.Sigs sig = none ∧
      ComputedKeyFamily.RevokeSig env ckf sig tcl = Outcome.returned (ckf, none)) ∨
    (∃ p, goMapGet ckf.cki.Sigs sig = some p ∧ ckf.cki.heap[p]? = none ∧
      ComputedKeyFamily.RevokeSig env ckf sig tcl = Outcome.panicked) ∨
    (∃ p info, goMapGet ckf.cki.Sigs sig = some p ∧ ckf.cki.heap[p]? = some info ∧
      goMapGet info.Delegations sig = none ∧
      ∃ msg, ComputedKeyFamily.RevokeSig env ckf sig tcl =
        Outcome.returned (ckf, some ⟨ErrorKind.badRevocation, msg⟩)) ∨
    (∃ p info g, goMapGet ckf.cki.Sigs sig = some p ∧ ckf.cki.heap[p]? = some info ∧
      goMapGet info.Delegations sig = some g ∧
      ComputedKeyFamily.RevokeSig env ckf sig tcl =
        Outcome.returned
          ({ ckf with cki := { ckf.cki with
              heap := ckf.cki.heap.set p (info.markRevoked env tcl) } }, none)) := by
  cases hs : goMapGet ckf.cki.Sigs sig with
  | none => exact Or.inl ⟨rfl, by simp [ComputedKeyFamily.RevokeSig, hs]⟩
  | some p =>
    cases hp : ckf.cki.heap[p]? with
    | none => exact Or.inr (Or.inl ⟨p, rfl, hp, by simp [ComputedKeyFamily.RevokeSig, hs, hp]⟩)
    | some info =>
      cases hd : goMapGet info.Delegations sig with
      | none =>
        exact Or.inr (Or.inr (Or.inl ⟨p, info, rfl, hp, hd,
          "Can't find sigId " ++ env.SigIdToString sig true ++ " in delegation list",
          by simp only [ComputedKeyFamily.RevokeSig, hs, hp, hd]⟩))
      | some g =>
        exact Or.inr (Or.inr (Or.inr ⟨p, info, g, rfl, hp, hd,
          by simp only [ComputedKeyFamily.RevokeSig, hs, hp, hd]⟩))

/-- The method `RevokeKid`, case by case; it returns no error. -/
theorem RevokeKid_cases (env : CkfEnv) (ckf : ComputedKeyFamily) (kid : KID)
    (tcl : TypedChainLink) :
    (goMapGet ckf.cki.Infos (KID.ToString kid) = none ∧
      ComputedKeyFamily.RevokeKid env ckf kid tcl = Outcome.returned (ckf, none)) ∨
    (∃ p, goMapGet ckf.cki.Infos (KID.ToString kid) = some p ∧ ckf.cki.heap[p]? = none ∧
      ComputedKeyFamily.RevokeKid env ckf kid tcl = Outcome.panicked) ∨
    (∃ p info, goMapGet ckf.cki.Infos (KID.ToString kid) = some p ∧
      ckf.cki.heap[p]? = some info ∧
      ComputedKeyFamily.RevokeKid env ckf kid tcl =
        Outcome.returned
          ({ ckf with cki := { ckf.cki with
              heap := ckf.cki.heap.set p (info.markRevoked env tcl) } }, none)) := by
  cases hs : goMapGet ckf.cki.Infos (KID.ToString kid) with
  | none => exact Or.inl ⟨rfl, by simp [ComputedKeyFamily.RevokeKid, hs]⟩
  | some p =>
    cases hp : ckf.cki.heap[p]? with
    | none => exact Or.inr (Or.inl ⟨p, rfl, hp, by simp [ComputedKeyFamily.RevokeKid, hs, hp]⟩)
    | some info =>
      exact Or.inr (Or.inr ⟨p, info, rfl, hp,
        by simp only [ComputedKeyFamily.RevokeKid, hs, hp]⟩)

/-- What `RevokeSigs` has done when it returns no error: the maps are as
before, the records that `Sigs` gives for the sigids of the list are revoked
and the others are as before. -/
theorem RevokeSigs_ok (env : CkfEnv) (tcl : TypedChainLink) :
    ∀ (sigs : List (Option SigId)) (c c' : ComputedKeyFamily),
      ComputedKeyFamily.RevokeSigs env c sigs tcl = Outcome.returned (c', none) →
      c'.kf = c.kf ∧ c'.cki.dirty = c.cki.dirty ∧ c'.cki.Infos = c.cki.Infos ∧
      c'.cki.Sigs = c.cki.Sigs ∧
      ∀ p, ((∃ s, some s ∈ sigs ∧ goMapGet c.cki.Sigs s = some p) →
          ∃ r, c.cki.heap[p]? = some r ∧ c'.cki.heap[p]? = some (r.markRevoked env tcl)) ∧
        (¬ (∃ s, some s ∈ sigs ∧ goMapGet c.cki.Sigs s = some p) →
          c'.cki.heap[p]? = c.cki.heap[p]?) := by
  intro sigs
  induction sigs with
  | nil =>
    intro c c' h
    simp only [ComputedKeyFamily.RevokeSigs, Outcome.returned.injEq, Prod.mk.injEq] at h
    obtain ⟨h1, _⟩ := h
    subst h1
    refine ⟨rfl, rfl, rfl, rfl, fun p => ⟨?_, fun _ => rfl⟩⟩
    rintro ⟨s, hs, _⟩
    simp at hs
  | cons x rest ih =>
    intro c c' h
    cases x with
    | none =>
      rw [ComputedKeyFamily.RevokeSigs] at h
      obtain ⟨h1, h2, h3, h4, h5⟩ := ih c c' h
      refine ⟨h1, h2, h3, h4, fun p => ⟨?_, ?_⟩⟩
      · rintro ⟨s, hs, hp⟩
        apply (h5 p).1
        refine ⟨s, ?_, hp⟩
        simpa using hs
      · intro hn
        apply (h5 p).2
        rintro ⟨s, hs, hp⟩
        exact hn ⟨s, List.mem_cons_of_mem _ hs, hp⟩
    | some s =>
      rw [ComputedKeyFamily.RevokeSigs] at h
      rcases RevokeSig_cases env c s tcl with ⟨hs, hr⟩ | ⟨q, _, _, hr⟩ | ⟨q, info, _, _, _, msg, hr⟩ |
        ⟨q, info, g, hs, hq, _, hr⟩
      · rw [hr] at h
        simp only at h
        obtain ⟨h1, h2, h3, h4, h5⟩ := ih c c' h
        refine ⟨h1, h2, h3, h4, fun p => ⟨?_, ?_⟩⟩
        · rintro ⟨s', hs', hp⟩
          apply (h5 p).1
          rcases List.mem_cons.mp hs' with he | he
          · cases he
            rw [hs] at hp
            cases hp
          · exact ⟨s', he, hp⟩
        · intro hn
          apply (h5 p).2
          rintro ⟨s', hs', hp⟩
          exact hn ⟨s', List.mem_cons_of_mem _ hs', hp⟩
      · rw [hr] at h
        simp at h
      · rw [hr] at h
        simp at h
      · rw [hr] at h
        simp only at h
        obtain ⟨h1, h2, h3, h4, h5⟩ := ih _ c' h
        simp only at h1 h2 h3 h4 h5
        refine ⟨h1, h2, h3, h4, ?_⟩
        have hcomp := marked_compose env tcl (fun p => p = q)
          (fun p => ∃ s', some s' ∈ rest ∧ goMapGet c.cki.Sigs s' = some p)
          c.cki.heap _ c'.cki.heap (marked_single env tcl c.cki.heap q info hq) h5
        intro p
        constructor
        · rintro ⟨s', hs', hp⟩
          apply (hcomp p).1
          rcases List.mem_cons.mp hs' with he | he
          · cases he
            rw [hs] at hp
            cases hp
            exact Or.inl rfl
          · exact Or.inr ⟨s', he, hp⟩
        · intro hn
          apply (hcomp p).2
          rintro (he | ⟨s', hs', hp⟩)
          · exact hn ⟨s, List.mem_cons_self _ _, by rw [he]; exact hs⟩
          · exact hn ⟨s', List.mem_cons_of_mem _ hs', hp⟩

/-- What `RevokeKids` has done when it returns: it returns no error, the
maps are as before, the records that `Infos` gives for the KIDs of the list
are revoked and the others are as before. -/
theorem RevokeKids_ok (env : CkfEnv) (tcl : TypedChainLink) :
    ∀ (kids : List KID) (c c' : ComputedKeyFamily) (err : Option Error),
      ComputedKeyFamily.RevokeKids env c kids tcl = Outcome.returned (c', err) →
      err = none ∧
      c'.kf = c.kf ∧ c'.cki.dirty = c.cki.dirty ∧ c'.cki.Infos = c.cki.Infos ∧
      c'.cki.Sigs = c.cki.Sigs ∧
      ∀ p, ((∃ k, some k ∈ kids ∧ goMapGet c.cki.Infos (KID.ToString (some k)) = some p) →
          ∃ r, c.cki.heap[p]? = some r ∧ c'.cki.heap[p]? = some (r.markRevoked env tcl)) ∧
        (¬ (∃ k, some k ∈ kids ∧ goMapGet c.cki.Infos (KID.ToString (some k)) = some p) →
          c'.cki.heap[p]? = c.cki.heap[p]?) := by
  intro kids
  induction kids with
  | nil =>
    intro c c' err h
    simp only [ComputedKeyFamily.RevokeKids, Outcome.returned.injEq, Prod.mk.injEq] at h
    obtain ⟨h1, h2⟩ := h
    subst h1
    refine ⟨h2.symm, rfl, rfl, rfl, rfl, fun p => ⟨?_, fun _ => rfl⟩⟩
    rintro ⟨s, hs, _⟩
    simp at hs
  | cons x rest ih =>
    intro c c' err h
    cases x with
    | none =>
      rw [ComputedKeyFamily.RevokeKids] at h
      obtain ⟨h0, h1, h2, h3, h4, h5⟩ := ih c c' err h
      refine ⟨h0, h1, h2, h3, h4, fun p => ⟨?_, ?_⟩⟩
      · rintro ⟨s, hs, hp⟩
        apply (h5 p).1
        refine ⟨s, ?_, hp⟩
        simpa using hs
      · intro hn
        apply (h5 p).2
        rintro ⟨s, hs, hp⟩
        exact hn ⟨s, List.mem_cons_of_mem _ hs, hp⟩
    | some k =>
      rw [ComputedKeyFamily.RevokeKids] at h
      rcases RevokeKid_cases env c (some k) tcl with ⟨hs, hr⟩ | ⟨q, _, _, hr⟩ |
        ⟨q, info, hs, hq, hr⟩
      · rw [hr] at h
        simp only at h
        obtain ⟨h0, h1, h2, h3, h4, h5⟩ := ih c c' err h
        refine ⟨h0, h1, h2, h3, h4, fun p => ⟨?_, ?_⟩⟩
        · rintro ⟨s', hs', hp⟩
          apply (h5 p).1
          rcases List.mem_cons.mp hs' with he | he
          · cases he
            rw [hs] at hp
            cases hp
          · exact ⟨s', he, hp⟩
        · intro hn
          apply (h5 p).2
          rintro ⟨s', hs', hp⟩
          exact hn ⟨s', List.mem_cons_of_mem _ hs', hp⟩
      · rw [hr] at h
        simp at h
      · rw [hr] at h
        simp only at h
        obtain ⟨h0, h1, h2, h3, h4, h5⟩ := ih _ c' err h
        simp only at h1 h2 h3 h4 h5
        refine ⟨h0, h1, h2, h3, h4, ?_⟩
        have hcomp := marked_compose env tcl (fun p => p = q)
          (fun p => ∃ k', some k' ∈ rest ∧
            goMapGet c.cki.Infos (KID.ToString (some k')) = some p)
          c.cki.heap _ c'.cki.heap (marked_single env tcl c.cki.heap q info hq) h5
        intro p
        constructor
        · rintro ⟨s', hs', hp⟩
          apply (hcomp p).1
          rcases List.mem_cons.mp hs' with he | he
          · cases he
            rw [hs] at hp
            cases hp
            exact Or.inl rfl
          · exact Or.inr ⟨s', he, hp⟩
        · intro hn
          apply (hcomp p).2
          rintro (he | ⟨s', hs', hp⟩)
          · exact hn ⟨k, List.mem_cons_self _ _, by rw [he]; exact hs⟩
          · exact hn ⟨s', List.mem_cons_of_mem _ hs', hp⟩

/-- Marking leaves the delegations of every record as they were. -/
theorem marked_delegations (env : CkfEnv) (tcl : TypedChainLink) (D : InfoPtr → Prop)
    (h h' : List ComputedKeyInfo)
    (H : ∀ p : InfoPtr, (D p → ∃ r, h[p]? = some r ∧ h'[p]? = some (r.markRevoked env tcl)) ∧
      (¬ D p → h'[p]? = h[p]?)) :
    ∀ p : InfoPtr, (h'[p]?).map ComputedKeyInfo.Delegations = (h[p]?).map ComputedKeyInfo.Delegations := by
  intro p
  by_cases hD : D p
  · obtain ⟨r, hr, hr'⟩ := (H p).1 hD
    rw [hr, hr']
    rfl
  · rw [(H p).2 hD]

/-- Whatever `RevokeSigs` returns, the maps, the dirty flag and the
delegations of every record are as before, and an error is a
BadRevocationError. -/
theorem RevokeSigs_frame (env : CkfEnv) (tcl : TypedChainLink) :
    ∀ (sigs : List (Option SigId)) (c c' : ComputedKeyFamily) (err : Option Error),
      ComputedKeyFamily.RevokeSigs env c sigs tcl = Outcome.returned (c', err) →
      c'.kf = c.kf ∧ c'.cki.dirty = c.cki.dirty ∧ c'.cki.Infos = c.cki.Infos ∧
      c'.cki.Sigs = c.cki.Sigs ∧
      (∀ p : InfoPtr, (c'.cki.heap[p]?).map ComputedKeyInfo.Delegations =
        (c.cki.heap[p]?).map ComputedKeyInfo.Delegations) ∧
      (∀ e, err = some e → e.kind = ErrorKind.badRevocation) := by
  intro sigs
  induction sigs with
  | nil =>
    intro c c' err h
    simp only [ComputedKeyFamily.RevokeSigs, Outcome.returned.injEq, Prod.mk.injEq] at h
    obtain ⟨h1, h2⟩ := h
    subst h1
    subst h2
    exact ⟨rfl, rfl, rfl, rfl, fun _ => rfl, fun e he => by cases he⟩
  | cons x rest ih =>
    intro c c' err h
    cases x with
    | none =>
      rw [ComputedKeyFamily.RevokeSigs] at h
      exact ih c c' err h
    | some s =>
      rw [ComputedKeyFamily.RevokeSigs] at h
      rcases RevokeSig_cases env c s tcl with ⟨_, hr⟩ | ⟨q, _, _, hr⟩ |
        ⟨q, info, _, _, _, msg, hr⟩ | ⟨q, info, g, _, hq, _, hr⟩
      · rw [hr] at h
        exact ih c c' err h
      · rw [hr] at h
        simp at h
      · rw [hr] at h
        simp only [Outcome.returned.injEq, Prod.mk.injEq] at h
        obtain ⟨h1, h2⟩ := h
        subst h1
        subst h2
        refine ⟨rfl, rfl, rfl, rfl, fun _ => rfl, fun e he => ?_⟩
        cases he
        rfl
      · rw [hr] at h
        simp only at h
        obtain ⟨h1, h2, h3, h4, h5, h6⟩ := ih _ c' err h
        simp only at h1 h2 h3 h4 h5
        refine ⟨h1, h2, h3, h4, fun p => ?_, h6⟩
        rw [h5 p]
        exact marked_delegations env tcl (fun p => p = q) c.cki.heap _
          (marked_single env tcl c.cki.heap q info hq) p

/-- Whatever `Revoke` returns, the maps, the dirty flag and the delegations
of every record are as before. -/
theorem Revoke_frame (env : CkfEnv) (c c' : ComputedKeyFamily) (tcl : TypedChainLink)
    (err : Option Error)
    (h : ComputedKeyFamily.Revoke env c tcl = Outcome.returned (c', err)) :
    c'.kf = c.kf ∧ c'.cki.dirty = c.cki.dirty ∧ c'.cki.Infos = c.cki.Infos ∧
    c'.cki.Sigs = c.cki.Sigs ∧
    (∀ p : InfoPtr, (c'.cki.heap[p]?).map ComputedKeyInfo.Delegations =
      (c.cki.heap[p]?).map ComputedKeyInfo.Delegations) ∧
    (∀ e, err = some e → e.kind = ErrorKind.badRevocation) := by
  unfold ComputedKeyFamily.Revoke at h
  cases hs : ComputedKeyFamily.RevokeSigs env c tcl.GetRevocations tcl with
  | panicked => rw [hs] at h; simp at h
  | returned x =>
    obtain ⟨c1, e1⟩ := x
    rw [hs] at h
    cases e1 with
    | some e =>
      simp only [Outcome.returned.injEq, Prod.mk.injEq] at h
      obtain ⟨h1, h2⟩ := h
      subst h1
      subst h2
      exact RevokeSigs_frame env tcl _ c c1 (some e) hs
    | none =>
      simp only at h
      obtain ⟨a1, a2, a3, a4, a5, _⟩ := RevokeSigs_frame env tcl _ c c1 none hs
      obtain ⟨b0, b1, b2, b3, b4, b5⟩ := RevokeKids_ok env tcl _ c1 c' err h
      refine ⟨b1.trans a1, b2.trans a2, b3.trans a3, b4.trans a4, fun p => ?_,
        fun e he => ?_⟩
      · rw [← a5 p]
        exact marked_delegations env tcl _ c1.cki.heap c'.cki.heap b5 p
      · rw [b0] at he
        cases he

/-- C16. When `Revoke` returns without error: the maps `Infos` and `Sigs`
(so the sets of their keys, and the record every key leads to) are as before;
every record that `Sigs` gives for a revoked sigid or `Infos` gives for a
revoked KID has status REVOKED and `RevokedAt` = (ctime, merkle seqno) of the
link and is otherwise as before; every other record is unchanged. Revoked
KIDs with no entry in `Infos` designate no record, and `RevokeKids` never
returns an error. -/
theorem Revoke_local (env : CkfEnv) (ckf ckf' : ComputedKeyFamily) (tcl : TypedChainLink)
    (h : ComputedKeyFamily.Revoke env ckf tcl = Outcome.returned (ckf', none)) :
    ckf'.kf = ckf.kf ∧ ckf'.cki.Infos = ckf.cki.Infos ∧ ckf'.cki.Sigs = ckf.cki.Sigs ∧
    (∀ p,
      (((∃ s, some s ∈ tcl.GetRevocations ∧ goMapGet ckf.cki.Sigs s = some p) ∨
        (∃ k, some k ∈ tcl.GetRevokeKids ∧
          goMapGet ckf.cki.Infos (KID.ToString (some k)) = some p)) →
        ∃ r, ckf.cki.heap[p]? = some r ∧
          ckf'.cki.heap[p]? =
            some { r with Status := env.KEY_REVOKED,
                          RevokedAt := some ⟨tcl.GetCTimeUnix, tcl.GetMerkleSeqno⟩ }) ∧
      (¬ ((∃ s, some s ∈ tcl.GetRevocations ∧ goMapGet ckf.cki.Sigs s = some p) ∨
        (∃ k, some k ∈ tcl.GetRevokeKids ∧
          goMapGet ckf.cki.Infos (KID.ToString (some k)) = some p)) →
        ckf'.cki.heap[p]? = ckf.cki.heap[p]?)) ∧
    (∀ (c c' : ComputedKeyFamily) (kids : List KID) (err : Option Error),
      ComputedKeyFamily.RevokeKids env c kids tcl = Outcome.returned (c', err) → err = none) := by
  refine ⟨?_, ?_, ?_, ?_, fun c c' kids err hk => (RevokeKids_ok env tcl kids c c' err hk).1⟩
  all_goals
    unfold ComputedKeyFamily.Revoke at h
    cases hs : ComputedKeyFamily.RevokeSigs env ckf tcl.GetRevocations tcl with
    | panicked => rw [hs] at h; simp at h
    | returned x =>
      obtain ⟨c1, e1⟩ := x
      rw [hs] at h
      cases e1 with
      | some e => simp at h
      | none =>
        simp only at h
        obtain ⟨a1, _, a3, a4, a5⟩ := RevokeSigs_ok env tcl _ ckf c1 hs
        obtain ⟨_, b1, _, b3, b4, b5⟩ := RevokeKids_ok env tcl _ c1 ckf' none h
        first
          | exact b1.trans a1
          | exact b3.trans a3
          | exact b4.trans a4
          | (rw [a3] at b5
             exact marked_compose env tcl _ _ ckf.cki.heap c1.cki.heap ckf'.cki.heap a5 b5)

/-- C16, witness: `revokeLink` (sigid `01`, KIDs `bb` and the unknown `dd`)
on `delegatedInfos`. -/
theorem Revoke_local_witness :
    ComputedKeyFamily.Revoke ckfEnv ⟨eldestFamily, delegatedInfos⟩ revokeLink =
      Outcome.returned (⟨eldestFamily, revokedInfos⟩, none) ∧
    revokedInfos.Infos = delegatedInfos.Infos ∧ revokedInfos.Sigs = delegatedInfos.Sigs ∧
    goMapGet delegatedInfos.Infos (KID.ToString (some [0xdd])) = none ∧
    revokedInfos.heap[0]? =
      some { bbInfo with Status := ckfEnv.KEY_REVOKED, RevokedAt := some ⟨200, 9⟩ } :=
  ⟨by decide,
    (Revoke_local ckfEnv ⟨eldestFamily, delegatedInfos⟩ ⟨eldestFamily, revokedInfos⟩ revokeLink
      (by decide)).2.1,
    (Revoke_local ckfEnv ⟨eldestFamily, delegatedInfos⟩ ⟨eldestFamily, revokedInfos⟩ revokeLink
      (by decide)).2.2.1,
    by decide, by decide⟩

theorem mem_of_lookup {κ β : Type} [BEq κ] [LawfulBEq κ] (l : List (κ × β)) (k : κ) (v : β)
    (h : l.lookup k = some v) : (k, v) ∈ l := by
  induction l with
  | nil => simp at h
  | cons e rest ih =>
    obtain ⟨a, b⟩ := e
    rw [List.lookup_cons] at h
    cases hk : (k == a) with
    | true =>
      rw [hk] at h
      simp only [Option.some.injEq] at h
      have : k = a := by simpa using hk
      rw [this, h]
      exact List.mem_cons_self _ _
    | false =>
      rw [hk] at h
      exact List.mem_cons_of_mem _ (ih h)

/-- The loop `RevokeSigs` on a list that holds a sigid which `Sigs`
registers for a record whose delegations do not carry it: the loop returns a
BadRevocationError. -/
theorem RevokeSigs_stray (env : CkfEnv) (tcl : TypedChainLink) :
    ∀ (sigs : List (Option SigId)) (c : ComputedKeyFamily),
      (∀ e ∈ c.cki.Sigs.getD [], e.2 < c.cki.heap.length) →
      (∃ s p info, some s ∈ sigs ∧ goMapGet c.cki.Sigs s = some p ∧
        c.cki.heap[p]? = some info ∧ goMapGet info.Delegations s = none) →
      ∃ c' msg, ComputedKeyFamily.RevokeSigs env c sigs tcl =
        Outcome.returned (c', some ⟨ErrorKind.badRevocation, msg⟩) := by
  intro sigs
  induction sigs with
  | nil =>
    intro c _ h
    obtain ⟨s, _, _, hs, _⟩ := h
    simp at hs
  | cons x rest ih =>
    intro c hwf hbad
    obtain ⟨s, p, info, hs, hp, hinfo, hd⟩ := hbad
    cases x with
    | none =>
      rw [ComputedKeyFamily.RevokeSigs]
      exact ih c hwf ⟨s, p, info, by simpa using hs, hp, hinfo, hd⟩
    | some s0 =>
      rw [ComputedKeyFamily.RevokeSigs]
      rcases RevokeSig_cases env c s0 tcl with ⟨hs0, hr⟩ | ⟨q, hq, hnil, hr⟩ |
        ⟨q, info0, _, _, _, msg, hr⟩ | ⟨q, info0, g, hs0, hq, hg, hr⟩
      · rw [hr]
        simp only
        apply ih c hwf
        refine ⟨s, p, info, ?_, hp, hinfo, hd⟩
        rcases List.mem_cons.mp hs with he | he
        · cases he
          rw [hs0] at hp
          cases hp
        · exact he
      · exfalso
        cases hS : c.cki.Sigs with
        | none => rw [hS] at hq; simp [goMapGet] at hq
        | some sg =>
          rw [hS] at hq hwf
          have hmem := mem_of_lookup sg s0 q hq
          have hlt : q < c.cki.heap.length := hwf (s0, q) hmem
          have hge : c.cki.heap.length ≤ q := List.getElem?_eq_none_iff.mp hnil
          exact absurd hlt (Nat.not_lt.mpr hge)
      · rw [hr]
        exact ⟨c, msg, rfl⟩
      · rw [hr]
        simp only
        have hne : some s ∈ rest := by
          rcases List.mem_cons.mp hs with he | he
          · exfalso
            cases he
            rw [hs0] at hp
            cases hp
            rw [hq] at hinfo
            cases hinfo
            rw [hg] at hd
            cases hd
          · exact he
        apply ih
        · simp only [List.length_set]
          exact hwf
        · by_cases hpq : p = q
          · subst hpq
            rw [hq] at hinfo
            cases hinfo
            refine ⟨s, p, info.markRevoked env tcl, hne, hp, ?_, hd⟩
            exact List.getElem?_set_self (List.getElem?_eq_some_iff.mp hq).1
          · refine ⟨s, p, info, hne, hp, ?_, hd⟩
            simp only
            rw [List.getElem?_set_ne (fun h' => hpq h'.symm)]
            exact hinfo

/-- C17 (amended). When every pointer in `Sigs` is valid and some revoked
sigid is registered in `Sigs` for a record whose delegations do not carry it,
`Revoke` returns a BadRevocationError. A revoked sigid that `Sigs` does not
register is passed over by `RevokeSig` without error and without effect. -/
theorem Revoke_rejects_stray_sig (env : CkfEnv) (ckf : ComputedKeyFamily)
    (tcl : TypedChainLink) (s : SigId) (p : InfoPtr) (info : ComputedKeyInfo)
    (hwf : ∀ e ∈ ckf.cki.Sigs.getD [], e.2 < ckf.cki.heap.length)
    (hs : some s ∈ tcl.GetRevocations) (hp : goMapGet ckf.cki.Sigs s = some p)
    (hinfo : ckf.cki.heap[p]? = some info) (hd : goMapGet info.Delegations s = none) :
    (∃ ckf' msg, ComputedKeyFamily.Revoke env ckf tcl =
      Outcome.returned (ckf', some ⟨ErrorKind.badRevocation, msg⟩)) ∧
    (∀ s', goMapGet ckf.cki.Sigs s' = none →
      ComputedKeyFamily.RevokeSig env ckf s' tcl = Outcome.returned (ckf, none)) := by
  constructor
  · obtain ⟨c', msg, hr⟩ := RevokeSigs_stray env tcl tcl.GetRevocations ckf hwf
      ⟨s, p, info, hs, hp, hinfo, hd⟩
    refine ⟨c', msg, ?_⟩
    unfold ComputedKeyFamily.Revoke
    rw [hr]
  · intro s' hs'
    simp [ComputedKeyFamily.RevokeSig, hs']

/-- C17, witness: in `strayInfos` the sigid `01` is registered for a record
with no delegation; `revokeLink` revokes it. -/
theorem Revoke_rejects_stray_sig_witness :
    ((∀ e ∈ strayInfos.Sigs.getD [], e.2 < strayInfos.heap.length) ∧
      some [1] ∈ revokeLink.GetRevocations ∧ goMapGet strayInfos.Sigs [1] = some 0 ∧
      strayInfos.heap[0]? = some { bbInfo with Delegations := some [] }) ∧
    ∃ ckf' msg, ComputedKeyFamily.Revoke ckfEnv ⟨eldestFamily, strayInfos⟩ revokeLink =
      Outcome.returned (ckf', some ⟨ErrorKind.badRevocation, msg⟩) :=
  ⟨⟨by decide, by decide, by decide, by decide⟩,
    (Revoke_rejects_stray_sig ckfEnv ⟨eldestFamily, strayInfos⟩ revokeLink [1] 0
      { bbInfo with Delegations := some [] } (by decide) (by decide) (by decide) (by decide)
      (by decide)).1⟩

/-- C17, counterexample: `unknownSigLink` revokes the sigid `09`, which
`Sigs` of `delegatedInfos` does not register; `Revoke` returns no error and
changes nothing. -/
theorem Revoke_rejects_stray_sig_counterexample :
    some [9] ∈ unknownSigLink.GetRevocations ∧
    goMapGet delegatedInfos.Sigs [9] = none ∧
    ComputedKeyFamily.Revoke ckfEnv ⟨eldestFamily, delegatedInfos⟩ unknownSigLink =
      Outcome.returned (⟨eldestFamily, delegatedInfos⟩, none) := by
  decide

theorem goMapGet_mapAssign_self {κ β : Type} [DecidableEq κ] [BEq κ] [LawfulBEq κ]
    (m : List (κ × β)) (k : κ) (v : β) : goMapGet (some (mapAssign m k v)) k = some v := by
  simp only [goMapGet]
  exact lookup_mapAssign_self m k v

theorem goMapGet_mapAssign_ne {κ β : Type} [DecidableEq κ] [BEq κ] [LawfulBEq κ]
    (m : List (κ × β)) (k k' : κ) (v : β) (h : k' ≠ k) :
    goMapGet (some (mapAssign m k v)) k' = goMapGet (some m) k' := by
  simp only [goMapGet]
  exact lookup_mapAssign_ne m k k' v h

/-- The state a returning `Delegate` leaves, in the two cases. -/
theorem Delegate_result (env : CkfEnv) (ckf : ComputedKeyFamily) (tcl : TypedChainLink)
    (r : ComputedKeyFamily × Option Error)
    (h : ComputedKeyFamily.Delegate env ckf tcl = Outcome.returned r) :
    ∃ sg, ckf.cki.Sigs = some sg ∧
      ((∃ m, goMapGet ckf.cki.Infos (KID.ToString tcl.GetDelegatedKid) = none ∧
          ckf.cki.Infos = some m ∧
          r = ({ kf := ckf.kf,
                 cki := { dirty := ckf.cki.dirty,
                          Infos := some (mapAssign m (KID.ToString tcl.GetDelegatedKid)
                            ckf.cki.heap.length),
                          Sigs := some (mapAssign sg tcl.GetSigId ckf.cki.heap.length),
                          heap := ckf.cki.heap ++
                            [{ Status := env.KEY_LIVE, Eldest := false,
                               Sibkey := decide (tcl.IsDelegation = env.DLG_SIBKEY),
                               Delegations := some [(tcl.GetSigId, tcl.GetKid)],
                               DelegatedAt := some (TclToKeybaseTime tcl),
                               RevokedAt := none }] } },
                none)) ∨
        (∃ p info d, goMapGet ckf.cki.Infos (KID.ToString tcl.GetDelegatedKid) = some p ∧
          ckf.cki.heap[p]? = some info ∧ info.Delegations = some d ∧
          r = ({ kf := ckf.kf,
                 cki := { dirty := ckf.cki.dirty,
                          Infos := ckf.cki.Infos,
                          Sigs := some (mapAssign sg tcl.GetSigId p),
                          heap := ckf.cki.heap.set p
                            { info with
                                Status := env.KEY_LIVE,
                                Sibkey := info.Sibkey ||
                                  decide (tcl.IsDelegation = env.DLG_SIBKEY),
                                Delegations :=
                                  some (mapAssign d tcl.GetSigId tcl.GetKid) } } },
                none))) := by
  obtain ⟨sg, hS, hcase⟩ := Delegate_inv env ckf tcl r h
  refine ⟨sg, hS, ?_⟩
  rcases hcase with ⟨m, hget, hI⟩ | ⟨p, info, d, hget, hp, hd⟩
  · left
    refine ⟨m, hget, hI, ?_⟩
    rw [Delegate_new env ckf tcl m sg hget hI hS] at h
    cases h
    rfl
  · right
    refine ⟨p, info, d, hget, hp, hd, ?_⟩
    rw [Delegate_found env ckf tcl p info d sg hget hp hd hS] at h
    cases h
    rfl

/-- One direction of the sigs/delegations consistency on any infos: it holds
in the state built by `NewComputedKeyInfos`, and every `Delegate` and every
`Revoke` that returns keeps it: for every sigid `s`, the record that
`sigs[s]` points to has `s` among the keys of its delegations. -/
theorem Sigs_sound (env : CkfEnv) :
    (∀ (kf : KeyFamily) (cki : ComputedKeyInfos),
      KeyFamily.NewComputedKeyInfos env kf = Outcome.returned cki →
      ∀ (s : SigId) (p : InfoPtr), goMapGet cki.Sigs s = some p →
        ∃ rec, cki.heap[p]? = some rec ∧ (goMapGet rec.Delegations s).isSome = true) ∧
    (∀ (ckf : ComputedKeyFamily) (tcl : TypedChainLink) (r : ComputedKeyFamily × Option Error),
      (∀ (s : SigId) (p : InfoPtr), goMapGet ckf.cki.Sigs s = some p →
        ∃ rec, ckf.cki.heap[p]? = some rec ∧ (goMapGet rec.Delegations s).isSome = true) →
      ComputedKeyFamily.Delegate env ckf tcl = Outcome.returned r →
      ∀ (s : SigId) (p : InfoPtr), goMapGet r.1.cki.Sigs s = some p →
        ∃ rec, r.1.cki.heap[p]? = some rec ∧ (goMapGet rec.Delegations s).isSome = true) ∧
    (∀ (ckf : ComputedKeyFamily) (tcl : TypedChainLink) (r : ComputedKeyFamily × Option Error),
      (∀ (s : SigId) (p : InfoPtr), goMapGet ckf.cki.Sigs s = some p →
        ∃ rec, ckf.cki.heap[p]? = some rec ∧ (goMapGet rec.Delegations s).isSome = true) →
      ComputedKeyFamily.Revoke env ckf tcl = Outcome.returned r →
      ∀ (s : SigId) (p : InfoPtr), goMapGet r.1.cki.Sigs s = some p →
        ∃ rec, r.1.cki.heap[p]? = some rec ∧ (goMapGet rec.Delegations s).isSome = true) := by
  refine ⟨?_, ?_, ?_⟩
  · intro kf cki h s p hp
    rw [(NewComputedKeyInfos_shape env kf cki h).1] at hp
    simp [goMapGet] at hp
  · intro ckf tcl r hinv h s p hp
    obtain ⟨sg, hS, hcase⟩ := Delegate_result env ckf tcl r h
    rw [hS] at hinv
    rcases hcase with ⟨m, _, _, hr⟩ | ⟨q, info, d, _, hq, hd, hr⟩
    · subst hr
      simp only at hp ⊢
      by_cases hs : s = tcl.GetSigId
      · subst hs
        rw [goMapGet_mapAssign_self] at hp
        cases hp
        refine ⟨_, List.getElem?_concat_length _ _, ?_⟩
        simp [goMapGet]
      · rw [goMapGet_mapAssign_ne _ _ _ _ hs] at hp
        obtain ⟨rec, hrec, hdel⟩ := hinv s p hp
        refine ⟨rec, ?_, hdel⟩
        rw [List.getElem?_append_left (List.getElem?_eq_some_iff.mp hrec).1]
        exact hrec
    · subst hr
      simp only at hp ⊢
      have hlt : q < ckf.cki.heap.length := (List.getElem?_eq_some_iff.mp hq).1
      by_cases hs : s = tcl.GetSigId
      · subst hs
        rw [goMapGet_mapAssign_self] at hp
        cases hp
        refine ⟨_, List.getElem?_set_self hlt, ?_⟩
        simp only
        rw [goMapGet_mapAssign_self]
        rfl
      · rw [goMapGet_mapAssign_ne _ _ _ _ hs] at hp
        obtain ⟨rec, hrec, hdel⟩ := hinv s p hp
        by_cases hpq : p = q
        · subst hpq
          rw [hq] at hrec
          cases hrec
          refine ⟨_, List.getElem?_set_self hlt, ?_⟩
          simp only
          rw [goMapGet_mapAssign_ne _ _ _ _ hs, ← hd]
          exact hdel
        · refine ⟨rec, ?_, hdel⟩
          rw [List.getElem?_set_ne (fun h' => hpq h'.symm)]
          exact hrec
  · intro ckf tcl r hinv h s p hp
    obtain ⟨c', err⟩ := r
    obtain ⟨_, _, _, hS, hdel, _⟩ := Revoke_frame env ckf c' tcl err h
    simp only at hp ⊢
    rw [hS] at hp
    obtain ⟨rec, hrec, hd⟩ := hinv s p hp
    have hmap := hdel p
    rw [hrec] at hmap
    cases hrec' : c'.cki.heap[p]? with
    | none => rw [hrec'] at hmap; simp at hmap
    | some rec' =>
      rw [hrec'] at hmap
      simp only [Option.map_some', Option.some.injEq] at hmap
      exact ⟨rec', rfl, by rw [hmap]; exact hd⟩

/-- On infos whose maps are allocated, which no function of these files
builds, delegating the sigid `01` to the KID `bb` and then to the KID `cc`
leaves `01` among the delegations of the record of `bb` while `sigs[01]` is
the record of `cc`. On the infos that `NewComputedKeyInfos` builds the first
`Delegate` panics. -/
theorem Sigs_last_delegation :
    KeyFamily.NewComputedKeyInfos ckfEnv eldestFamily = Outcome.returned seededInfos ∧
    ComputedKeyFamily.Delegate ckfEnv ⟨eldestFamily, seededInfos⟩ sibkeyLink =
      Outcome.panicked ∧
    ComputedKeyFamily.Delegate ckfEnv ⟨eldestFamily, cleanInfos⟩ sibkeyLink =
      Outcome.returned (⟨eldestFamily, delegatedInfos⟩, none) ∧
    ComputedKeyFamily.Delegate ckfEnv ⟨eldestFamily, delegatedInfos⟩ sameSigLink =
      Outcome.returned (⟨eldestFamily, twiceInfos⟩, none) ∧
    twiceInfos.heap[0]? = some bbInfo ∧
    (goMapGet bbInfo.Delegations [1]).isSome = true ∧
    goMapGet twiceInfos.Sigs [1] = some 1 ∧
    ¬ (∀ (s : SigId) (p : InfoPtr) (rec : ComputedKeyInfo), twiceInfos.heap[p]? = some rec →
      (goMapGet twiceInfos.Sigs s = some p ↔ (goMapGet rec.Delegations s).isSome = true)) := by
  refine ⟨by decide, by decide, by decide, by decide, by decide, by decide, by decide, ?_⟩
  intro h
  have h1 := (h [1] 0 bbInfo (by decide)).mpr (by decide)
  exact absurd h1 (by decide)

/-- C19, the code at the failing input. `Delegate` and `Revoke` never
assign the dirty flag: whatever they change, the flag is what it was, while
`Insert` with a FOKID sets it. On `cleanInfos` (dirty false) `Delegate` adds
a record, an entry of `Infos` and an entry of `Sigs`, and the flag is still
false; `Revoke` then revokes the record, and the flag is still false. -/
theorem Delegate_leaves_dirty_unset :
    (∀ (env : CkfEnv) (ckf : ComputedKeyFamily) (tcl : TypedChainLink)
        (r : ComputedKeyFamily × Option Error),
      ComputedKeyFamily.Delegate env ckf tcl = Outcome.returned r →
      r.1.cki.dirty = ckf.cki.dirty) ∧
    (∀ (env : CkfEnv) (ckf : ComputedKeyFamily) (tcl : TypedChainLink)
        (r : ComputedKeyFamily × Option Error),
      ComputedKeyFamily.Revoke env ckf tcl = Outcome.returned r →
      r.1.cki.dirty = ckf.cki.dirty) ∧
    (∀ (cki cki' : ComputedKeyInfos) (f : FOKID) (i : InfoPtr),
      cki.Insert (some f) i = Outcome.returned cki' → cki'.dirty = true) ∧
    cleanInfos.dirty = false ∧
    ComputedKeyFamily.Delegate ckfEnv ⟨eldestFamily, cleanInfos⟩ sibkeyLink =
      Outcome.returned (⟨eldestFamily, delegatedInfos⟩, none) ∧
    delegatedInfos.dirty = false ∧
    delegatedInfos.Infos ≠ cleanInfos.Infos ∧ delegatedInfos.Sigs ≠ cleanInfos.Sigs ∧
    ComputedKeyFamily.Revoke ckfEnv ⟨eldestFamily, delegatedInfos⟩ revokeLink =
      Outcome.returned (⟨eldestFamily, revokedInfos⟩, none) ∧
    revokedInfos.dirty = false ∧ revokedInfos.heap ≠ delegatedInfos.heap := by
  refine ⟨?_, ?_, ?_, by decide, by decide, by decide, by decide, by decide, by decide,
    by decide, by decide⟩
  · intro env ckf tcl r h
    obtain ⟨sg, _, hcase⟩ := Delegate_result env ckf tcl r h
    rcases hcase with ⟨m, _, _, hr⟩ | ⟨q, info, d, _, _, _, hr⟩
    · subst hr; rfl
    · subst hr; rfl
  · intro env ckf tcl r h
    obtain ⟨c', err⟩ := r
    exact (Revoke_frame env ckf c' tcl err h).2.1
  · intro cki cki' f i h
    unfold ComputedKeyInfos.Insert at h
    simp only at h
    cases hl : ComputedKeyInfos.insertLoop cki.Infos f.ToStrings i with
    | panicked => rw [hl] at h; simp at h
    | returned m =>
      rw [hl] at h
      simp only [Outcome.returned.injEq] at h
      rw [← h]

/-- C15, the code at the failing input. On the infos that
`NewComputedKeyInfos` builds, `Sigs` is nil and `Delegate` panics on the
assignment `ckf.cki.Sigs[sigid] = info`, for every family and every link; so
does `Delegate` on any infos whose `Sigs` is nil. Where `Delegate` returns,
the bookkeeping is as claimed: the delegated KID has a record, LIVE, whose
delegations give the delegating KID for the sigid, and `sigs` gives that
record for the sigid; it is a sibkey when the kind is SIBKEY, and a record
created by the call has the link's time as `DelegatedAt` and the sigid as its
only delegation. -/
theorem Delegate_panics_on_seeded_infos :
    (∀ (env : CkfEnv) (kf : KeyFamily) (cki : ComputedKeyInfos) (tcl : TypedChainLink),
      KeyFamily.NewComputedKeyInfos env kf = Outcome.returned cki →
      ComputedKeyFamily.Delegate env ⟨kf, cki⟩ tcl = Outcome.panicked) ∧
    (∀ (env : CkfEnv) (ckf : ComputedKeyFamily) (tcl : TypedChainLink),
      ckf.cki.Sigs = none → ComputedKeyFamily.Delegate env ckf tcl = Outcome.panicked) ∧
    KeyFamily.NewComputedKeyInfos ckfEnv eldestFamily = Outcome.returned seededInfos ∧
    ComputedKeyFamily.Delegate ckfEnv ⟨eldestFamily, seededInfos⟩ sibkeyLink =
      Outcome.panicked ∧
    (∀ (env : CkfEnv) (ckf : ComputedKeyFamily) (tcl : TypedChainLink)
        (r : ComputedKeyFamily × Option Error),
      ComputedKeyFamily.Delegate env ckf tcl = Outcome.returned r →
      r.2 = none ∧
      ∃ p rec, goMapGet r.1.cki.Infos (KID.ToString tcl.GetDelegatedKid) = some p ∧
        r.1.cki.heap[p]? = some rec ∧
        goMapGet rec.Delegations tcl.GetSigId = some tcl.GetKid ∧
        goMapGet r.1.cki.Sigs tcl.GetSigId = some p ∧
        rec.Status = env.KEY_LIVE ∧
        (tcl.IsDelegation = env.DLG_SIBKEY → rec.Sibkey = true) ∧
        (goMapGet ckf.cki.Infos (KID.ToString tcl.GetDelegatedKid) = none →
          rec.DelegatedAt = some ⟨tcl.GetCTimeUnix, tcl.GetMerkleSeqno⟩ ∧
          rec.Delegations = some [(tcl.GetSigId, tcl.GetKid)] ∧
          rec.RevokedAt = none ∧ rec.Eldest = false)) := by
  have hnil : ∀ (env : CkfEnv) (ckf : ComputedKeyFamily) (tcl : TypedChainLink),
      ckf.cki.Sigs = none → ComputedKeyFamily.Delegate env ckf tcl = Outcome.panicked := by
    intro env ckf tcl hS
    cases h : ComputedKeyFamily.Delegate env ckf tcl with
    | panicked => rfl
    | returned r =>
      obtain ⟨sg, hsg, _⟩ := Delegate_inv env ckf tcl r h
      rw [hS] at hsg
      cases hsg
  refine ⟨?_, hnil, by decide, by decide, ?_⟩
  · intro env kf cki tcl h
    exact hnil env ⟨kf, cki⟩ tcl (NewComputedKeyInfos_shape env kf cki h).1
  · intro env ckf tcl r h
    obtain ⟨sg, hS, hcase⟩ := Delegate_result env ckf tcl r h
    rcases hcase with ⟨m, hget, _, hr⟩ | ⟨q, info, d, hget, hq, hd, hr⟩
    · subst hr
      refine ⟨rfl, ckf.cki.heap.length, _, goMapGet_mapAssign_self _ _ _,
        List.getElem?_concat_length _ _, ?_, goMapGet_mapAssign_self _ _ _, rfl, ?_, ?_⟩
      · simp [goMapGet]
      · intro hsib
        simp [hsib]
      · intro _
        exact ⟨rfl, rfl, rfl, rfl⟩
    · subst hr
      have hlt : q < ckf.cki.heap.length := (List.getElem?_eq_some_iff.mp hq).1
      refine ⟨rfl, q, _, hget, List.getElem?_set_self hlt, goMapGet_mapAssign_self _ _ _,
        goMapGet_mapAssign_self _ _ _, rfl, ?_, ?_⟩
      · intro hsib
        simp [hsib]
      · intro hnone
        rw [hnone] at hget
        cases hget

/-! ## FOKID equality and the KID hex codec -/

/-- C21 (amended). For every FOKID `f`, `f.Eq(f)` is true exactly when `f`
has a side present (a KID, a fingerprint, or both); for the FOKID with
neither side it is false. -/
theorem FOKID_Eq_self (f : FOKID) :
    (f.Eq f = true ↔ (f.Kid ≠ none ∨ f.Fp ≠ none)) ∧
    (∀ k p, FOKID.Eq ⟨some k, some p⟩ ⟨some k, some p⟩ = true ∧
      FOKID.Eq ⟨some k, none⟩ ⟨some k, none⟩ = true ∧
      FOKID.Eq ⟨none, some p⟩ ⟨none, some p⟩ = true) ∧
    FOKID.Eq ⟨none, none⟩ ⟨none, none⟩ = false := by
  refine ⟨?_, ?_, by decide⟩
  · rw [FOKID_Eq_cases]
    obtain ⟨kid, fp⟩ := f
    cases kid <;> cases fp <;> simp
  · intro k p
    simp [FOKID.Eq, KID.Eq, SecureByteArrayEq, bytesOf, PgpFingerprint.Eq]

/-- C21, counterexample: the FOKID with no KID and no fingerprint is not
equal to itself. -/
theorem FOKID_Eq_self_counterexample :
    FOKID.Eq ⟨none, none⟩ ⟨none, none⟩ = false ∧ ¬ (∀ f : FOKID, f.Eq f = true) := by
  refine ⟨by decide, fun h => ?_⟩
  exact absurd (h ⟨none, none⟩) (by decide)

/-- C22. `FOKID.Eq` as its comment states it: `f.Eq(f2)` is true if and
only if (both have a KID and the KIDs are equal, or both have a fingerprint
and the fingerprints are equal) and no side present on both differs. A KID
present on both and different, or a fingerprint present on both and
different, makes `Eq` false whatever the other side is. -/
theorem FOKID_Eq_documented (f f2 : FOKID) :
    (f.Eq f2 = true ↔
      (((∃ k, f.Kid = some k ∧ f2.Kid = some k) ∨ (∃ p, f.Fp = some p ∧ f2.Fp = some p)) ∧
        (∀ k k2, f.Kid = some k → f2.Kid = some k2 → k = k2) ∧
        (∀ p p2, f.Fp = some p → f2.Fp = some p2 → p = p2))) ∧
    (∀ k k2, f.Kid = some k → f2.Kid = some k2 → k ≠ k2 → f.Eq f2 = false) ∧
    (∀ p p2, f.Fp = some p → f2.Fp = some p2 → p ≠ p2 → f.Eq f2 = false) := by
  have hcases := FOKID_Eq_cases f f2
  refine ⟨?_, ?_, ?_⟩
  · rw [hcases]
    constructor
    · rintro ⟨hk, hp, hboth⟩
      refine ⟨?_, hk, hp⟩
      rcases hboth with ⟨k, k2, h1, h2⟩ | ⟨p, p2, h1, h2⟩
      · exact Or.inl ⟨k, h1, by rw [hk k k2 h1 h2]; exact h2⟩
      · exact Or.inr ⟨p, h1, by rw [hp p p2 h1 h2]; exact h2⟩
    · rintro ⟨hboth, hk, hp⟩
      refine ⟨hk, hp, ?_⟩
      rcases hboth with ⟨k, h1, h2⟩ | ⟨p, h1, h2⟩
      · exact Or.inl ⟨k, k, h1, h2⟩
      · exact Or.inr ⟨p, p, h1, h2⟩
  · intro k k2 h1 h2 hne
    cases hEq : f.Eq f2 with
    | false => rfl
    | true => exact absurd ((hcases.mp hEq).1 k k2 h1 h2) hne
  · intro p p2 h1 h2 hne
    cases hEq : f.Eq f2 with
    | false => rfl
    | true => exact absurd ((hcases.mp hEq).2.1 p p2 h1 h2) hne

theorem fromHexChar_hexDigit : ∀ n, n < 16 → fromHexChar (hexDigit n) = some n := by
  decide

/-- Decoding the hex of a byte string gives the byte string back. -/
theorem hexDecodeChars_hexEncodeChars (bs : List Byte) :
    hexDecodeChars (hexEncodeChars bs) = some bs := by
  induction bs with
  | nil => rfl
  | cons b rest ih =>
    rw [hexEncodeChars, hexDecodeChars,
      fromHexChar_hexDigit _ (Nat.div_lt_of_lt_mul b.isLt),
      fromHexChar_hexDigit _ (Nat.mod_lt _ (by decide))]
    simp only [ih]
    congr 2
    apply Fin.ext
    simp only
    have := b.isLt
    omega

/-- C23. For every KID `k` (nil, empty or any byte string),
`ImportKID(k.ToString())` returns no error and a KID that `KID.Eq` finds
equal to `k`, with the bytes of `k`; for a KID that is not nil it is `k`
itself. -/
theorem ImportKID_ToString (k : KID) :
    (ImportKID (KID.ToString k)).2 = none ∧
    KID.Eq (ImportKID (KID.ToString k)).1 k = true ∧
    (ImportKID (KID.ToString k)).1 = some (bytesOf k) ∧
    (∀ bs, k = some bs → (ImportKID (KID.ToString k)).1 = k) := by
  have h : ImportKID (KID.ToString k) = (some (bytesOf k), none) := by
    simp only [ImportKID, KID.ToString, hexDecode, hexEncode,
      hexDecodeChars_hexEncodeChars]
  rw [h]
  refine ⟨rfl, ?_, rfl, ?_⟩
  · simp [KID.Eq, SecureByteArrayEq, bytesOf]
  · intro bs hk
    rw [hk]
    rfl

/-! ## GPG index: lines and `ParseBase` -/

/-- A field inside the line is read without a panic. -/
theorem At_of_lt (line : GpgIndexLine) (i : Nat) (h : i < line.Len) :
    line.At i = Outcome.returned (line.v.getD i "") := by
  have h' : i < line.v.length := h
  simp [GpgIndexLine.At, List.getD, List.getElem?_eq_getElem h']

/-- A field beyond the end of the line is read with a panic. -/
theorem At_of_ge (line : GpgIndexLine) (i : Nat) (h : line.Len ≤ i) :
    line.At i = Outcome.panicked := by
  have h' : line.v.length ≤ i := h
  simp [GpgIndexLine.At, List.getElem?_eq_none h']

/-- On a line with fewer than 12 fields `ParseBase` leaves the key and
returns a `GpgIndexError`. -/
theorem ParseBase_short (k : GpgBaseKey) (line : GpgIndexLine) (h : line.Len < 12) :
    k.ParseBase line =
      Outcome.returned (k, some (GpgErr.GpgIndexError line.lineno "Not enough fields (need 12)")) := by
  simp [GpgBaseKey.ParseBase, h]

/-- On a line with at least 12 fields `ParseBase` reads the fields 0 to 6
without a panic. -/
theorem ParseBase_long (k : GpgBaseKey) (line : GpgIndexLine) (h : 12 ≤ line.Len) :
    k.ParseBase line =
      (let k1 : GpgBaseKey :=
        { k with Type_ := line.v.getD 0 "", Trust := line.v.getD 1 "", Id64 := line.v.getD 4 "" }
      match strconv.Atoi (line.v.getD 2 "") with
      | (bits, some e) => Outcome.returned ({ k1 with Bits := bits }, some e)
      | (bits, none) =>
        match strconv.Atoi (line.v.getD 3 "") with
        | (algo, some e) => Outcome.returned ({ k1 with Bits := bits, Algo := algo }, some e)
        | (algo, none) =>
          match strconv.Atoi (line.v.getD 5 "") with
          | (created, some e) =>
            Outcome.returned ({ k1 with Bits := bits, Algo := algo, Created := created }, some e)
          | (created, none) =>
            match flexiAtoi (line.v.getD 6 "") with
            | (expires, err) =>
              Outcome.returned
                ({ k1 with Bits := bits, Algo := algo, Created := created, Expires := expires },
                  err)) := by
  have hlt : ¬ line.Len < 12 := Nat.not_lt.mpr h
  simp only [GpgBaseKey.ParseBase, hlt, if_false,
    At_of_lt line 0 (by omega), At_of_lt line 1 (by omega), At_of_lt line 2 (by omega),
    At_of_lt line 3 (by omega), At_of_lt line 4 (by omega), At_of_lt line 5 (by omega),
    At_of_lt line 6 (by omega), Outcome.bind]

/-- `ParseBase` never panics. -/
theorem ParseBase_returns (k : GpgBaseKey) (line : GpgIndexLine) :
    ∃ r, k.ParseBase line = Outcome.returned r := by
  by_cases h : line.Len < 12
  · exact ⟨_, ParseBase_short k line h⟩
  · rw [ParseBase_long k line (Nat.le_of_not_lt h)]
    simp only
    rcases strconv.Atoi (line.v.getD 2 "") with ⟨bits, _ | e⟩
    · rcases strconv.Atoi (line.v.getD 3 "") with ⟨algo, _ | e⟩
      · rcases strconv.Atoi (line.v.getD 5 "") with ⟨created, _ | e⟩
        · exact ⟨_, rfl⟩
        · exact ⟨_, rfl⟩
      · exact ⟨_, rfl⟩
    · exact ⟨_, rfl⟩

/-- The conversion of the empty string by `strconv.Atoi` is an error. -/
theorem Atoi_empty : ∃ e, strconv.Atoi "" = (0, some e) := ⟨_, rfl⟩

/-- C27 (amended). For every key line with at least 12 fields whose bits
and algo fields are integers: when the created field is an integer and the
expires field is empty, `ParseBase` returns no error and stores the created
value and `Expires = 0`; when the created field is empty, `ParseBase`
returns the error of `strconv.Atoi`, with `Created = 0` and `Expires` as it
was. -/
theorem ParseBase_empty_fields (k : GpgBaseKey) (line : GpgIndexLine) (bits algo : Int)
    (hlen : 12 ≤ line.Len)
    (hbits : strconv.Atoi (line.v.getD 2 "") = (bits, none))
    (halgo : strconv.Atoi (line.v.getD 3 "") = (algo, none)) :
    (∀ created, strconv.Atoi (line.v.getD 5 "") = (created, none) → line.v.getD 6 "" = "" →
      ∃ k1, k.ParseBase line = Outcome.returned (k1, none) ∧
        k1.Bits = bits ∧ k1.Algo = algo ∧ k1.Created = created ∧ k1.Expires = 0) ∧
    (line.v.getD 5 "" = "" →
      ∃ k1 e, k.ParseBase line = Outcome.returned (k1, some e) ∧
        k1.Created = 0 ∧ k1.Expires = k.Expires) := by
  rw [ParseBase_long k line hlen]
  simp only [hbits, halgo]
  constructor
  · intro created hcreated h6
    simp only [hcreated, h6]
    exact ⟨_, rfl, rfl, rfl, rfl, rfl⟩
  · intro h5
    obtain ⟨e, he⟩ := Atoi_empty
    simp only [h5, he]
    exact ⟨_, e, rfl, rfl, rfl⟩

/-- C27, witness: a line with an integer created field and an empty expires
field. -/
theorem ParseBase_empty_fields_witness :
    (∀ created, strconv.Atoi (emptyExpiresLine.v.getD 5 "") = (created, none) →
      emptyExpiresLine.v.getD 6 "" = "" →
      ∃ k1, NewGpgPrimaryKey.toGpgBaseKey.ParseBase emptyExpiresLine = Outcome.returned (k1, none) ∧
        k1.Bits = 2048 ∧ k1.Algo = 1 ∧ k1.Created = created ∧ k1.Expires = 0) ∧
    (emptyExpiresLine.v.getD 5 "" = "" →
      ∃ k1 e, NewGpgPrimaryKey.toGpgBaseKey.ParseBase emptyExpiresLine =
          Outcome.returned (k1, some e) ∧
        k1.Created = 0 ∧ k1.Expires = NewGpgPrimaryKey.toGpgBaseKey.Expires) :=
  ParseBase_empty_fields NewGpgPrimaryKey.toGpgBaseKey emptyExpiresLine 2048 1
    (by decide) (by decide) (by decide)

/-- C27, counterexample: a line with 12 fields, integer bits and algo, and
empty created and expires fields is rejected by `ParseBase` with the error
of `strconv.Atoi`. -/
theorem ParseBase_empty_fields_counterexample :
    12 ≤ emptyCreatedLine.Len ∧
    strconv.Atoi (emptyCreatedLine.v.getD 2 "") = (2048, none) ∧
    strconv.Atoi (emptyCreatedLine.v.getD 3 "") = (1, none) ∧
    emptyCreatedLine.v.getD 5 "" = "" ∧ emptyCreatedLine.v.getD 6 "" = "" ∧
    ∃ k1, NewGpgPrimaryKey.toGpgBaseKey.ParseBase emptyCreatedLine =
      Outcome.returned (k1, some (GpgErr.other
        "strconv.ParseInt: parsing \"\": invalid syntax")) := by
  refine ⟨by decide, by decide, by decide, by decide, by decide,
    { Type_ := "pub", Trust := "u", Bits := 2048, Algo := 1, Id64 := "AAAA", Created := 0,
      Expires := 0, fingerprint := none }, ?_⟩
  decide

/-! ## GPG index: buckets and the validity filter -/

/-- Reading a bucket after `Add`: the bucket of the lower-cased key has the
new key at its end, the other buckets are as before. -/
theorem Get_Add (env : GpgEnv) (bd : BucketDict) (k k' : String) (v : GpgPrimaryKey) :
    (bd.Add env k v).Get env k' =
      if env.ToLower k' = env.ToLower k then bd.Get env k' ++ [v] else bd.Get env k' := by
  by_cases h : env.ToLower k' = env.ToLower k
  · simp only [BucketDict.Get, BucketDict.Add, h, lookup_mapAssign_self, if_true]
  · simp only [BucketDict.Get, BucketDict.Add, h, if_false]
    rw [lookup_mapAssign_ne _ _ _ _ h]

/-- A key in a bucket after `Add` is the key added or was in a bucket
before. -/
theorem mem_Add (env : GpgEnv) (bd : BucketDict) (k : String) (v x : GpgPrimaryKey)
    (b : String × List GpgPrimaryKey) (hb : b ∈ (bd.Add env k v).d) (hx : x ∈ b.2) :
    x = v ∨ ∃ b' ∈ bd.d, x ∈ b'.2 := by
  simp only [BucketDict.Add, mapAssign, List.mem_cons, List.mem_filter] at hb
  rcases hb with rfl | ⟨hmem, _⟩
  · simp only [List.mem_append, List.mem_singleton] at hx
    rcases hx with hx | hx
    · right
      cases hl : bd.d.lookup (env.ToLower k) with
      | none => rw [hl] at hx; simp at hx
      | some bucket =>
        rw [hl] at hx
        exact ⟨_, mem_of_lookup _ _ _ hl, hx⟩
    · exact Or.inl hx
  · exact Or.inr ⟨b, hmem, hx⟩

/-- Keys in the buckets after a run of `Add` calls for one key. -/
theorem mem_foldl_Add (env : GpgEnv) (v x : GpgPrimaryKey) (ks : List String) :
    ∀ (bd : BucketDict) (b : String × List GpgPrimaryKey),
      b ∈ (ks.foldl (fun bd e => bd.Add env e v) bd).d → x ∈ b.2 →
      x = v ∨ ∃ b' ∈ bd.d, x ∈ b'.2 := by
  induction ks with
  | nil => intro bd b hb hx; exact Or.inr ⟨b, hb, hx⟩
  | cons k rest ih =>
    intro bd b hb hx
    rw [List.foldl_cons] at hb
    rcases ih _ b hb hx with h | ⟨b', hb', hx'⟩
    · exact Or.inl h
    · exact mem_Add env bd k v x b' hb' hx'

/-- A property of all keys of an index — in `Keys` and in every bucket —
still holds after `IndexKey` of a key that has it. -/
theorem IndexKey_all (env : GpgEnv) (P : GpgPrimaryKey → Prop) (ki : GpgKeyIndex)
    (k : GpgPrimaryKey) (hk : P k)
    (h : (∀ x ∈ ki.Keys, P x) ∧ (∀ b ∈ ki.Emails.d, ∀ x ∈ b.2, P x) ∧
      (∀ b ∈ ki.Fingerprints.d, ∀ x ∈ b.2, P x) ∧ (∀ b ∈ ki.Id64s.d, ∀ x ∈ b.2, P x)) :
    (∀ x ∈ (ki.IndexKey env k).Keys, P x) ∧ (∀ b ∈ (ki.IndexKey env k).Emails.d, ∀ x ∈ b.2, P x) ∧
      (∀ b ∈ (ki.IndexKey env k).Fingerprints.d, ∀ x ∈ b.2, P x) ∧
      (∀ b ∈ (ki.IndexKey env k).Id64s.d, ∀ x ∈ b.2, P x) := by
  obtain ⟨h1, h2, h3, h4⟩ := h
  refine ⟨?_, ?_, ?_, ?_⟩
  · intro x hx
    simp only [GpgKeyIndex.IndexKey, List.mem_append, List.mem_singleton] at hx
    rcases hx with hx | rfl
    · exact h1 x hx
    · exact hk
  · intro b hb x hx
    rcases mem_foldl_Add env k x _ _ b hb hx with rfl | ⟨b', hb', hx'⟩
    · exact hk
    · exact h2 b' hb' x hx'
  · intro b hb x hx
    simp only [GpgKeyIndex.IndexKey] at hb
    cases hfp : k.GetFingerprint with
    | none => rw [hfp] at hb; exact h3 b hb x hx
    | some fp =>
      rw [hfp] at hb
      rcases mem_Add env _ _ k x b hb hx with rfl | ⟨b', hb', hx'⟩
      · exact hk
      · exact h3 b' hb' x hx'
  · intro b hb x hx
    rcases mem_foldl_Add env k x _ _ b hb hx with rfl | ⟨b', hb', hx'⟩
    · exact hk
    · exact h4 b' hb' x hx'

/-- The 64-bit sum of a 64-bit second and `unixToInternal`: the sum itself
below the bound, and a negative number from the bound on. -/
theorem wrapInt64_unix (x : Int) (h1 : -9223372036854775808 ≤ x) (h2 : x < 9223372036854775808) :
    (x < 9223371974719179008 → wrapInt64 (x + unixToInternal) = x + unixToInternal) ∧
    (9223371974719179008 ≤ x →
      wrapInt64 (x + unixToInternal) = x + unixToInternal - 18446744073709551616) := by
  unfold wrapInt64 unixToInternal
  constructor
  · intro h
    omega
  · intro h
    omega

/-- What `IsValid` computes on 64-bit values, for a clock whose second since
the year 1 is a 64-bit value too. -/
theorem IsValid_iff (k : GpgPrimaryKey) (now : Int)
    (hnow1 : -9223372036854775808 ≤ now) (hnow2 : now < 9223371974719179008)
    (hexp1 : -9223372036854775808 ≤ k.Expires) (hexp2 : k.Expires < 9223372036854775808) :
    k.IsValid now = true ↔
      (k.Trust ≠ "r" ∧
        (k.Expires = 0 ∨ (now < k.Expires ∧ k.Expires < 9223371974719179008))) := by
  have hn := (wrapInt64_unix now hnow1 (by omega)).1 hnow2
  have he := wrapInt64_unix k.Expires hexp1 hexp2
  unfold GpgPrimaryKey.IsValid
  by_cases ht : k.Trust = "r"
  · simp [ht]
  · by_cases he0 : k.Expires = 0
    · simp [ht, he0]
    · simp only [ht, he0, if_false, decide_eq_true_eq, ne_eq, not_false_eq_true, true_and,
        false_or]
      rw [hn]
      by_cases hb : k.Expires < 9223371974719179008
      · rw [he.1 hb]
        constructor
        · intro h
          exact ⟨by omega, hb⟩
        · intro h
          omega
      · rw [he.2 (by omega)]
        unfold unixToInternal
        constructor
        · intro h
          omega
        · intro h
          omega

/-- A property of the keys `PushElement` is given that are valid holds of all
keys of the index after `PushElement` when it did before. -/
theorem PushElement_all (env : GpgEnv) (now : Int) (P : GpgPrimaryKey → Prop) (ki : GpgKeyIndex)
    (e : Option GpgPrimaryKey) (he : ∀ key, e = some key → key.IsValid now = true → P key)
    (h : (∀ x ∈ ki.Keys, P x) ∧ (∀ b ∈ ki.Emails.d, ∀ x ∈ b.2, P x) ∧
      (∀ b ∈ ki.Fingerprints.d, ∀ x ∈ b.2, P x) ∧ (∀ b ∈ ki.Id64s.d, ∀ x ∈ b.2, P x)) :
    (∀ x ∈ (ki.PushElement env now e).Keys, P x) ∧
      (∀ b ∈ (ki.PushElement env now e).Emails.d, ∀ x ∈ b.2, P x) ∧
      (∀ b ∈ (ki.PushElement env now e).Fingerprints.d, ∀ x ∈ b.2, P x) ∧
      (∀ b ∈ (ki.PushElement env now e).Id64s.d, ∀ x ∈ b.2, P x) := by
  cases e with
  | none => exact h
  | some key =>
    by_cases hv : key.IsValid now = true
    · simp only [GpgKeyIndex.PushElement, hv, if_true]
      exact IndexKey_all env P ki key (he key rfl hv) h
    · simp only [GpgKeyIndex.PushElement, hv]
      exact h

/-- A property of the valid keys that `ParseElement` returns holds of all
keys of the index when the loop of `Parse` ends, if it did when the loop
began. -/
theorem parseLoop_all (env : GpgEnv) (now : Int) (P : GpgPrimaryKey → Prop)
    (hP : ∀ (p p1 : GpgIndexParser) (el : GpgPrimaryKey) (err : Option GpgErr),
      p.ParseElement env = Outcome.returned (p1, some el, err) → el.IsValid now = true → P el)
    (fuel : Nat) :
    ∀ (p : GpgIndexParser) (ki : GpgKeyIndex)
      (r : GpgIndexParser × GpgKeyIndex × Option GpgErr),
      parseLoop env now fuel p ki = Outcome.returned r →
      ((∀ x ∈ ki.Keys, P x) ∧ (∀ b ∈ ki.Emails.d, ∀ x ∈ b.2, P x) ∧
        (∀ b ∈ ki.Fingerprints.d, ∀ x ∈ b.2, P x) ∧ (∀ b ∈ ki.Id64s.d, ∀ x ∈ b.2, P x)) →
      ((∀ x ∈ r.2.1.Keys, P x) ∧ (∀ b ∈ r.2.1.Emails.d, ∀ x ∈ b.2, P x) ∧
        (∀ b ∈ r.2.1.Fingerprints.d, ∀ x ∈ b.2, P x) ∧
        (∀ b ∈ r.2.1.Id64s.d, ∀ x ∈ b.2, P x)) := by
  induction fuel with
  | zero =>
    intro p ki r hr h
    simp only [parseLoop, Outcome.returned.injEq] at hr
    rw [← hr]; exact h
  | succ fuel ih =>
    intro p ki r hr h
    rw [parseLoop] at hr
    by_cases heof : p.isEof = true
    · simp only [heof, if_true, Outcome.returned.injEq] at hr
      rw [← hr]; exact h
    · simp only [heof, Bool.false_eq_true, if_false] at hr
      rcases hel : p.ParseElement env with ⟨p1, el, err⟩ | _
      · rw [hel] at hr
        rcases err with _ | err
        · rcases el with _ | el
          · exact ih p1 ki r hr h
          · refine ih p1 _ r hr (PushElement_all env now P ki (some el) ?_ h)
            intro key hkey hv
            simp only [Option.some.injEq] at hkey
            rw [← hkey]
            rw [← hkey] at hv
            exact hP p p1 el none hel hv
        · simp only [Outcome.returned.injEq] at hr
          rw [← hr]; exact h
      · rw [hel] at hr
        simp at hr

/-- A `Swap` keeps the buckets and rearranges `Keys`. -/
theorem Swap_perm (ki k1 : GpgKeyIndex) (i j : Nat) (h : ki.Swap i j = Outcome.returned k1) :
    k1.Keys.Perm ki.Keys ∧ k1.Emails = ki.Emails ∧ k1.Fingerprints = ki.Fingerprints ∧
      k1.Id64s = ki.Id64s := by
  unfold GpgKeyIndex.Swap at h
  rcases hi : ki.Keys[i]? with _ | a
  · rw [hi] at h
    simp at h
  · rcases hj : ki.Keys[j]? with _ | b
    · rw [hi, hj] at h
      simp at h
    · rw [hi, hj] at h
      simp only [Outcome.returned.injEq] at h
      rw [← h]
      refine ⟨?_, rfl, rfl, rfl⟩
      have hil : i < ki.Keys.length := (List.getElem?_eq_some.mp hi).1
      have hjl : j < ki.Keys.length := (List.getElem?_eq_some.mp hj).1
      have hia : ki.Keys[i] = a := (List.getElem?_eq_some.mp hi).2
      have hjb : ki.Keys[j] = b := (List.getElem?_eq_some.mp hj).2
      apply List.perm_iff_count.mpr
      intro x
      have hca : 0 < List.count a ki.Keys := by
        rw [← hia]; exact List.count_pos_iff.mpr (List.getElem_mem _)
      have hcb : 0 < List.count b ki.Keys := by
        rw [← hjb]; exact List.count_pos_iff.mpr (List.getElem_mem _)
      by_cases hij : i = j
      · subst hij
        have hab : a = b := by rw [← hia, ← hjb]
        subst hab
        rw [List.set_set, List.count_set _ _ _ _ hil, hia]
        by_cases hxa : a = x
        · simp only [hxa, beq_self_eq_true, if_true]
          rw [hxa] at hca
          omega
        · simp [hxa]
      · have hjl2 : j < (ki.Keys.set i b).length := by rw [List.length_set]; exact hjl
        rw [List.count_set _ _ _ _ hjl2, List.count_set _ _ _ _ hil]
        rw [List.getElem_set_ne hij hjl2]
        rw [hia, hjb]
        by_cases hxa : a = x <;> by_cases hxb : b = x
        · simp only [hxa, hxb, beq_self_eq_true, if_true]
          rw [hxa] at hca
          omega
        · rw [hxa] at hca
          simp only [hxa, hxb, beq_self_eq_true, if_true, beq_iff_eq, if_false]
          omega
        · rw [hxb] at hcb
          simp only [hxa, hxb, beq_self_eq_true, if_true, beq_iff_eq, if_false]
          omega
        · simp [hxa, hxb]

/-- A `Swap` with indices below `Len` returns and keeps `Len`, and so does
`Less` return. -/
theorem Swap_returns (ki : GpgKeyIndex) (i j : Nat) (hi : i < ki.Len) (hj : j < ki.Len) :
    (∃ k1, ki.Swap i j = Outcome.returned k1 ∧ k1.Len = ki.Len) ∧
    ∃ b, ki.Less i j = Outcome.returned b := by
  have hi1 : ki.Keys[i]? = some ki.Keys[i] := List.getElem?_eq_getElem hi
  have hj1 : ki.Keys[j]? = some ki.Keys[j] := List.getElem?_eq_getElem hj
  constructor
  · refine ⟨{ ki with Keys := (ki.Keys.set i ki.Keys[j]).set j ki.Keys[i] }, ?_, ?_⟩
    · simp only [GpgKeyIndex.Swap, hi1, hj1]
    · simp only [GpgKeyIndex.Len, List.length_set]
  · exact ⟨lessKeys ki.Keys[i] ki.Keys[j], by simp only [GpgKeyIndex.Less, hi1, hj1]⟩

/-- The method `Sort` keeps the buckets and rearranges `Keys`, whatever
`Swap` calls the library makes. -/
theorem Sort_perm (env : GpgEnv) (ki : GpgKeyIndex) :
    (ki.Sort env).Keys.Perm ki.Keys ∧ (ki.Sort env).Emails = ki.Emails ∧
      (ki.Sort env).Fingerprints = ki.Fingerprints ∧ (ki.Sort env).Id64s = ki.Id64s := by
  have h : ∀ (n : Nat) (swaps : List (Fin n × Fin n)) (k : GpgKeyIndex),
      k.Keys.Perm ki.Keys ∧ k.Emails = ki.Emails ∧ k.Fingerprints = ki.Fingerprints ∧
        k.Id64s = ki.Id64s →
      (swaps.foldl
        (fun k ij =>
          match k.Swap ij.1.val ij.2.val with
          | Outcome.returned k1 => k1
          | Outcome.panicked => k) k).Keys.Perm ki.Keys ∧
      (swaps.foldl
        (fun k ij =>
          match k.Swap ij.1.val ij.2.val with
          | Outcome.returned k1 => k1
          | Outcome.panicked => k) k).Emails = ki.Emails ∧
      (swaps.foldl
        (fun k ij =>
          match k.Swap ij.1.val ij.2.val with
          | Outcome.returned k1 => k1
          | Outcome.panicked => k) k).Fingerprints = ki.Fingerprints ∧
      (swaps.foldl
        (fun k ij =>
          match k.Swap ij.1.val ij.2.val with
          | Outcome.returned k1 => k1
          | Outcome.panicked => k) k).Id64s = ki.Id64s := by
    intro n swaps
    induction swaps with
    | nil => intro k hk; exact hk
    | cons ij rest ih =>
      intro k hk
      rw [List.foldl_cons]
      apply ih
      rcases hs : k.Swap ij.1.val ij.2.val with k1 | _
      · obtain ⟨h1, h2, h3, h4⟩ := Swap_perm k k1 _ _ hs
        exact ⟨h1.trans hk.1, h2.trans hk.2.1, h3.trans hk.2.2.1, h4.trans hk.2.2.2⟩
      · exact hk
  exact h _ _ ki ⟨List.Perm.refl _, rfl, rfl, rfl⟩

/-- The method `Sort` leaves an index without keys as it is. -/
theorem Sort_of_no_keys (env : GpgEnv) (ki : GpgKeyIndex) (h : ki.Keys = []) :
    ki.Sort env = ki := by
  obtain ⟨h1, h2, h3, h4⟩ := Sort_perm env ki
  rw [h] at h1
  have hk : (ki.Sort env).Keys = ki.Keys := by rw [h]; exact List.Perm.eq_nil h1
  cases hs : ki.Sort env with
  | mk a b c d =>
    rw [hs] at hk h2 h3 h4
    cases ki with
    | mk a1 b1 c1 d1 =>
      simp only at hk h2 h3 h4
      rw [hk, h2, h3, h4]

/-- The value of `strconv.Atoi` is a 64-bit integer. -/
theorem Atoi_range (s : String) :
    -9223372036854775808 ≤ (strconv.Atoi s).1 ∧ (strconv.Atoi s).1 < 9223372036854775808 := by
  unfold strconv.Atoi
  simp only
  split
  · simp
  · rename_i neg c cs _
    rcases digitsValue 0 (c :: cs) with _ | n
    · simp
    · simp only
      by_cases hneg : neg = true
      · simp only [hneg, if_true]
        split_ifs with h
        · simp
        · simp only
          have h1 : (n : Int) ≤ 9223372036854775808 := by
            have : n ≤ 2 ^ 63 := Nat.le_of_not_lt h
            exact_mod_cast this
          omega
      · simp only [hneg, Bool.false_eq_true, if_false]
        split_ifs with h
        · simp
        · simp only
          have h1 : (n : Int) < 9223372036854775808 := by
            have : n < 2 ^ 63 := Nat.lt_of_not_le h
            exact_mod_cast this
          omega

/-- The field `Expires` after `ParseBase` is a 64-bit integer when it was
before. -/
theorem ParseBase_Expires (k : GpgBaseKey) (line : GpgIndexLine)
    (r : GpgBaseKey × Option GpgErr) (h : k.ParseBase line = Outcome.returned r)
    (hk : -9223372036854775808 ≤ k.Expires ∧ k.Expires < 9223372036854775808) :
    -9223372036854775808 ≤ r.1.Expires ∧ r.1.Expires < 9223372036854775808 := by
  unfold GpgBaseKey.ParseBase at h
  split_ifs at h with hlen
  · simp only [Outcome.returned.injEq] at h
    rw [← h]; exact hk
  · rcases h0 : line.At 0 with f0 | _
    swap
    · rw [h0] at h; simp [Outcome.bind] at h
    rcases h1 : line.At 1 with f1 | _
    swap
    · rw [h0, h1] at h; simp [Outcome.bind] at h
    rcases h4 : line.At 4 with f4 | _
    swap
    · rw [h0, h1, h4] at h; simp [Outcome.bind] at h
    rcases h2 : line.At 2 with f2 | _
    swap
    · rw [h0, h1, h4, h2] at h; simp [Outcome.bind] at h
    rw [h0, h1, h4, h2] at h
    simp only [Outcome.bind] at h
    rcases ha2 : strconv.Atoi f2 with ⟨bits, _ | e⟩
    swap
    · rw [ha2] at h
      simp only [Outcome.returned.injEq] at h
      rw [← h]; exact hk
    rw [ha2] at h
    simp only at h
    rcases h3 : line.At 3 with f3 | _
    swap
    · rw [h3] at h; simp at h
    rw [h3] at h
    simp only at h
    rcases ha3 : strconv.Atoi f3 with ⟨algo, _ | e⟩
    swap
    · rw [ha3] at h
      simp only [Outcome.returned.injEq] at h
      rw [← h]; exact hk
    rw [ha3] at h
    simp only at h
    rcases h5 : line.At 5 with f5 | _
    swap
    · rw [h5] at h; simp at h
    rw [h5] at h
    simp only at h
    rcases ha5 : strconv.Atoi f5 with ⟨created, _ | e⟩
    swap
    · rw [ha5] at h
      simp only [Outcome.returned.injEq] at h
      rw [← h]; exact hk
    rw [ha5] at h
    simp only at h
    rcases h6 : line.At 6 with f6 | _
    swap
    · rw [h6] at h; simp at h
    rw [h6] at h
    simp only [Outcome.returned.injEq] at h
    rw [← h]
    simp only [flexiAtoi]
    split_ifs
    · simp
    · exact Atoi_range f6

/-- The method `AddLine` leaves the field `Expires` of the primary key as it
is. -/
theorem AddLine_Expires (env : GpgEnv) (p : GpgPrimaryKey) (l : GpgIndexLine)
    (r : GpgPrimaryKey × Option GpgErr) (h : p.AddLine env l = Outcome.returned r) :
    r.1.Expires = p.Expires := by
  unfold GpgPrimaryKey.AddLine at h
  split_ifs at h with hlen
  · simp only [Outcome.returned.injEq] at h
    rw [← h]
  · rcases h0 : l.At 0 with f | _
    swap
    · rw [h0] at h; simp [Outcome.bind] at h
    rw [h0] at h
    simp only [Outcome.bind] at h
    split_ifs at h with hf1 hf2 hf3 hf4
    · unfold GpgPrimaryKey.AddFingerprint at h
      rcases h9 : l.At 9 with f9 | _
      swap
      · rw [h9] at h; simp [Outcome.bind] at h
      rw [h9] at h
      simp only [Outcome.bind] at h
      split_ifs at h
      · simp only [Outcome.returned.injEq] at h
        rw [← h]
      · rcases hfp : env.PgpFingerprintFromHex f9 with e | fp
        · rw [hfp] at h
          simp only [Outcome.returned.injEq] at h
          rw [← h]
        · rw [hfp] at h
          simp only at h
          unfold GpgPrimaryKey.SetFingerprint at h
          rcases htop : p.top with _ | n
          · rw [htop] at h
            simp only [Outcome.returned.injEq] at h
            rw [← h]
          · rw [htop] at h
            simp only at h
            rcases hsk : p.subkeys[n]? with _ | sk
            · rw [hsk] at h; simp at h
            · rw [hsk] at h
              simp only [Outcome.returned.injEq] at h
              rw [← h]
    · unfold GpgPrimaryKey.AddUid at h
      rcases h9 : l.At 9 with f9 | _
      swap
      · rw [h9] at h; simp [Outcome.bind] at h
      rw [h9] at h
      simp only [Outcome.bind] at h
      split_ifs at h
      · simp only [Outcome.returned.injEq] at h
        rw [← h]
      · rcases hid : env.ParseIdentity f9 with e | id
        · rw [hid] at h
          simp only [Outcome.returned.injEq] at h
          rw [← h]
        · rw [hid] at h
          simp only [Outcome.returned.injEq] at h
          rw [← h]
    · simp only [Outcome.returned.injEq] at h
      rw [← h]
    · unfold GpgPrimaryKey.AddSubkey at h
      rcases hsk : ParseGpgSubKey l with rs | _
      swap
      · rw [hsk] at h; simp [Outcome.bind] at h
      rw [hsk] at h
      simp only [Outcome.bind] at h
      rcases hrs : rs.2 with _ | e
      · rw [hrs] at h
        simp only [Outcome.returned.injEq] at h
        rw [← h]
      · rw [hrs] at h
        simp only [Outcome.returned.injEq] at h
        rw [← h]
    · simp only [Outcome.returned.injEq] at h
      rw [← h]

/-- The loop of `ParseKey` leaves the field `Expires` of the key as it is. -/
theorem parseKeyLoop_Expires (env : GpgEnv) (fuel : Nat) :
    ∀ (p : GpgIndexParser) (ret : GpgPrimaryKey)
      (r : GpgIndexParser × GpgPrimaryKey × Option GpgErr),
      parseKeyLoop env fuel p ret = Outcome.returned r → r.2.1.Expires = ret.Expires := by
  induction fuel with
  | zero =>
    intro p ret r h
    simp only [parseKeyLoop, Outcome.returned.injEq] at h
    rw [← h]
  | succ fuel ih =>
    intro p ret r h
    rw [parseKeyLoop] at h
    by_cases heof : p.isEof = true
    · simp only [heof, if_true, Outcome.returned.injEq] at h
      rw [← h]
    · simp only [heof, Bool.false_eq_true, if_false] at h
      rcases hg : p.GetLine with ⟨p1, line, err⟩
      rw [hg] at h
      rcases err with _ | err
      · rcases line with _ | line
        · exact ih p1 ret r h
        · simp only at h
          by_cases hnew : line.IsNewKey = true
          · simp only [hnew, if_true, Outcome.returned.injEq] at h
            rw [← h]
          · simp only [hnew, Bool.false_eq_true, if_false] at h
            rcases ha : ret.AddLine env line with ⟨ret1, e2⟩ | _
            · rw [ha] at h
              have hexp := AddLine_Expires env ret line _ ha
              simp only at hexp
              rcases e2 with _ | e2
              · rw [ih p1 ret1 r h, hexp]
              · rw [ih _ ret1 r h, hexp]
            · rw [ha] at h
              simp at h
      · simp only [Outcome.returned.injEq] at h
        rw [← h]

/-- The field `Expires` of a key that `ParseElement` returns is a 64-bit
integer. -/
theorem ParseElement_Expires (env : GpgEnv) (p p1 : GpgIndexParser) (el : GpgPrimaryKey)
    (err : Option GpgErr) (h : p.ParseElement env = Outcome.returned (p1, some el, err)) :
    -9223372036854775808 ≤ el.Expires ∧ el.Expires < 9223372036854775808 := by
  unfold GpgIndexParser.ParseElement at h
  rcases hg : p.GetLine with ⟨p0, line, e0⟩
  rw [hg] at h
  rcases e0 with _ | e0
  swap
  · simp at h
  rcases line with _ | line
  · simp at h
  simp only at h
  by_cases hnew : line.IsNewKey = true
  swap
  · simp [hnew] at h
  simp only [hnew, if_true] at h
  unfold GpgIndexParser.ParseKey at h
  rcases hpk : ParseGpgPrimaryKey env line with rk | _
  swap
  · rw [hpk] at h; simp [Outcome.bind] at h
  have hrk : -9223372036854775808 ≤ rk.1.Expires ∧ rk.1.Expires < 9223372036854775808 := by
    unfold ParseGpgPrimaryKey GpgPrimaryKey.Parse at hpk
    rcases hpb : NewGpgPrimaryKey.toGpgBaseKey.ParseBase line with rb | _
    swap
    · rw [hpb] at hpk; simp [Outcome.bind] at hpk
    have hb := ParseBase_Expires _ line rb hpb (by decide)
    rw [hpb] at hpk
    simp only [Outcome.bind] at hpk
    rcases hrb : rb.2 with _ | e
    · rw [hrb] at hpk
      simp only at hpk
      unfold GpgPrimaryKey.AddUid at hpk
      rcases h9 : line.At 9 with f9 | _
      swap
      · rw [h9] at hpk; simp [Outcome.bind] at hpk
      rw [h9] at hpk
      simp only [Outcome.bind] at hpk
      split_ifs at hpk
      · simp only [Outcome.returned.injEq] at hpk
        rw [← hpk]; exact hb
      · rcases hid : env.ParseIdentity f9 with e | id
        · rw [hid] at hpk
          simp only [Outcome.returned.injEq] at hpk
          rw [← hpk]; exact hb
        · rw [hid] at hpk
          simp only [Outcome.returned.injEq] at hpk
          rw [← hpk]; exact hb
    · rw [hrb] at hpk
      simp only [Outcome.returned.injEq] at hpk
      rw [← hpk]; exact hb
  rw [hpk] at h
  simp only [Outcome.bind] at h
  rcases hrk2 : rk.2 with _ | e
  · rw [hrk2] at h
    simp only at h
    rcases hloop : parseKeyLoop env (p0.src.length + 2) p0 rk.1 with rl | _
    · rw [hloop] at h
      simp only [Outcome.returned.injEq, Prod.mk.injEq, Option.some.injEq] at h
      have := parseKeyLoop_Expires env _ p0 rk.1 rl hloop
      rw [← h.2.1, this]
      exact hrk
    · rw [hloop] at h
      simp at h
  · rw [hrk2] at h
    simp only [Outcome.returned.injEq, Prod.mk.injEq, Option.some.injEq] at h
    rw [← h.2.1]
    exact hrk

/-- C26. Let `now`, the Unix second of the clock, be a 64-bit integer below
9223371974719179008, so that the second since the year 1 that the clock
keeps is a 64-bit integer too. For every key whose `Expires` is a 64-bit
integer, `PushElement` indexes the key (it becomes the last of `Keys`) if
its trust is not "r" and its `Expires` is 0 or is after `now` and below
9223371974719179008, and leaves the index as it is otherwise. Hence after
any run of `PushElement` calls with such keys on a new index, and in the
index `Parse` returns for any listing, every key in `Keys` and in every
bucket of `Emails`, `Fingerprints` and `Id64s` has a trust other than "r" and
has `Expires = 0` or an `Expires` after `now` and below
9223371974719179008. -/
theorem PushElement_validity_filter (env : GpgEnv) (now : Int)
    (hnow1 : -9223372036854775808 ≤ now) (hnow2 : now < 9223371974719179008) :
    (∀ (ki : GpgKeyIndex) (key : GpgPrimaryKey),
      -9223372036854775808 ≤ key.Expires → key.Expires < 9223372036854775808 →
      ((key.Trust ≠ "r" ∧
          (key.Expires = 0 ∨ (now < key.Expires ∧ key.Expires < 9223371974719179008))) →
        ki.PushElement env now (some key) = ki.IndexKey env key ∧
        (ki.PushElement env now (some key)).Keys = ki.Keys ++ [key]) ∧
      (¬ (key.Trust ≠ "r" ∧
          (key.Expires = 0 ∨ (now < key.Expires ∧ key.Expires < 9223371974719179008))) →
        ki.PushElement env now (some key) = ki)) ∧
    (∀ (els : List (Option GpgPrimaryKey)) (k : GpgPrimaryKey),
      (∀ key, some key ∈ els →
        -9223372036854775808 ≤ key.Expires ∧ key.Expires < 9223372036854775808) →
      (k ∈ (els.foldl (GpgKeyIndex.PushElement env now) NewGpgKeyIndex).Keys ∨
        (∃ b ∈ (els.foldl (GpgKeyIndex.PushElement env now) NewGpgKeyIndex).Emails.d, k ∈ b.2) ∨
        (∃ b ∈ (els.foldl (GpgKeyIndex.PushElement env now) NewGpgKeyIndex).Fingerprints.d, k ∈ b.2) ∨
        (∃ b ∈ (els.foldl (GpgKeyIndex.PushElement env now) NewGpgKeyIndex).Id64s.d, k ∈ b.2)) →
      k.Trust ≠ "r" ∧ (k.Expires = 0 ∨ (now < k.Expires ∧ k.Expires < 9223371974719179008))) ∧
    (∀ (p : GpgIndexParser) (stream : List String)
      (r : GpgIndexParser × GpgKeyIndex × Option GpgErr) (k : GpgPrimaryKey),
      p.Parse env now stream = Outcome.returned r →
      (k ∈ r.2.1.Keys ∨ (∃ b ∈ r.2.1.Emails.d, k ∈ b.2) ∨
        (∃ b ∈ r.2.1.Fingerprints.d, k ∈ b.2) ∨ (∃ b ∈ r.2.1.Id64s.d, k ∈ b.2)) →
      k.Trust ≠ "r" ∧
        (k.Expires = 0 ∨ (now < k.Expires ∧ k.Expires < 9223371974719179008))) := by
  have hnew : ∀ P : GpgPrimaryKey → Prop, (∀ x ∈ NewGpgKeyIndex.Keys, P x) ∧
      (∀ b ∈ NewGpgKeyIndex.Emails.d, ∀ x ∈ b.2, P x) ∧
      (∀ b ∈ NewGpgKeyIndex.Fingerprints.d, ∀ x ∈ b.2, P x) ∧
      (∀ b ∈ NewGpgKeyIndex.Id64s.d, ∀ x ∈ b.2, P x) := by
    intro P
    simp [NewGpgKeyIndex, NewBuckDict]
  have huse : ∀ (ki : GpgKeyIndex) (k : GpgPrimaryKey),
      ((∀ x ∈ ki.Keys, x.IsValid now = true ∧
          (-9223372036854775808 ≤ x.Expires ∧ x.Expires < 9223372036854775808)) ∧
        (∀ b ∈ ki.Emails.d, ∀ x ∈ b.2, x.IsValid now = true ∧
          (-9223372036854775808 ≤ x.Expires ∧ x.Expires < 9223372036854775808)) ∧
        (∀ b ∈ ki.Fingerprints.d, ∀ x ∈ b.2, x.IsValid now = true ∧
          (-9223372036854775808 ≤ x.Expires ∧ x.Expires < 9223372036854775808)) ∧
        (∀ b ∈ ki.Id64s.d, ∀ x ∈ b.2, x.IsValid now = true ∧
          (-9223372036854775808 ≤ x.Expires ∧ x.Expires < 9223372036854775808))) →
      (k ∈ ki.Keys ∨ (∃ b ∈ ki.Emails.d, k ∈ b.2) ∨
        (∃ b ∈ ki.Fingerprints.d, k ∈ b.2) ∨ (∃ b ∈ ki.Id64s.d, k ∈ b.2)) →
      k.Trust ≠ "r" ∧
        (k.Expires = 0 ∨ (now < k.Expires ∧ k.Expires < 9223371974719179008)) := by
    intro ki k ⟨h1, h2, h3, h4⟩ hk
    have hv : k.IsValid now = true ∧
        (-9223372036854775808 ≤ k.Expires ∧ k.Expires < 9223372036854775808) := by
      rcases hk with hk | ⟨b, hb, hk⟩ | ⟨b, hb, hk⟩ | ⟨b, hb, hk⟩
      · exact h1 k hk
      · exact h2 b hb k hk
      · exact h3 b hb k hk
      · exact h4 b hb k hk
    exact (IsValid_iff k now hnow1 hnow2 hv.2.1 hv.2.2).mp hv.1
  refine ⟨?_, ?_, ?_⟩
  · intro ki key hk1 hk2
    rw [← IsValid_iff key now hnow1 hnow2 hk1 hk2]
    constructor
    · intro hv
      simp only [GpgKeyIndex.PushElement, hv, if_true, true_and]
      rfl
    · intro hv
      simp only [GpgKeyIndex.PushElement, hv]
      rfl
  · intro els k hels hk
    refine huse _ k ?_ hk
    have hfold : ∀ (l : List (Option GpgPrimaryKey)) (ki : GpgKeyIndex),
        (∀ key, some key ∈ l →
          -9223372036854775808 ≤ key.Expires ∧ key.Expires < 9223372036854775808) →
        ((∀ x ∈ ki.Keys, x.IsValid now = true ∧
            (-9223372036854775808 ≤ x.Expires ∧ x.Expires < 9223372036854775808)) ∧
          (∀ b ∈ ki.Emails.d, ∀ x ∈ b.2, x.IsValid now = true ∧
            (-9223372036854775808 ≤ x.Expires ∧ x.Expires < 9223372036854775808)) ∧
          (∀ b ∈ ki.Fingerprints.d, ∀ x ∈ b.2, x.IsValid now = true ∧
            (-9223372036854775808 ≤ x.Expires ∧ x.Expires < 9223372036854775808)) ∧
          (∀ b ∈ ki.Id64s.d, ∀ x ∈ b.2, x.IsValid now = true ∧
            (-9223372036854775808 ≤ x.Expires ∧ x.Expires < 9223372036854775808))) →
        ((∀ x ∈ (l.foldl (GpgKeyIndex.PushElement env now) ki).Keys, x.IsValid now = true ∧
            (-9223372036854775808 ≤ x.Expires ∧ x.Expires < 9223372036854775808)) ∧
          (∀ b ∈ (l.foldl (GpgKeyIndex.PushElement env now) ki).Emails.d,
            ∀ x ∈ b.2, x.IsValid now = true ∧
            (-9223372036854775808 ≤ x.Expires ∧ x.Expires < 9223372036854775808)) ∧
          (∀ b ∈ (l.foldl (GpgKeyIndex.PushElement env now) ki).Fingerprints.d,
            ∀ x ∈ b.2, x.IsValid now = true ∧
            (-9223372036854775808 ≤ x.Expires ∧ x.Expires < 9223372036854775808)) ∧
          (∀ b ∈ (l.foldl (GpgKeyIndex.PushElement env now) ki).Id64s.d,
            ∀ x ∈ b.2, x.IsValid now = true ∧
            (-9223372036854775808 ≤ x.Expires ∧ x.Expires < 9223372036854775808))) := by
      intro l
      induction l with
      | nil => intro ki _ h; exact h
      | cons e rest ih =>
        intro ki hl h
        rw [List.foldl_cons]
        refine ih _ (fun key hkey => hl key (List.mem_cons_of_mem _ hkey)) ?_
        refine PushElement_all env now _ ki e ?_ h
        intro key hkey hv
        exact ⟨hv, hl key (by rw [hkey]; exact List.mem_cons_self _ _)⟩
    exact hfold els _ hels (hnew _)
  · intro p stream r k hr hk
    simp only [GpgIndexParser.Parse] at hr
    rcases hloop : parseLoop env now (stream.length + 3) { p with src := stream } NewGpgKeyIndex
      with r0 | _
    · rw [hloop] at hr
      simp only [Outcome.bind, Outcome.returned.injEq] at hr
      have hinv := parseLoop_all env now
        (fun x => x.IsValid now = true ∧
          (-9223372036854775808 ≤ x.Expires ∧ x.Expires < 9223372036854775808))
        (fun p p1 el err hel hv => ⟨hv, ParseElement_Expires env p p1 el err hel⟩)
        _ _ _ r0 hloop (hnew _)
      rw [← hr] at hk
      obtain ⟨hs1, hs2, hs3, hs4⟩ := Sort_perm env r0.2.1
      simp only at hk
      rw [hs2, hs3, hs4] at hk
      refine huse r0.2.1 k hinv ?_
      rcases hk with hk | hk
      · left
        exact hs1.mem_iff.mp hk
      · exact Or.inr hk
    · rw [hloop] at hr
      simp [Outcome.bind] at hr

/-- C26, witness: at the Unix second 5, `Parse` of the listing
`threeKeyStream`, whose second key expires at the second 9, returns three
keys, each with a trust other than "r" and with `Expires = 0` or an
`Expires` after 5. -/
theorem PushElement_validity_filter_witness :
    (-9223372036854775808 ≤ (5 : Int) ∧ (5 : Int) < 9223371974719179008) ∧
    ∃ r, NewGpgIndexParser.Parse gpgEnv 5 threeKeyStream = Outcome.returned r ∧
      r.2.1.Keys.length = 3 ∧
      ∀ k, k ∈ r.2.1.Keys →
        k.Trust ≠ "r" ∧ (k.Expires = 0 ∨ ((5 : Int) < k.Expires ∧ k.Expires < 9223371974719179008)) :=
  ⟨by decide, _, rfl, by decide, fun k hk =>
    (PushElement_validity_filter gpgEnv 5 (by decide) (by decide)).2.2
      NewGpgIndexParser threeKeyStream _ k rfl (Or.inl hk)⟩

/-- C26, counterexample: the key of the listing `farFutureStream` has the
trust "u" and expires at the second 9223372036854775807, after the second 0
of the clock; `PushElement` does not index it, and `Parse` of the listing
returns an index without keys. -/
theorem PushElement_validity_filter_counterexample :
    ParseGpgPrimaryKey gpgEnv { v := strings.Split (strings.TrimSpace "pub:u:2048:1:FFFF:1:9223372036854775807:::c@x:::\n") ':', lineno := 1 } =
      Outcome.returned (farFutureKey, none) ∧
    farFutureKey.Trust ≠ "r" ∧ (0 : Int) < farFutureKey.Expires ∧
    NewGpgKeyIndex.PushElement gpgEnv 0 (some farFutureKey) = NewGpgKeyIndex ∧
    ParseGpgIndexStream gpgEnv 0 farFutureStream = Outcome.returned (NewGpgKeyIndex, none, []) :=
  ⟨rfl, by decide, by decide, rfl, rfl⟩

/-! ## GPG index: the email buckets -/

/-- The keys of a map after an assignment. -/
theorem keys_mapAssign {β : Type} (m : List (String × β)) (k : String) (v : β) :
    (mapAssign m k v).map Prod.fst = k :: (m.map Prod.fst).filter fun x => x ≠ k := by
  simp only [mapAssign, List.map_cons, List.filter_map]
  rfl

/-- The strings `Uniquify` returns are distinct and are the lower-cased
strings of its argument. -/
theorem Uniquify_spec (env : GpgEnv) (inp : List String) :
    (Uniquify env inp).Nodup ∧
    ∀ u, u ∈ Uniquify env inp ↔ ∃ s ∈ inp, env.ToLower s = u := by
  have h : ∀ (l : List String) (m : List (String × Bool)), (m.map Prod.fst).Nodup →
      ((l.foldl (fun m s => mapAssign m (env.ToLower s) true) m).map Prod.fst).Nodup ∧
      ∀ u, u ∈ (l.foldl (fun m s => mapAssign m (env.ToLower s) true) m).map Prod.fst ↔
        (u ∈ m.map Prod.fst ∨ ∃ s ∈ l, env.ToLower s = u) := by
    intro l
    induction l with
    | nil => intro m hm; simp [hm]
    | cons s rest ih =>
      intro m hm
      rw [List.foldl_cons]
      have hnd : ((mapAssign m (env.ToLower s) true).map Prod.fst).Nodup := by
        rw [keys_mapAssign]
        refine List.nodup_cons.mpr ⟨?_, hm.filter _⟩
        simp [List.mem_filter]
      obtain ⟨h1, h2⟩ := ih _ hnd
      refine ⟨h1, fun u => ?_⟩
      rw [h2 u, keys_mapAssign]
      simp only [List.mem_cons, List.mem_filter, decide_eq_true_eq, exists_eq_or_imp]
      constructor
      · rintro ((rfl | ⟨hu, _⟩) | ⟨x, hx, rfl⟩)
        · exact Or.inr (Or.inl rfl)
        · exact Or.inl hu
        · exact Or.inr (Or.inr ⟨x, hx, rfl⟩)
      · rintro (hu | rfl | ⟨x, hx, rfl⟩)
        · by_cases hk : u = env.ToLower s
          · exact Or.inl (Or.inl hk)
          · exact Or.inl (Or.inr ⟨hu, hk⟩)
        · exact Or.inl (Or.inl rfl)
        · exact Or.inr ⟨x, hx, rfl⟩
  have h0 := h inp [] (by simp)
  simp only [List.map_nil, List.not_mem_nil, false_or] at h0
  exact h0

/-- A bucket after a run of `Add` calls for one key, under names whose
lower-cased forms are distinct. -/
theorem Get_foldl_Add (env : GpgEnv) (v : GpgPrimaryKey) (k' : String) (ks : List String) :
    ∀ (bd : BucketDict), (ks.map env.ToLower).Nodup →
      (ks.foldl (fun bd e => bd.Add env e v) bd).Get env k' =
        if env.ToLower k' ∈ ks.map env.ToLower then bd.Get env k' ++ [v] else bd.Get env k' := by
  induction ks with
  | nil => intro bd _; simp
  | cons k rest ih =>
    intro bd hnd
    rw [List.map_cons, List.nodup_cons] at hnd
    rw [List.foldl_cons, ih _ hnd.2, Get_Add]
    by_cases hk : env.ToLower k' = env.ToLower k
    · have hnot : env.ToLower k' ∉ rest.map env.ToLower := by rw [hk]; exact hnd.1
      simp [hk, hnd.1]
    · simp [hk]

/-- The `Emails` bucket of a name after `IndexKey`, when `ToLower` leaves
lower-cased strings as they are. -/
theorem IndexKey_Emails_Get (env : GpgEnv)
    (hlower : ∀ s, env.ToLower (env.ToLower s) = env.ToLower s)
    (ki : GpgKeyIndex) (k : GpgPrimaryKey) (e' : String) :
    (ki.IndexKey env k).Emails.Get env e' =
      if ∃ e ∈ k.GetEmails, env.ToLower e = env.ToLower e' then ki.Emails.Get env e' ++ [k]
      else ki.Emails.Get env e' := by
  obtain ⟨hnd, hmem⟩ := Uniquify_spec env k.GetEmails
  have hfix : (Uniquify env k.GetEmails).map env.ToLower = Uniquify env k.GetEmails := by
    conv_rhs => rw [← List.map_id (Uniquify env k.GetEmails)]
    apply List.map_congr_left
    intro u hu
    obtain ⟨s, _, rfl⟩ := (hmem u).mp hu
    exact hlower s
  have hget := Get_foldl_Add env k e' (Uniquify env k.GetEmails) ki.Emails (by rw [hfix]; exact hnd)
  rw [hfix] at hget
  simp only [GpgKeyIndex.IndexKey]
  rw [hget]
  have hiff : env.ToLower e' ∈ Uniquify env k.GetEmails ↔
      ∃ e ∈ k.GetEmails, env.ToLower e = env.ToLower e' := hmem _
  by_cases hc : ∃ e ∈ k.GetEmails, env.ToLower e = env.ToLower e'
  · rw [if_pos (hiff.mpr hc), if_pos hc]
  · rw [if_neg (fun h => hc (hiff.mp h)), if_neg hc]

/-- What `Get0Or1` returns, by the length of the bucket. -/
theorem Get0Or1_cases (env : GpgEnv) (bd : BucketDict) (k : String) :
    ((bd.Get0Or1 env k).2 ≠ none ↔ 1 < (bd.Get env k).length) ∧
    (1 < (bd.Get env k).length → (bd.Get0Or1 env k).1 = none) ∧
    (∀ x, bd.Get env k = [x] → bd.Get0Or1 env k = (some x, none)) ∧
    (bd.Get env k = [] → bd.Get0Or1 env k = (none, none)) := by
  refine ⟨?_, ?_, ?_, ?_⟩
  · by_cases h : 1 < (bd.Get env k).length
    · simp [BucketDict.Get0Or1, h]
    · by_cases h1 : (bd.Get env k).length = 1
      · simp [BucketDict.Get0Or1, h, h1]
      · simp [BucketDict.Get0Or1, h, h1]
  · intro h
    simp [BucketDict.Get0Or1, h]
  · intro x hx
    simp [BucketDict.Get0Or1, hx]
  · intro hx
    simp [BucketDict.Get0Or1, hx]

theorem lowerTable_fixed : ∀ p ∈ lowerTable, lowerTable.lookup p.2 = none := by
  decide

/-- Lower case of a lower-cased character is the character. -/
theorem asciiLower_idem (c : Char) : asciiLower (asciiLower c) = asciiLower c := by
  unfold asciiLower
  cases h : lowerTable.lookup c with
  | none => simp [h]
  | some d =>
    have hd := lowerTable_fixed (c, d) (mem_of_lookup _ _ _ h)
    simp only [Option.getD_some]
    rw [hd]
    rfl

/-- The `ToLower` of the example environment leaves lower-cased strings as
they are. -/
theorem gpgEnv_ToLower_idem (s : String) : gpgEnv.ToLower (gpgEnv.ToLower s) = gpgEnv.ToLower s := by
  simp only [gpgEnv, List.map_map]
  congr 1
  apply List.map_congr_left
  intro c _
  exact asciiLower_idem c

/-- C30. When `strings.ToLower` leaves a lower-cased string as it is: for
every key `k` added by `IndexKey`, every email `e` of its identities and
every string `e'` with the same lower-cased form as `e`, the bucket
`Emails.Get(e')` is the bucket of before with `k` added once at its end
(on a new index it is `k` alone), whatever the other identities of the key
are; and `Get0Or1` returns an error exactly when the bucket has more than
one key, the key of a bucket of one, and nil for an empty bucket. -/
theorem IndexKey_emails_case_insensitive (env : GpgEnv)
    (hlower : ∀ s, env.ToLower (env.ToLower s) = env.ToLower s)
    (ki : GpgKeyIndex) (k : GpgPrimaryKey) (e e' : String)
    (he : e ∈ k.GetEmails) (hcase : env.ToLower e' = env.ToLower e) :
    (ki.IndexKey env k).Emails.Get env e' = ki.Emails.Get env e' ++ [k] ∧
    ((ki.IndexKey env k).Emails.Get env e').count k = (ki.Emails.Get env e').count k + 1 ∧
    (NewGpgKeyIndex.IndexKey env k).Emails.Get env e' = [k] ∧
    (∀ (bd : BucketDict) (name : String),
      ((bd.Get0Or1 env name).2 ≠ none ↔ 1 < (bd.Get env name).length) ∧
      (1 < (bd.Get env name).length → (bd.Get0Or1 env name).1 = none) ∧
      (∀ x, bd.Get env name = [x] → bd.Get0Or1 env name = (some x, none)) ∧
      (bd.Get env name = [] → bd.Get0Or1 env name = (none, none))) := by
  have hex : ∃ e ∈ k.GetEmails, env.ToLower e = env.ToLower e' := ⟨e, he, hcase.symm⟩
  have hget : ∀ ki : GpgKeyIndex,
      (ki.IndexKey env k).Emails.Get env e' = ki.Emails.Get env e' ++ [k] := by
    intro ki
    rw [IndexKey_Emails_Get env hlower ki k e', if_pos hex]
  refine ⟨hget ki, ?_, ?_, fun bd name => Get0Or1_cases env bd name⟩
  · rw [hget ki, List.count_append, List.count_singleton_self]
  · rw [hget NewGpgKeyIndex]
    rfl

/-- C30, witness: a key with the emails `A@b.C` and `a@B.c` is found once
under `a@b.c`. -/
theorem IndexKey_emails_case_insensitive_witness :
    "A@b.C" ∈ twoCaseKey.GetEmails ∧ gpgEnv.ToLower "a@b.c" = gpgEnv.ToLower "A@b.C" ∧
    (NewGpgKeyIndex.IndexKey gpgEnv twoCaseKey).Emails.Get gpgEnv "a@b.c" = [twoCaseKey] :=
  ⟨by decide, by decide,
    (IndexKey_emails_case_insensitive gpgEnv gpgEnv_ToLower_idem NewGpgKeyIndex twoCaseKey
      "A@b.C" "a@b.c" (by decide) (by decide)).2.2.1⟩

/-! ## GPG index: the sort order -/

/-- A key that `Less` puts before another may stand before it. -/
theorem lessKeys_true (x y : GpgPrimaryKey) (h : lessKeys x y = true) :
    y.identities.length ≤ x.identities.length ∧
    (x.identities.length = y.identities.length → y.Expires = 0 → x.Expires = 0) ∧
    (x.identities.length = y.identities.length → x.Expires ≠ 0 → y.Expires ≠ 0 →
      y.Expires ≤ x.Expires) := by
  unfold lessKeys at h
  split_ifs at h with h1 h2 h3 h4 h5
  · refine ⟨by omega, fun _ => by omega, fun _ => by omega⟩
  · refine ⟨by omega, fun _ _ => h3, fun _ hx => absurd h3 hx⟩
  · refine ⟨by omega, fun _ hy => absurd hy h4, fun _ _ _ => by omega⟩

/-- A key that `Less` does not put before another may stand after it. -/
theorem lessKeys_false (x y : GpgPrimaryKey) (h : lessKeys x y = false) :
    x.identities.length ≤ y.identities.length ∧
    (y.identities.length = x.identities.length → x.Expires = 0 → y.Expires = 0) ∧
    (y.identities.length = x.identities.length → y.Expires ≠ 0 → x.Expires ≠ 0 →
      x.Expires ≤ y.Expires) := by
  unfold lessKeys at h
  split_ifs at h with h1 h2 h3 h4 h5
  · refine ⟨by omega, fun _ => by omega, fun _ => by omega⟩
  · refine ⟨by omega, fun _ hx => absurd hx h3, fun _ hy => absurd h4 hy⟩
  · refine ⟨by omega, fun _ hx => absurd hx h3, fun _ _ _ => by omega⟩

/-- A list in which no key stands before a key that `Less` puts strictly
before it has the identity counts non-increasing, no expiring key before a
never-expiring key of the same identity count, and the expiry times of
expiring keys of one identity count non-increasing. -/
theorem lessKeys_order (out : List GpgPrimaryKey)
    (hout : out.Pairwise fun a b => lessKeys b a = true → lessKeys a b = true) :
    out.Pairwise fun a b =>
      b.identities.length ≤ a.identities.length ∧
      (a.identities.length = b.identities.length → b.Expires = 0 → a.Expires = 0) ∧
      (a.identities.length = b.identities.length → a.Expires ≠ 0 → b.Expires ≠ 0 →
        b.Expires ≤ a.Expires) := by
  refine hout.imp ?_
  intro a b hab
  cases hba : lessKeys b a with
  | false => exact lessKeys_false b a hba
  | true => exact lessKeys_true a b (hab hba)

/-! ## GPG index: the pull parser -/

/-- `GetLine` returns no error, and no line is put back when it returns. -/
theorem GetLine_shape (p : GpgIndexParser) :
    p.GetLine.2.2 = none ∧ p.GetLine.1.putback = none ∧ p.GetLine.1.warnings = p.warnings := by
  unfold GpgIndexParser.GetLine ParseLine
  cases hp : p.putback with
  | some l => simp
  | none =>
    by_cases heof : p.isEof = true
    · simp [heof, hp]
    · cases hs : p.src <;> simp [heof, hp]

/-- `GetLine` on a parser with no line put back and a line to read. -/
theorem GetLine_read (p : GpgIndexParser) (s : String) (rest : List String)
    (hp : p.putback = none) (heof : p.eof = false) (hs : p.src = s :: rest) :
    p.GetLine = ({ p with src := rest, lineno := p.lineno + 1 },
      some { v := strings.Split (strings.TrimSpace s) ':', lineno := p.lineno + 1 }, none) := by
  simp [GpgIndexParser.GetLine, hp, GpgIndexParser.isEof, heof, hs, ParseLine]

/-- `GetLine` on a parser with no line put back and no line to read. -/
theorem GetLine_end (p : GpgIndexParser)
    (hp : p.putback = none) (heof : p.eof = false) (hs : p.src = []) :
    p.GetLine = ({ p with eof := true }, none, none) := by
  simp [GpgIndexParser.GetLine, hp, GpgIndexParser.isEof, heof, hs]

/-- The number of passes the loops of the parser can still make: one for a
line put back, and one for each line to read and for the end of the
stream. -/
theorem GetLine_measure (p : GpgIndexParser) (heof : p.eof = false) :
    (if p.GetLine.1.eof = true then 0 else p.GetLine.1.src.length + 1) + 1 =
      (if p.putback.isSome = true then 1 else 0) + (p.src.length + 1) := by
  unfold GpgIndexParser.GetLine
  cases hp : p.putback with
  | some l => simp [heof]; omega
  | none =>
    simp only [GpgIndexParser.isEof, heof, Bool.false_eq_true, if_false]
    cases hs : p.src with
    | nil => simp
    | cons s rest => simp [heof]

/-- One pass of the loop of `ParseKey` over a line that is not a new key. -/
theorem parseKeyLoop_step (env : GpgEnv) (fuel : Nat) (p p1 : GpgIndexParser)
    (ret : GpgPrimaryKey) (line : GpgIndexLine)
    (heof : p.eof = false) (hget : p.GetLine = (p1, some line, none))
    (hnew : line.IsNewKey = false) :
    parseKeyLoop env (fuel + 1) p ret =
      match ret.AddLine env line with
      | Outcome.panicked => Outcome.panicked
      | Outcome.returned (ret1, none) => parseKeyLoop env fuel p1 ret1
      | Outcome.returned (ret1, some e2) =>
        parseKeyLoop env fuel
          { p1 with warnings := Warnings.Push p1.warnings (ErrorToWarning e2) } ret1 := by
  rw [parseKeyLoop]
  simp only [GpgIndexParser.isEof, heof, hget, hnew, Bool.false_eq_true, if_false]

/-- The loop of `ParseKey` ends without an error. -/
theorem parseKeyLoop_err (env : GpgEnv) (fuel : Nat) :
    ∀ (p : GpgIndexParser) (ret : GpgPrimaryKey)
      (r : GpgIndexParser × GpgPrimaryKey × Option GpgErr),
      parseKeyLoop env fuel p ret = Outcome.returned r → r.2.2 = none := by
  induction fuel with
  | zero =>
    intro p ret r h
    simp only [parseKeyLoop, Outcome.returned.injEq] at h
    rw [← h]
  | succ fuel ih =>
    intro p ret r h
    rw [parseKeyLoop] at h
    by_cases heof : p.isEof = true
    · simp only [heof, if_true, Outcome.returned.injEq] at h
      rw [← h]
    · simp only [heof, Bool.false_eq_true, if_false] at h
      have herr := (GetLine_shape p).1
      rcases hg : p.GetLine with ⟨p1, line, err⟩
      rw [hg] at h herr
      simp only at herr
      subst herr
      rcases line with _ | line
      · exact ih _ _ _ h
      · simp only at h
        by_cases hnew : line.IsNewKey = true
        · simp only [hnew, if_true, Outcome.returned.injEq] at h
          rw [← h]
        · simp only [hnew, Bool.false_eq_true, if_false] at h
          rcases ha : ret.AddLine env line with ⟨ret1, _ | e2⟩ | _
          · rw [ha] at h; exact ih _ _ _ h
          · rw [ha] at h; exact ih _ _ _ h
          · rw [ha] at h; simp at h

/-- More passes than the parser has lines for do not change what the loop
of `ParseKey` returns. -/
theorem parseKeyLoop_fuel (env : GpgEnv) (n : Nat) :
    ∀ (p : GpgIndexParser) (ret : GpgPrimaryKey) (fuel1 fuel2 : Nat),
      (if p.putback.isSome = true then 1 else 0) +
        (if p.eof = true then 0 else p.src.length + 1) ≤ n →
      n ≤ fuel1 → n ≤ fuel2 →
      parseKeyLoop env fuel1 p ret = parseKeyLoop env fuel2 p ret := by
  induction n with
  | zero =>
    intro p ret fuel1 fuel2 hm _ _
    have heof : p.eof = true := by
      by_cases h : p.eof = true
      · exact h
      · simp [h] at hm
    cases fuel1 <;> cases fuel2 <;> simp [parseKeyLoop, GpgIndexParser.isEof, heof]
  | succ n ih =>
    intro p ret fuel1 fuel2 hm h1 h2
    by_cases heof : p.eof = true
    · cases fuel1 <;> cases fuel2 <;> simp [parseKeyLoop, GpgIndexParser.isEof, heof]
    · have heof' : p.eof = false := by simpa using heof
      obtain ⟨f1, rfl⟩ : ∃ f, fuel1 = f + 1 := ⟨fuel1 - 1, by omega⟩
      obtain ⟨f2, rfl⟩ : ∃ f, fuel2 = f + 1 := ⟨fuel2 - 1, by omega⟩
      have hmeas := GetLine_measure p heof'
      have hpb := (GetLine_shape p).2.1
      rw [parseKeyLoop, parseKeyLoop]
      simp only [GpgIndexParser.isEof, heof', Bool.false_eq_true, if_false]
      rcases hg : p.GetLine with ⟨p1, line, err⟩
      rw [hg] at hmeas hpb
      simp only at hmeas hpb
      have hm1 : (if p1.putback.isSome = true then 1 else 0) +
          (if p1.eof = true then 0 else p1.src.length + 1) ≤ n := by
        rw [hpb]
        simp only [heof', Bool.false_eq_true, if_false] at hm
        simp only [Option.isSome_none, Bool.false_eq_true, if_false, Nat.zero_add]
        omega
      rcases err with _ | err
      · rcases line with _ | line
        · exact ih p1 ret f1 f2 hm1 (by omega) (by omega)
        · simp only
          by_cases hnew : line.IsNewKey = true
          · simp only [hnew, if_true]
          · simp only [hnew, Bool.false_eq_true, if_false]
            rcases ret.AddLine env line with ⟨ret1, _ | e2⟩ | _
            · exact ih p1 ret1 f1 f2 hm1 (by omega) (by omega)
            · exact ih _ ret1 f1 f2 hm1 (by omega) (by omega)
            · rfl
      · rcases line with _ | line <;> rfl

/-- The loop of `ParseKey` leaves no more passes to make than it found. -/
theorem parseKeyLoop_measure (env : GpgEnv) (fuel : Nat) :
    ∀ (p : GpgIndexParser) (ret : GpgPrimaryKey)
      (r : GpgIndexParser × GpgPrimaryKey × Option GpgErr),
      p.putback = none →
      parseKeyLoop env fuel p ret = Outcome.returned r →
      (if r.1.putback.isSome = true then 1 else 0) +
        (if r.1.eof = true then 0 else r.1.src.length + 1) ≤
      (if p.eof = true then 0 else p.src.length + 1) := by
  induction fuel with
  | zero =>
    intro p ret r hp h
    simp only [parseKeyLoop, Outcome.returned.injEq] at h
    rw [← h]
    simp [hp]
  | succ fuel ih =>
    intro p ret r hp h
    rw [parseKeyLoop] at h
    by_cases heof : p.eof = true
    · simp only [GpgIndexParser.isEof, heof, if_true, Outcome.returned.injEq] at h
      rw [← h]
      simp [hp, heof]
    · have heof' : p.eof = false := by simpa using heof
      simp only [GpgIndexParser.isEof, heof', Bool.false_eq_true, if_false] at h
      have hmeas := GetLine_measure p heof'
      have hpb := (GetLine_shape p).2.1
      have herr := (GetLine_shape p).1
      rcases hg : p.GetLine with ⟨p1, line, err⟩
      rw [hg] at h hmeas hpb herr
      simp only at hmeas hpb herr
      subst herr
      simp only [hp, Option.isSome_none, Bool.false_eq_true, if_false, Nat.zero_add] at hmeas
      simp only [heof', Bool.false_eq_true, if_false]
      rcases line with _ | line
      · have := ih p1 ret r hpb h
        omega
      · simp only at h
        by_cases hnew : line.IsNewKey = true
        · simp only [hnew, if_true, Outcome.returned.injEq] at h
          rw [← h]
          simp only [GpgIndexParser.PutbackLine, Option.isSome_some, if_true]
          omega
        · simp only [hnew, Bool.false_eq_true, if_false] at h
          rcases ha : ret.AddLine env line with ⟨ret1, _ | e2⟩ | _
          · rw [ha] at h
            have := ih p1 ret1 r hpb h
            omega
          · rw [ha] at h
            have := ih { p1 with warnings := Warnings.Push p1.warnings (ErrorToWarning e2) }
              ret1 r hpb h
            simp only at this
            omega
          · rw [ha] at h; simp at h

/-- `ParseElement` uses up a pass of the loop of `Parse`. -/
theorem ParseElement_measure (env : GpgEnv) (p : GpgIndexParser) (heof : p.eof = false)
    (r : GpgIndexParser × Option GpgPrimaryKey × Option GpgErr)
    (h : p.ParseElement env = Outcome.returned r) :
    (if r.1.putback.isSome = true then 1 else 0) +
        (if r.1.eof = true then 0 else r.1.src.length + 1) + 1 ≤
      (if p.putback.isSome = true then 1 else 0) + (p.src.length + 1) := by
  have hmeas := GetLine_measure p heof
  have hpb := (GetLine_shape p).2.1
  have herr := (GetLine_shape p).1
  unfold GpgIndexParser.ParseElement at h
  rcases hg : p.GetLine with ⟨q, line, err⟩
  rw [hg] at h hmeas hpb herr
  simp only at hmeas hpb herr
  subst herr
  rcases line with _ | line
  · simp only [Outcome.returned.injEq] at h
    rw [← h]
    simp only [hpb, Option.isSome_none, Bool.false_eq_true, if_false, Nat.zero_add]
    omega
  · simp only at h
    by_cases hnew : line.IsNewKey = true
    · simp only [hnew, if_true, GpgIndexParser.ParseKey] at h
      rcases hk : ParseGpgPrimaryKey env line with ⟨key, _ | e⟩ | _
      · rw [hk] at h
        simp only [Outcome.bind] at h
        rcases hl : parseKeyLoop env (q.src.length + 2) q key with r0 | _
        · rw [hl] at h
          simp only [Outcome.returned.injEq] at h
          have := parseKeyLoop_measure env _ q key r0 hpb hl
          rw [← h]
          simp only
          omega
        · rw [hl] at h; simp at h
      · rw [hk] at h
        simp only [Outcome.bind, Outcome.returned.injEq] at h
        rw [← h]
        simp only [hpb, Option.isSome_none, Bool.false_eq_true, if_false, Nat.zero_add]
        omega
      · rw [hk] at h; simp [Outcome.bind] at h
    · simp only [hnew, Bool.false_eq_true, if_false, Outcome.returned.injEq] at h
      rw [← h]
      simp only [hpb, Option.isSome_none, Bool.false_eq_true, if_false, Nat.zero_add]
      omega

/-- More passes than the parser has lines for do not change what the loop
of `Parse` returns. -/
theorem parseLoop_fuel (env : GpgEnv) (now : Int) (n : Nat) :
    ∀ (p : GpgIndexParser) (ki : GpgKeyIndex) (fuel1 fuel2 : Nat),
      (if p.putback.isSome = true then 1 else 0) +
        (if p.eof = true then 0 else p.src.length + 1) ≤ n →
      n ≤ fuel1 → n ≤ fuel2 →
      parseLoop env now fuel1 p ki = parseLoop env now fuel2 p ki := by
  induction n with
  | zero =>
    intro p ki fuel1 fuel2 hm _ _
    have heof : p.eof = true := by
      by_cases h : p.eof = true
      · exact h
      · simp [h] at hm
    cases fuel1 <;> cases fuel2 <;> simp [parseLoop, GpgIndexParser.isEof, heof]
  | succ n ih =>
    intro p ki fuel1 fuel2 hm h1 h2
    by_cases heof : p.eof = true
    · cases fuel1 <;> cases fuel2 <;> simp [parseLoop, GpgIndexParser.isEof, heof]
    · have heof' : p.eof = false := by simpa using heof
      obtain ⟨f1, rfl⟩ : ∃ f, fuel1 = f + 1 := ⟨fuel1 - 1, by omega⟩
      obtain ⟨f2, rfl⟩ : ∃ f, fuel2 = f + 1 := ⟨fuel2 - 1, by omega⟩
      rw [parseLoop, parseLoop]
      simp only [GpgIndexParser.isEof, heof', Bool.false_eq_true, if_false]
      simp only [heof', Bool.false_eq_true, if_false] at hm
      rcases hel : p.ParseElement env with ⟨p1, el, err⟩ | _
      · have hmeas := ParseElement_measure env p heof' _ hel
        simp only at hmeas
        rcases err with _ | err
        · rcases el with _ | el
          · exact ih p1 ki f1 f2 (by omega) (by omega) (by omega)
          · exact ih p1 _ f1 f2 (by omega) (by omega) (by omega)
        · rcases el with _ | el <;> rfl
      · rfl

/-- The number of passes `ParseKey` and `Parse` allow their loops is never
used up: with more passes the loops return the same. -/
theorem parser_fuel (env : GpgEnv) (now : Int) (p : GpgIndexParser) :
    (∀ (ret : GpgPrimaryKey) (fuel : Nat), p.src.length + 2 ≤ fuel →
      parseKeyLoop env fuel p ret = parseKeyLoop env (p.src.length + 2) p ret) ∧
    (∀ (ki : GpgKeyIndex) (fuel : Nat), p.src.length + 3 ≤ fuel →
      parseLoop env now fuel p ki = parseLoop env now (p.src.length + 3) p ki) := by
  have hm : (if p.putback.isSome = true then 1 else 0) +
      (if p.eof = true then 0 else p.src.length + 1) ≤ p.src.length + 2 := by
    split_ifs <;> omega
  exact ⟨fun ret fuel h => parseKeyLoop_fuel env _ p ret _ _ hm h (Nat.le_refl _),
    fun ki fuel h => parseLoop_fuel env now _ p ki _ _ hm (by omega) (by omega)⟩

/-- `ParseGpgPrimaryKey` on a line with fewer than 12 fields. -/
theorem ParseGpgPrimaryKey_short (env : GpgEnv) (line : GpgIndexLine) (h : line.Len < 12) :
    ParseGpgPrimaryKey env line = Outcome.returned
      (NewGpgPrimaryKey, some (GpgErr.GpgIndexError line.lineno "Not enough fields (need 12)")) := by
  simp only [ParseGpgPrimaryKey, GpgPrimaryKey.Parse, ParseBase_short _ line h, Outcome.bind]

/-! ## GPG index: a primary-key line that fails to parse -/

/-- C29 (amended). A primary-key line that fails to parse stops the
listing: when the loop of `Parse` reads a `pub`/`sec` line on which
`ParseGpgPrimaryKey` returns an error (as it does on every line with fewer
than 12 fields), `ParseKey` returns that error without reading a further
line, the loop ends at once, no warning is recorded, the index is as it was
before the line, and the error is returned; a listing whose first line is
such a line gives the empty index and the error, with all lines after it
unread. -/
theorem Parse_stops_at_bad_key (env : GpgEnv) (now : Int) (fuel : Nat)
    (p p1 : GpgIndexParser) (ki : GpgKeyIndex) (line : GpgIndexLine)
    (key : GpgPrimaryKey) (e : GpgErr)
    (heof : p.eof = false) (hget : p.GetLine = (p1, some line, none))
    (hnew : line.IsNewKey = true)
    (hbad : ParseGpgPrimaryKey env line = Outcome.returned (key, some e)) :
    p1.ParseKey env line = Outcome.returned (p1, key, some e) ∧
    p.ParseElement env = Outcome.returned (p1, some key, some e) ∧
    parseLoop env now (fuel + 1) p ki = Outcome.returned (p1, ki, some e) ∧
    p1.warnings = p.warnings ∧
    (∀ (s : String) (rest : List String), p = { NewGpgIndexParser with src := s :: rest } →
      NewGpgIndexParser.Parse env now (s :: rest) =
        Outcome.returned ({ NewGpgIndexParser with src := rest, lineno := 1 },
          NewGpgKeyIndex, some e)) ∧
    (∀ l : GpgIndexLine, l.Len < 12 → ∃ k1 e1, ParseGpgPrimaryKey env l =
      Outcome.returned (k1, some e1)) := by
  have hkey : p1.ParseKey env line = Outcome.returned (p1, key, some e) := by
    simp only [GpgIndexParser.ParseKey, hbad, Outcome.bind]
  have hel : p.ParseElement env = Outcome.returned (p1, some key, some e) := by
    simp only [GpgIndexParser.ParseElement, hget, hnew, if_true, hkey, Outcome.bind]
  have hloop : ∀ fuel, parseLoop env now (fuel + 1) p ki = Outcome.returned (p1, ki, some e) := by
    intro fuel
    rw [parseLoop]
    simp only [GpgIndexParser.isEof, heof, Bool.false_eq_true, if_false, hel]
  have hw : p1.warnings = p.warnings := by
    have := (GetLine_shape p).2.2
    rw [hget] at this
    exact this
  refine ⟨hkey, hel, hloop fuel, hw, ?_, fun l hl => ⟨_, _, ParseGpgPrimaryKey_short env l hl⟩⟩
  intro s rest hp
  have hg := GetLine_read p s rest (by rw [hp]; rfl) heof (by rw [hp])
  rw [hget] at hg
  have hp1 : p1 = { NewGpgIndexParser with src := rest, lineno := 1 } := by
    rw [(Prod.mk.inj hg).1, hp]
    rfl
  have hloop' : ∀ ki fuel, parseLoop env now (fuel + 1) p ki =
      Outcome.returned (p1, ki, some e) := by
    intro ki fuel
    rw [parseLoop]
    simp only [GpgIndexParser.isEof, heof, Bool.false_eq_true, if_false, hel]
  simp only [GpgIndexParser.Parse]
  rw [← hp, hloop' NewGpgKeyIndex, hp1]
  simp only [Outcome.bind]
  rw [Sort_of_no_keys env NewGpgKeyIndex rfl]

/-- C29, witness: the parser at the start of a listing whose first line is
a `pub` line of three fields. -/
theorem Parse_stops_at_bad_key_witness :
    NewGpgIndexParser.Parse gpgEnv 0 badFirstStream =
      Outcome.returned ({ NewGpgIndexParser with src := badFirstStream.drop 1, lineno := 1 },
        NewGpgKeyIndex, some (GpgErr.GpgIndexError 1 "Not enough fields (need 12)")) :=
  (Parse_stops_at_bad_key gpgEnv 0 0 { NewGpgIndexParser with src := badFirstStream }
    { NewGpgIndexParser with src := badFirstStream.drop 1, lineno := 1 } NewGpgKeyIndex
    { v := ["pub", "u", "2048"], lineno := 1 } NewGpgPrimaryKey
    (GpgErr.GpgIndexError 1 "Not enough fields (need 12)")
    rfl (by decide) (by decide) (by decide)).2.2.2.2.1 _ _ rfl

/-- C29, counterexample: in a listing of a `pub` line with three fields and
then a valid key, `Parse` records no warning, returns the error of the first
line, and does not parse or index the valid key that follows it. -/
theorem Parse_stops_at_bad_key_counterexample :
    ParseGpgIndexStream gpgEnv 0 badFirstStream =
      Outcome.returned (NewGpgKeyIndex,
        some (GpgErr.GpgIndexError 1 "Not enough fields (need 12)"), []) ∧
    (∃ r, ParseGpgIndexStream gpgEnv 0 (badFirstStream.drop 1) = Outcome.returned r ∧
      r.1.Keys.map (fun k => k.Id64) = ["CCCC"] ∧ r.2.1 = none) := by
  refine ⟨by decide, _, rfl, by decide, by decide⟩

/-! ## GPG index: lines that `AddLine` rejects -/

/-- A string has length 0 exactly when it is empty. -/
theorem length_eq_zero_iff (s : String) : s.length = 0 ↔ s = "" := by
  obtain ⟨data⟩ := s
  cases data with
  | nil => simp [String.length]
  | cons c cs =>
    simp only [String.length, List.length_cons]
    constructor
    · intro h; omega
    · intro h
      have := congrArg String.data h
      simp at this

/-- `AddLine` on a line with at least two fields, by its first field. -/
theorem AddLine_long (env : GpgEnv) (p : GpgPrimaryKey) (l : GpgIndexLine) (f : String)
    (rest : List String) (hv : l.v = f :: rest) (hlen : 2 ≤ l.Len) :
    p.AddLine env l =
      if f = "fpr" then p.AddFingerprint env l
      else if f = "uid" then p.AddUid env l
      else if f = "uat" then Outcome.returned (p, none)
      else if f = "sub" ∨ f = "ssb" then p.AddSubkey l
      else Outcome.returned (p, some (GpgErr.GpgIndexError l.lineno ("Unknown subfield: " ++ f))) := by
  have h0 : l.At 0 = Outcome.returned f := by
    rw [At_of_lt l 0 (by omega), hv]
    rfl
  simp only [GpgPrimaryKey.AddLine, Nat.not_lt.mpr hlen, if_false, h0, Outcome.bind]

/-- `AddUid` returns the key as it was when it returns an error. -/
theorem AddUid_error (env : GpgEnv) (k k1 : GpgPrimaryKey) (l : GpgIndexLine) (e : GpgErr)
    (h : k.AddUid env l = Outcome.returned (k1, some e)) : k1 = k := by
  unfold GpgPrimaryKey.AddUid at h
  rcases h9 : l.At 9 with f | _
  · rw [h9] at h
    simp only [Outcome.bind] at h
    by_cases hf : f.length = 0
    · simp [hf] at h
    · simp only [hf, if_false] at h
      rcases hid : env.ParseIdentity f with msg | id
      · rw [hid] at h
        simp only [Outcome.returned.injEq, Prod.mk.injEq] at h
        exact h.1.symm
      · rw [hid] at h
        simp at h
  · rw [h9] at h
    simp [Outcome.bind] at h

/-- `AddFingerprint` returns the key as it was when it returns an error. -/
theorem AddFingerprint_error (env : GpgEnv) (k k1 : GpgPrimaryKey) (l : GpgIndexLine) (e : GpgErr)
    (h : k.AddFingerprint env l = Outcome.returned (k1, some e)) : k1 = k := by
  unfold GpgPrimaryKey.AddFingerprint at h
  rcases h9 : l.At 9 with f | _
  · rw [h9] at h
    simp only [Outcome.bind] at h
    by_cases hf : f.length = 0
    · simp only [hf, if_true, Outcome.returned.injEq, Prod.mk.injEq] at h
      exact h.1.symm
    · simp only [hf, if_false] at h
      rcases hfp : env.PgpFingerprintFromHex f with msg | fp
      · rw [hfp] at h
        simp only [Outcome.returned.injEq, Prod.mk.injEq] at h
        exact h.1.symm
      · rw [hfp] at h
        simp only at h
        rcases hset : k.SetFingerprint (some fp) with k2 | _
        · rw [hset] at h; simp [Outcome.bind] at h
        · rw [hset] at h; simp [Outcome.bind] at h
  · rw [h9] at h
    simp [Outcome.bind] at h

/-- `AddSubkey` returns the key as it was when it returns an error. -/
theorem AddSubkey_error (k k1 : GpgPrimaryKey) (l : GpgIndexLine) (e : GpgErr)
    (h : k.AddSubkey l = Outcome.returned (k1, some e)) : k1 = k := by
  unfold GpgPrimaryKey.AddSubkey at h
  rcases hs : ParseGpgSubKey l with ⟨sk, _ | e1⟩ | _
  · rw [hs] at h; simp [Outcome.bind] at h
  · rw [hs] at h
    simp only [Outcome.bind, Outcome.returned.injEq, Prod.mk.injEq] at h
    exact h.1.symm
  · rw [hs] at h; simp [Outcome.bind] at h

/-- `AddLine` returns the key as it was when it returns an error. -/
theorem AddLine_error (env : GpgEnv) (k k1 : GpgPrimaryKey) (l : GpgIndexLine) (e : GpgErr)
    (h : k.AddLine env l = Outcome.returned (k1, some e)) : k1 = k := by
  by_cases hlen : l.Len < 2
  · simp only [GpgPrimaryKey.AddLine, hlen, if_true, Outcome.returned.injEq, Prod.mk.injEq] at h
    exact h.1.symm
  · have hlen' : 2 ≤ l.Len := Nat.le_of_not_lt hlen
    rcases hv : l.v with _ | ⟨f, rest⟩
    · simp [GpgIndexLine.Len, hv] at hlen'
    · rw [AddLine_long env k l f rest hv hlen'] at h
      split_ifs at h
      · exact AddFingerprint_error env k k1 l e h
      · exact AddUid_error env k k1 l e h
      · simp at h
      · exact AddSubkey_error k k1 l e h
      · simp only [Outcome.returned.injEq, Prod.mk.injEq] at h
        exact h.1.symm

/-! ## GPG index: the fingerprint sink -/

/-- `ParseBase` leaves the fingerprint of the key as it was. -/
theorem ParseBase_fingerprint (k : GpgBaseKey) (line : GpgIndexLine)
    (r : GpgBaseKey × Option GpgErr) (h : k.ParseBase line = Outcome.returned r) :
    r.1.fingerprint = k.fingerprint := by
  by_cases hlen : line.Len < 12
  · rw [ParseBase_short k line hlen] at h
    simp only [Outcome.returned.injEq] at h
    rw [← h]
  · rw [ParseBase_long k line (Nat.le_of_not_lt hlen)] at h
    simp only at h
    rcases h2 : strconv.Atoi (line.v.getD 2 "") with ⟨bits, _ | e⟩
    · rcases h3 : strconv.Atoi (line.v.getD 3 "") with ⟨algo, _ | e⟩
      · rcases h5 : strconv.Atoi (line.v.getD 5 "") with ⟨created, _ | e⟩
        · simp only [h2, h3, h5, Outcome.returned.injEq] at h
          rw [← h]
        · simp only [h2, h3, h5, Outcome.returned.injEq] at h
          rw [← h]
      · simp only [h2, h3, Outcome.returned.injEq] at h
        rw [← h]
    · simp only [h2, Outcome.returned.injEq] at h
      rw [← h]

/-- The key `ParseGpgPrimaryKey` returns has itself as the sink `top`, no
subkey and no fingerprint. -/
theorem ParseGpgPrimaryKey_top (env : GpgEnv) (l : GpgIndexLine)
    (r : GpgPrimaryKey × Option GpgErr) (h : ParseGpgPrimaryKey env l = Outcome.returned r) :
    r.1.top = Sink.primary ∧ r.1.subkeys = [] ∧ r.1.fingerprint = none := by
  simp only [ParseGpgPrimaryKey, GpgPrimaryKey.Parse] at h
  rcases hb : NewGpgPrimaryKey.toGpgBaseKey.ParseBase l with r0 | _
  · have hfp := ParseBase_fingerprint _ l r0 hb
    rw [hb] at h
    simp only [Outcome.bind] at h
    rcases h2 : r0.2 with _ | e
    · rw [h2] at h
      simp only [GpgPrimaryKey.AddUid] at h
      rcases h9 : l.At 9 with f | _
      · rw [h9] at h
        simp only [Outcome.bind] at h
        by_cases hf : f.length = 0
        · simp only [hf, if_true, Outcome.returned.injEq] at h
          rw [← h]
          exact ⟨rfl, rfl, hfp⟩
        · simp only [hf, if_false] at h
          rcases hid : env.ParseIdentity f with msg | id
          · rw [hid] at h
            simp only [Outcome.returned.injEq] at h
            rw [← h]
            exact ⟨rfl, rfl, hfp⟩
          · rw [hid] at h
            simp only [Outcome.returned.injEq] at h
            rw [← h]
            exact ⟨rfl, rfl, hfp⟩
      · rw [h9] at h
        simp [Outcome.bind] at h
    · rw [h2] at h
      simp only [Outcome.returned.injEq] at h
      rw [← h]
      exact ⟨rfl, rfl, hfp⟩
  · rw [hb] at h
    simp [Outcome.bind] at h

/-- A line whose first field is neither `sec` nor `pub` is not a new key. -/
theorem IsNewKey_of_head (l : GpgIndexLine) (f : String)
    (hf : l.v.head? = some f) (h1 : f ≠ "sec") (h2 : f ≠ "pub") : l.IsNewKey = false := by
  rcases hv : l.v with _ | ⟨g, rest⟩
  · rw [hv] at hf; simp at hf
  · rw [hv] at hf
    simp only [List.head?_cons, Option.some.injEq] at hf
    subst hf
    simp [GpgIndexLine.IsNewKey, hv, h1, h2]

/-- `AddLine` on an `fpr` line with a fingerprint: the fingerprint goes to
the record `top` points to. -/
theorem AddLine_fpr (env : GpgEnv) (k : GpgPrimaryKey) (l : GpgIndexLine) (f : String)
    (fp : PgpFingerprint) (hf : l.v.head? = some "fpr") (h9 : l.v[9]? = some f) (hne : f ≠ "")
    (hfp : env.PgpFingerprintFromHex f = Except.ok fp) :
    k.AddLine env l = (k.SetFingerprint (some fp)).bind fun k1 => Outcome.returned (k1, none) := by
  have hlt : 9 < l.v.length := by
    by_contra hge
    rw [List.getElem?_eq_none (Nat.le_of_not_lt hge)] at h9
    simp at h9
  have hlen : 2 ≤ l.Len := by simp only [GpgIndexLine.Len]; omega
  have hat : l.At 9 = Outcome.returned f := by simp only [GpgIndexLine.At, h9]
  have hl : ¬ f.length = 0 := fun h => hne ((length_eq_zero_iff f).mp h)
  rcases hv : l.v with _ | ⟨g, rest⟩
  · rw [hv] at hf; simp at hf
  · rw [hv] at hf
    simp only [List.head?_cons, Option.some.injEq] at hf
    subst hf
    rw [AddLine_long env k l _ rest hv hlen]
    simp only [if_true, GpgPrimaryKey.AddFingerprint, hat, Outcome.bind, hl, if_false, hfp]

/-- `AddLine` on a `sub` or `ssb` line that parses: the subkey is added at
the end and `top` points to it. -/
theorem AddLine_sub (env : GpgEnv) (k : GpgPrimaryKey) (l : GpgIndexLine) (sk : GpgSubKey)
    (hf : l.v.head? = some "sub" ∨ l.v.head? = some "ssb")
    (hsk : ParseGpgSubKey l = Outcome.returned (sk, none)) :
    k.AddLine env l = Outcome.returned
      ({ k with subkeys := k.subkeys ++ [sk], top := Sink.subkey k.subkeys.length }, none) := by
  have hlen : 2 ≤ l.Len := by
    by_contra hlt
    have h12 : l.Len < 12 := by omega
    simp only [ParseGpgSubKey, ParseBase_short _ l h12, Outcome.bind, Outcome.returned.injEq,
      Prod.mk.injEq] at hsk
    simp at hsk
  have hadd : k.AddSubkey l = Outcome.returned
      ({ k with subkeys := k.subkeys ++ [sk], top := Sink.subkey k.subkeys.length }, none) := by
    simp only [GpgPrimaryKey.AddSubkey, hsk, Outcome.bind]
  rcases hv : l.v with _ | ⟨g, rest⟩
  · rw [hv] at hf; simp at hf
  · rw [hv] at hf
    simp only [List.head?_cons, Option.some.injEq] at hf
    rw [AddLine_long env k l _ rest hv hlen]
    rcases hf with hf | hf <;> subst hf <;> simp [hadd]

/-- Whether a `sub` line parses does not depend on its line number. -/
theorem ParseGpgSubKey_lineno (v : List String) (n m : Int) (sk : GpgSubKey)
    (h : ParseGpgSubKey { v := v, lineno := n } = Outcome.returned (sk, none)) :
    ParseGpgSubKey { v := v, lineno := m } = Outcome.returned (sk, none) := by
  by_cases hlen : v.length < 12
  · simp only [ParseGpgSubKey, ParseBase_short _ ⟨v, n⟩ hlen, Outcome.bind,
      Outcome.returned.injEq, Prod.mk.injEq] at h
    simp at h
  · have h12 : 12 ≤ v.length := Nat.le_of_not_lt hlen
    simp only [ParseGpgSubKey, ParseBase_long _ ⟨v, n⟩ h12] at h
    simp only [ParseGpgSubKey, ParseBase_long _ ⟨v, m⟩ h12]
    exact h

/-- Replacing the last element of a list. -/
theorem set_concat {α : Type} (l : List α) (a b : α) : (l ++ [a]).set l.length b = l ++ [b] := by
  induction l with
  | nil => rfl
  | cons x xs ih => simp [ih]

/-- The loop of `ParseKey` over the subkeys of a key block, each a `sub` or
`ssb` line that parses followed by an `fpr` line with a fingerprint: the
subkeys are added in turn, each with the fingerprint of the line after it;
nothing else of the key changes but `top`, and no warning is recorded. -/
theorem parseKeyLoop_subkeys (env : GpgEnv) :
    ∀ (subs : List (String × String × GpgSubKey × PgpFingerprint)) (fuel : Nat)
      (p : GpgIndexParser) (ret : GpgPrimaryKey),
      p.putback = none → p.eof = false →
      p.src = subs.flatMap (fun x => [x.1, x.2.1]) →
      2 * subs.length + 1 ≤ fuel →
      (∀ x ∈ subs,
        ((strings.Split (strings.TrimSpace x.1) ':').head? = some "sub" ∨
          (strings.Split (strings.TrimSpace x.1) ':').head? = some "ssb") ∧
        ParseGpgSubKey { v := strings.Split (strings.TrimSpace x.1) ':', lineno := 0 } =
          Outcome.returned (x.2.2.1, none) ∧
        (strings.Split (strings.TrimSpace x.2.1) ':').head? = some "fpr" ∧
        ∃ f, (strings.Split (strings.TrimSpace x.2.1) ':')[9]? = some f ∧ f ≠ "" ∧
          env.PgpFingerprintFromHex f = Except.ok x.2.2.2) →
      ∃ p1 top1,
        parseKeyLoop env fuel p ret = Outcome.returned
          (p1,
            { ret with
              subkeys := ret.subkeys ++
                subs.map (fun x => { x.2.2.1 with fingerprint := some x.2.2.2 }),
              top := top1 }, none) ∧
        p1.warnings = p.warnings ∧ p1.eof = true ∧
        (subs = [] → top1 = ret.top) ∧
        (subs ≠ [] → top1 = Sink.subkey (ret.subkeys.length + subs.length - 1)) := by
  intro subs
  induction subs with
  | nil =>
    intro fuel p ret hp heof hs hfuel _
    obtain ⟨f, rfl⟩ : ∃ f, fuel = f + 1 := ⟨fuel - 1, by omega⟩
    refine ⟨{ p with eof := true }, ret.top, ?_, rfl, rfl, fun _ => rfl, fun h => absurd rfl h⟩
    rw [parseKeyLoop]
    simp only [GpgIndexParser.isEof, heof, Bool.false_eq_true, if_false,
      GetLine_end p hp heof (by simpa using hs)]
    cases f <;> simp [parseKeyLoop, GpgIndexParser.isEof]
  | cons x xs ih =>
    intro fuel p ret hp heof hs hfuel hall
    obtain ⟨s1, s2, sk, fp⟩ := x
    obtain ⟨hhead1, hsk, hhead2, f9, h9, hne, hfp⟩ := hall _ (List.mem_cons_self _ _)
    simp only at hhead1 hsk hhead2 h9 hfp
    simp only [List.length_cons] at hfuel
    obtain ⟨f, rfl⟩ : ∃ f, fuel = f + 2 := ⟨fuel - 2, by omega⟩
    have hs' : p.src = s1 :: s2 :: xs.flatMap (fun x => [x.1, x.2.1]) := by
      rw [hs]; simp [List.flatMap_cons]
    -- the `sub` line
    have hg1 := GetLine_read p s1 _ hp heof hs'
    have hnew1 : GpgIndexLine.IsNewKey
        { v := strings.Split (strings.TrimSpace s1) ':', lineno := p.lineno + 1 } = false := by
      rcases hhead1 with h | h
      · exact IsNewKey_of_head _ _ h (by decide) (by decide)
      · exact IsNewKey_of_head _ _ h (by decide) (by decide)
    have hadd1 := AddLine_sub env ret
      { v := strings.Split (strings.TrimSpace s1) ':', lineno := p.lineno + 1 } sk hhead1
      (ParseGpgSubKey_lineno _ _ _ sk hsk)
    rw [parseKeyLoop_step env (f + 1) p _ ret _ heof hg1 hnew1, hadd1]
    simp only
    -- the `fpr` line
    have hg2 := GetLine_read
      (GpgIndexParser.mk p.warnings p.putback (s2 :: xs.flatMap (fun x => [x.1, x.2.1])) p.eof
        (p.lineno + 1)) s2 _ hp heof rfl
    have hnew2 : GpgIndexLine.IsNewKey
        { v := strings.Split (strings.TrimSpace s2) ':', lineno := p.lineno + 1 + 1 } = false :=
      IsNewKey_of_head _ _ hhead2 (by decide) (by decide)
    have hadd2 := AddLine_fpr env
      { ret with subkeys := ret.subkeys ++ [sk], top := Sink.subkey ret.subkeys.length }
      { v := strings.Split (strings.TrimSpace s2) ':', lineno := p.lineno + 1 + 1 } f9 fp
      hhead2 h9 hne hfp
    simp only [GpgPrimaryKey.SetFingerprint, List.getElem?_concat_length, set_concat,
      Outcome.bind] at hadd2
    rw [parseKeyLoop_step env f
      (GpgIndexParser.mk p.warnings p.putback (s2 :: xs.flatMap (fun x => [x.1, x.2.1])) p.eof
        (p.lineno + 1)) _ _ _ heof hg2 hnew2, hadd2]
    simp only
    -- the subkeys after it
    obtain ⟨p1, top1, hloop, hw, heof1, htop0, htop1⟩ := ih f
      (GpgIndexParser.mk p.warnings p.putback (xs.flatMap (fun x => [x.1, x.2.1])) p.eof
        (p.lineno + 1 + 1))
      { ret with subkeys := ret.subkeys ++ [{ sk with fingerprint := some fp }],
                 top := Sink.subkey ret.subkeys.length }
      hp heof rfl (by omega) (fun y hy => hall y (List.mem_cons_of_mem _ hy))
    refine ⟨p1, top1, ?_, hw, heof1, fun h => absurd h (List.cons_ne_nil _ _), fun _ => ?_⟩
    · rw [hloop]
      simp only [List.append_assoc, List.singleton_append, List.map_cons]
    · by_cases hxs : xs = []
      · rw [htop0 hxs, hxs]
        simp
      · rw [htop1 hxs]
        simp only [List.length_append, List.length_cons, List.length_nil]
        congr 1
        omega

/-- The number of lines of the subkeys of a key block. -/
theorem length_flatMap_pairs (subs : List (String × String × GpgSubKey × PgpFingerprint)) :
    (subs.flatMap (fun x => [x.1, x.2.1])).length = 2 * subs.length := by
  induction subs with
  | nil => rfl
  | cons x xs ih =>
    simp only [List.flatMap_cons, List.length_append, List.length_cons, List.length_nil, ih]
    omega

/-- C25. The key `ParseGpgPrimaryKey` returns has itself as the sink. An
`fpr` line with a fingerprint sets the fingerprint of the record the sink
points to and of no other: of the primary key while the sink is the primary
key, of the subkey at the sink otherwise. A well-formed `sub`/`ssb` line
adds the subkey at the end and redirects the sink to it. Hence for every key
block made of a `pub`/`sec` line that parses, an `fpr` line with the
fingerprint `F0`, and then for each subkey a well-formed `sub`/`ssb` line
followed by an `fpr` line with a fingerprint, `ParseKey` returns without an
error or a warning a key whose fingerprint is `F0` and whose i-th subkey is
the subkey of the i-th `sub`/`ssb` line with the fingerprint of the line
after it. An element of `subs` is the `sub`/`ssb` line, the `fpr` line, the
subkey the first parses to, and the fingerprint of the second. -/
theorem fingerprint_sink (env : GpgEnv) :
    (∀ (l : GpgIndexLine) (r : GpgPrimaryKey × Option GpgErr),
      ParseGpgPrimaryKey env l = Outcome.returned r →
      r.1.top = Sink.primary ∧ r.1.subkeys = [] ∧ r.1.fingerprint = none) ∧
    (∀ (k : GpgPrimaryKey) (l : GpgIndexLine) (f : String) (fp : PgpFingerprint),
      l.v.head? = some "fpr" → l.v[9]? = some f → f ≠ "" →
      env.PgpFingerprintFromHex f = Except.ok fp →
      (k.top = Sink.primary →
        k.AddLine env l = Outcome.returned ({ k with fingerprint := some fp }, none)) ∧
      (∀ n sk, k.top = Sink.subkey n → k.subkeys[n]? = some sk →
        k.AddLine env l = Outcome.returned
          ({ k with subkeys := k.subkeys.set n { sk with fingerprint := some fp } }, none))) ∧
    (∀ (k : GpgPrimaryKey) (l : GpgIndexLine) (sk : GpgSubKey),
      (l.v.head? = some "sub" ∨ l.v.head? = some "ssb") →
      ParseGpgSubKey l = Outcome.returned (sk, none) →
      k.AddLine env l = Outcome.returned
        ({ k with subkeys := k.subkeys ++ [sk], top := Sink.subkey k.subkeys.length }, none)) ∧
    (∀ (p : GpgIndexParser) (l : GpgIndexLine) (key0 : GpgPrimaryKey) (s0 f0 : String)
      (F0 : PgpFingerprint) (subs : List (String × String × GpgSubKey × PgpFingerprint)),
      p.putback = none → p.eof = false →
      p.src = s0 :: subs.flatMap (fun x => [x.1, x.2.1]) →
      ParseGpgPrimaryKey env l = Outcome.returned (key0, none) →
      (strings.Split (strings.TrimSpace s0) ':').head? = some "fpr" →
      (strings.Split (strings.TrimSpace s0) ':')[9]? = some f0 → f0 ≠ "" →
      env.PgpFingerprintFromHex f0 = Except.ok F0 →
      (∀ x ∈ subs,
        ((strings.Split (strings.TrimSpace x.1) ':').head? = some "sub" ∨
          (strings.Split (strings.TrimSpace x.1) ':').head? = some "ssb") ∧
        ParseGpgSubKey { v := strings.Split (strings.TrimSpace x.1) ':', lineno := 0 } =
          Outcome.returned (x.2.2.1, none) ∧
        (strings.Split (strings.TrimSpace x.2.1) ':').head? = some "fpr" ∧
        ∃ f, (strings.Split (strings.TrimSpace x.2.1) ':')[9]? = some f ∧ f ≠ "" ∧
          env.PgpFingerprintFromHex f = Except.ok x.2.2.2) →
      ∃ p1 key, p.ParseKey env l = Outcome.returned (p1, key, none) ∧
        key.fingerprint = some F0 ∧
        key.subkeys = subs.map (fun x => { x.2.2.1 with fingerprint := some x.2.2.2 }) ∧
        key.subkeys.map (fun sk => sk.fingerprint) = subs.map (fun x => some x.2.2.2) ∧
        key.toGpgBaseKey = { key0.toGpgBaseKey with fingerprint := some F0 } ∧
        key.identities = key0.identities ∧ p1.warnings = p.warnings) := by
  refine ⟨fun l r h => ParseGpgPrimaryKey_top env l r h, ?_, ?_, ?_⟩
  · intro k l f fp hf h9 hne hfp
    have hadd := AddLine_fpr env k l f fp hf h9 hne hfp
    constructor
    · intro htop
      rw [hadd]
      simp only [GpgPrimaryKey.SetFingerprint, htop, Outcome.bind]
    · intro n sk htop hsk
      rw [hadd]
      simp only [GpgPrimaryKey.SetFingerprint, htop, hsk, Outcome.bind]
  · intro k l sk hf hsk
    exact AddLine_sub env k l sk hf hsk
  · intro p l key0 s0 f0 F0 subs hp heof hs hkey hhead h9 hne hfp hall
    obtain ⟨htop, hsub, _⟩ := ParseGpgPrimaryKey_top env l _ hkey
    simp only at htop hsub
    have hlen : p.src.length + 2 = (2 * subs.length + 1 + 1) + 1 := by
      rw [hs, List.length_cons, length_flatMap_pairs]
    have hg := GetLine_read p s0 _ hp heof hs
    have hnew : GpgIndexLine.IsNewKey
        { v := strings.Split (strings.TrimSpace s0) ':', lineno := p.lineno + 1 } = false :=
      IsNewKey_of_head _ _ hhead (by decide) (by decide)
    have hadd := AddLine_fpr env key0
      { v := strings.Split (strings.TrimSpace s0) ':', lineno := p.lineno + 1 } f0 F0
      hhead h9 hne hfp
    simp only [GpgPrimaryKey.SetFingerprint, htop, Outcome.bind] at hadd
    obtain ⟨p1, top1, hloop, hw, _, _, _⟩ := parseKeyLoop_subkeys env subs (2 * subs.length + 1 + 1)
      (GpgIndexParser.mk p.warnings p.putback (subs.flatMap (fun x => [x.1, x.2.1])) p.eof
        (p.lineno + 1))
      { key0 with fingerprint := some F0, top := Sink.primary } hp heof rfl (by omega) hall
    have hPK : p.ParseKey env l = parseKeyLoop env (2 * subs.length + 1 + 1)
        (GpgIndexParser.mk p.warnings p.putback (subs.flatMap (fun x => [x.1, x.2.1])) p.eof
          (p.lineno + 1))
        { key0 with fingerprint := some F0, top := Sink.primary } := by
      simp only [GpgIndexParser.ParseKey, hkey, Outcome.bind]
      rw [hlen, parseKeyLoop_step env _ p _ key0 _ heof hg hnew, hadd]
    rw [hloop] at hPK
    refine ⟨p1, _, hPK, rfl, ?_, ?_, rfl, rfl, hw⟩
    · simp only [hsub, List.nil_append]
    · simp only [hsub, List.nil_append, List.map_map]
      rfl

/-- C25, witness: a key block with two subkeys. -/
theorem fingerprint_sink_witness :
    ∃ p1 key, blockParser.ParseKey gpgEnv blockHeader = Outcome.returned (p1, key, none) ∧
      key.fingerprint = some ⟨[0xa1, 0xb2]⟩ ∧
      key.subkeys.map (fun sk => sk.fingerprint) = blockSubkeys.map (fun x => some x.2.2.2) := by
  have hall : ∀ x ∈ blockSubkeys,
      ((strings.Split (strings.TrimSpace x.1) ':').head? = some "sub" ∨
        (strings.Split (strings.TrimSpace x.1) ':').head? = some "ssb") ∧
      ParseGpgSubKey { v := strings.Split (strings.TrimSpace x.1) ':', lineno := 0 } =
        Outcome.returned (x.2.2.1, none) ∧
      (strings.Split (strings.TrimSpace x.2.1) ':').head? = some "fpr" ∧
      ∃ f, (strings.Split (strings.TrimSpace x.2.1) ':')[9]? = some f ∧ f ≠ "" ∧
        gpgEnv.PgpFingerprintFromHex f = Except.ok x.2.2.2 := by
    intro x hx
    simp only [blockSubkeys, List.mem_cons, List.mem_singleton, List.not_mem_nil, or_false] at hx
    rcases hx with rfl | rfl
    · exact ⟨by decide, by decide, by decide, "c3d4", by decide, by decide, rfl⟩
    · exact ⟨by decide, by decide, by decide, "e5f6", by decide, by decide, rfl⟩
  obtain ⟨p1, key, h1, h2, _, h4, _⟩ := (fingerprint_sink gpgEnv).2.2.2 blockParser blockHeader
    { NewGpgPrimaryKey with
      Type_ := "pub", Trust := "u", Bits := 2048, Algo := 1, Id64 := "AAAA", Created := 100,
      identities := [⟨"", "", "a@b"⟩] }
    "fpr:::::::::a1b2:\n" "a1b2" ⟨[0xa1, 0xb2]⟩ blockSubkeys
    rfl rfl rfl (by decide) (by decide) (by decide) (by decide) rfl hall
  exact ⟨p1, key, h1, h2, h4⟩

/-! ## `VerifyChain` called again -/

/-- `VerifyChain` returns no error on a chain whose newest link is
chainVerified: the loop breaks at its first pass. -/
theorem VerifyChain_of_last_verified (env : Env) (sc : SigChain) (l : ChainLink)
    (hl : sc.chainLinks.getLast? = some l) (hv : l.chainVerified = true) :
    sc.VerifyChain env = (sc, none) := by
  unfold SigChain.VerifyChain
  rcases hn : sc.chainLinks.length with _ | n
  · rfl
  · have hget : sc.chainLinks[n]? = some l := by
      rw [List.getLast?_eq_getElem?, hn] at hl
      simpa using hl
    rw [SigChain.verifyLoop]
    simp only [hget, hv, if_true]

/-- The loop started at `n` leaves the links from `n` on as they are. -/
theorem verifyLoop_above (env : Env) :
    ∀ (n : Nat) (sc : SigChain) (j : Nat), n ≤ j →
      (SigChain.verifyLoop env sc n).1.chainLinks[j]? = sc.chainLinks[j]? := by
  intro n
  induction n with
  | zero => intro sc j _; rfl
  | succ i ih =>
    intro sc j hj
    cases hcurr : sc.chainLinks[i]? with
    | none => simp [SigChain.verifyLoop, hcurr]
    | some curr =>
      rw [verifyLoop_succ env sc i curr hcurr]
      by_cases hv : curr.chainVerified = true
      · simp [hv]
      · simp only [hv, Bool.false_eq_true, if_false]
        cases env.verifyLink curr with
        | some e => rfl
        | none =>
          simp only
          split_ifs
          · rfl
          · cases env.checkNameAndId curr sc.username sc.uid with
            | some e => rfl
            | none =>
              simp only
              rw [ih _ j (by omega)]
              simp only
              rw [List.getElem?_set_ne (by omega)]

/-- C31, the code at the failing input. On `brokenChain` the first call of
`VerifyChain` returns "Chain mismatch at seqno=2", after it has marked the
newest link chainVerified; the second call on the chain so left, with no
link added, removed or altered in between, returns no error. In general a
call of `VerifyChain` on a chain whose newest link an earlier call has
marked returns no error, whatever the earlier call returned; and the first
call marks the newest link whenever that link passes its own three checks,
so the second call then returns no error however the older links are. -/
theorem VerifyChain_rejected_then_accepted :
    (brokenChain.VerifyChain passEnv).2 = some (chainMismatch 2) ∧
    ((brokenChain.VerifyChain passEnv).1.VerifyChain passEnv).2 = none ∧
    (∀ (env : Env) (sc r : SigChain) (e : Error) (l : ChainLink),
      sc.VerifyChain env = (r, some e) →
      r.chainLinks.getLast? = some l → l.chainVerified = true →
      r.VerifyChain env = (r, none)) ∧
    (∀ (env : Env) (sc : SigChain) (n : Nat) (l : ChainLink),
      sc.chainLinks.length = n + 1 → sc.chainLinks[n]? = some l →
      l.chainVerified = false → env.verifyLink l = none →
      (0 < n → LinkId.Eq (idAt sc.chainLinks (n - 1)) l.prev = true) →
      env.checkNameAndId l sc.username sc.uid = none →
      ((sc.VerifyChain env).1.VerifyChain env).2 = none) := by
  refine ⟨by decide, by decide, ?_, ?_⟩
  · intro env sc r e l _ hl hv
    exact VerifyChain_of_last_verified env r l hl hv
  · intro env sc n l hlen hl hv hvl hprev hcn
    have hlen1 := verifyChain_length env sc
    have hfirst : (sc.VerifyChain env).1.chainLinks[n]? =
        some { l with chainVerified := true } := by
      unfold SigChain.VerifyChain
      rw [hlen, verifyLoop_succ env sc n l hl]
      have hcond : ¬ (0 < n ∧ LinkId.Eq (idAt sc.chainLinks (n - 1)) l.prev = false) := by
        rintro ⟨h0, hne⟩
        rw [hprev h0] at hne
        cases hne
      simp only [hv, Bool.false_eq_true, if_false, hvl, hcond, hcn]
      rw [verifyLoop_above env n _ n (Nat.le_refl n)]
      simp only
      rw [List.getElem?_set_self (by omega)]
    have hlast : (sc.VerifyChain env).1.chainLinks.getLast? =
        some { l with chainVerified := true } := by
      rw [List.getLast?_eq_getElem?, hlen1, hlen]
      simpa using hfirst
    rw [VerifyChain_of_last_verified env _ _ hlast rfl]

/-! ## `Delegate` on the infos of `NewComputedKeyInfos` -/

/-- C32, the code at the failing input. On the infos that
`NewComputedKeyInfos` has just built, `Delegate` panics for every family and
every link. When the delegated KID has no record yet, the record is made
and the assignment `ckf.cki.Sigs[sigid] = info` is to the nil map `Sigs`;
with `Sigs` allocated this case returns. When the delegated KID is the KID
of the seeded eldest record, the assignment `info.Delegations[sigid] = ...`
is to the nil map `Delegations` of that record, and the call panics also
with `Sigs` allocated. -/
theorem Delegate_unsafe_on_seeded_state :
    (∀ (env : CkfEnv) (kf : KeyFamily) (cki : ComputedKeyInfos) (tcl : TypedChainLink),
      KeyFamily.NewComputedKeyInfos env kf = Outcome.returned cki →
      (goMapGet cki.Infos (KID.ToString tcl.GetDelegatedKid) = none →
        ComputedKeyFamily.Delegate env ⟨kf, cki⟩ tcl = Outcome.panicked ∧
        ∀ sg, ∃ r, ComputedKeyFamily.Delegate env ⟨kf, { cki with Sigs := some sg }⟩ tcl =
          Outcome.returned r) ∧
      (∀ p, goMapGet cki.Infos (KID.ToString tcl.GetDelegatedKid) = some p →
        ComputedKeyFamily.Delegate env ⟨kf, cki⟩ tcl = Outcome.panicked ∧
        ∀ sg, ComputedKeyFamily.Delegate env ⟨kf, { cki with Sigs := some sg }⟩ tcl =
          Outcome.panicked)) ∧
    KeyFamily.NewComputedKeyInfos ckfEnv eldestFamily = Outcome.returned seededInfos ∧
    goMapGet seededInfos.Infos (KID.ToString sibkeyLink.GetDelegatedKid) = none ∧
    ComputedKeyFamily.Delegate ckfEnv ⟨eldestFamily, seededInfos⟩ sibkeyLink =
      Outcome.panicked ∧
    goMapGet seededInfos.Infos (KID.ToString eldestLink.GetDelegatedKid) = some 0 ∧
    ComputedKeyFamily.Delegate ckfEnv ⟨eldestFamily, seededInfos⟩ eldestLink =
      Outcome.panicked ∧
    ComputedKeyFamily.Delegate ckfEnv ⟨eldestFamily, { seededInfos with Sigs := some [] }⟩
      eldestLink = Outcome.panicked := by
  refine ⟨?_, by decide, by decide, by decide, by decide, by decide, by decide⟩
  intro env kf cki tcl hnew
  obtain ⟨hS, hheap⟩ := NewComputedKeyInfos_shape env kf cki hnew
  have hpanic : ComputedKeyFamily.Delegate env ⟨kf, cki⟩ tcl = Outcome.panicked := by
    cases h : ComputedKeyFamily.Delegate env ⟨kf, cki⟩ tcl with
    | panicked => rfl
    | returned r =>
      obtain ⟨sg, hsg, _⟩ := Delegate_inv env ⟨kf, cki⟩ tcl r h
      rw [show (⟨kf, cki⟩ : ComputedKeyFamily).cki.Sigs = cki.Sigs from rfl, hS] at hsg
      cases hsg
  have hInfos : ∃ m, cki.Infos = some m := by
    cases hf : kf.eldest with
    | none =>
      simp only [KeyFamily.NewComputedKeyInfos, ComputedKeyInfos.Insert, hf,
        Outcome.returned.injEq] at hnew
      rw [← hnew]
      exact ⟨[], rfl⟩
    | some f =>
      obtain ⟨m', hm', _, _⟩ := insertLoop_some 0 f.ToStrings []
      simp only [KeyFamily.NewComputedKeyInfos, ComputedKeyInfos.Insert, hf, hm',
        Outcome.returned.injEq] at hnew
      rw [← hnew]
      exact ⟨m', rfl⟩
  constructor
  · intro hget
    refine ⟨hpanic, fun sg => ?_⟩
    obtain ⟨m, hm⟩ := hInfos
    exact ⟨_, Delegate_new env ⟨kf, { cki with Sigs := some sg }⟩ tcl m sg hget hm rfl⟩
  · intro p hget
    refine ⟨hpanic, fun sg => ?_⟩
    cases h : ComputedKeyFamily.Delegate env ⟨kf, { cki with Sigs := some sg }⟩ tcl with
    | panicked => rfl
    | returned r =>
      exfalso
      obtain ⟨sg', _, hcase⟩ := Delegate_inv env ⟨kf, { cki with Sigs := some sg }⟩ tcl r h
      rcases hcase with ⟨m, hnone, _⟩ | ⟨q, info, d, _, hq, hd⟩
      · have hnone' : goMapGet cki.Infos (KID.ToString tcl.GetDelegatedKid) = none := hnone
        rw [hget] at hnone'
        cases hnone'
      · have hq' : cki.heap[q]? = some info := hq
        rw [hheap] at hq'
        rcases q with _ | q
        · simp only [List.getElem?_cons_zero, Option.some.injEq] at hq'
          rw [← hq'] at hd
          cases hd
        · simp at hq'

/-! ## GPG index: field reads out of range -/

/-- `ParseBase` returns no error only on a line of at least 12 fields. -/
theorem ParseBase_ok_length (k k1 : GpgBaseKey) (line : GpgIndexLine)
    (h : k.ParseBase line = Outcome.returned (k1, none)) : 12 ≤ line.Len := by
  by_contra hlt
  rw [ParseBase_short k line (Nat.lt_of_not_le hlt)] at h
  simp at h

/-- `ParseGpgSubKey` never panics. -/
theorem ParseGpgSubKey_returns (l : GpgIndexLine) : ∃ r, ParseGpgSubKey l = Outcome.returned r := by
  obtain ⟨r, hr⟩ := ParseBase_returns
    { Type_ := "", Trust := "", Bits := 0, Algo := 0, Id64 := "", Created := 0, Expires := 0,
      fingerprint := none } l
  refine ⟨({ toGpgBaseKey := r.1 }, r.2), ?_⟩
  simp only [ParseGpgSubKey, hr, Outcome.bind]

/-- `ParseGpgPrimaryKey` never panics: field 9 is read only of a line of at
least 12 fields. -/
theorem ParseGpgPrimaryKey_returns (env : GpgEnv) (l : GpgIndexLine) :
    ∃ r, ParseGpgPrimaryKey env l = Outcome.returned r := by
  obtain ⟨⟨k1, err⟩, hr⟩ := ParseBase_returns NewGpgPrimaryKey.toGpgBaseKey l
  simp only [ParseGpgPrimaryKey, GpgPrimaryKey.Parse, hr, Outcome.bind]
  rcases err with _ | e
  · have hlen := ParseBase_ok_length _ _ l hr
    simp only [GpgPrimaryKey.AddUid, At_of_lt l 9 (by omega), Outcome.bind]
    by_cases hf : (l.v.getD 9 "").length = 0
    · simp only [hf, if_true]
      exact ⟨_, rfl⟩
    · simp only [hf, if_false]
      cases env.ParseIdentity (l.v.getD 9 "") with
      | error e => exact ⟨_, rfl⟩
      | ok id => exact ⟨_, rfl⟩
  · exact ⟨_, rfl⟩

/-- `AddLine` panics on an `fpr` or `uid` line of 2 to 9 fields: field 9 is
read beyond the end of the line. -/
theorem AddLine_short_panics (env : GpgEnv) (k : GpgPrimaryKey) (l : GpgIndexLine)
    (h2 : 2 ≤ l.Len) (h9 : l.Len ≤ 9)
    (hf : l.v.head? = some "fpr" ∨ l.v.head? = some "uid") :
    k.AddLine env l = Outcome.panicked := by
  have hat : l.At 9 = Outcome.panicked := At_of_ge l 9 h9
  rcases hv : l.v with _ | ⟨f, rest⟩
  · simp [GpgIndexLine.Len, hv] at h2
  · rw [hv] at hf
    simp only [List.head?_cons, Option.some.injEq] at hf
    rw [AddLine_long env k l f rest hv h2]
    rcases hf with hf | hf
    · subst hf
      simp only [if_true, GpgPrimaryKey.AddFingerprint, hat, Outcome.bind]
    · subst hf
      simp [GpgPrimaryKey.AddUid, hat, Outcome.bind]

/-- C33, the code at the failing input. A listing of a valid `pub` line
followed by the line `fpr:x`, or by the line `uid:u:`, makes `Parse` panic:
`AddLine` asks only for 2 fields before `AddFingerprint` and `AddUid` read
field 9. In general `AddLine` panics on every `fpr` or `uid` line of 2 to 9
fields, and so does the loop of `ParseKey` that reads such a line, instead of
recording a warning. The other reads are in range: `ParseBase` (fields 0 to
6), `ParseGpgSubKey` and `ParseGpgPrimaryKey` (field 9 of a `pub`/`sec`
line) never panic. -/
theorem Parse_panics_on_short_line :
    ParseGpgIndexStream gpgEnv 0 shortFprStream = Outcome.panicked ∧
    ParseGpgIndexStream gpgEnv 0 shortUidStream = Outcome.panicked ∧
    (∀ (env : GpgEnv) (k : GpgPrimaryKey) (l : GpgIndexLine),
      2 ≤ l.Len → l.Len ≤ 9 → (l.v.head? = some "fpr" ∨ l.v.head? = some "uid") →
      k.AddLine env l = Outcome.panicked) ∧
    (∀ (env : GpgEnv) (fuel : Nat) (p p1 : GpgIndexParser) (ret : GpgPrimaryKey)
      (line : GpgIndexLine),
      p.eof = false → p.GetLine = (p1, some line, none) →
      2 ≤ line.Len → line.Len ≤ 9 →
      (line.v.head? = some "fpr" ∨ line.v.head? = some "uid") →
      parseKeyLoop env (fuel + 1) p ret = Outcome.panicked) ∧
    (∀ (k : GpgBaseKey) (l : GpgIndexLine), ∃ r, k.ParseBase l = Outcome.returned r) ∧
    (∀ l : GpgIndexLine, ∃ r, ParseGpgSubKey l = Outcome.returned r) ∧
    (∀ (env : GpgEnv) (l : GpgIndexLine), ∃ r, ParseGpgPrimaryKey env l = Outcome.returned r) := by
  refine ⟨by decide, by decide, AddLine_short_panics, ?_, ParseBase_returns,
    ParseGpgSubKey_returns, ParseGpgPrimaryKey_returns⟩
  intro env fuel p p1 ret line heof hget h2 h9 hf
  have hnew : line.IsNewKey = false := by
    rcases hf with h | h
    · exact IsNewKey_of_head _ _ h (by decide) (by decide)
    · exact IsNewKey_of_head _ _ h (by decide) (by decide)
  rw [parseKeyLoop_step env fuel p p1 ret line heof hget hnew,
    AddLine_short_panics env ret line h2 h9 hf]

/-! ## GPG index: the comparator `Less` -/

/-- `Less` puts a key before itself exactly when the key never expires. -/
theorem lessKeys_self (a : GpgPrimaryKey) : lessKeys a a = true ↔ a.Expires = 0 := by
  unfold lessKeys
  by_cases h : a.Expires = 0
  · simp [h]
  · simp [h]

/-- `Less` puts each of two keys before the other exactly when they have
the same identity count and both never expire. -/
theorem lessKeys_both (a b : GpgPrimaryKey) :
    (lessKeys a b = true ∧ lessKeys b a = true) ↔
      (a.identities.length = b.identities.length ∧ a.Expires = 0 ∧ b.Expires = 0) := by
  constructor
  · rintro ⟨h1, h2⟩
    unfold lessKeys at h1 h2
    split_ifs at h1 h2 <;> omega
  · rintro ⟨hlen, ha, hb⟩
    unfold lessKeys
    simp [hlen, ha, hb]

/-- `Less` is transitive. -/
theorem lessKeys_trans (a b c : GpgPrimaryKey) (h1 : lessKeys a b = true)
    (h2 : lessKeys b c = true) : lessKeys a c = true := by
  unfold lessKeys at h1 h2 ⊢
  split_ifs at h1 h2 ⊢ <;> first | rfl | omega

/-- C34, the code at the failing input. In an index of two keys that have
no identity and never expire, `Less(0, 0)` is true, and `Less(0, 1)` and
`Less(1, 0)` are both true: `Less` returns true as soon as the first key
never expires, without a look at the expiry of the second. In general
`Less(i, i)` is true exactly when the key never expires, and `Less(i, j)` and
`Less(j, i)` are both true exactly when the two keys have the same identity
count and both never expire; `Less` is transitive. -/
theorem Less_not_strict :
    neverIndex.Less 0 0 = Outcome.returned true ∧
    neverIndex.Less 0 1 = Outcome.returned true ∧
    neverIndex.Less 1 0 = Outcome.returned true ∧
    (∀ (ki : GpgKeyIndex) (i : Nat) (a : GpgPrimaryKey), ki.Keys[i]? = some a →
      (ki.Less i i = Outcome.returned true ↔ a.Expires = 0)) ∧
    (∀ (ki : GpgKeyIndex) (i j : Nat) (a b : GpgPrimaryKey),
      ki.Keys[i]? = some a → ki.Keys[j]? = some b →
      ((ki.Less i j = Outcome.returned true ∧ ki.Less j i = Outcome.returned true) ↔
        (a.identities.length = b.identities.length ∧ a.Expires = 0 ∧ b.Expires = 0))) ∧
    (∀ (ki : GpgKeyIndex) (i j k : Nat),
      ki.Less i j = Outcome.returned true → ki.Less j k = Outcome.returned true →
      ki.Less i k = Outcome.returned true) := by
  refine ⟨by decide, by decide, by decide, ?_, ?_, ?_⟩
  · intro ki i a ha
    simp only [GpgKeyIndex.Less, ha, Outcome.returned.injEq]
    exact lessKeys_self a
  · intro ki i j a b ha hb
    simp only [GpgKeyIndex.Less, ha, hb, Outcome.returned.injEq]
    exact lessKeys_both a b
  · intro ki i j k hij hjk
    unfold GpgKeyIndex.Less at hij hjk ⊢
    cases ha : ki.Keys[i]? with
    | none => simp [ha] at hij
    | some a =>
      cases hb : ki.Keys[j]? with
      | none => simp [ha, hb] at hij
      | some b =>
        cases hc : ki.Keys[k]? with
        | none => simp [hb, hc] at hjk
        | some c =>
          simp only [ha, hb, hc, Outcome.returned.injEq] at hij hjk ⊢
          exact lessKeys_trans a b c hij hjk

/-! ## `Delegate` on a record that exists -/

/-- C35. For every computed key family and delegation link: `Delegate`
returns when the maps `Infos` and `Sigs` are allocated and the record the
delegated KID has, if it has one, exists with an allocated `Delegations`
map; and whenever `Delegate` returns, the delegated KID has a record of
status LIVE. If the KID had a record before the call, whatever its status
(REVOKED after a `Revoke` for one), it is that same record, LIVE again, with
its `RevokedAt`, its `DelegatedAt` and its `Eldest` flag as they were. -/
theorem Delegate_revives (env : CkfEnv) (ckf : ComputedKeyFamily) (tcl : TypedChainLink) :
    (∀ m sg, ckf.cki.Infos = some m → ckf.cki.Sigs = some sg →
      (∀ q, goMapGet ckf.cki.Infos (KID.ToString tcl.GetDelegatedKid) = some q →
        ∃ old d, ckf.cki.heap[q]? = some old ∧ old.Delegations = some d) →
      ∃ r, ComputedKeyFamily.Delegate env ckf tcl = Outcome.returned r) ∧
    (∀ r, ComputedKeyFamily.Delegate env ckf tcl = Outcome.returned r →
      ∃ p rec, goMapGet r.1.cki.Infos (KID.ToString tcl.GetDelegatedKid) = some p ∧
        r.1.cki.heap[p]? = some rec ∧ rec.Status = env.KEY_LIVE ∧
        (∀ q old, goMapGet ckf.cki.Infos (KID.ToString tcl.GetDelegatedKid) = some q →
          ckf.cki.heap[q]? = some old →
          p = q ∧ rec.RevokedAt = old.RevokedAt ∧ rec.DelegatedAt = old.DelegatedAt ∧
            rec.Eldest = old.Eldest)) := by
  constructor
  · intro m sg hI hS hrec
    cases hget : goMapGet ckf.cki.Infos (KID.ToString tcl.GetDelegatedKid) with
    | none => exact ⟨_, Delegate_new env ckf tcl m sg hget hI hS⟩
    | some q =>
      obtain ⟨old, d, hq, hd⟩ := hrec q hget
      exact ⟨_, Delegate_found env ckf tcl q old d sg hget hq hd hS⟩
  · intro r h
    obtain ⟨sg, hS, hcase⟩ := Delegate_result env ckf tcl r h
    rcases hcase with ⟨m, hget, _, hr⟩ | ⟨q, info, d, hget, hq, hd, hr⟩
    · subst hr
      refine ⟨ckf.cki.heap.length, _, goMapGet_mapAssign_self _ _ _,
        List.getElem?_concat_length _ _, rfl, ?_⟩
      intro q old hq _
      rw [hget] at hq
      cases hq
    · subst hr
      have hlt : q < ckf.cki.heap.length := (List.getElem?_eq_some_iff.mp hq).1
      refine ⟨q, _, hget, List.getElem?_set_self hlt, rfl, ?_⟩
      intro q' old hq' hold
      rw [hget] at hq'
      cases hq'
      rw [hq] at hold
      cases hold
      exact ⟨rfl, rfl, rfl, rfl⟩

/-- C35, witness: the record of KID `bb`, delegated at time 100 and revoked
at time 200, is LIVE after the delegation `reviveLink` of time 500, still
with its revocation time 200 and its delegation time 100. -/
theorem Delegate_revives_witness :
    ComputedKeyFamily.Revoke ckfEnv ⟨eldestFamily, delegatedInfos⟩ revokeLink =
      Outcome.returned (⟨eldestFamily, revokedInfos⟩, none) ∧
    ∃ r rec, ComputedKeyFamily.Delegate ckfEnv ⟨eldestFamily, revokedInfos⟩ reviveLink =
        Outcome.returned r ∧
      goMapGet r.1.cki.Infos "bb" = some 0 ∧ r.1.cki.heap[0]? = some rec ∧
      rec.Status = ckfEnv.KEY_LIVE ∧ rec.RevokedAt = some ⟨200, 9⟩ ∧
      rec.DelegatedAt = some ⟨100, 7⟩ := by
  refine ⟨by decide, ?_⟩
  obtain ⟨r, hr⟩ := (Delegate_revives ckfEnv ⟨eldestFamily, revokedInfos⟩ reviveLink).1
    [("bb", 0)] [([1], 0)] rfl rfl
    (fun q hq => by
      have hq0 : q = 0 := by
        have h0 : goMapGet (some [("bb", 0)]) "bb" = some q := hq
        simp [goMapGet, List.lookup] at h0
        exact h0.symm
      subst hq0
      exact ⟨_, _, rfl, rfl⟩)
  obtain ⟨p, rec, hp, hrec, hlive, hold⟩ :=
    (Delegate_revives ckfEnv ⟨eldestFamily, revokedInfos⟩ reviveLink).2 r hr
  obtain ⟨hp0, hrev, hdel, _⟩ := hold 0 _ (by decide) rfl
  subst hp0
  exact ⟨r, rec, hr, hp, hrec, hlive, hrev, hdel⟩

/-! ## GPG index: the warnings of a key block -/

/-- `AddLine` returns, with `top` still pointing to a record of the key, on
a key whose `top` points to one of its records and a line that is not an
`fpr` or `uid` line of 2 to 9 fields; when it returns an error the key is as
it was. -/
theorem AddLine_returns (env : GpgEnv) (k : GpgPrimaryKey) (l : GpgIndexLine)
    (htop : ∀ n, k.top = Sink.subkey n → n < k.subkeys.length)
    (hl : (l.v.head? = some "fpr" ∨ l.v.head? = some "uid") → l.Len < 2 ∨ 10 ≤ l.Len) :
    ∃ r : GpgPrimaryKey × Option GpgErr, k.AddLine env l = Outcome.returned r ∧
      (∀ n, r.1.top = Sink.subkey n → n < r.1.subkeys.length) ∧ (r.2 ≠ none → r.1 = k) := by
  have hkeep : ∀ r : GpgPrimaryKey × Option GpgErr, k.AddLine env l = Outcome.returned r →
      (r.2 ≠ none → r.1 = k) := by
    intro r hr hne
    rcases r with ⟨k1, _ | e⟩
    · exact absurd rfl hne
    · exact AddLine_error env k k1 l e hr
  by_cases hlen : l.Len < 2
  · refine ⟨(k, some (GpgErr.GpgIndexError l.lineno "too few fields")), ?_, htop, fun _ => rfl⟩
    simp only [GpgPrimaryKey.AddLine, hlen, if_true]
  · have hlen2 : 2 ≤ l.Len := Nat.le_of_not_lt hlen
    rcases hv : l.v with _ | ⟨f, rest⟩
    · simp [GpgIndexLine.Len, hv] at hlen2
    · have hhead : l.v.head? = some f := by rw [hv]; rfl
      have hlong := AddLine_long env k l f rest hv hlen2
      by_cases hf1 : f = "fpr"
      · have h10 : 10 ≤ l.Len := by
          rcases hl (Or.inl (by rw [hhead, hf1])) with h | h
          · omega
          · exact h
        have hat := At_of_lt l 9 (by omega)
        simp only [hf1, if_true, GpgPrimaryKey.AddFingerprint, hat, Outcome.bind] at hlong
        by_cases hf : (l.v.getD 9 "").length = 0
        · simp only [hf, if_true] at hlong
          exact ⟨_, hlong, htop, fun _ => rfl⟩
        · simp only [hf, if_false] at hlong
          rcases hfp : env.PgpFingerprintFromHex (l.v.getD 9 "") with msg | fp
          · rw [hfp] at hlong
            exact ⟨_, hlong, htop, fun _ => rfl⟩
          · rw [hfp] at hlong
            simp only at hlong
            rcases hk : k.top with _ | n
            · simp only [GpgPrimaryKey.SetFingerprint, hk] at hlong
              refine ⟨_, hlong, ?_, hkeep _ hlong⟩
              intro n hn
              simp at hn
            · have hn := htop n hk
              have hget : k.subkeys[n]? = some k.subkeys[n] := List.getElem?_eq_getElem hn
              simp only [GpgPrimaryKey.SetFingerprint, hk, hget] at hlong
              refine ⟨_, hlong, ?_, hkeep _ hlong⟩
              intro m hm
              simp only [List.length_set]
              simp only at hm
              exact htop m (hk.trans hm)
      · by_cases hf2 : f = "uid"
        · have h10 : 10 ≤ l.Len := by
            rcases hl (Or.inr (by rw [hhead, hf2])) with h | h
            · omega
            · exact h
          have hat := At_of_lt l 9 (by omega)
          simp only [hf1, hf2, if_true, if_false, GpgPrimaryKey.AddUid, hat, Outcome.bind] at hlong
          by_cases hf : (l.v.getD 9 "").length = 0
          · simp only [hf, if_true] at hlong
            exact ⟨_, hlong, htop, fun _ => rfl⟩
          · simp only [hf, if_false] at hlong
            rcases hid : env.ParseIdentity (l.v.getD 9 "") with msg | id
            · rw [hid] at hlong
              exact ⟨_, hlong, htop, fun _ => rfl⟩
            · rw [hid] at hlong
              exact ⟨_, hlong, htop, hkeep _ hlong⟩
        · by_cases hf3 : f = "uat"
          · simp only [hf1, hf2, hf3, if_true, if_false] at hlong
            exact ⟨_, hlong, htop, fun _ => rfl⟩
          · by_cases hf4 : f = "sub" ∨ f = "ssb"
            · simp only [hf1, hf2, hf3, hf4, if_true, if_false] at hlong
              obtain ⟨⟨sk, err⟩, hsk⟩ := ParseGpgSubKey_returns l
              simp only [GpgPrimaryKey.AddSubkey, hsk, Outcome.bind] at hlong
              rcases err with _ | e
              · simp only at hlong
                refine ⟨_, hlong, ?_, hkeep _ hlong⟩
                intro n hn
                simp only [Sink.subkey.injEq] at hn
                simp only [List.length_append, List.length_singleton]
                omega
              · simp only at hlong
                exact ⟨_, hlong, htop, fun _ => rfl⟩
            · simp only [hf1, hf2, hf3, hf4, if_false] at hlong
              exact ⟨_, hlong, htop, fun _ => rfl⟩

/-- The line numbers of the lines after the first line read. -/
theorem enumFrom_lines_shift (bs : List String) (a : Int) (k : Nat) :
    (bs.enumFrom (k + 1)).map
        (fun is => GpgIndexLine.mk (strings.Split (strings.TrimSpace is.2) ':') (a + is.1)) =
      (bs.enumFrom k).map
        (fun is => GpgIndexLine.mk (strings.Split (strings.TrimSpace is.2) ':') (a + 1 + is.1)) := by
  induction bs generalizing k with
  | nil => rfl
  | cons s rest ih =>
    simp only [List.enumFrom_cons, List.map_cons, List.cons.injEq, GpgIndexLine.mk.injEq, true_and]
    exact ⟨by push_cast; ring, ih (k + 1)⟩

/-- The loop of `ParseKey` returns at once at the end of the stream. -/
theorem parseKeyLoop_eof (env : GpgEnv) (fuel : Nat) (p : GpgIndexParser) (ret : GpgPrimaryKey)
    (h : p.eof = true) : parseKeyLoop env fuel p ret = Outcome.returned (p, ret, none) := by
  cases fuel with
  | zero => rfl
  | succ f =>
    rw [parseKeyLoop]
    simp only [GpgIndexParser.isEof, h, if_true]

/-- The loop of `ParseKey` over the lines of a key block that the stream or
a new key ends: it returns, without an error, the key after the `AddLine`
calls on the lines in turn, and the parser with one more warning for each
call that returned an error. -/
theorem parseKeyLoop_block (env : GpgEnv) (rest : List String)
    (hend : ∀ s rest1, rest = s :: rest1 →
      (GpgIndexLine.mk (strings.Split (strings.TrimSpace s) ':') 0).IsNewKey = true) :
    ∀ (block : List String) (fuel : Nat) (p : GpgIndexParser) (ret : GpgPrimaryKey),
      p.putback = none → p.eof = false → p.src = block ++ rest →
      block.length + 1 ≤ fuel →
      (∀ n, ret.top = Sink.subkey n → n < ret.subkeys.length) →
      (∀ line ∈ (block.enumFrom 1).map
          (fun is => GpgIndexLine.mk (strings.Split (strings.TrimSpace is.2) ':') (p.lineno + is.1)),
        line.IsNewKey = false ∧
        ((line.v.head? = some "fpr" ∨ line.v.head? = some "uid") →
          line.Len < 2 ∨ 10 ≤ line.Len)) →
      ∃ results : List (GpgPrimaryKey × Option GpgErr),
        List.Forall₂
          (fun (kl : GpgPrimaryKey × GpgIndexLine) (r : GpgPrimaryKey × Option GpgErr) =>
            kl.1.AddLine env kl.2 = Outcome.returned r ∧ (r.2 ≠ none → r.1 = kl.1))
          ((ret :: results.map Prod.fst).zip ((block.enumFrom 1).map
            (fun is => GpgIndexLine.mk (strings.Split (strings.TrimSpace is.2) ':')
              (p.lineno + is.1))))
          results ∧
        (rest = [] →
          parseKeyLoop env fuel p ret = Outcome.returned
            (GpgIndexParser.mk
              (p.warnings ++ results.filterMap (fun r => r.2.map ErrorToWarning))
              none [] true (p.lineno + block.length),
            (results.getLast?.map Prod.fst).getD ret, none)) ∧
        (∀ s rest1, rest = s :: rest1 →
          parseKeyLoop env fuel p ret = Outcome.returned
            (GpgIndexParser.mk
              (p.warnings ++ results.filterMap (fun r => r.2.map ErrorToWarning))
              (some (GpgIndexLine.mk (strings.Split (strings.TrimSpace s) ':')
                (p.lineno + block.length + 1)))
              rest1 false (p.lineno + block.length + 1),
            (results.getLast?.map Prod.fst).getD ret, none)) := by
  intro block
  induction block with
  | nil =>
    intro fuel p ret hput heof hsrc hfuel _ _
    refine ⟨[], List.Forall₂.nil, ?_, ?_⟩
    · intro hrest
      obtain ⟨f, rfl⟩ : ∃ f, fuel = f + 1 := ⟨fuel - 1, by simp at hfuel; omega⟩
      rw [hrest] at hsrc
      simp only [List.append_nil] at hsrc
      rw [parseKeyLoop]
      simp only [GpgIndexParser.isEof, heof, Bool.false_eq_true, if_false,
        GetLine_end p hput heof hsrc]
      rw [parseKeyLoop_eof env f _ ret rfl]
      rcases p with ⟨w, pb, src, eof, ln⟩
      simp only at hput hsrc
      subst hput
      subst hsrc
      simp
    · intro s rest1 hrest
      obtain ⟨f, rfl⟩ : ∃ f, fuel = f + 1 := ⟨fuel - 1, by simp at hfuel; omega⟩
      have hnew := hend s rest1 hrest
      rw [hrest] at hsrc
      simp only [List.nil_append] at hsrc
      have hnew2 : (GpgIndexLine.mk (strings.Split (strings.TrimSpace s) ':')
          (p.lineno + 1)).IsNewKey = true := hnew
      rw [parseKeyLoop]
      simp only [GpgIndexParser.isEof, heof, Bool.false_eq_true, if_false,
        GetLine_read p s rest1 hput heof hsrc, hnew2, if_true]
      rcases p with ⟨w, pb, src, eof, ln⟩
      simp only at hput heof
      subst hput
      subst heof
      simp [GpgIndexParser.PutbackLine]
  | cons s bs ih =>
    intro fuel p ret hput heof hsrc hfuel htop hblock
    obtain ⟨f, rfl⟩ : ∃ f, fuel = f + 1 := ⟨fuel - 1, by simp at hfuel; omega⟩
    have hf : bs.length + 1 ≤ f := by simp at hfuel; omega
    have hsrc2 : p.src = s :: (bs ++ rest) := by rw [hsrc]; rfl
    have hget := GetLine_read p s (bs ++ rest) hput heof hsrc2
    have hlines : (List.enumFrom 1 (s :: bs)).map
        (fun is => GpgIndexLine.mk (strings.Split (strings.TrimSpace is.2) ':') (p.lineno + is.1)) =
        GpgIndexLine.mk (strings.Split (strings.TrimSpace s) ':') (p.lineno + 1) ::
          (bs.enumFrom 1).map
            (fun is => GpgIndexLine.mk (strings.Split (strings.TrimSpace is.2) ':')
              (p.lineno + 1 + is.1)) := by
      rw [List.enumFrom_cons, List.map_cons, enumFrom_lines_shift]
      simp
    rw [hlines] at hblock
    rw [hlines]
    have hline := hblock _ (List.mem_cons_self _ _)
    have hstep := parseKeyLoop_step env f p _ ret _ heof hget hline.1
    obtain ⟨⟨k1, e⟩, hadd, htop1, hkeep⟩ := AddLine_returns env ret _ htop hline.2
    rw [hadd] at hstep
    have hblock1 : ∀ line ∈ (bs.enumFrom 1).map
          (fun is => GpgIndexLine.mk (strings.Split (strings.TrimSpace is.2) ':')
            (p.lineno + 1 + is.1)),
        line.IsNewKey = false ∧
        ((line.v.head? = some "fpr" ∨ line.v.head? = some "uid") →
          line.Len < 2 ∨ 10 ≤ line.Len) :=
      fun line hl => hblock line (List.mem_cons_of_mem _ hl)
    have hlen : (p.lineno + 1 + (bs.length : Int)) = p.lineno + ((s :: bs).length : Int) := by
      simp only [List.length_cons]
      push_cast
      ring
    have hlast : ∀ (e : Option GpgErr) (results : List (GpgPrimaryKey × Option GpgErr)),
        (((k1, e) :: results).getLast?.map Prod.fst).getD ret =
          (results.getLast?.map Prod.fst).getD k1 := by
      intro e results
      rcases results with _ | ⟨r, rs⟩
      · rfl
      · rw [List.getLast?_cons_cons, List.getLast?_eq_getLast (r :: rs) (List.cons_ne_nil _ _)]
        rfl
    rcases e with _ | e2
    · simp only at hstep
      obtain ⟨results, hall, hloop1, hloop2⟩ := ih f
        (GpgIndexParser.mk p.warnings p.putback (bs ++ rest) p.eof (p.lineno + 1)) k1
        hput heof rfl hf htop1 hblock1
      refine ⟨(k1, none) :: results, ?_, ?_, ?_⟩
      · simp only [List.map_cons, List.zip_cons_cons]
        exact List.Forall₂.cons ⟨hadd, hkeep⟩ hall
      · intro hrest
        rw [hstep, hloop1 hrest, hlast]
        simp only [hlen]
        simp
      · intro s1 rest1 hrest
        rw [hstep, hloop2 s1 rest1 hrest, hlast]
        simp only [hlen]
        simp
    · simp only at hstep
      obtain ⟨results, hall, hloop1, hloop2⟩ := ih f
        (GpgIndexParser.mk (Warnings.Push p.warnings (ErrorToWarning e2)) p.putback (bs ++ rest)
          p.eof (p.lineno + 1)) k1
        hput heof rfl hf htop1 hblock1
      refine ⟨(k1, some e2) :: results, ?_, ?_, ?_⟩
      · simp only [List.map_cons, List.zip_cons_cons]
        exact List.Forall₂.cons ⟨hadd, hkeep⟩ hall
      · intro hrest
        rw [hstep, hloop1 hrest, hlast]
        simp only [hlen]
        simp [Warnings.Push]
      · intro s1 rest1 hrest
        rw [hstep, hloop2 s1 rest1 hrest, hlast]
        simp only [hlen]
        simp [Warnings.Push]

/-- C28 (amended). Let a key block be read by `ParseKey` from a parser with
no line put back and not at the end of its stream: the `pub`/`sec` line `l`
parses without an error, the lines `block` after it are not new keys, none
of them is an `fpr` or `uid` line of 2 to 9 fields, and the block ends with
the stream or with a new key. Then `ParseKey` returns without an error;
`AddLine` is called on every line of the block in turn, each call on the key
the call before left; a call that returns an error leaves the key as it
was; the warnings of the parser are those it had followed by exactly one
warning, made of the error, for each line whose call returned an error, in
the order of the lines; and a `uat` line of at least two fields gives no
error and leaves the key as it was. `AddLine` rejects a line of fewer than 2
fields (a line `uat` of one field too), a line of an unknown record type, a
`sub`/`ssb` line that `ParseGpgSubKey` rejects, a `uid` line whose field 9
`ParseIdentity` rejects, and an `fpr` line whose field 9 is empty or is
rejected by `PgpFingerprintFromHex`, each time with the key as it was. -/
theorem ParseKey_rejected_line_warns (env : GpgEnv) (p : GpgIndexParser) (l : GpgIndexLine)
    (key0 : GpgPrimaryKey) (block rest : List String)
    (hhead : ParseGpgPrimaryKey env l = Outcome.returned (key0, none))
    (hput : p.putback = none) (heof : p.eof = false) (hsrc : p.src = block ++ rest)
    (hblock : ∀ line ∈ (block.enumFrom 1).map
        (fun is => GpgIndexLine.mk (strings.Split (strings.TrimSpace is.2) ':') (p.lineno + is.1)),
      line.IsNewKey = false ∧
      ((line.v.head? = some "fpr" ∨ line.v.head? = some "uid") → line.Len < 2 ∨ 10 ≤ line.Len))
    (hend : ∀ s rest1, rest = s :: rest1 →
      (GpgIndexLine.mk (strings.Split (strings.TrimSpace s) ':')
        (p.lineno + block.length + 1)).IsNewKey = true) :
    (∃ results : List (GpgPrimaryKey × Option GpgErr),
      List.Forall₂
        (fun (kl : GpgPrimaryKey × GpgIndexLine) (r : GpgPrimaryKey × Option GpgErr) =>
          kl.1.AddLine env kl.2 = Outcome.returned r ∧ (r.2 ≠ none → r.1 = kl.1) ∧
          (kl.2.v.head? = some "uat" → 2 ≤ kl.2.Len → r = (kl.1, none)))
        ((key0 :: results.map Prod.fst).zip ((block.enumFrom 1).map
          (fun is => GpgIndexLine.mk (strings.Split (strings.TrimSpace is.2) ':')
            (p.lineno + is.1))))
        results ∧
      (rest = [] →
        p.ParseKey env l = Outcome.returned
          (GpgIndexParser.mk
            (p.warnings ++ results.filterMap (fun r => r.2.map ErrorToWarning))
            none [] true (p.lineno + block.length),
          (results.getLast?.map Prod.fst).getD key0, none)) ∧
      (∀ s rest1, rest = s :: rest1 →
        p.ParseKey env l = Outcome.returned
          (GpgIndexParser.mk
            (p.warnings ++ results.filterMap (fun r => r.2.map ErrorToWarning))
            (some (GpgIndexLine.mk (strings.Split (strings.TrimSpace s) ':')
              (p.lineno + block.length + 1)))
            rest1 false (p.lineno + block.length + 1),
          (results.getLast?.map Prod.fst).getD key0, none))) ∧
    (∀ (ret : GpgPrimaryKey) (line : GpgIndexLine),
      (line.Len < 2 → ret.AddLine env line =
        Outcome.returned (ret, some (GpgErr.GpgIndexError line.lineno "too few fields"))) ∧
      (2 ≤ line.Len → ∀ f, line.v.head? = some f →
        f ≠ "fpr" → f ≠ "uid" → f ≠ "uat" → f ≠ "sub" → f ≠ "ssb" →
        ret.AddLine env line = Outcome.returned
          (ret, some (GpgErr.GpgIndexError line.lineno ("Unknown subfield: " ++ f)))) ∧
      (2 ≤ line.Len → (line.v.head? = some "sub" ∨ line.v.head? = some "ssb") →
        ∀ sk e, ParseGpgSubKey line = Outcome.returned (sk, some e) →
        ret.AddLine env line = Outcome.returned (ret, some e)) ∧
      (line.v.head? = some "uid" → ∀ f msg, line.v[9]? = some f → f ≠ "" →
        env.ParseIdentity f = Except.error msg →
        ret.AddLine env line =
          Outcome.returned (ret, some (GpgErr.GpgIndexError line.lineno msg))) ∧
      (line.v.head? = some "fpr" → line.v[9]? = some "" →
        ret.AddLine env line = Outcome.returned
          (ret, some (GpgErr.GpgIndexError line.lineno "no fingerprint given"))) ∧
      (line.v.head? = some "fpr" → ∀ f msg, line.v[9]? = some f → f ≠ "" →
        env.PgpFingerprintFromHex f = Except.error msg →
        ret.AddLine env line =
          Outcome.returned (ret, some (GpgErr.GpgIndexError line.lineno msg)))) := by
  have hlong : ∀ (line : GpgIndexLine) f, line.v.head? = some f → 2 ≤ line.Len →
      ∃ rest, line.v = f :: rest := by
    intro line f hf _
    rcases hv : line.v with _ | ⟨g, rest⟩
    · rw [hv] at hf; simp at hf
    · rw [hv] at hf
      simp only [List.head?_cons, Option.some.injEq] at hf
      exact ⟨rest, by rw [hf]⟩
  have hlen9 : ∀ (line : GpgIndexLine) f, line.v[9]? = some f →
      2 ≤ line.Len ∧ line.At 9 = Outcome.returned f := by
    intro line f hf
    have hlt : 9 < line.v.length := by
      by_contra hge
      rw [List.getElem?_eq_none (Nat.le_of_not_lt hge)] at hf
      simp at hf
    refine ⟨by simp only [GpgIndexLine.Len]; omega, ?_⟩
    simp only [GpgIndexLine.At, hf]
  constructor
  · have htop : ∀ n, key0.top = Sink.subkey n → n < key0.subkeys.length := by
      intro n hn
      have := (ParseGpgPrimaryKey_top env l _ hhead).1
      simp only at this
      rw [this] at hn
      simp at hn
    have hfuel : block.length + 1 ≤ p.src.length + 2 := by
      rw [hsrc, List.length_append]
      omega
    obtain ⟨results, hall, h1, h2⟩ := parseKeyLoop_block env rest
      (fun s rest1 hrest => hend s rest1 hrest) block (p.src.length + 2) p key0
      hput heof hsrc hfuel htop hblock
    have hPK : p.ParseKey env l = parseKeyLoop env (p.src.length + 2) p key0 := by
      simp only [GpgIndexParser.ParseKey, hhead, Outcome.bind]
    refine ⟨results, ?_, ?_, ?_⟩
    · refine hall.imp ?_
      intro kl r ⟨ha, hk⟩
      refine ⟨ha, hk, ?_⟩
      intro huat hlen
      obtain ⟨rest1, hv⟩ := hlong kl.2 _ huat hlen
      rw [AddLine_long env kl.1 kl.2 _ rest1 hv hlen] at ha
      simp only [String.reduceEq, if_false, if_true, Outcome.returned.injEq] at ha
      exact ha.symm
    · intro hrest
      rw [hPK]
      exact h1 hrest
    · intro s rest1 hrest
      rw [hPK]
      exact h2 s rest1 hrest
  · intro ret line
    refine ⟨?_, ?_, ?_, ?_, ?_, ?_⟩
    · intro hlen
      simp only [GpgPrimaryKey.AddLine, hlen, if_true]
    · intro hlen f hf h1 h2 h3 h4 h5
      obtain ⟨rest, hv⟩ := hlong line _ hf hlen
      rw [AddLine_long env ret line _ rest hv hlen]
      simp [h1, h2, h3, h4, h5]
    · intro hlen hf sk e hsk
      have hadd : ret.AddSubkey line = Outcome.returned (ret, some e) := by
        simp only [GpgPrimaryKey.AddSubkey, hsk, Outcome.bind]
      rcases hf with hf | hf
      · obtain ⟨rest, hv⟩ := hlong line _ hf hlen
        rw [AddLine_long env ret line _ rest hv hlen]
        simp [hadd]
      · obtain ⟨rest, hv⟩ := hlong line _ hf hlen
        rw [AddLine_long env ret line _ rest hv hlen]
        simp [hadd]
    · intro hf f msg h9 hne hid
      obtain ⟨hlen, hat⟩ := hlen9 line f h9
      obtain ⟨rest, hv⟩ := hlong line _ hf hlen
      have hl : ¬ f.length = 0 := fun h => hne ((length_eq_zero_iff f).mp h)
      rw [AddLine_long env ret line _ rest hv hlen]
      simp [GpgPrimaryKey.AddUid, hat, Outcome.bind, hl, hid, ErrorToGpgIndexError]
    · intro hf h9
      obtain ⟨hlen, hat⟩ := hlen9 line "" h9
      obtain ⟨rest, hv⟩ := hlong line _ hf hlen
      rw [AddLine_long env ret line _ rest hv hlen]
      simp [GpgPrimaryKey.AddFingerprint, hat, Outcome.bind, ErrorToGpgIndexError]
    · intro hf f msg h9 hne hfp
      obtain ⟨hlen, hat⟩ := hlen9 line f h9
      obtain ⟨rest, hv⟩ := hlong line _ hf hlen
      have hl : ¬ f.length = 0 := fun h => hne ((length_eq_zero_iff f).mp h)
      rw [AddLine_long env ret line _ rest hv hlen]
      simp [GpgPrimaryKey.AddFingerprint, hat, Outcome.bind, hl, hfp, ErrorToGpgIndexError]

/-- C28, witness: the key block `mixedBlock`, ended by the `pub` line of the
next key. `ParseKey` returns without an error, with the four warnings of
its four rejected lines in the order of the lines, none for the `uat` line
of two fields and none for the `fpr` line, whose fingerprint is in the key;
the line of the next key is put back. -/
theorem ParseKey_rejected_line_warns_witness :
    ParseGpgPrimaryKey gpgEnv blockHeader = Outcome.returned (blockHeaderKey, none) ∧
    mixedBlockParser.putback = none ∧ mixedBlockParser.eof = false ∧
    mixedBlockParser.src = mixedBlock ++ [nextKeyLine] ∧
    (∀ line ∈ (mixedBlock.enumFrom 1).map
        (fun is => GpgIndexLine.mk (strings.Split (strings.TrimSpace is.2) ':')
          (mixedBlockParser.lineno + is.1)),
      line.IsNewKey = false ∧
      ((line.v.head? = some "fpr" ∨ line.v.head? = some "uid") → line.Len < 2 ∨ 10 ≤ line.Len)) ∧
    (GpgIndexLine.mk (strings.Split (strings.TrimSpace nextKeyLine) ':') 8).IsNewKey = true ∧
    (∃ w key, mixedBlockParser.ParseKey gpgEnv blockHeader =
      Outcome.returned
        (GpgIndexParser.mk w
          (some (GpgIndexLine.mk (strings.Split (strings.TrimSpace nextKeyLine) ':') 8))
          [] false 8, key, none)) ∧
    mixedBlockParser.ParseKey gpgEnv blockHeader =
      Outcome.returned
        (GpgIndexParser.mk
          [ErrorToWarning (GpgErr.GpgIndexError 2 "Unknown subfield: zzz"),
            ErrorToWarning (GpgErr.GpgIndexError 4 "bad identity"),
            ErrorToWarning (GpgErr.GpgIndexError 6 "Not enough fields (need 12)"),
            ErrorToWarning (GpgErr.GpgIndexError 7 "too few fields")]
          (some (GpgIndexLine.mk (strings.Split (strings.TrimSpace nextKeyLine) ':') 8))
          [] false 8,
          { blockHeaderKey with fingerprint := some ⟨[0xa1, 0xb2]⟩ }, none) := by
  refine ⟨rfl, rfl, rfl, rfl, by decide, by decide, ?_, by decide⟩
  obtain ⟨results, _, _, h2⟩ :=
    (ParseKey_rejected_line_warns gpgEnv mixedBlockParser blockHeader blockHeaderKey
      mixedBlock [nextKeyLine] rfl rfl rfl rfl (by decide)
      (fun s rest1 h => by cases h; decide)).1
  exact ⟨_, _, h2 nextKeyLine [] rfl⟩

/-- C28, counterexample: a key block whose one line after the `pub` line is
the line `uat`. The first field of the line is `uat`, and `ParseKey` records
a warning for it. -/
theorem ParseKey_rejected_line_warns_counterexample :
    (strings.Split (strings.TrimSpace "uat\n") ':').head? = some "uat" ∧
    uatShortParser.ParseKey gpgEnv blockHeader =
      Outcome.returned
        (GpgIndexParser.mk [ErrorToWarning (GpgErr.GpgIndexError 2 "too few fields")]
          none [] true 2,
          blockHeaderKey, none) := by
  refine ⟨by decide, by decide⟩

/-! ## Computed key infos: `Sigs` and the delegations after a replay -/

/-- `Delegate` panics on infos whose map `Sigs` is nil. -/
theorem Delegate_nil_Sigs (env : CkfEnv) (c : ComputedKeyFamily) (tcl : TypedChainLink)
    (h : c.cki.Sigs = none) : ComputedKeyFamily.Delegate env c tcl = Outcome.panicked := by
  cases hd : ComputedKeyFamily.Delegate env c tcl with
  | panicked => rfl
  | returned r =>
    obtain ⟨sg, hsg, _⟩ := Delegate_inv env c tcl r hd
    rw [h] at hsg
    cases hsg

/-- `RevokeSigs` changes nothing on infos whose map `Sigs` is nil. -/
theorem RevokeSigs_nil_Sigs (env : CkfEnv) (c : ComputedKeyFamily) (tcl : TypedChainLink)
    (h : c.cki.Sigs = none) :
    ∀ sigs : List (Option SigId),
      ComputedKeyFamily.RevokeSigs env c sigs tcl = Outcome.returned (c, none) := by
  intro sigs
  induction sigs with
  | nil => rfl
  | cons s rest ih =>
    cases s with
    | none => rw [ComputedKeyFamily.RevokeSigs]; exact ih
    | some s =>
      rw [ComputedKeyFamily.RevokeSigs]
      have hs : ComputedKeyFamily.RevokeSig env c s tcl = Outcome.returned (c, none) := by
        simp only [ComputedKeyFamily.RevokeSig, h, goMapGet]
      rw [hs]
      exact ih

/-- `RevokeKids` returns on infos in which every pointer of `Infos` points to
a record. -/
theorem RevokeKids_returns (env : CkfEnv) (tcl : TypedChainLink) :
    ∀ (kids : List KID) (c : ComputedKeyFamily),
      (∀ (k : String) (p : InfoPtr), goMapGet c.cki.Infos k = some p → ∃ rec, c.cki.heap[p]? = some rec) →
      ∃ r, ComputedKeyFamily.RevokeKids env c kids tcl = Outcome.returned r := by
  intro kids
  induction kids with
  | nil => intro c _; exact ⟨_, rfl⟩
  | cons k rest ih =>
    intro c hc
    cases k with
    | none => rw [ComputedKeyFamily.RevokeKids]; exact ih c hc
    | some k =>
      rw [ComputedKeyFamily.RevokeKids]
      rcases RevokeKid_cases env c (some k) tcl with ⟨_, h⟩ | ⟨p, hp, hnone, _⟩ | ⟨p, info, hp, hinfo, h⟩
      · rw [h]
        exact ih c hc
      · obtain ⟨rec, hrec⟩ := hc _ p hp
        rw [hnone] at hrec
        cases hrec
      · rw [h]
        apply ih
        intro k1 p1 hp1
        obtain ⟨rec, hrec⟩ := hc k1 p1 hp1
        have hlt : p1 < c.cki.heap.length := (List.getElem?_eq_some_iff.mp hrec).1
        have hlt2 : p1 < (c.cki.heap.set p (info.markRevoked env tcl)).length := by
          rw [List.length_set]; exact hlt
        exact ⟨_, List.getElem?_eq_getElem hlt2⟩

/-- `Revoke` returns on infos whose map `Sigs` is nil and in which every
pointer of `Infos` points to a record. -/
theorem Revoke_returns (env : CkfEnv) (c : ComputedKeyFamily) (tcl : TypedChainLink)
    (hS : c.cki.Sigs = none)
    (hc : ∀ (k : String) (p : InfoPtr), goMapGet c.cki.Infos k = some p → ∃ rec, c.cki.heap[p]? = some rec) :
    ∃ r, ComputedKeyFamily.Revoke env c tcl = Outcome.returned r := by
  unfold ComputedKeyFamily.Revoke
  rw [RevokeSigs_nil_Sigs env c tcl hS]
  exact RevokeKids_returns env tcl _ c hc

/-- A run of `Delegate` and `Revoke` calls that begins with a panic is a
panic. -/
theorem replay_panicked (env : CkfEnv) (ops : List (Bool × TypedChainLink)) :
    ops.foldl
      (fun (st : Outcome ComputedKeyFamily) (op : Bool × TypedChainLink) =>
        st.bind fun c =>
          (if op.1 = true then ComputedKeyFamily.Delegate env c op.2
            else ComputedKeyFamily.Revoke env c op.2).bind fun r => Outcome.returned r.1)
      Outcome.panicked = Outcome.panicked := by
  induction ops with
  | nil => rfl
  | cons op rest ih =>
    rw [List.foldl_cons]
    exact ih

/-- C18. In the state built by `NewComputedKeyInfos` and after every run of
`Delegate` and `Revoke` calls on it (a list of links, each with `true` for
`Delegate` and `false` for `Revoke`; each call is made on the state the call
before left), for every sigid `s` and every record `i`, `sigs[s]` is `i` if
and only if `s` is a key of `i.delegations`. In each such state the map
`Sigs` is nil and so are the delegations of every record, so that `Delegate`
panics on it: the runs that return are the runs of `Revoke` calls, and
every such run does return. -/
theorem Sigs_consistent_after_replay (env : CkfEnv) (kf : KeyFamily) (cki : ComputedKeyInfos)
    (hnew : KeyFamily.NewComputedKeyInfos env kf = Outcome.returned cki) :
    (∀ (ops : List (Bool × TypedChainLink)) (st : ComputedKeyFamily),
      ops.foldl
        (fun (st : Outcome ComputedKeyFamily) (op : Bool × TypedChainLink) =>
          st.bind fun c =>
            (if op.1 = true then ComputedKeyFamily.Delegate env c op.2
              else ComputedKeyFamily.Revoke env c op.2).bind fun r => Outcome.returned r.1)
        (Outcome.returned ⟨kf, cki⟩) = Outcome.returned st →
      (∀ (s : SigId) (p : InfoPtr) (rec : ComputedKeyInfo), st.cki.heap[p]? = some rec →
        (goMapGet st.cki.Sigs s = some p ↔ (goMapGet rec.Delegations s).isSome = true)) ∧
      (∀ op ∈ ops, op.1 = false) ∧
      (∀ tcl, ComputedKeyFamily.Delegate env st tcl = Outcome.panicked)) ∧
    (∀ ops : List (Bool × TypedChainLink), (∀ op ∈ ops, op.1 = false) →
      ∃ st, ops.foldl
        (fun (st : Outcome ComputedKeyFamily) (op : Bool × TypedChainLink) =>
          st.bind fun c =>
            (if op.1 = true then ComputedKeyFamily.Delegate env c op.2
              else ComputedKeyFamily.Revoke env c op.2).bind fun r => Outcome.returned r.1)
        (Outcome.returned ⟨kf, cki⟩) = Outcome.returned st) := by
  have hinit : cki.Sigs = none ∧
      (∀ (p : InfoPtr) (rec : ComputedKeyInfo), cki.heap[p]? = some rec → rec.Delegations = none) ∧
      (∀ (k : String) (p : InfoPtr), goMapGet cki.Infos k = some p → ∃ rec, cki.heap[p]? = some rec) := by
    obtain ⟨hS, hheap⟩ := NewComputedKeyInfos_shape env kf cki hnew
    refine ⟨hS, ?_, ?_⟩
    · intro p rec hp
      rw [hheap] at hp
      cases p with
      | zero =>
        simp only [List.getElem?_cons_zero, Option.some.injEq] at hp
        rw [← hp]
      | succ n => simp at hp
    · intro k p hp
      have hp0 : p = 0 := by
        cases hf : kf.eldest with
        | none =>
          simp only [KeyFamily.NewComputedKeyInfos, ComputedKeyInfos.Insert, hf,
            Outcome.returned.injEq] at hnew
          rw [← hnew] at hp
          simp [goMapGet] at hp
        | some f =>
          obtain ⟨m', hm', hin, hout⟩ := insertLoop_some 0 f.ToStrings []
          simp only [KeyFamily.NewComputedKeyInfos, ComputedKeyInfos.Insert, hf, hm',
            Outcome.returned.injEq] at hnew
          rw [← hnew] at hp
          simp only [goMapGet] at hp
          by_cases hk : k ∈ f.ToStrings
          · rw [hin k hk] at hp
            cases hp
            rfl
          · rw [hout k hk] at hp
            simp at hp
      rw [hp0, hheap]
      exact ⟨_, rfl⟩
  have hret1 : ∀ {α β : Type} (a : α) (f : α → Outcome β), (Outcome.returned a).bind f = f a :=
    fun _ _ => rfl
  have hpan1 : ∀ {α β : Type} (f : α → Outcome β), Outcome.panicked.bind f = Outcome.panicked :=
    fun _ => rfl
  have hrun : ∀ (ops : List (Bool × TypedChainLink)) (c st : ComputedKeyFamily),
      (c.cki.Sigs = none ∧
        (∀ (p : InfoPtr) (rec : ComputedKeyInfo), c.cki.heap[p]? = some rec → rec.Delegations = none) ∧
        (∀ (k : String) (p : InfoPtr), goMapGet c.cki.Infos k = some p → ∃ rec, c.cki.heap[p]? = some rec)) →
      ops.foldl
        (fun (st : Outcome ComputedKeyFamily) (op : Bool × TypedChainLink) =>
          st.bind fun c =>
            (if op.1 = true then ComputedKeyFamily.Delegate env c op.2
              else ComputedKeyFamily.Revoke env c op.2).bind fun r => Outcome.returned r.1)
        (Outcome.returned c) = Outcome.returned st →
      (st.cki.Sigs = none ∧
        (∀ (p : InfoPtr) (rec : ComputedKeyInfo), st.cki.heap[p]? = some rec → rec.Delegations = none) ∧
        (∀ (k : String) (p : InfoPtr), goMapGet st.cki.Infos k = some p → ∃ rec, st.cki.heap[p]? = some rec)) ∧
      (∀ op ∈ ops, op.1 = false) := by
    intro ops
    induction ops with
    | nil =>
      intro c st hc h
      simp only [List.foldl_nil, Outcome.returned.injEq] at h
      rw [← h]
      exact ⟨hc, fun op hop => by simp at hop⟩
    | cons op rest ih =>
      intro c st hc h
      rw [List.foldl_cons, hret1] at h
      cases hop : op.1 with
      | true =>
        rw [hop, if_pos rfl, Delegate_nil_Sigs env c op.2 hc.1, hpan1, replay_panicked] at h
        cases h
      | false =>
        rw [hop, if_neg Bool.false_ne_true] at h
        cases hr : ComputedKeyFamily.Revoke env c op.2 with
        | panicked =>
          rw [hr, hpan1, replay_panicked] at h
          cases h
        | returned r =>
          obtain ⟨c1, err⟩ := r
          rw [hr, hret1] at h
          obtain ⟨_, _, hI, hS, hD, _⟩ := Revoke_frame env c c1 op.2 err hr
          have hc1 : c1.cki.Sigs = none ∧
              (∀ (p : InfoPtr) (rec : ComputedKeyInfo), c1.cki.heap[p]? = some rec → rec.Delegations = none) ∧
              (∀ (k : String) (p : InfoPtr), goMapGet c1.cki.Infos k = some p → ∃ rec, c1.cki.heap[p]? = some rec) := by
            refine ⟨hS.trans hc.1, ?_, ?_⟩
            · intro p rec hp
              have := hD p
              rw [hp] at this
              cases hq : c.cki.heap[p]? with
              | none => rw [hq] at this; simp at this
              | some rec0 =>
                rw [hq] at this
                simp only [Option.map_some', Option.some.injEq] at this
                rw [this]
                exact hc.2.1 p rec0 hq
            · intro k p hp
              rw [hI] at hp
              obtain ⟨rec0, hq⟩ := hc.2.2 k p hp
              have := hD p
              rw [hq] at this
              cases hq1 : c1.cki.heap[p]? with
              | none => rw [hq1] at this; simp at this
              | some rec1 => exact ⟨rec1, rfl⟩
          obtain ⟨hst, hall⟩ := ih c1 st hc1 h
          refine ⟨hst, ?_⟩
          intro op1 hop1
          rcases List.mem_cons.mp hop1 with rfl | hmem
          · exact hop
          · exact hall op1 hmem
  constructor
  · intro ops st h
    obtain ⟨⟨hS, hD, _⟩, hall⟩ := hrun ops ⟨kf, cki⟩ st hinit h
    refine ⟨?_, hall, fun tcl => Delegate_nil_Sigs env st tcl hS⟩
    intro s p rec hp
    rw [hS, hD p rec hp]
    simp [goMapGet]
  · have hret : ∀ (ops : List (Bool × TypedChainLink)) (c : ComputedKeyFamily),
        (c.cki.Sigs = none ∧
          (∀ (p : InfoPtr) (rec : ComputedKeyInfo), c.cki.heap[p]? = some rec → rec.Delegations = none) ∧
          (∀ (k : String) (p : InfoPtr), goMapGet c.cki.Infos k = some p → ∃ rec, c.cki.heap[p]? = some rec)) →
        (∀ op ∈ ops, op.1 = false) →
        ∃ st, ops.foldl
          (fun (st : Outcome ComputedKeyFamily) (op : Bool × TypedChainLink) =>
            st.bind fun c =>
              (if op.1 = true then ComputedKeyFamily.Delegate env c op.2
                else ComputedKeyFamily.Revoke env c op.2).bind fun r => Outcome.returned r.1)
          (Outcome.returned c) = Outcome.returned st := by
      intro ops
      induction ops with
      | nil => intro c _ _; exact ⟨c, rfl⟩
      | cons op rest ih =>
        intro c hc hall
        have hop : op.1 = false := hall op (List.mem_cons_self _ _)
        obtain ⟨⟨c1, err⟩, hr⟩ := Revoke_returns env c op.2 hc.1 hc.2.2
        have hstep : (Outcome.returned c).bind (fun c =>
            (if op.1 = true then ComputedKeyFamily.Delegate env c op.2
              else ComputedKeyFamily.Revoke env c op.2).bind fun r => Outcome.returned r.1) =
            Outcome.returned c1 := by
          rw [hret1, hop, if_neg Bool.false_ne_true, hr, hret1]
        have hc1 := (hrun [op] c c1 hc (by
          rw [List.foldl_cons, List.foldl_nil]
          exact hstep)).1
        rw [List.foldl_cons, hstep]
        exact ih c1 hc1 (fun op1 h1 => hall op1 (List.mem_cons_of_mem _ h1))
    intro ops hall
    exact hret ops ⟨kf, cki⟩ hinit hall

/-- C18, witness: the state that `NewComputedKeyInfos` builds for
`eldestFamily`, and the state after a `Revoke` of the eldest KID on it. -/
theorem Sigs_consistent_after_replay_witness :
    KeyFamily.NewComputedKeyInfos ckfEnv eldestFamily = Outcome.returned seededInfos ∧
    ComputedKeyFamily.Revoke ckfEnv ⟨eldestFamily, seededInfos⟩ revokeEldestLink =
      Outcome.returned (⟨eldestFamily, seededRevokedInfos⟩, none) ∧
    (∀ (s : SigId) (p : InfoPtr) (rec : ComputedKeyInfo),
      seededRevokedInfos.heap[p]? = some rec →
      (goMapGet seededRevokedInfos.Sigs s = some p ↔
        (goMapGet rec.Delegations s).isSome = true)) :=
  ⟨by decide, by decide,
    ((Sigs_consistent_after_replay ckfEnv eldestFamily seededInfos (by decide)).1
      [(false, revokeEldestLink)] ⟨eldestFamily, seededRevokedInfos⟩ (by decide)).1⟩

end Keybase
